import Mathlib

/-!
The rpm header store and its binary codec (lib/header.c).

A shallow embedding of the header data store of rpm: the in-memory index of
tagged entries, the encoder (doHeaderUnload), the decoder (headerLoad,
regionSwab), the stream reader (headerRead) and the iterator.

Modelling conventions.

* Memory blocks are lists of bytes (natural numbers); an address is an integer
  byte offset from the start of its block.  An access outside the block is
  undefined behaviour in C and is reported as `Res.fault`.
* `exit(EXIT_FAILURE)` is reported as `Res.exit`.
* `int_32` values are integers; where the C code narrows a wider value to
  `int` the narrowing is written `wrap32`.  `size_t` is 64 bits wide.
* The host byte order is a parameter `le` (true on a little-endian host):
  storing `htonl(x)` over the four bytes of `x` reverses them on a
  little-endian host and leaves them alone on a big-endian one.
* `qsort` is modelled by a stable insertion sort and `bsearch` by the usual
  bisection loop.
* A block returned by `xmalloc` starts with arbitrary contents, given by a
  function `junk` from byte index to byte.
-/

namespace RpmHeader

/-! ## Outcomes -/

/-- Outcome of running a piece of the C code: a result, a call of
exit(EXIT_FAILURE), or an access outside the modelled memory. -/
inductive Res (α : Type) where
  | ok : α → Res α
  | exit : Res α
  | fault : Res α
  deriving DecidableEq, Repr

/-- Lift a bounds-checked memory access: a miss is a fault. -/
def Res.ofOption {α : Type} : Option α → Res α
  | some a => Res.ok a
  | none => Res.fault

/-! ## Constants declared in header.h and header_internal.h -/

/-- Modelled from the spec: the type ids of header.h (absent from the sources),
in the order in which the typeSizes table of header.c lists them. -/
def RPM_NULL_TYPE : Int := 0
/-- Modelled from the spec: type id of the char type (header.h). -/
def RPM_CHAR_TYPE : Int := 1
/-- Modelled from the spec: type id of the int8 type (header.h). -/
def RPM_INT8_TYPE : Int := 2
/-- Modelled from the spec: type id of the int16 type (header.h). -/
def RPM_INT16_TYPE : Int := 3
/-- Modelled from the spec: type id of the int32 type (header.h). -/
def RPM_INT32_TYPE : Int := 4
/-- Modelled from the spec: type id of the int64 type (header.h). -/
def RPM_INT64_TYPE : Int := 5
/-- Modelled from the spec: type id of the string type (header.h). -/
def RPM_STRING_TYPE : Int := 6
/-- Modelled from the spec: type id of the binary type (header.h). -/
def RPM_BIN_TYPE : Int := 7
/-- Modelled from the spec: type id of the string-array type (header.h). -/
def RPM_STRING_ARRAY_TYPE : Int := 8
/-- Modelled from the spec: type id of the i18n-string type (header.h). -/
def RPM_I18NSTRING_TYPE : Int := 9
/-- Modelled from the spec: lowest supported type id, RPM_MIN_TYPE of header.h. -/
def RPM_MIN_TYPE : Int := 0
/-- Modelled from the spec: highest supported type id, RPM_MAX_TYPE of header.h. -/
def RPM_MAX_TYPE : Int := 9

/-- Modelled from the spec: tag of the synthesized region of a legacy header
(HEADER_IMAGE of header.h). -/
def HEADER_IMAGE : Int := 61
/-- Modelled from the spec: tag of a signature region (header.h). -/
def HEADER_SIGNATURES : Int := 62
/-- Modelled from the spec: tag of an immutable region (header.h). -/
def HEADER_IMMUTABLE : Int := 63
/-- Modelled from the spec: the fixed sentinel id below which a tag names a
region (HEADER_I18NTABLE of header.h). -/
def HEADER_I18NTABLE : Int := 100
/-- Modelled from the spec: the base file names tag (header.h). -/
def HEADER_BASENAMES : Int := 1117
/-- Modelled from the spec: the legacy full file paths tag (header.h). -/
def HEADER_OLDFILENAMES : Int := 1027

/-- Modelled from the spec: sizeof(struct entryInfo), four int_32 fields
(tag, type, count, offset) of header_internal.h. -/
def sizeofEntryInfo : Int := 16
/-- Modelled from the spec: REGION_TAG_TYPE of header_internal.h. -/
def REGION_TAG_TYPE : Int := RPM_BIN_TYPE
/-- Modelled from the spec: REGION_TAG_COUNT of header_internal.h,
sizeof(struct entryInfo). -/
def REGION_TAG_COUNT : Int := sizeofEntryInfo
/-- Modelled from the spec: INDEX_MALLOC_SIZE of header_internal.h. -/
def INDEX_MALLOC_SIZE : Nat := 8

/-- The magic of header.c. -/
def header_magic : List Nat := [0x8e, 0xad, 0xe8, 0x01, 0x00, 0x00, 0x00, 0x00]

/-- The table typeSizes of header.c. -/
def typeSizes : List Int := [0, 1, 1, 2, 4, -1, -1, 1, -1, -1]

/-- The read typeSizes[type]; outside the table the read is a fault. -/
def typeSizesAt (type : Int) : Option Int :=
  if 0 ≤ type then typeSizes.get? type.toNat else none

/-! ## Machine integers and byte memory -/

/-- The value of a 32-bit pattern read as int_32. -/
def toInt32 (n : Nat) : Int :=
  if n % 4294967296 < 2147483648 then ((n % 4294967296 : Nat) : Int)
  else ((n % 4294967296 : Nat) : Int) - 4294967296

/-- Narrowing of an integer to int_32 (two's complement). -/
def wrap32 (i : Int) : Int := toInt32 (i % 4294967296).toNat

/-- The four bytes that htonl(x) occupies in memory. -/
def putBE32 (x : Int) : List Nat :=
  let n := (x % 4294967296).toNat
  [n / 16777216 % 256, n / 65536 % 256, n / 256 % 256, n % 256]

/-- The unsigned value ntohl reads from four bytes. -/
def beVal : List Nat → Nat
  | [a, b, c, d] => ((a * 256 + b) * 256 + c) * 256 + d
  | _ => 0

/-- The bytes [a, a+n) of a block. -/
def readBytes (mem : List Nat) (a : Int) (n : Nat) : Option (List Nat) :=
  if 0 ≤ a ∧ a.toNat + n ≤ mem.length then some ((mem.drop a.toNat).take n) else none

/-- Overwrite the bytes from address a on with bs. -/
def writeBytes (mem : List Nat) (a : Int) (bs : List Nat) : Option (List Nat) :=
  if 0 ≤ a ∧ a.toNat + bs.length ≤ mem.length then
    some (mem.take a.toNat ++ bs ++ mem.drop (a.toNat + bs.length))
  else none

/-- The read ntohl(word at a), as an unsigned value. -/
def getU32 (mem : List Nat) (a : Int) : Option Nat :=
  (readBytes mem a 4).map beVal

/-- The read ntohl(word at a), assigned to an int_32. -/
def getS32 (mem : List Nat) (a : Int) : Option Int :=
  (getU32 mem a).map toInt32

/-- The function strlen on the bytes from a pointer on: none when no NUL follows. -/
def strlenList : List Nat → Option Nat
  | [] => none
  | b :: rest => if b = 0 then some 0 else (strlenList rest).map (· + 1)

/-- The function strlen at an address of a block. -/
def strlenAt (mem : List Nat) (a : Int) : Option Nat :=
  if 0 ≤ a then strlenList (mem.drop a.toNat) else none

/-- Host-order store of htonl/htons of a host-order value: the bytes are
reversed on a little-endian host. -/
def hswap (le : Bool) (bs : List Nat) : List Nat := if le then bs.reverse else bs

/-! ## Data model -/

/-- The struct entryInfo of header_internal.h. -/
structure entryInfo where
  tag : Int
  type : Int
  count : Int
  offset : Int
  deriving DecidableEq, Repr

/-- The pointer entry->data: NULL, a block owned by the entry, or an address
inside the blob the header was loaded from. -/
inductive EntryData where
  | null : EntryData
  | owned : List Nat → EntryData
  | blob : Int → EntryData
  deriving DecidableEq, Repr

/-- The struct indexEntry of header_internal.h. -/
structure indexEntry where
  info : entryInfo
  data : EntryData
  length : Int
  rdlen : Int
  deriving DecidableEq, Repr

/-- The struct headerToken: the used part of the index, the three flag bits
and the loaded blob that region entries point into (empty for a new header). -/
structure Header where
  index : List indexEntry
  sorted : Bool
  allocated : Bool
  legacy : Bool
  blob : List Nat
  deriving DecidableEq, Repr

/-- A slot of a calloc-ed index. -/
def zeroEntry : indexEntry :=
  { info := { tag := 0, type := 0, count := 0, offset := 0 }, data := EntryData.null,
    length := 0, rdlen := 0 }

/-- Modelled from the spec: ENTRY_IS_REGION of header_internal.h (absent from
the sources), a tag below the sentinel HEADER_I18NTABLE; regionSwab and
headerLoad spell the same test out. -/
def ENTRY_IS_REGION (e : indexEntry) : Bool := decide (e.info.tag < HEADER_I18NTABLE)

/-- Modelled from the spec: ENTRY_IN_REGION of header_internal.h (absent from
the sources), a negative offset. -/
def ENTRY_IN_REGION (e : indexEntry) : Bool := decide (e.info.offset < 0)

/-- A pointer argument of type hPTR_t: a pointer into a block of bytes, or a
char ** array whose elements are given by the bytes each pointer refers to
(none for a NULL element). -/
inductive hPTR where
  | bytes : List Nat → Int → hPTR
  | strv : List (Option (List Nat)) → hPTR
  deriving DecidableEq, Repr

/-! ## dataLength -/

/-- The on-disk loop of dataLength: i strings laid end to end from address a. -/
def strArrayLenAt (mem : List Nat) : Nat → Int → Option Nat
  | 0, _ => some 0
  | i + 1, a =>
    match strlenAt mem a with
    | none => none
    | some n => (strArrayLenAt mem i (a + ((n : Int) + 1))).map (· + (n + 1))

/-- The in-memory loop of dataLength: i strings referred to by a char ** array. -/
def strArrayLenMem : Nat → List (Option (List Nat)) → Option Nat
  | 0, _ => some 0
  | _ + 1, [] => none
  | _ + 1, none :: _ => none
  | i + 1, some s :: rest =>
    match strlenList s with
    | none => none
    | some n => (strArrayLenMem i rest).map (· + (n + 1))

/-- The function dataLength of header.c.  A negative count of a string array
makes the loop run off the block, and a product typeSizes[type] * count that
does not fit an int is a signed overflow: both are faults. -/
def dataLength (type : Int) (p : hPTR) (count : Int) (onDisk : Bool) : Res Int :=
  if type = RPM_STRING_TYPE then
    if count = 1 then
      match p with
      | hPTR.bytes mem a => Res.ofOption ((strlenAt mem a).map fun n => Int.ofNat n + 1)
      | hPTR.strv _ => Res.fault
    else Res.exit
  else if type = RPM_STRING_ARRAY_TYPE ∨ type = RPM_I18NSTRING_TYPE then
    if count < 0 then Res.fault
    else if onDisk then
      match p with
      | hPTR.bytes mem a => Res.ofOption ((strArrayLenAt mem count.toNat a).map Int.ofNat)
      | hPTR.strv _ => Res.fault
    else
      match p with
      | hPTR.strv ps => Res.ofOption ((strArrayLenMem count.toNat ps).map Int.ofNat)
      | hPTR.bytes _ _ => Res.fault
  else
    match typeSizesAt type with
    | none => Res.fault
    | some sz =>
      if sz ≠ -1 then
        if -2147483648 ≤ sz * count ∧ sz * count < 2147483648 then Res.ok (sz * count)
        else Res.fault
      else Res.exit

/-- The alignment step shared by headerSizeof, regionSwab and doHeaderUnload:
the number of bytes to skip so that dl becomes a multiple of typeSizes[type]
(0 when the type needs no alignment). -/
def alignDiff (type : Int) (dl : Int) : Option Int :=
  match typeSizesAt type with
  | none => none
  | some sz =>
    if sz > 1 then
      let diff := sz - Int.tmod dl sz
      some (if diff ≠ sz then diff else 0)
    else some 0

/-! ## regionSwab -/

/-- The endian conversion loops of regionSwab: n items of w bytes from address a. -/
def swabInts (le : Bool) (w : Nat) : Nat → Int → List Nat → Option (List Nat)
  | 0, _, mem => some mem
  | n + 1, a, mem =>
    match readBytes mem a w with
    | none => none
    | some bs =>
      match writeBytes mem a (hswap le bs) with
      | none => none
      | some mem1 => swabInts le w n (a + (w : Int)) mem1

/-- Local variables of regionSwab: the block, the entries stored through
entry so far, dl, tl, tprev and t. -/
structure SwabSt where
  mem : List Nat
  out : List indexEntry
  dl : Int
  tl : Int
  tprev : Option Int
  t : Option Int
  deriving DecidableEq, Repr

/-- What regionSwab leaves behind: its return value, the block and the entries
it has stored. -/
structure SwabRet where
  rc : Int
  mem : List Nat
  out : List indexEntry
  deriving DecidableEq, Repr

/-- One turn of the loop of regionSwab for the descriptor at address pe; the
flag is false when the turn returns -1.  The argument cap is the number of
slots behind entry (none when entry is NULL). -/
def regionSwabStep (le : Bool) (cap : Option Nat) (dataStart regionid pe : Int) (s : SwabSt) :
    Res (SwabSt × Bool) :=
  match getS32 s.mem pe, getS32 s.mem (pe + 4) with
  | some tag, some type =>
    if type < RPM_MIN_TYPE ∨ type > RPM_MAX_TYPE then Res.ok (s, false)
    else
      match getS32 s.mem (pe + 8), getS32 s.mem (pe + 12) with
      | some count, some offset =>
        let t := dataStart + offset
        match dataLength type (hPTR.bytes s.mem t) count true with
        | Res.ok length =>
          let ie : indexEntry :=
            { info := { tag := tag, type := type, count := count, offset := regionid },
              data := EntryData.blob t, length := length, rdlen := 0 }
          let stored : Option (List indexEntry) :=
            match cap with
            | none => some s.out
            | some c => if s.out.length < c then some (s.out ++ [ie]) else none
          match stored, alignDiff type s.dl with
          | some out, some diff =>
            let tdel : Int := match s.tprev with
              | some tp => wrap32 (t - tp)
              | none => 0
            let dl := wrap32 (wrap32 (s.dl + diff) + length)
            let tl := wrap32 (s.tl + tdel)
            let tprev := if tag < HEADER_I18NTABLE then dataStart else t
            if type = RPM_INT32_TYPE then
              match swabInts le 4 count.toNat t s.mem with
              | some mem =>
                Res.ok (SwabSt.mk mem out dl tl (some tprev) (some (t + 4 * (count.toNat : Int))), true)
              | none => Res.fault
            else if type = RPM_INT16_TYPE then
              match swabInts le 2 count.toNat t s.mem with
              | some mem =>
                Res.ok (SwabSt.mk mem out dl tl (some tprev) (some (t + 2 * (count.toNat : Int))), true)
              | none => Res.fault
            else
              Res.ok (SwabSt.mk s.mem out dl tl (some tprev) (some (t + length)), true)
          | _, _ => Res.fault
        | Res.exit => Res.exit
        | Res.fault => Res.fault
      | _, _ => Res.fault
  | _, _ => Res.fault

/-- The loop of regionSwab over il descriptors from address pe, and its epilogue. -/
def regionSwabLoop (le : Bool) (cap : Option Nat) (dataStart regionid : Int) :
    Nat → Int → SwabSt → Res SwabRet
  | 0, _, s =>
    let tdel : Int := match s.tprev, s.t with
      | some tp, some t => wrap32 (t - tp)
      | _, _ => 0
    let tl := wrap32 (s.tl + tdel)
    Res.ok { rc := if tl > s.dl then tl else s.dl, mem := s.mem, out := s.out }
  | n + 1, pe, s =>
    match regionSwabStep le cap dataStart regionid pe s with
    | Res.ok (s1, true) => regionSwabLoop le cap dataStart regionid n (pe + sizeofEntryInfo) s1
    | Res.ok (s1, false) => Res.ok { rc := -1, mem := s1.mem, out := s1.out }
    | Res.exit => Res.exit
    | Res.fault => Res.fault

/-- The function regionSwab of header.c, run on the block mem. -/
def regionSwab (le : Bool) (cap : Option Nat) (il : Int) (dl : Int) (pe : Int)
    (dataStart : Int) (regionid : Int) (mem : List Nat) : Res SwabRet :=
  regionSwabLoop le cap dataStart regionid il.toNat pe
    { mem := mem, out := [], dl := dl, tl := dl, tprev := none, t := none }

/-! ## Sorting and searching the index -/

/-- The comparison indexCmp of header.c: the int difference of the tags. -/
def indexCmp (a b : indexEntry) : Int := wrap32 (a.info.tag - b.info.tag)

/-- The comparison offsetCmp of header.c. -/
def offsetCmp (a b : indexEntry) : Int :=
  let rc := wrap32 (a.info.offset - b.info.offset)
  if rc = 0 then wrap32 (a.info.tag - b.info.tag) else rc

/-- The library function qsort, modelled by a stable insertion sort. -/
def qsort (cmp : indexEntry → indexEntry → Int) (l : List indexEntry) : List indexEntry :=
  l.insertionSort (fun a b => cmp a b ≤ 0)

/-- The function headerNew. -/
def headerNew : Header :=
  { index := [], sorted := true, allocated := false, legacy := false, blob := [] }

/-- The function headerSort. -/
def headerSort (h : Header) : Header :=
  if h.sorted then h else { h with index := qsort indexCmp h.index, sorted := true }

/-- The function headerUnsort. -/
def headerUnsort (h : Header) : Header :=
  { h with index := qsort offsetCmp h.index }

/-- The loop of the library function bsearch over the index, comparing with
indexCmp(key, element); the first argument bounds the number of turns. -/
def bsearchLoop (tag : Int) (index : List indexEntry) : Nat → Nat → Nat → Option Nat
  | 0, _, _ => none
  | fuel + 1, l, u =>
    if l < u then
      let idx := (l + u) / 2
      match index.get? idx with
      | none => none
      | some e =>
        let c := wrap32 (tag - e.info.tag)
        if c < 0 then bsearchLoop tag index fuel l idx
        else if c > 0 then bsearchLoop tag index fuel (idx + 1) u
        else some idx
    else none

/-- The library function bsearch over the index: the position of an element
that compares equal to the key. -/
def bsearch (tag : Int) (index : List indexEntry) : Option Nat :=
  bsearchLoop tag index (index.length + 1) 0 index.length

/-- The loop "look backwards" of findEntry, from position i. -/
def lookBack (tag type : Int) (index : List indexEntry) : Nat → Nat
  | 0 => 0
  | i + 1 =>
    match index.get? (i + 1) with
    | some e => if e.info.tag = tag ∧ e.info.type ≠ type then lookBack tag type index i else i + 1
    | none => i + 1

/-- The function findEntry: the header (sorted on demand) and the position of
the entry found, if any. The second loop of findEntry advances entry2, but the
test that follows it reads entry again, so the loop does not change the result
and is left out. -/
def findEntry (h : Header) (tag type : Int) : Header × Option Nat :=
  let h1 := headerSort h
  match bsearch tag h1.index with
  | none => (h1, none)
  | some i =>
    if type = RPM_NULL_TYPE then (h1, some i)
    else
      let j := lookBack tag type h1.index i
      match h1.index.get? j with
      | some e => if e.info.tag = tag ∧ e.info.type = type then (h1, some j) else (h1, none)
      | none => (h1, none)

/-- The function headerIsEntry. -/
def headerIsEntry (h : Header) (tag : Int) : Header × Int :=
  match findEntry h tag RPM_NULL_TYPE with
  | (h1, some _) => (h1, 1)
  | (h1, none) => (h1, 0)

/-- The loop of headerRemoveEntry and headerModifyEntry that moves entry back
to the first occurrence of the tag. -/
def firstOccurrence (tag : Int) (index : List indexEntry) : Nat → Nat
  | 0 => 0
  | i + 1 =>
    match index.get? i with
    | some e => if e.info.tag = tag then firstOccurrence tag index i else i + 1
    | none => i + 1

/-- The function headerRemoveEntry. -/
def headerRemoveEntry (h : Header) (tag : Int) : Header × Int :=
  match findEntry h tag RPM_NULL_TYPE with
  | (h1, none) => (h1, 1)
  | (h1, some i) =>
    let entry := firstOccurrence tag h1.index i
    let ne := ((h1.index.drop entry).takeWhile (fun e => decide (e.info.tag = tag))).length
    ({ h1 with index := h1.index.take entry ++ h1.index.drop (entry + ne) }, 0)

/-! ## Adding entries -/

/-- The string loop of copyData: the bytes written for i strings of a char ** array. -/
def copyDataStrv : Nat → List (Option (List Nat)) → Option (List Nat)
  | 0, _ => some []
  | _ + 1, [] => none
  | i + 1, none :: rest => copyDataStrv i rest
  | i + 1, some s :: rest =>
    match strlenList s with
    | none => none
    | some n => (copyDataStrv i rest).map (fun tl => s.take (n + 1) ++ tl)

/-- The function copyData: the bytes it writes to dstPtr. -/
def copyData (type : Int) (p : hPTR) (c : Int) (dataLength : Int) : Option (List Nat) :=
  if type = RPM_STRING_ARRAY_TYPE ∨ type = RPM_I18NSTRING_TYPE then
    match p with
    | hPTR.strv ps => if c < 0 then none else copyDataStrv c.toNat ps
    | hPTR.bytes _ _ => none
  else
    match p with
    | hPTR.bytes mem a => if dataLength < 0 then none else readBytes mem a dataLength.toNat
    | hPTR.strv _ => none

/-- The function grabData: the copy and its length.  A negative length makes
xmalloc fail, which ends the process. -/
def grabData (type : Int) (p : hPTR) (c : Int) : Res (List Nat × Int) :=
  match dataLength type p c false with
  | Res.ok length =>
    if length < 0 then Res.exit
    else
      match copyData type p c length with
      | some data => Res.ok (data, length)
      | none => Res.fault
  | Res.exit => Res.exit
  | Res.fault => Res.fault

/-- The function headerAddEntry.  The field rdlen of the new slot is not
assigned by the C code (it is read for region entries only); the model puts 0. -/
def headerAddEntry (h : Header) (tag type : Int) (p : hPTR) (c : Int) : Res (Header × Int) :=
  if c ≤ 0 then Res.ok (h, 0)
  else
    match grabData type p c with
    | Res.ok (data, length) =>
      let entry : indexEntry :=
        { info := { tag := tag, type := type, count := c, offset := 0 },
          data := EntryData.owned data, length := length, rdlen := 0 }
      let unsorted : Bool :=
        match h.index.getLast? with
        | some e => decide (tag < e.info.tag)
        | none => false
      Res.ok ({ h with index := h.index ++ [entry], sorted := h.sorted && !unsorted }, 1)
    | Res.exit => Res.exit
    | Res.fault => Res.fault

/-! ## Reading entries and iterating -/

/-- What a caller sees behind the pointer that copyEntry hands out: the bytes
of a scalar or binary value, one string, or the strings of an array. -/
inductive Value where
  | bytes : List Nat → Value
  | str : List Nat → Value
  | strv : List (List Nat) → Value
  deriving DecidableEq, Repr

/-- The block and address that entry->data refers to. -/
def entryMem (blob : List Nat) : EntryData → Option (List Nat × Int)
  | EntryData.null => none
  | EntryData.owned bs => some (bs, 0)
  | EntryData.blob a => some (blob, a)

/-- The strchr walk of copyEntry over i strings laid end to end. -/
def splitStrings : Nat → List Nat → Option (List (List Nat))
  | 0, _ => some []
  | i + 1, m =>
    match strlenList m with
    | none => none
    | some n => (splitStrings i (m.drop (n + 1))).map (fun tl => m.take n :: tl)

/-- The division x / sizeof(struct entryInfo) of an int by a size_t, stored in an int_32. -/
def divSizeof (x : Int) : Int := wrap32 ((x % 18446744073709551616) / 16)

/-- Results of copyEntry: the return code and what it stores through type, p and c. -/
structure CopyOut where
  rc : Int
  type : Int
  p : Option Value
  c : Int
  deriving DecidableEq, Repr

/-- The function copyEntry (with p given when wantP holds). -/
def copyEntry (le : Bool) (blob : List Nat) (entry : indexEntry) (wantP : Bool) (minMem : Bool) :
    Res CopyOut :=
  let count := entry.info.count
  if !wantP then Res.ok { rc := 1, type := entry.info.type, p := none, c := count }
  else if entry.info.type = RPM_BIN_TYPE then
    if ENTRY_IS_REGION entry then
      match entryMem blob entry.data with
      | none => Res.fault
      | some (mem, data) =>
        let ei := data - 8
        let pe := data
        match getS32 mem ei with
        | none => Res.fault
        | some il0 =>
          let dataStart := pe + il0 * 16
          let rdl := wrap32 (-entry.info.offset)
          let ril := divSizeof rdl
          let cnt := wrap32 (8 + ril * 16 + entry.rdlen + REGION_TAG_COUNT)
          if ril < 0 ∨ entry.rdlen + REGION_TAG_COUNT < 0 ∨ cnt ≠ 8 + ril * 16 + entry.rdlen + REGION_TAG_COUNT
          then Res.fault
          else
            match readBytes mem pe (ril * 16).toNat,
                  readBytes mem dataStart (entry.rdlen + REGION_TAG_COUNT).toNat with
            | some descs, some data1 =>
              let blk := putBE32 ril ++ putBE32 (entry.rdlen + REGION_TAG_COUNT) ++ descs ++ data1
              match regionSwab le none ril 0 8 (8 + ril * 16) 0 blk with
              | Res.ok r =>
                Res.ok { rc := if r.rc < 0 then 0 else 1, type := entry.info.type,
                         p := some (Value.bytes r.mem), c := cnt }
              | Res.exit => Res.exit
              | Res.fault => Res.fault
            | _, _ => Res.fault
    else
      match entryMem blob entry.data with
      | none => Res.fault
      | some (mem, a) =>
        if entry.length < 0 then Res.exit
        else
          match readBytes mem a entry.length.toNat with
          | some bs => Res.ok { rc := 1, type := entry.info.type, p := some (Value.bytes bs),
                                c := entry.length }
          | none => Res.fault
  else if entry.info.type = RPM_STRING_TYPE ∧ count = 1 then
    match entryMem blob entry.data with
    | none => Res.fault
    | some (mem, a) =>
      match strlenAt mem a with
      | some n => Res.ok { rc := 1, type := entry.info.type,
                           p := some (Value.str ((mem.drop a.toNat).take n)), c := count }
      | none => Res.fault
  else if entry.info.type = RPM_STRING_TYPE ∨ entry.info.type = RPM_STRING_ARRAY_TYPE
      ∨ entry.info.type = RPM_I18NSTRING_TYPE then
    let tableSize := count * 8
    if (if minMem then tableSize else tableSize + entry.length) < 0 then Res.exit
    else
      match entryMem blob entry.data with
      | none => Res.fault
      | some (mem, a) =>
        let src : Option (List Nat) :=
          if minMem then (if 0 ≤ a then some (mem.drop a.toNat) else none)
          else if entry.length < 0 then none else readBytes mem a entry.length.toNat
        match src with
        | none => Res.fault
        | some m =>
          match splitStrings count.toNat m with
          | some ss => Res.ok { rc := 1, type := entry.info.type, p := some (Value.strv ss), c := count }
          | none => Res.fault
  else
    match entryMem blob entry.data with
    | none => Res.ok { rc := 1, type := entry.info.type, p := some (Value.bytes []), c := count }
    | some (mem, a) =>
      match readBytes mem a entry.length.toNat with
      | some bs => Res.ok { rc := 1, type := entry.info.type, p := some (Value.bytes bs), c := count }
      | none => Res.fault

/-- The struct headerIteratorS. -/
structure HeaderIterator where
  h : Header
  next_index : Nat
  deriving DecidableEq, Repr

/-- The function headerInitIterator. -/
def headerInitIterator (h : Header) : HeaderIterator :=
  { h := headerSort h, next_index := 0 }

/-- One item of an iteration: tag, type, count and value. -/
structure Item where
  tag : Int
  type : Int
  count : Int
  value : Value
  deriving DecidableEq, Repr

/-- The function headerNextIterator: the advanced iterator and, when it
returns 1, the item it hands out. -/
def headerNextIterator (le : Bool) (hi : HeaderIterator) : Res (HeaderIterator × Option Item) :=
  let rest := hi.h.index.drop hi.next_index
  let skipped := (rest.takeWhile ENTRY_IS_REGION).length
  let slot := hi.next_index + skipped
  match hi.h.index.get? slot with
  | none => Res.ok ({ hi with next_index := slot }, none)
  | some entry =>
    match copyEntry le hi.h.blob entry true false with
    | Res.ok out =>
      let hi1 : HeaderIterator := { hi with next_index := slot + 1 }
      if out.rc = 1 then
        match out.p with
        | some v => Res.ok (hi1, some { tag := entry.info.tag, type := out.type, count := out.c, value := v })
        | none => Res.ok (hi1, none)
      else Res.ok (hi1, none)
    | Res.exit => Res.exit
    | Res.fault => Res.fault

/-- Calls of headerNextIterator until it returns 0; the first argument bounds
the number of calls. -/
def iterateLoop (le : Bool) : Nat → HeaderIterator → Res (List Item)
  | 0, _ => Res.ok []
  | fuel + 1, hi =>
    match headerNextIterator le hi with
    | Res.ok (_, none) => Res.ok []
    | Res.ok (hi1, some item) =>
      match iterateLoop le fuel hi1 with
      | Res.ok items => Res.ok (item :: items)
      | Res.exit => Res.exit
      | Res.fault => Res.fault
    | Res.exit => Res.exit
    | Res.fault => Res.fault

/-- A full iteration: headerInitIterator, then headerNextIterator until it
returns 0 (each call advances next_index, so length + 1 calls are enough). -/
def iterate (le : Bool) (h : Header) : Res (List Item) :=
  iterateLoop le (h.index.length + 1) (headerInitIterator h)

/-! ## doHeaderUnload -/

/-- Whether the inner loop over a region (entries with offset at most rid + 1)
is still running for entry e. -/
def inRegionRun (skip : Option Int) (e : indexEntry) : Bool :=
  match skip with
  | some rid => decide (e.info.offset ≤ rid + 1)
  | none => false

/-- The variables of the first pass that are read later: il, dl, drlen, ndribbles
(pad, driplen and ndrips are written but never read). -/
structure Pass1 where
  il : Int
  dl : Int
  drlen : Int
  ndribbles : Int
  deriving DecidableEq, Repr

/-- The first loop of doHeaderUnload, entry by entry: i is the position, skip
holds rid while the inner loop over a region runs. -/
def unloadCount (legacy : Bool) : List indexEntry → Nat → Option Int → Pass1 → Option Pass1
  | [], _, _, s => some s
  | e :: rest, i, skip, s =>
    if inRegionRun skip e then
      if (match skip with | some rid => decide (e.info.offset ≤ rid) | none => true) then
        unloadCount legacy rest (i + 1) skip s
      else
        match alignDiff e.info.type s.dl with
        | none => none
        | some diff =>
          unloadCount legacy rest (i + 1) skip
            { il := wrap32 (s.il + 1), dl := wrap32 (wrap32 (s.dl + diff) + e.length),
              drlen := wrap32 (wrap32 (s.drlen + diff) + e.length),
              ndribbles := wrap32 (s.ndribbles + 1) }
    else if ENTRY_IS_REGION e then
      let rdl := wrap32 (-e.info.offset)
      let ril := divSizeof rdl
      let il1 := wrap32 (s.il + ril)
      let il2 := if i = 0 ∧ legacy then wrap32 (il1 + 1) else il1
      unloadCount legacy rest (i + 1) (some e.info.offset)
        { s with il := il2, dl := wrap32 (s.dl + wrap32 (e.rdlen + e.info.count)) }
    else if e.data = EntryData.null ∨ e.length ≤ 0 then
      unloadCount legacy rest (i + 1) none s
    else
      match alignDiff e.info.type s.dl with
      | none => none
      | some diff =>
        unloadCount legacy rest (i + 1) none
          { s with il := wrap32 (s.il + 1), dl := wrap32 (wrap32 (s.dl + diff) + e.length) }

/-- The call memcpy(dst + d, src + a, n) between two blocks. -/
def memcpyTo (dst : List Nat) (d : Int) (src : List Nat) (a : Int) (n : Int) : Option (List Nat) :=
  if n < 0 then none
  else
    match readBytes src a n.toNat with
    | none => none
    | some bs => writeBytes dst d bs

/-- The copy loops of the second pass for int32 and int16 data: n items of w
bytes from src + a to dst + d, each stored as htonl/htons of the host value. -/
def copySwab (le : Bool) (w : Nat) (src : List Nat) : Nat → Int → Int → List Nat → Option (List Nat)
  | 0, _, _, dst => some dst
  | n + 1, a, d, dst =>
    match readBytes src a w with
    | none => none
    | some bs =>
      match writeBytes dst d (hswap le bs) with
      | none => none
      | some dst1 => copySwab le w src n (a + (w : Int)) (d + (w : Int)) dst1

/-- The cursors of the second pass: the output block, pe and te. -/
structure Pass2 where
  buf : List Nat
  pe : Int
  te : Int
  deriving DecidableEq, Repr

/-- The region branch of the second loop of doHeaderUnload, after tag, type and
count of the region descriptor have been stored at pe; none is goto errxit. -/
def unloadRegion (le : Bool) (legacy0 : Bool) (blob : List Nat) (dataStart : Int)
    (ndribbles drlen : Int) (e : indexEntry) (s : Pass2) : Res (Option Pass2) :=
  let t := s.te
  let rdl := wrap32 (-e.info.offset)
  let ril := wrap32 (divSizeof rdl + ndribbles)
  let rdlen := e.rdlen
  match entryMem blob e.data with
  | none => Res.fault
  | some (smem, src) =>
    if legacy0 then
      match memcpyTo s.buf (s.pe + 16) smem src rdl with
      | none => Res.fault
      | some b2 =>
        match memcpyTo b2 s.te smem (src + rdl) rdlen with
        | none => Res.fault
        | some b3 =>
          let te1 := s.te + rdlen
          match writeBytes b3 (s.pe + 12) (putBE32 (te1 - dataStart)) with
          | none => Res.fault
          | some b4 =>
            let stei := putBE32 e.info.tag ++ putBE32 e.info.type
              ++ putBE32 (wrap32 (-rdl - e.info.count)) ++ putBE32 e.info.count
            if e.info.count < 0 ∨ e.info.count > 16 then Res.fault
            else
              match writeBytes b4 te1 (stei.take e.info.count.toNat) with
              | none => Res.fault
              | some b5 =>
                let te2 := te1 + e.info.count
                let ril1 := wrap32 (ril + 1)
                let rdlen1 := wrap32 (rdlen + e.info.count)
                match regionSwab le none ril1 0 s.pe t 0 b5 with
                | Res.ok r =>
                  if r.rc ≠ rdlen1 then Res.ok none
                  else Res.ok (some { buf := r.mem, pe := s.pe + ril1 * 16, te := te2 })
                | Res.exit => Res.exit
                | Res.fault => Res.fault
    else
      match memcpyTo s.buf (s.pe + 16) smem (src + 16) ((ril - 1) * 16) with
      | none => Res.fault
      | some b2 =>
        match memcpyTo b2 s.te smem (src + ril * 16) (wrap32 (rdlen + e.info.count + drlen)) with
        | none => Res.fault
        | some b3 =>
          let te1 := s.te + rdlen
          match getS32 smem (src + 12) with
          | none => Res.fault
          | some off =>
            match writeBytes b3 (s.pe + 12) (putBE32 (if off ≠ 0 then te1 - dataStart else off)) with
            | none => Res.fault
            | some b4 =>
              let te2 := te1 + wrap32 (e.info.count + drlen)
              match regionSwab le none ril 0 s.pe t 0 b4 with
              | Res.ok r =>
                if r.rc ≠ wrap32 (rdlen + e.info.count + drlen) then Res.ok none
                else Res.ok (some { buf := r.mem, pe := s.pe + ril * 16, te := te2 })
              | Res.exit => Res.exit
              | Res.fault => Res.fault

/-- The branch of the second loop for an entry outside a region: alignment
padding, the offset field and the data with endian conversion. -/
def unloadEntry (le : Bool) (blob : List Nat) (dataStart : Int) (e : indexEntry) (s : Pass2) :
    Option Pass2 :=
  match alignDiff e.info.type (s.te - dataStart), entryMem blob e.data with
  | some diff, some (smem, src) =>
    match (if diff = 0 then some s.buf else writeBytes s.buf s.te (List.replicate diff.toNat 0)) with
    | none => none
    | some b1 =>
      let te1 := s.te + diff
      match writeBytes b1 (s.pe + 12) (putBE32 (te1 - dataStart)) with
      | none => none
      | some b2 =>
        if e.info.type = RPM_INT32_TYPE then
          if e.info.count < 0 then none
          else (copySwab le 4 smem e.info.count.toNat src te1 b2).map fun b3 =>
            { buf := b3, pe := s.pe + 16, te := te1 + 4 * e.info.count }
        else if e.info.type = RPM_INT16_TYPE then
          if e.info.count < 0 then none
          else (copySwab le 2 smem e.info.count.toNat src te1 b2).map fun b3 =>
            { buf := b3, pe := s.pe + 16, te := te1 + 2 * e.info.count }
        else
          (memcpyTo b2 te1 smem src e.length).map fun b3 =>
            { buf := b3, pe := s.pe + 16, te := te1 + e.length }
  | _, _ => none

/-- The second loop of doHeaderUnload, entry by entry; none is goto errxit. -/
def unloadWrite (le : Bool) (legacy : Bool) (blob : List Nat) (dataStart : Int)
    (ndribbles drlen : Int) : List indexEntry → Nat → Option Int → Pass2 → Res (Option Pass2)
  | [], _, _, s => Res.ok (some s)
  | e :: rest, i, skip, s =>
    if inRegionRun skip e then
      unloadWrite le legacy blob dataStart ndribbles drlen rest (i + 1) skip s
    else if e.data = EntryData.null ∨ e.length ≤ 0 then
      unloadWrite le legacy blob dataStart ndribbles drlen rest (i + 1) none s
    else
      match writeBytes s.buf s.pe
          (putBE32 e.info.tag ++ putBE32 e.info.type ++ putBE32 e.info.count) with
      | none => Res.fault
      | some b1 =>
        if ENTRY_IS_REGION e then
          match unloadRegion le (decide (i = 0) && legacy) blob dataStart ndribbles drlen e
              { s with buf := b1 } with
          | Res.ok (some s1) =>
            unloadWrite le legacy blob dataStart ndribbles drlen rest (i + 1) (some e.info.offset) s1
          | Res.ok none => Res.ok none
          | Res.exit => Res.exit
          | Res.fault => Res.fault
        else
          match unloadEntry le blob dataStart e { s with buf := b1 } with
          | some s1 => unloadWrite le legacy blob dataStart ndribbles drlen rest (i + 1) none s1
          | none => Res.fault

/-- The function doHeaderUnload: the header as the call leaves it and the
block it returns (none for NULL); the length stored through lengthPtr is the
length of the block. -/
def doHeaderUnload (le : Bool) (junk : Nat → Nat) (h : Header) : Res (Header × Option (List Nat)) :=
  let h1 := headerUnsort h
  match unloadCount h1.legacy h1.index 0 none { il := 0, dl := 0, drlen := 0, ndribbles := 0 } with
  | none => Res.fault
  | some c =>
    let len : Nat := ((8 + c.il * 16 + c.dl) % 4294967296).toNat
    let ei := (List.range len).map junk
    match writeBytes ei 0 (putBE32 c.il ++ putBE32 c.dl) with
    | none => Res.fault
    | some ei1 =>
      let dataStart : Int := 8 + c.il * 16
      match unloadWrite le h1.legacy h1.blob dataStart c.ndribbles c.drlen h1.index 0 none
          { buf := ei1, pe := 8, te := dataStart } with
      | Res.ok (some s) =>
        if s.pe ≠ dataStart then Res.ok (h1, none)
        else if (len : Int) ≠ s.te then Res.ok (h1, none)
        else Res.ok ({ h1 with index := qsort indexCmp h1.index, sorted := true }, some s.buf)
      | Res.ok none => Res.ok (h1, none)
      | Res.exit => Res.exit
      | Res.fault => Res.fault

/-- The function headerUnload. -/
def headerUnload (le : Bool) (junk : Nat → Nat) (h : Header) : Res (Header × Option (List Nat)) :=
  doHeaderUnload le junk h

/-! ## headerSizeof and headerWrite -/

/-- The loop of headerSizeof, entry by entry: i is the position, size the
unsigned variable of that name, kept below 2^32 (pad is written but never
read). -/
def sizeofLoop (legacy : Bool) : List indexEntry → Nat → Int → Option Int
  | [], _, size => some size
  | e :: rest, i, size =>
    if ENTRY_IS_REGION e then
      let size1 := (size + e.length) % 4294967296
      let size2 := if i = 0 ∧ legacy then (size1 + (16 + e.info.count)) % 4294967296 else size1
      sizeofLoop legacy rest (i + 1) size2
    else if e.info.offset < 0 then sizeofLoop legacy rest (i + 1) size
    else
      match alignDiff e.info.type size with
      | none => none
      | some diff =>
        sizeofLoop legacy rest (i + 1)
          (((size + diff) % 4294967296 + (16 + e.length)) % 4294967296)

/-- The function headerSizeof: the header, which it sorts, and the size it
returns. The flag magicp stands for HEADER_MAGIC_YES. -/
def headerSizeof (h : Header) (magicp : Bool) : Res (Header × Int) :=
  let h1 := headerSort h
  match sizeofLoop h1.legacy h1.index 0 ((if magicp then 8 else 0) + 8) with
  | none => Res.fault
  | some size => Res.ok (h1, size)

/-- What a call of headerWrite leaves: the header, the bytes handed to the
file descriptor and the value returned. -/
structure WriteOut where
  h : Header
  written : List Nat
  rc : Int
  deriving DecidableEq, Repr

/-- The function headerWrite. The flag magicp stands for HEADER_MAGIC_YES.
Modelled from the spec: Fwrite (rpmio, absent from the sources) writes the
bytes it is given to the file descriptor and returns their number. -/
def headerWrite (le : Bool) (junk : Nat → Nat) (h : Header) (magicp : Bool) : Res WriteOut :=
  match doHeaderUnload le junk h with
  | Res.ok (h1, none) => Res.ok { h := h1, written := [], rc := 1 }
  | Res.ok (h1, some uh) =>
    Res.ok { h := h1, written := (if magicp then header_magic else []) ++ uh, rc := 0 }
  | Res.exit => Res.exit
  | Res.fault => Res.fault

/-! ## headerLoad -/

/-- The correction of the bogus verifyscript tag at the start of headerLoad:
a first descriptor (15, string, 1) gets tag 1079. -/
def fixVerifyScript (mem : List Nat) (pe : Int) : Option (List Nat) :=
  match getU32 mem pe with
  | none => none
  | some tag =>
    if tag = 15 then
      match getU32 mem (pe + 4) with
      | none => none
      | some type =>
        if (type : Int) = RPM_STRING_TYPE then
          match getU32 mem (pe + 8) with
          | none => none
          | some count => if count = 1 then writeBytes mem pe (putBE32 1079) else some mem
        else some mem
    else some mem

/-- The il + 1 slots of the index that headerLoad fills: the region entry, the
entries stored by regionSwab, and slots still zero from xcalloc. -/
def indexSlots (il : Int) (entry0 : indexEntry) (out : List indexEntry) : List indexEntry :=
  (entry0 :: (out ++ List.replicate (il.toNat - out.length) zeroEntry)).take (il + 1).toNat

/-- The loop of headerLoad in which dribble entries replace region entries of
the same tag. -/
def removeDuplicates (h : Header) : List indexEntry → Header
  | [] => h
  | d :: rest =>
    let h1 := (headerRemoveEntry h d.info.tag).1
    let h2 := if d.info.tag = HEADER_BASENAMES then (headerRemoveEntry h1 HEADER_OLDFILENAMES).1 else h1
    removeDuplicates h2 rest

/-- The legacy branch of headerLoad (first tag not below HEADER_I18NTABLE). -/
def loadLegacy (le : Bool) (mem : List Nat) (il dl pvlen : Int) : Res (Option Header) :=
  let pe : Int := 8
  let dataStart : Int := pe + il * 16
  if il < 0 then Res.fault
  else
    let offset0 := wrap32 (pe - dataStart)
    match regionSwab le (some il.toNat) il 0 pe dataStart offset0 mem with
    | Res.ok r =>
      if r.rc ≠ dl then Res.ok none
      else
        let entry0 : indexEntry :=
          { info := { tag := HEADER_IMAGE, type := REGION_TAG_TYPE, count := REGION_TAG_COUNT,
                      offset := offset0 },
            data := EntryData.blob pe, length := wrap32 (pvlen - 8), rdlen := r.rc }
        Res.ok (some { index := qsort indexCmp (indexSlots il entry0 r.out), sorted := true,
                       allocated := false, legacy := true, blob := r.mem })
    | Res.exit => Res.exit
    | Res.fault => Res.fault

/-- The index of headerLoad in its region branch before dribble entries
replace region entries: the slots of the region entry and its members, the
dribble entries (none when there is no dribble branch, ril >= indexUsed), and
the block after the endian conversions. -/
structure RegionParts where
  region : List indexEntry
  dribbles : Option (List indexEntry)
  mem : List Nat
  deriving DecidableEq, Repr

/-- The region branch of headerLoad (first tag below HEADER_I18NTABLE) up to
and including the two calls of regionSwab. -/
def loadRegionParts (le : Bool) (mem : List Nat) (il pvlen : Int) (tag0 : Nat) :
    Res (Option RegionParts) :=
  let pe : Int := 8
  let dataStart : Int := pe + il * 16
  if il < 0 then Res.fault
  else
    match getS32 mem (pe + 8), getS32 mem (pe + 4) with
    | some nb, some type =>
      if type < RPM_MIN_TYPE ∨ type > RPM_MAX_TYPE then Res.ok none
      else
        match getS32 mem (pe + 12) with
        | none => Res.fault
        | some off =>
          let trailer : Option (Int × Int × Int) :=
            if off ≠ 0 then
              if nb < 12 then none
              else
                match readBytes mem (dataStart + off) nb.toNat with
                | none => none
                | some stei =>
                  let rdl := wrap32 (-(toInt32 (beVal ((stei.drop 8).take 4))))
                  some (rdl, divSizeof rdl, toInt32 tag0)
            else some (wrap32 (il * 16), il, HEADER_IMAGE)
          match trailer with
          | none => Res.fault
          | some (rdl, ril, tag) =>
            let offset0 := wrap32 (-rdl)
            match regionSwab le (some il.toNat) (ril - 1) 0 (pe + 16) dataStart offset0 mem with
            | Res.ok r1 =>
              if r1.rc < 0 then Res.ok none
              else
                let entry0 : indexEntry :=
                  { info := { tag := tag, type := type, count := nb, offset := offset0 },
                    data := EntryData.blob pe, length := wrap32 (pvlen - 8), rdlen := r1.rc }
                let slots := indexSlots il entry0 r1.out
                if ril < il then
                  if ril < 0 then Res.fault
                  else
                    let ne := il - ril
                    let rid := wrap32 (offset0 + 1)
                    match regionSwab le (some (il + 1 - ril).toNat) ne 0 (pe + ril * 16) dataStart rid
                        r1.mem with
                    | Res.ok r2 =>
                      if r2.rc < 0 then Res.ok none
                      else Res.ok (some { region := slots.take ril.toNat, dribbles := some r2.out,
                                          mem := r2.mem })
                    | Res.exit => Res.exit
                    | Res.fault => Res.fault
                else
                  Res.ok (some { region := slots.take il.toNat, dribbles := none, mem := r1.mem })
            | Res.exit => Res.exit
            | Res.fault => Res.fault
    | _, _ => Res.fault

/-- The region branch of headerLoad: after loadRegionParts, dribble entries
replace region entries of the same tag and are moved down behind the rest,
and the index is sorted. -/
def loadRegion (le : Bool) (mem : List Nat) (il pvlen : Int) (tag0 : Nat) : Res (Option Header) :=
  match loadRegionParts le mem il pvlen tag0 with
  | Res.ok none => Res.ok none
  | Res.ok (some parts) =>
    match parts.dribbles with
    | none =>
      Res.ok (some { index := qsort indexCmp parts.region, sorted := true, allocated := false,
                     legacy := false, blob := parts.mem })
    | some dribbles =>
      let hreg : Header :=
        { index := parts.region, sorted := true, allocated := false, legacy := false,
          blob := parts.mem }
      let h1 := removeDuplicates hreg dribbles
      Res.ok (some { h1 with index := qsort indexCmp (h1.index ++ dribbles), sorted := true })
  | Res.exit => Res.exit
  | Res.fault => Res.fault

/-- The function headerLoad on the block uh; ok none is the return of NULL.
A negative entry count fails in xcalloc (exit) or overruns the index (fault). -/
def headerLoad (le : Bool) (uh : List Nat) : Res (Option Header) :=
  match getS32 uh 0, getS32 uh 4 with
  | some il, some dl =>
    let pvlen := wrap32 (8 + il * 16 + dl)
    if il + 1 < 0 then Res.exit
    else
      match fixVerifyScript uh 8 with
      | none => Res.fault
      | some mem =>
        match getU32 mem 8 with
        | none => Res.fault
        | some tag0 =>
          if ¬ ((tag0 : Int) < HEADER_I18NTABLE) then loadLegacy le mem il dl pvlen
          else loadRegion le mem il pvlen tag0
  | _, _ => Res.fault

/-- The function headerReload (the header handed in is freed by the call). -/
def headerReload (le : Bool) (junk : Nat → Nat) (h : Header) (tag : Int) : Res (Option Header) :=
  match doHeaderUnload le junk h with
  | Res.ok (_, none) => Res.ok none
  | Res.ok (_, some uh) =>
    match headerLoad le uh with
    | Res.ok none => Res.ok none
    | Res.ok (some nh) =>
      let nh1 := { nh with allocated := true }
      match nh1.index with
      | e :: rest =>
        if ENTRY_IS_REGION e ∧ (tag = HEADER_SIGNATURES ∨ tag = HEADER_IMMUTABLE) then
          Res.ok (some { nh1 with index := { e with info := { e.info with tag := tag } } :: rest })
        else Res.ok (some nh1)
      | [] => Res.ok (some nh1)
    | Res.exit => Res.exit
    | Res.fault => Res.fault
  | Res.exit => Res.exit
  | Res.fault => Res.fault

/-! ## headerRead -/

/-- What a call of headerRead does: the size it hands to xmalloc, when it gets
that far, and its result (ok none is the return of NULL). -/
structure ReadOut where
  xmallocArg : Option Int
  result : Res (Option Header)
  deriving DecidableEq, Repr

/-- The function headerRead on the bytes the stream still has to deliver;
timedRead delivers the bytes asked for, or fewer when the stream ends.
The flag magicp stands for HEADER_MAGIC_YES. -/
def headerRead (le : Bool) (stream : List Nat) (magicp : Bool) : ReadOut :=
  let i : Nat := if magicp then 4 else 2
  if stream.length < i * 4 then { xmallocArg := none, result := Res.ok none }
  else
    let block := stream.take (i * 4)
    if magicp ∧ block.take 4 ≠ header_magic.take 4 then
      { xmallocArg := none, result := Res.ok none }
    else
      let words := if magicp then block.drop 8 else block
      let il := toInt32 (beVal (words.take 4))
      let dl := toInt32 (beVal ((words.drop 4).take 4))
      let len := wrap32 (8 + il * 16 + dl)
      if len > 32 * 1024 * 1024 then { xmallocArg := none, result := Res.ok none }
      else if len < 0 then { xmallocArg := some len, result := Res.exit }
      else if len < 8 then { xmallocArg := some len, result := Res.fault }
      else
        let rest := stream.drop (i * 4)
        let n := (len - 8).toNat
        if rest.length < n then { xmallocArg := some len, result := Res.ok none }
        else
          let ei := putBE32 il ++ putBE32 dl ++ rest.take n
          match headerLoad le ei with
          | Res.ok (some h) => { xmallocArg := some len, result := Res.ok (some { h with allocated := true }) }
          | r => { xmallocArg := some len, result := r }

/-! ## Locale matching and headerGetEntry -/

/-- The test strncmp(a, b, n) == 0 on the bytes from two pointers on, each
list ending with the terminating NUL of its string. -/
def strncmpEq : List Nat → List Nat → Nat → Bool
  | _, _, 0 => true
  | a :: as, b :: bs, n + 1 =>
    if a ≠ b then false else if a = 0 then true else strncmpEq as bs n
  | _, _, _ + 1 => false

/-- The scan for (fe = l; fe < le && *fe != ch; fe++) over the bytes of the
range [l, le): the distance fe - l it ends with. -/
def scanTo (ch : Nat) (l : List Nat) : Nat := (l.takeWhile (fun b => decide (b ≠ ch))).length

/-- The function headerMatchLocale: td is the NUL-terminated table string
(given without its NUL) and l holds the bytes of the range [l, le). -/
def headerMatchLocale (td l : List Nat) : Int :=
  if td.length = l.length ∧ strncmpEq (td ++ [0]) (l ++ [0]) l.length = true then 1
  else if scanTo 64 l < l.length ∧ strncmpEq (td ++ [0]) (l ++ [0]) (scanTo 64 l) = true then 1
  else if scanTo 46 l < l.length ∧ strncmpEq (td ++ [0]) (l ++ [0]) (scanTo 46 l) = true then 1
  else if scanTo 95 l < l.length ∧ strncmpEq (td ++ [0]) (l ++ [0]) (scanTo 95 l) = true then 1
  else 0

/-- The environment variables that headerFindI18NString reads with getenv
(none: not set), each value given without its NUL. -/
structure LocaleEnv where
  language : Option (List Nat)
  lcAll : Option (List Nat)
  lcMessages : Option (List Nat)
  lang : Option (List Nat)
  deriving DecidableEq, Repr

/-- The first of LANGUAGE, LC_ALL, LC_MESSAGES and LANG that is set. -/
def LocaleEnv.lookup (env : LocaleEnv) : Option (List Nat) :=
  match env.language with
  | some s => some s
  | none =>
    match env.lcAll with
    | some s => some s
    | none =>
      match env.lcMessages with
      | some s => some s
      | none => env.lang

/-- The loop "for each entry in the header" of headerFindI18NString for one
locale of the request: the pointer ed of the first table string that matches,
if any; k counts the turns left, td and ed are addresses in the data of the
table and of the entry. -/
def matchTable (tmem emem l : List Nat) : Nat → Int → Int → Res (Option Int)
  | 0, _, _ => Res.ok none
  | k + 1, td, ed =>
    match strlenAt tmem td with
    | none => Res.fault
    | some tn =>
      if headerMatchLocale ((tmem.drop td.toNat).take tn) l = 1 then Res.ok (some ed)
      else
        match strlenAt emem ed with
        | none => Res.fault
        | some en => matchTable tmem emem l k (td + ((tn : Int) + 1)) (ed + ((en : Int) + 1))

/-- The loop of headerFindI18NString over the colon-separated locales of the
request, from the pointer l on (given by the bytes up to the NUL); the first
argument bounds the number of turns. -/
def findI18NLoop (tmem emem : List Nat) (count : Int) (td ed : Int) :
    Nat → List Nat → Res (Option Int)
  | 0, _ => Res.ok none
  | fuel + 1, l =>
    match l.dropWhile (fun b => decide (b = 58)) with
    | [] => Res.ok none
    | b :: rest =>
      let le := (b :: rest).takeWhile (fun x => decide (x ≠ 58))
      match matchTable tmem emem le count.toNat td ed with
      | Res.ok (some p) => Res.ok (some p)
      | Res.ok none => findI18NLoop tmem emem count td ed fuel ((b :: rest).drop le.length)
      | Res.exit => Res.exit
      | Res.fault => Res.fault

/-- The block and address behind entry->data, NULL being an address no read
succeeds at. -/
def dataPtr (blob : List Nat) (d : EntryData) : List Nat × Int :=
  (entryMem blob d).getD ([], 0)

/-- The function headerFindI18NString: the header (sorted on demand by
findEntry) and the pointer returned, as block and address (none: NULL). -/
def headerFindI18NString (env : LocaleEnv) (h : Header) (entry : indexEntry) :
    Res (Header × Option (List Nat × Int)) :=
  match env.lookup with
  | none => Res.ok (h, entryMem h.blob entry.data)
  | some s =>
    let lang := s.takeWhile (fun b => decide (b ≠ 0))
    match findEntry h HEADER_I18NTABLE RPM_STRING_ARRAY_TYPE with
    | (h1, none) => Res.ok (h1, entryMem h1.blob entry.data)
    | (h1, some ti) =>
      match h1.index.get? ti with
      | none => Res.fault
      | some table =>
        match findI18NLoop (dataPtr h1.blob table.data).1 (dataPtr h1.blob entry.data).1
            entry.info.count (dataPtr h1.blob table.data).2 (dataPtr h1.blob entry.data).2
            (lang.length + 1) lang with
        | Res.ok (some p) => Res.ok (h1, (entryMem h1.blob entry.data).map (fun m => (m.1, p)))
        | Res.ok none => Res.ok (h1, entryMem h1.blob entry.data)
        | Res.exit => Res.exit
        | Res.fault => Res.fault

/-- What intGetEntry returns and stores through its pointers (all three
given): type is none when nothing is stored through it, p is none for NULL. -/
structure GetOut where
  rc : Int
  type : Option Int
  p : Option Value
  c : Int
  deriving DecidableEq, Repr

/-- The function intGetEntry. The string behind the pointer that
headerFindI18NString returns is read up to its NUL. -/
def intGetEntry (le : Bool) (env : LocaleEnv) (h : Header) (tag : Int) (minMem : Bool) :
    Res (Header × GetOut) :=
  match findEntry h tag RPM_NULL_TYPE with
  | (h1, none) => Res.ok (h1, { rc := 0, type := none, p := none, c := 0 })
  | (h1, some i) =>
    match h1.index.get? i with
    | none => Res.fault
    | some entry =>
      if entry.info.type = RPM_I18NSTRING_TYPE then
        match headerFindI18NString env h1 entry with
        | Res.ok (h2, none) =>
          Res.ok (h2, { rc := 1, type := some RPM_STRING_TYPE, p := none, c := 1 })
        | Res.ok (h2, some (mem, a)) =>
          match strlenAt mem a with
          | none => Res.fault
          | some n =>
            Res.ok (h2, { rc := 1, type := some RPM_STRING_TYPE,
                          p := some (Value.str ((mem.drop a.toNat).take n)), c := 1 })
        | Res.exit => Res.exit
        | Res.fault => Res.fault
      else
        match copyEntry le h1.blob entry true minMem with
        | Res.ok out =>
          Res.ok (h1, { rc := if out.rc = 1 then 1 else 0, type := some out.type, p := out.p,
                        c := out.c })
        | Res.exit => Res.exit
        | Res.fault => Res.fault

/-- The function headerGetEntry. -/
def headerGetEntry (le : Bool) (env : LocaleEnv) (h : Header) (tag : Int) : Res (Header × GetOut) :=
  intGetEntry le env h tag false

/-- The function headerGetEntryMinMemory. -/
def headerGetEntryMinMemory (le : Bool) (env : LocaleEnv) (h : Header) (tag : Int) :
    Res (Header × GetOut) :=
  intGetEntry le env h tag true

/-- The function headerGetRawEntry with p given (for p == NULL it is
headerIsEntry); nothing is stored through type when the tag is not found. -/
def headerGetRawEntry (le : Bool) (h : Header) (tag : Int) : Res (Header × GetOut) :=
  match findEntry h tag RPM_NULL_TYPE with
  | (h1, none) => Res.ok (h1, { rc := 0, type := none, p := none, c := 0 })
  | (h1, some i) =>
    match h1.index.get? i with
    | none => Res.fault
    | some entry =>
      match copyEntry le h1.blob entry true false with
      | Res.ok out =>
        Res.ok (h1, { rc := if out.rc = 1 then 1 else 0, type := some out.type, p := out.p,
                      c := out.c })
      | Res.exit => Res.exit
      | Res.fault => Res.fault

/-! ## Appending to and replacing entries -/

/-- The header after stores through the pointer to the index entry at
position i have made that entry e. -/
def setEntry (h : Header) (i : Nat) (e : indexEntry) : Header :=
  { h with index := h.index.set i e }

/-- What xrealloc makes of a block resized to n bytes (xmalloc for an empty
block): the old bytes up to n, then fresh contents. -/
def xrealloc (junk : Nat → Nat) (old : List Nat) (n : Nat) : List Nat :=
  old.take n ++ (List.range (n - old.length)).map (fun i => junk (old.length + i))

/-- The step shared by headerAppendEntry and headerAddI18NString that makes
room for length more bytes behind the data of an entry: a fresh block with a
copy of the data for an entry in a region, xrealloc of the block otherwise
(a pointer into the blob is not a block xrealloc accepts). -/
def growData (junk : Nat → Nat) (blob : List Nat) (e : indexEntry) (length : Int) :
    Res (List Nat) :=
  let sz := wrap32 (e.length + length)
  if sz < 0 then Res.exit
  else if ENTRY_IN_REGION e then
    if e.length < 0 ∨ sz < e.length then Res.fault
    else
      match readBytes (dataPtr blob e.data).1 (dataPtr blob e.data).2 e.length.toNat with
      | none => Res.fault
      | some bs => Res.ok (xrealloc junk bs sz.toNat)
  else
    match e.data with
    | EntryData.null => Res.ok (xrealloc junk [] sz.toNat)
    | EntryData.owned bs => Res.ok (xrealloc junk bs sz.toNat)
    | EntryData.blob _ => Res.fault

/-- The function headerAppendEntry. -/
def headerAppendEntry (junk : Nat → Nat) (h : Header) (tag type : Int) (p : hPTR) (c : Int) :
    Res (Header × Int) :=
  match findEntry h tag type with
  | (h1, none) => Res.ok (h1, 0)
  | (h1, some i) =>
    if type = RPM_STRING_TYPE ∨ type = RPM_I18NSTRING_TYPE then Res.ok (h1, 0)
    else
      match h1.index.get? i with
      | none => Res.fault
      | some e =>
        match dataLength type p c false with
        | Res.ok length =>
          match growData junk h1.blob e length with
          | Res.ok blk =>
            match copyData type p c length with
            | none => Res.fault
            | some bs =>
              match writeBytes blk e.length bs with
              | none => Res.fault
              | some blk1 =>
                Res.ok ((setEntry h1 i
                  (indexEntry.mk
                    ⟨e.info.tag, e.info.type, wrap32 (e.info.count + c),
                      if ENTRY_IN_REGION e then 0 else e.info.offset⟩
                    (EntryData.owned blk1) (wrap32 (e.length + length)) e.rdlen)), 1)
          | Res.exit => Res.exit
          | Res.fault => Res.fault
        | Res.exit => Res.exit
        | Res.fault => Res.fault

/-- The function headerAddOrAppendEntry. -/
def headerAddOrAppendEntry (junk : Nat → Nat) (h : Header) (tag type : Int) (p : hPTR) (c : Int) :
    Res (Header × Int) :=
  match findEntry h tag type with
  | (h1, some _) => headerAppendEntry junk h1 tag type p c
  | (h1, none) => headerAddEntry h1 tag type p c

/-- The function headerModifyEntry (free of the old data of an entry that is
not in a region needs a block, not a pointer into the blob). -/
def headerModifyEntry (h : Header) (tag type : Int) (p : hPTR) (c : Int) : Res (Header × Int) :=
  match findEntry h tag type with
  | (h1, none) => Res.ok (h1, 0)
  | (h1, some i) =>
    match h1.index.get? (firstOccurrence tag h1.index i) with
    | none => Res.fault
    | some e =>
      match grabData type p c with
      | Res.ok (data, length) =>
        if ENTRY_IN_REGION e then
          Res.ok ((setEntry h1 (firstOccurrence tag h1.index i)
            (indexEntry.mk ⟨e.info.tag, type, c, 0⟩ (EntryData.owned data) length e.rdlen)), 1)
        else
          match e.data with
          | EntryData.blob _ => Res.fault
          | _ =>
            Res.ok ((setEntry h1 (firstOccurrence tag h1.index i)
              (indexEntry.mk ⟨e.info.tag, type, c, e.info.offset⟩ (EntryData.owned data) length
                e.rdlen)), 1)
      | Res.exit => Res.exit
      | Res.fault => Res.fault

/-! ## headerAddI18NString -/

/-- The bytes of a C string given by the bytes from its pointer on: those
before the first NUL. -/
def cstr (s : List Nat) : List Nat := s.takeWhile (fun b => decide (b ≠ 0))

/-- The loop of headerAddI18NString that looks lang up in the table: langNum
when it ends; n counts the turns left, a is the pointer l, k is langNum. -/
def findLang (mem lang : List Nat) : Nat → Int → Nat → Res Nat
  | 0, _, k => Res.ok k
  | n + 1, a, k =>
    match strlenAt mem a with
    | none => Res.fault
    | some ln =>
      if (mem.drop a.toNat).take ln = lang then Res.ok k
      else findLang mem lang n (a + ((ln : Int) + 1)) (k + 1)

/-- The loop of headerAddI18NString that sets the pointers be, e and ee over
the strings of the entry; n counts the turns left, i is the loop index. -/
def walkI18N (mem : List Nat) (langNum : Nat) : Nat → Nat → Int → Int → Int → Res (Int × Int × Int)
  | 0, _, be, e, ee => Res.ok (be, e, ee)
  | n + 1, i, be, e, ee =>
    match strlenAt mem ee with
    | none => Res.fault
    | some ln =>
      walkI18N mem langNum n (i + 1) (if i = langNum then ee else be)
        (if i = langNum then ee + ((ln : Int) + 1) else e) (ee + ((ln : Int) + 1))

/-- The part of headerAddI18NString that appends lang to the table at index
position ti when langNum is not below the count of the table. -/
def growTable (junk : Nat → Nat) (h : Header) (ti : Nat) (table : indexEntry) (lang : List Nat)
    (langNum : Nat) : Res Header :=
  if (langNum : Int) ≥ table.info.count then
    match growData junk h.blob table ((lang.length : Int) + 1) with
    | Res.ok blk =>
      match writeBytes blk table.length (lang ++ [0]) with
      | none => Res.fault
      | some blk1 =>
        Res.ok (setEntry h ti
          (indexEntry.mk
            ⟨table.info.tag, table.info.type, wrap32 (table.info.count + 1),
              if ENTRY_IN_REGION table then 0 else table.info.offset⟩
            (EntryData.owned blk1) (wrap32 (table.length + ((lang.length : Int) + 1)))
            table.rdlen))
    | Res.exit => Res.exit
    | Res.fault => Res.fault
  else Res.ok h

/-- The branch of headerAddI18NString for an entry with fewer strings than
langNum + 1: ghost strings, then the bytes of the string (strlen(string) of
them). -/
def addGhosts (junk : Nat → Nat) (h : Header) (ei : Nat) (e : indexEntry) (string : List Nat)
    (langNum : Nat) : Res Header :=
  let ghosts := wrap32 ((langNum : Int) - e.info.count)
  let length := wrap32 ((string.length : Int) + 1 + ghosts)
  match growData junk h.blob e length with
  | Res.ok blk =>
    match writeBytes blk e.length (List.replicate ghosts.toNat 0) with
    | none => Res.fault
    | some blk1 =>
      match writeBytes blk1 (e.length + ghosts) string with
      | none => Res.fault
      | some blk2 =>
        Res.ok (setEntry h ei
          (indexEntry.mk
            ⟨e.info.tag, e.info.type, wrap32 ((langNum : Int) + 1),
              if ENTRY_IN_REGION e then 0 else e.info.offset⟩
            (EntryData.owned blk2) (wrap32 (e.length + length)) e.rdlen))
  | Res.exit => Res.exit
  | Res.fault => Res.fault

/-- The branch of headerAddI18NString that replaces string number langNum of
the entry; tcount is the count of the table. -/
def replaceString (h : Header) (ei : Nat) (e : indexEntry) (string : List Nat) (langNum : Nat)
    (tcount : Int) : Res Header :=
  match walkI18N (dataPtr h.blob e.data).1 langNum tcount.toNat 0 (dataPtr h.blob e.data).2
      (dataPtr h.blob e.data).2 (dataPtr h.blob e.data).2 with
  | Res.ok (be, e1, ee) =>
    match readBytes (dataPtr h.blob e.data).1 (dataPtr h.blob e.data).2
            (be - (dataPtr h.blob e.data).2).toNat,
          readBytes (dataPtr h.blob e.data).1 e1 (ee - e1).toNat,
          strlenAt (dataPtr h.blob e.data).1 be with
    | some pre, some post, some oldLen =>
      if ENTRY_IN_REGION e then
        Res.ok (setEntry h ei
          (indexEntry.mk ⟨e.info.tag, e.info.type, e.info.count, 0⟩
            (EntryData.owned (pre ++ string ++ [0] ++ post))
            (wrap32 (wrap32 (e.length - ((oldLen : Int) + 1)) + ((string.length : Int) + 1)))
            e.rdlen))
      else
        match e.data with
        | EntryData.blob _ => Res.fault
        | _ =>
          Res.ok (setEntry h ei
            (indexEntry.mk ⟨e.info.tag, e.info.type, e.info.count, e.info.offset⟩
              (EntryData.owned (pre ++ string ++ [0] ++ post))
              (wrap32 (wrap32 (e.length - ((oldLen : Int) + 1)) + ((string.length : Int) + 1)))
              e.rdlen))
    | _, _, _ => Res.fault
  | Res.exit => Res.exit
  | Res.fault => Res.fault

/-- The part of headerAddI18NString behind the lookup (and creation) of the
table, with the table at index position ti and the entry, if any, at ei. -/
def addI18NRest (junk : Nat → Nat) (h : Header) (ti : Nat) (entry : Option Nat) (tag : Int)
    (string : List Nat) (lang : List Nat) : Res (Header × Int) :=
  match h.index.get? ti with
  | none => Res.fault
  | some table =>
    match findLang (dataPtr h.blob table.data).1 lang table.info.count.toNat
        (dataPtr h.blob table.data).2 0 with
    | Res.ok langNum =>
      match growTable junk h ti table lang langNum with
      | Res.ok h1 =>
        match entry with
        | none =>
          headerAddEntry h1 tag RPM_I18NSTRING_TYPE
            (hPTR.strv (List.replicate langNum (some [0]) ++ [some (string ++ [0])]))
            (wrap32 ((langNum : Int) + 1))
        | some ei =>
          match h1.index.get? ei with
          | none => Res.fault
          | some e =>
            if (langNum : Int) ≥ e.info.count then
              match addGhosts junk h1 ei e string langNum with
              | Res.ok h2 => Res.ok (h2, 0)
              | Res.exit => Res.exit
              | Res.fault => Res.fault
            else
              match h1.index.get? ti with
              | none => Res.fault
              | some table1 =>
                match replaceString h1 ei e string langNum table1.info.count with
                | Res.ok h2 => Res.ok (h2, 0)
                | Res.exit => Res.exit
                | Res.fault => Res.fault
      | Res.exit => Res.exit
      | Res.fault => Res.fault
    | Res.exit => Res.exit
    | Res.fault => Res.fault

/-- The function headerAddI18NString; string is given by its bytes without
the NUL, lang is none for a NULL pointer. -/
def headerAddI18NString (junk : Nat → Nat) (h : Header) (tag : Int) (string : List Nat)
    (lang : Option (List Nat)) : Res (Header × Int) :=
  match findEntry h HEADER_I18NTABLE RPM_STRING_ARRAY_TYPE with
  | (h1, table) =>
    match findEntry h1 tag RPM_I18NSTRING_TYPE with
    | (h2, entry) =>
      match table, entry with
      | none, some _ => Res.ok (h2, 0)
      | none, none =>
        match headerAddEntry h2 HEADER_I18NTABLE RPM_STRING_ARRAY_TYPE
            (hPTR.strv (if lang = none ∨ lang.map cstr = some [67] then [some [67, 0]]
              else [some [67, 0], some ((lang.getD []).takeWhile (fun b => decide (b ≠ 0)) ++ [0])]))
            (if lang = none ∨ lang.map cstr = some [67] then 1 else 2) with
        | Res.ok (h3, rc) =>
          if rc = 0 then Res.ok (h3, 0)
          else
            match findEntry h3 HEADER_I18NTABLE RPM_STRING_ARRAY_TYPE with
            | (h4, none) => Res.ok (h4, 0)
            | (h4, some ti) =>
              addI18NRest junk h4 ti none tag (cstr string) ((lang.map cstr).getD [67])
        | Res.exit => Res.exit
        | Res.fault => Res.fault
      | some ti, _ => addI18NRest junk h2 ti entry tag (cstr string) ((lang.map cstr).getD [67])

/-! ## headerCopyTags -/

/-- The pointer that a caller passes on after a lookup has stored it through
p: the bytes behind it as a block of their own, a string with its NUL, or the
char ** array of the strings (NULL is a pointer no read succeeds at). -/
def valuePtr : Option Value → hPTR
  | none => hPTR.bytes [] 0
  | some (Value.bytes bs) => hPTR.bytes bs 0
  | some (Value.str s) => hPTR.bytes (s ++ [0]) 0
  | some (Value.strv ss) => hPTR.strv (ss.map (fun s => some (s ++ [0])))

/-- The body of the loop of headerCopyTags for one tag; type is read only
after a lookup that has stored it. -/
def copyTag (le : Bool) (env : LocaleEnv) (headerFrom headerTo : Header) (tag : Int) :
    Res (Header × Header) :=
  match headerIsEntry headerTo tag with
  | (to1, rc) =>
    if rc ≠ 0 then Res.ok (headerFrom, to1)
    else
      match headerGetEntryMinMemory le env headerFrom tag with
      | Res.ok (from1, out) =>
        if out.rc = 0 then Res.ok (from1, to1)
        else
          match out.type with
          | none => Res.fault
          | some type =>
            match headerAddEntry to1 tag type (valuePtr out.p) out.c with
            | Res.ok (to2, _) => Res.ok (from1, to2)
            | Res.exit => Res.exit
            | Res.fault => Res.fault
      | Res.exit => Res.exit
      | Res.fault => Res.fault

/-- The function headerCopyTags for two distinct headers (for headerFrom ==
headerTo it returns at once): the two headers afterwards. tagstocopy holds the
ints from the pointer on; the loop ends at the first 0 and runs off the array
when there is none. -/
def headerCopyTags (le : Bool) (env : LocaleEnv) :
    Header → Header → List Int → Res (Header × Header)
  | _, _, [] => Res.fault
  | headerFrom, headerTo, p :: rest =>
    if p = 0 then Res.ok (headerFrom, headerTo)
    else
      match copyTag le env headerFrom headerTo p with
      | Res.ok (from1, to1) => headerCopyTags le env from1 to1 rest
      | Res.exit => Res.exit
      | Res.fault => Res.fault

/-! ## Notions used in the statements -/

/-- The values of the C type int_32. -/
def isInt32 (x : Int) : Prop := -2147483648 ≤ x ∧ x < 2147483648

instance (x : Int) : Decidable (isInt32 x) := by unfold isInt32; infer_instance

/-- A header built with headerNew and calls of headerAddEntry (with int_32
arguments) that return 1. -/
inductive Built : Header → Prop
  | new : Built headerNew
  | add {h h1 : Header} {tag type : Int} {p : hPTR} {c : Int} :
      Built h → isInt32 tag → isInt32 type → isInt32 c →
      headerAddEntry h tag type p c = Res.ok (h1, 1) → Built h1

/-- The arguments of one call of headerAddEntry. -/
structure AddReq where
  tag : Int
  type : Int
  p : hPTR
  c : Int
  deriving DecidableEq, Repr

/-- Successive calls of headerAddEntry with int_32 arguments, each of which
has to return 1. -/
def addAll : Header → List AddReq → Option Header
  | h, [] => some h
  | h, r :: rest =>
    if isInt32 r.tag ∧ isInt32 r.type ∧ isInt32 r.c then
      match headerAddEntry h r.tag r.type r.p r.c with
      | Res.ok (h1, rc) => if rc = 1 then addAll h1 rest else none
      | Res.exit => none
      | Res.fault => none
    else none

/-- The composition headerLoad(headerUnload(h)). -/
def loadUnload (le : Bool) (junk : Nat → Nat) (h : Header) : Res (Option Header) :=
  match headerUnload le junk h with
  | Res.ok (_, some uh) => headerLoad le uh
  | Res.ok (_, none) => Res.ok none
  | Res.exit => Res.exit
  | Res.fault => Res.fault

/-- The header behind a result, headerNew when there is none. -/
def Res.header : Res (Option Header) → Header
  | Res.ok (some h) => h
  | _ => headerNew

/-- The block behind a result of headerUnload, empty when there is none. -/
def Res.block : Res (Header × Option (List Nat)) → List Nat
  | Res.ok (_, some uh) => uh
  | _ => []

/-- The value of a result, none for an exit or a fault. -/
def Res.toOption {α : Type} : Res α → Option α
  | Res.ok a => some a
  | _ => none

/-- Whether a result is a header (not NULL, not an exit, not a fault). -/
def Res.isHeader : Res (Option Header) → Bool
  | Res.ok (some _) => true
  | _ => false

/-- The data length that the legacy branch of headerLoad reconstructs from the
descriptors: the value of its call of regionSwab. -/
def legacyRdlen (le : Bool) (uh : List Nat) : Res Int :=
  match getS32 uh 0, fixVerifyScript uh 8 with
  | some il, some mem =>
    match regionSwab le (some il.toNat) il 0 8 (8 + il * 16) (wrap32 (8 - (8 + il * 16))) mem with
    | Res.ok r => Res.ok r.rc
    | Res.exit => Res.exit
    | Res.fault => Res.fault
  | _, _ => Res.fault

/-- The region entries and dribble entries that headerLoad materializes from a
block in region format (loadRegionParts behind the prologue of headerLoad). -/
def regionParts (le : Bool) (uh : List Nat) : Res (Option RegionParts) :=
  match getS32 uh 0, getS32 uh 4, fixVerifyScript uh 8 with
  | some il, some dl, some mem =>
    match getU32 mem 8 with
    | some tag0 => loadRegionParts le mem il (wrap32 (8 + il * 16 + dl)) tag0
    | none => Res.fault
  | _, _, _ => Res.fault

/-- The first descriptor's tag as headerLoad compares it with the sentinel:
read after the verifyscript correction, as an unsigned value. -/
def firstTag (uh : List Nat) : Option Nat :=
  match fixVerifyScript uh 8 with
  | some mem => getU32 mem 8
  | none => none

/-- The descriptor (tag, type, count, offset) at index i of an encoded block. -/
def descriptorAt (buf : List Nat) (i : Nat) : Option entryInfo :=
  match getS32 buf (8 + 16 * (i : Int)), getS32 buf (8 + 16 * (i : Int) + 4),
        getS32 buf (8 + 16 * (i : Int) + 8), getS32 buf (8 + 16 * (i : Int) + 12) with
  | some tag, some type, some count, some offset =>
    some { tag := tag, type := type, count := count, offset := offset }
  | _, _, _, _ => none

/-- The descriptors of an encoded block, as many as its first word declares. -/
def descriptors (buf : List Nat) : List entryInfo :=
  match getS32 buf 0 with
  | some il => (List.range il.toNat).filterMap (descriptorAt buf)
  | none => []

/-- The width a multi-byte scalar type has to be aligned to (2 for int16, 4
for int32), 1 for every other type. -/
def typeWidth (type : Int) : Int :=
  if type = RPM_INT16_TYPE then 2 else if type = RPM_INT32_TYPE then 4 else 1

/-- Every descriptor of a multi-byte scalar type has a data offset that is a
multiple of the width of its type. -/
def AlignedOffsets (buf : List Nat) : Prop :=
  ∀ d ∈ descriptors buf, d.offset % typeWidth d.type = 0

instance (buf : List Nat) : Decidable (AlignedOffsets buf) := by
  unfold AlignedOffsets; infer_instance

/-! ## The wire layout in the words of the specification -/

/-- Number of bytes to skip from offset off to the next multiple of w. -/
def padTo (w off : Int) : Int := (w - off % w) % w

/-- The bytes of the block an entry owns (empty for any other entry). -/
def entryBytes (e : indexEntry) : List Nat :=
  match e.data with
  | EntryData.owned bs => bs
  | _ => []

/-- The value of a little-endian sequence of bytes. -/
def leVal : List Nat → Nat
  | [] => 0
  | b :: rest => b + 256 * leVal rest

/-- The value of an integer that the host keeps in the bytes bs. -/
def hostVal (le : Bool) (bs : List Nat) : Nat := if le then leVal bs else leVal bs.reverse

/-- The w bytes of the big-endian representation of v. -/
def beBytes : Nat → Nat → List Nat
  | 0, _ => []
  | w + 1, v => (v / 256 ^ w % 256) :: beBytes w v

/-- The first n items of w bytes of a host array, each stored big-endian. -/
def beElems (le : Bool) (w : Nat) : Nat → List Nat → List Nat
  | 0, _ => []
  | n + 1, bs => beBytes w (hostVal le (bs.take w)) ++ beElems le w n (bs.drop w)

/-- The data of an entry as the wire format stores it: int16 and int32 items
big-endian, all other data verbatim. -/
def wireData (le : Bool) (e : indexEntry) : List Nat :=
  if e.info.type = RPM_INT32_TYPE then beElems le 4 e.info.count.toNat (entryBytes e)
  else if e.info.type = RPM_INT16_TYPE then beElems le 2 e.info.count.toNat (entryBytes e)
  else entryBytes e

/-- Ascending tag order. -/
def tagLe (a b : indexEntry) : Prop := a.info.tag ≤ b.info.tag

instance : DecidableRel tagLe := fun a b => by unfold tagLe; infer_instance

instance : IsTotal indexEntry tagLe := ⟨fun a b => by unfold tagLe; omega⟩

instance : IsTrans indexEntry tagLe := ⟨fun a b c h1 h2 => by unfold tagLe at *; omega⟩

/-- The shape of the data block that grabData makes for count items of a
type: one NUL-terminated string, count NUL-terminated strings laid end to end,
or count items of the size of the type. -/
def DataShape (type count : Int) (bs : List Nat) : Prop :=
  if type = RPM_STRING_TYPE then count = 1 ∧ ∃ n, strlenList bs = some n ∧ bs.length = n + 1
  else if type = RPM_STRING_ARRAY_TYPE ∨ type = RPM_I18NSTRING_TYPE then
    0 ≤ count ∧ strArrayLenAt bs count.toNat 0 = some bs.length
  else ∃ sz, typeSizesAt type = some sz ∧ sz ≠ -1 ∧ sz * count = (bs.length : Int)

/-- An index entry as headerAddEntry stores it. -/
structure Added (e : indexEntry) : Prop where
  offset : e.info.offset = 0
  rdlen : e.rdlen = 0
  tag : isInt32 e.info.tag
  type : isInt32 e.info.type
  count : isInt32 e.info.count
  pos : 1 ≤ e.info.count
  data : e.data = EntryData.owned (entryBytes e)
  length : e.length = ((entryBytes e).length : Int)
  shape : DataShape e.info.type e.info.count (entryBytes e)

/-- The first n items of w bytes of an array, each with the byte order that
htonl/htons gives it on the host. -/
def swabAll (le : Bool) (w : Nat) : Nat → List Nat → List Nat
  | 0, _ => []
  | n + 1, bs => hswap le (bs.take w) ++ swabAll le w n (bs.drop w)

/-- The data of an entry as the encoder writes it: the items of int16 and
int32 data converted with htons/htonl, all other data verbatim. -/
def wireRaw (le : Bool) (e : indexEntry) : List Nat :=
  if e.info.type = RPM_INT32_TYPE then swabAll le 4 e.info.count.toNat (entryBytes e)
  else if e.info.type = RPM_INT16_TYPE then swabAll le 2 e.info.count.toNat (entryBytes e)
  else entryBytes e

/-- The data offsets of entries laid out one after the other from offset dl,
each aligned to the width of its type. -/
def dataOffsets : List indexEntry → Int → List Int
  | [], _ => []
  | e :: rest, dl =>
    (dl + padTo (typeWidth e.info.type) dl)
      :: dataOffsets rest (dl + padTo (typeWidth e.info.type) dl + e.length)

/-- The offset at which the layout of the entries from offset dl ends. -/
def dataEnd : List indexEntry → Int → Int
  | [], dl => dl
  | e :: rest, dl => dataEnd rest (dl + padTo (typeWidth e.info.type) dl + e.length)

/-- The data section of the entries laid out from offset dl: before each
entry the zero bytes that align it, then its data as given by f. -/
def dataImageWith (f : indexEntry → List Nat) : List indexEntry → Int → List Nat
  | [], _ => []
  | e :: rest, dl =>
    List.replicate (padTo (typeWidth e.info.type) dl).toNat 0 ++ f e
      ++ dataImageWith f rest (dl + padTo (typeWidth e.info.type) dl + e.length)

/-- The 16-byte descriptors (tag, type, count, offset; each big-endian) of the
entries laid out from offset dl. -/
def descImage : List indexEntry → Int → List Nat
  | [], _ => []
  | e :: rest, dl =>
    putBE32 e.info.tag ++ putBE32 e.info.type ++ putBE32 e.info.count
      ++ putBE32 (dl + padTo (typeWidth e.info.type) dl)
      ++ descImage rest (dl + padTo (typeWidth e.info.type) dl + e.length)

/-- The descriptors of entries laid out from offset dl: tag, type and count of
each entry with the data offset that the layout gives it. -/
def entryInfos : List indexEntry → Int → List entryInfo
  | [], _ => []
  | e :: rest, dl =>
    { tag := e.info.tag, type := e.info.type, count := e.info.count,
      offset := dl + padTo (typeWidth e.info.type) dl }
      :: entryInfos rest (dl + padTo (typeWidth e.info.type) dl + e.length)

/-- The wire image of a list of entries: the words il and dl, the descriptors,
the data section. -/
def wireImage (le : Bool) (es : List indexEntry) : List Nat :=
  putBE32 es.length ++ putBE32 (dataEnd es 0) ++ descImage es 0 ++ dataImageWith (wireData le) es 0

/-- The block that the encoder writes for a list of entries: the words il and
dl, the descriptors, the data section with the data of each entry as wireRaw
gives it. -/
def rawImage (le : Bool) (es : List indexEntry) : List Nat :=
  putBE32 es.length ++ putBE32 (dataEnd es 0) ++ descImage es 0 ++ dataImageWith (wireRaw le) es 0

/-- The index entries that regionSwab stores for the descriptors of entries
laid out from offset dl: offset regionid, data pointing into the block at
dataStart plus the data offset. -/
def loadedEntries (regionid dataStart : Int) : List indexEntry → Int → List indexEntry
  | [], _ => []
  | e :: rest, dl =>
    { info := { e.info with offset := regionid },
      data := EntryData.blob (dataStart + (dl + padTo (typeWidth e.info.type) dl)),
      length := e.length, rdlen := 0 }
      :: loadedEntries regionid dataStart rest (dl + padTo (typeWidth e.info.type) dl + e.length)

/-- The items that an iteration hands out for a run of entries none of which
is a region entry: copyEntry on each, up to the first call that does not
return 1. -/
def itemsOf (le : Bool) (blob : List Nat) : List indexEntry → Res (List Item)
  | [] => Res.ok []
  | e :: rest =>
    match copyEntry le blob e true false with
    | Res.ok out =>
      if out.rc = 1 then
        match out.p with
        | some v =>
          match itemsOf le blob rest with
          | Res.ok items =>
            Res.ok ({ tag := e.info.tag, type := out.type, count := out.c, value := v } :: items)
          | Res.exit => Res.exit
          | Res.fault => Res.fault
        | none => Res.ok []
      else Res.ok []
    | Res.exit => Res.exit
    | Res.fault => Res.fault

/-- The value that copyEntry hands out for an entry stored by headerAddEntry. -/
def entryValue (e : indexEntry) : Value :=
  if e.info.type = RPM_BIN_TYPE then Value.bytes (entryBytes e)
  else if e.info.type = RPM_STRING_TYPE then
    Value.str ((entryBytes e).take ((entryBytes e).length - 1))
  else if e.info.type = RPM_STRING_ARRAY_TYPE ∨ e.info.type = RPM_I18NSTRING_TYPE then
    Value.strv ((splitStrings e.info.count.toNat (entryBytes e)).getD [])
  else Value.bytes (entryBytes e)

/-- The item that an iteration hands out for an entry stored by headerAddEntry. -/
def entryItem (e : indexEntry) : Item :=
  { tag := e.info.tag, type := e.info.type,
    count := if e.info.type = RPM_BIN_TYPE then e.length else e.info.count,
    value := entryValue e }

/-- The entries of a list that have non-empty data. -/
def live (es : List indexEntry) : List indexEntry :=
  es.filter (fun e => decide (0 < e.length))

/-- The entries of a header that have non-empty data, in ascending tag order. -/
def liveEntries (h : Header) : List indexEntry :=
  live (qsort indexCmp h.index)

/-! ## The format engine: parsing a template -/

/-- The messages that the parser of headerSprintf stores through errmsg:
"missing { after %", "missing } after %{", "empty tag format", "empty tag
name", "unknown tag", "] expected at end of array", "unexpected ]",
"unexpected }", "? expected in expression", "{ expected after ? in
expression", "} expected in expression", ": expected following ?
subexpression", "{ expected after : in expression" and "| expected at end of
expression". -/
inductive ErrMsg where
  | missingOpen | missingClose | emptyFormat | emptyName | unknownTag
  | arrayEnd | unexpectedBracket | unexpectedBrace
  | questionExpected | openAfterQuestion | closeExpected | colonExpected
  | openAfterColon | barExpected
  deriving DecidableEq, Repr

/-- Outcome of a function of the format engine: a result, a parse error with
its message, the end of the process (xmalloc fails), an access outside a
block, or a run that the bound on the number of steps has cut off. -/
inductive Run (α : Type) where
  | ok : α → Run α
  | error : ErrMsg → Run α
  | exit : Run α
  | fault : Run α
  | unfinished : Run α
  deriving DecidableEq, Repr

/-- Sequencing of two steps: the second runs on the result of the first. -/
def Run.bind {α β : Type} (x : Run α) (f : α → Run β) : Run β :=
  match x with
  | Run.ok a => f a
  | Run.error m => Run.error m
  | Run.exit => Run.exit
  | Run.fault => Run.fault
  | Run.unfinished => Run.unfinished

instance : Monad Run where
  pure := Run.ok
  bind := Run.bind

/-- Lift a bounds-checked memory access: a miss is a fault. -/
def Run.ofOption {α : Type} : Option α → Run α
  | some a => Run.ok a
  | none => Run.fault

/-- Lift a result of the header functions. -/
def Run.ofRes {α : Type} : Res α → Run α
  | Res.ok a => Run.ok a
  | Res.exit => Run.exit
  | Res.fault => Run.fault

/-- What a tag extension function stores through type, data and count. -/
structure ExtValue where
  type : Int
  data : Option Value
  count : Int
  deriving DecidableEq, Repr

/-- Modelled from the spec: the type headerTagTagFunction of header.h (absent
from the sources), a function of the header that returns 0 and stores a value
(some) or returns nonzero (none). -/
@[reducible] def headerTagTagFunction : Type := Header → Option ExtValue

/-- The object behind the data pointer of a format function: the unsigned int
intVal or a string. -/
inductive FmtArg where
  | int : Nat → FmtArg
  | str : List Nat → FmtArg
  deriving DecidableEq, Repr

/-- Modelled from the spec: the type headerTagFormatFunction of header.h
(absent from the sources), a function of type, data, formatPrefix, padding and
element that returns a string or NULL (none). -/
@[reducible] def headerTagFormatFunction : Type :=
  Int → FmtArg → List Nat → Int → Int → Run (Option (List Nat))

/-- Modelled from the spec: an array of struct headerSprintfExtension_s of
header.h (absent from the sources) from a pointer on: its end HEADER_EXT_LAST,
an entry HEADER_EXT_FORMAT or HEADER_EXT_TAG with its name (none for NULL) and
function followed by the rest of the array, or an entry HEADER_EXT_MORE with
the array it links to (no loop of header.c looks behind such an entry). -/
inductive headerSprintfExtension where
  | last : headerSprintfExtension
  | format : Option (List Nat) → headerTagFormatFunction → headerSprintfExtension →
      headerSprintfExtension
  | tag : Option (List Nat) → headerTagTagFunction → headerSprintfExtension →
      headerSprintfExtension
  | more : headerSprintfExtension → headerSprintfExtension

/-- Modelled from the spec: struct headerTagTableEntry_s of header.h (absent
from the sources); a table is given by its entries in front of the entry
whose name is NULL. -/
structure headerTagTableEntry where
  name : List Nat
  val : Int
  deriving DecidableEq, Repr

/-- Modelled from the spec: struct sprintfTag of header_internal.h (absent from
the sources). format and type are addresses in the copy of the template (type
none for NULL); extNum is the difference ext - extensions, which has no value
for an entry of an array reached through HEADER_EXT_MORE. -/
structure sprintfTag where
  ext : Option headerTagTagFunction
  extNum : Option Nat
  tag : Int
  justOne : Bool
  arrayCount : Bool
  format : Nat
  type : Option Nat
  pad : Int

/-- Modelled from the spec: struct sprintfToken of header_internal.h (absent
from the sources), with the token arrays as lists; a string token holds the
address of its string in the copy of the template and its len. -/
inductive sprintfToken where
  | none : sprintfToken
  | tag : sprintfTag → sprintfToken
  | array : List sprintfToken → sprintfToken
  | string : Nat → Nat → sprintfToken
  | cond : List sprintfToken → List sprintfToken → sprintfTag → sprintfToken

/-- The parser state PARSER_BEGIN. -/
def PARSER_BEGIN : Int := 0
/-- The parser state PARSER_IN_ARRAY. -/
def PARSER_IN_ARRAY : Int := 1
/-- The parser state PARSER_IN_EXPR. -/
def PARSER_IN_EXPR : Int := 2

/-- The function escapedChar. -/
def escapedChar (ch : Nat) : Nat :=
  if ch = 97 then 7 else if ch = 98 then 8 else if ch = 102 then 12 else if ch = 110 then 10
  else if ch = 114 then 13 else if ch = 116 then 9 else if ch = 118 then 11 else ch

/-- Modelled from the spec: xtolower of rpmio (absent from the sources), the
lower case of an ASCII letter. -/
def xtolower (c : Nat) : Nat := if 65 ≤ c ∧ c ≤ 90 then c + 32 else c

/-- Modelled from the spec: whether xstrcasecmp of rpmio (absent from the
sources) returns 0, a comparison that ignores the case of ASCII letters. -/
def xstrcasecmpEq (a b : List Nat) : Bool := decide (a.map xtolower = b.map xtolower)

/-- Modelled from the spec: xisdigit of rpmio (absent from the sources). -/
def xisdigit (c : Nat) : Bool := decide (48 ≤ c ∧ c ≤ 57)

/-- The string "RPMTAG_". -/
def rpmtagPrefix : List Nat := [82, 80, 77, 84, 65, 71, 95]

/-- The loop of findTag over the extensions: the tag function of the first
entry HEADER_EXT_TAG whose name matches, with the difference ext - extensions;
more tells that a link HEADER_EXT_MORE has been followed, i counts the
entries of the first array. -/
def findTagExt (tagname : List Nat) :
    headerSprintfExtension → Bool → Nat → Option (headerTagTagFunction × Option Nat)
  | headerSprintfExtension.last, _, _ => none
  | headerSprintfExtension.format _ _ next, more, i => findTagExt tagname next more (i + 1)
  | headerSprintfExtension.tag name fn next, more, i =>
    if (match name with
        | some n => xstrcasecmpEq n tagname
        | none => false) = true
    then some (fn, if more then none else some i)
    else findTagExt tagname next more (i + 1)
  | headerSprintfExtension.more link, _, i => findTagExt tagname link true (i + 1)

/-- The function findTag: what it stores through tagMatch (the val of the
entry) and extMatch. -/
def findTag (name : List Nat) (tags : List headerTagTableEntry)
    (extensions : headerSprintfExtension) :
    Option Int × Option (headerTagTagFunction × Option Nat) :=
  let tagname := if name.take 7 = rpmtagPrefix then name else rpmtagPrefix ++ name
  match findTagExt tagname extensions false 0 with
  | some e => (none, some e)
  | none =>
    match tags.find? (fun t => xstrcasecmpEq t.name tagname) with
    | some t => (some t.val, none)
    | none => (none, none)

/-- The store *a = b into the copy of the template. -/
def poke (mem : List Nat) (a : Nat) (b : Nat) : Option (List Nat) :=
  if a < mem.length then some (mem.set a b) else none

/-- A loop while (*p && !stop(*p)) p++ over the bytes from address a on: the
address where it ends (none when it runs off the block). -/
def scanFor (stop : Nat → Bool) : List Nat → Nat → Option Nat
  | [], _ => none
  | b :: rest, a => if b = 0 ∨ stop b = true then some a else scanFor stop rest (a + 1)

/-- The NUL-terminated string at address a of a block. -/
def strAt (mem : List Nat) (a : Nat) : Option (List Nat) :=
  (strlenList (mem.drop a)).map (fun n => (mem.drop a).take n)

/-- The value that strtoul reads from a run of digits, stored in an int. -/
def strtoulInt (digits : List Nat) : Int :=
  wrap32 (Int.ofNat (min (digits.foldl (fun acc d => acc * 10 + (d - 48)) 0) 18446744073709551615))

/-- The loop of parseFormat that adds up the numbers in front of the brace
into pad; seg holds the bytes [start, chptr), i is start relative to seg, the
first argument bounds the number of turns. -/
def padLoop (seg : List Nat) : Nat → Nat → Int → Int
  | 0, _, pad => pad
  | fuel + 1, i, pad =>
    match seg.get? i with
    | none => pad
    | some c =>
      if xisdigit c = true then
        padLoop seg fuel (i + ((seg.drop i).takeWhile (fun b => xisdigit b)).length)
          (wrap32 (pad + strtoulInt ((seg.drop i).takeWhile (fun b => xisdigit b))))
      else padLoop seg fuel (i + 1) pad

/-- The part of the case '%' of parseFormat that reads a tag reference from
start (behind the '%') on: the copy of the template, the token and the
pointer next behind the closing brace. -/
def parseTag (tags : List headerTagTableEntry) (extensions : headerSprintfExtension)
    (mem : List Nat) (start : Nat) : Run (List Nat × sprintfToken × Nat) := do
  let chptr ← Run.ofOption (scanFor (fun b => b = 123 || b = 37) (mem.drop start) start)
  let c ← Run.ofOption (mem.get? chptr)
  if c = 0 ∨ c = 37 then Run.error ErrMsg.missingOpen
  else do
    let mem1 ← Run.ofOption (poke mem chptr 0)
    let pad := padLoop ((mem1.drop start).take (chptr + 1 - start)) (chptr + 1 - start) 0 0
    let c1 ← Run.ofOption (mem1.get? (chptr + 1))
    let justOne : Bool := c1 = 61 || c1 = 35
    let arrayCount : Bool := c1 = 35
    let start1 : Nat := if c1 = 61 ∨ c1 = 35 then chptr + 2 else chptr + 1
    let next ← Run.ofOption (scanFor (fun b => b = 125) (mem1.drop start1) start1)
    let c2 ← Run.ofOption (mem1.get? next)
    if c2 = 0 then Run.error ErrMsg.missingClose
    else do
      let mem2 ← Run.ofOption (poke mem1 next 0)
      let colon ← Run.ofOption (scanFor (fun b => b = 58) (mem2.drop start1) start1)
      let c3 ← Run.ofOption (mem2.get? colon)
      let mem3 ← if c3 ≠ 0 then Run.ofOption (poke mem2 colon 0) else Run.ok mem2
      let c4 ← if c3 ≠ 0 then Run.ofOption (mem3.get? (colon + 1)) else Run.ok 1
      if c4 = 0 then Run.error ErrMsg.emptyFormat
      else do
        let type : Option Nat := if c3 ≠ 0 then some (colon + 1) else none
        let c5 ← Run.ofOption (mem3.get? start1)
        if c5 = 0 then Run.error ErrMsg.emptyName
        else do
          let name ← Run.ofOption (strAt mem3 start1)
          match findTag name tags extensions with
          | (some val, _) =>
            Run.ok (mem3, sprintfToken.tag
              { ext := none, extNum := none, tag := val, justOne := justOne,
                arrayCount := arrayCount, format := start, type := type, pad := pad }, next + 1)
          | (none, some (fn, n)) =>
            Run.ok (mem3, sprintfToken.tag
              { ext := some fn, extNum := n, tag := 0, justOne := justOne,
                arrayCount := arrayCount, format := start, type := type, pad := pad }, next + 1)
          | (none, none) => Run.error ErrMsg.unknownTag

/-- What parseFormat hands back: the copy of the template after its stores,
the tokens stored through formatPtr, and what it stores through endPtr (none
for NULL). -/
structure ParseOut where
  mem : List Nat
  format : List sprintfToken
  endPtr : Option Nat

/-- The function parseExpression, with parseFormat passed as parse: the copy
of the template, the token and what is stored through endPtr. The call of
parseFormat on a copy of the empty string, which stores no token, is not
spelled out. -/
def parseExpression (parse : List Nat → Nat → Int → Run ParseOut)
    (tags : List headerTagTableEntry) (extensions : headerSprintfExtension)
    (mem : List Nat) (str : Nat) : Run (List Nat × sprintfToken × Nat) := do
  let q ← Run.ofOption (scanFor (fun b => b = 63) (mem.drop str) str)
  let c ← Run.ofOption (mem.get? q)
  if c ≠ 63 then Run.error ErrMsg.questionExpected
  else do
    let mem1 ← Run.ofOption (poke mem q 0)
    let c1 ← Run.ofOption (mem1.get? (q + 1))
    if c1 ≠ 123 then Run.error ErrMsg.openAfterQuestion
    else do
      let r1 ← parse mem1 (q + 2) PARSER_IN_EXPR
      let e1 ← Run.ofOption r1.endPtr
      let c2 ← Run.ofOption (r1.mem.get? e1)
      if c2 = 0 then Run.error ErrMsg.closeExpected
      else if c2 ≠ 58 ∧ c2 ≠ 124 then Run.error ErrMsg.colonExpected
      else do
        let r2 ←
          if c2 = 124 then Run.ok (ParseOut.mk r1.mem [] (some e1))
          else do
            let c3 ← Run.ofOption (r1.mem.get? (e1 + 1))
            if c3 ≠ 123 then Run.error ErrMsg.openAfterColon
            else do
              let r ← parse r1.mem (e1 + 2) PARSER_IN_EXPR
              let e2 ← Run.ofOption r.endPtr
              let c4 ← Run.ofOption (r.mem.get? e2)
              if c4 = 0 then Run.error ErrMsg.closeExpected
              else if c4 ≠ 124 then Run.error ErrMsg.barExpected
              else Run.ok r
        let e ← Run.ofOption r2.endPtr
        let name ← Run.ofOption (strAt r2.mem str)
        match findTag name tags extensions with
        | (some val, _) =>
          Run.ok (r2.mem, sprintfToken.cond r1.format r2.format
            { ext := none, extNum := none, tag := val, justOne := false, arrayCount := false,
              format := 0, type := none, pad := 0 }, e + 1)
        | (none, some (fn, n)) =>
          Run.ok (r2.mem, sprintfToken.cond r1.format r2.format
            { ext := some fn, extNum := n, tag := 0, justOne := false, arrayCount := false,
              format := 0, type := none, pad := 0 }, e + 1)
        | (none, none) =>
          Run.ok (r2.mem, sprintfToken.cond r1.format r2.format
            { ext := none, extNum := none, tag := -1, justOne := false, arrayCount := false,
              format := 0, type := none, pad := 0 }, e + 1)

/-- Whether the token format[currToken] is a string token (false for
currToken < 0). -/
def lastIsString (toks : List sprintfToken) : Bool :=
  match toks.getLast? with
  | some (sprintfToken.string _ _) => true
  | _ => false

/-- The loop at the end of parseFormat that stores the len of the string
tokens. -/
def setLens (mem : List Nat) : List sprintfToken → Option (List sprintfToken)
  | [] => some []
  | sprintfToken.string a _ :: rest =>
    match strlenList (mem.drop a), setLens mem rest with
    | some n, some tl => some (sprintfToken.string a n :: tl)
    | _, _ => none
  | t :: rest => (setLens mem rest).map (fun tl => t :: tl)

/-- The end of parseFormat behind its loop. -/
def parseFinish (mem : List Nat) (dst : Nat) (toks : List sprintfToken) (endPtr : Option Nat) :
    Run ParseOut := do
  let mem1 ← Run.ofOption (poke mem dst 0)
  let toks1 ← Run.ofOption (setLens mem1 toks)
  Run.ok (ParseOut.mk mem1 toks1 endPtr)

/-- The number of '%' in the string at address a. -/
def countPercent (mem : List Nat) (a : Nat) : Option Nat :=
  (strAt mem a).map (fun s => (s.filter (fun b => b = 37)).length)

/-- The start of parseFormat: the upper limit numTokens on the number of
tokens, then the loop, which is passed as loop. -/
def parseEnter (loop : Int → Int → List Nat → Nat → Nat → List sprintfToken → Run ParseOut)
    (mem : List Nat) (str : Nat) (state : Int) : Run ParseOut :=
  match countPercent mem str with
  | none => Run.fault
  | some n => loop state (wrap32 ((n : Int) * 2 + 1)) mem str str []

/-- The loop of parseFormat: state and numTokens, then the copy of the
template, the pointers start and dst and the tokens format[0 .. currToken].
The first argument bounds the number of turns and of nested calls. A token is
stored only when currToken stays below numTokens, the size of the token array.
-/
def parseLoop (tags : List headerTagTableEntry) (extensions : headerSprintfExtension) :
    Nat → Int → Int → List Nat → Nat → Nat → List sprintfToken → Run ParseOut
  | 0, _, _, _, _, _, _ => Run.unfinished
  | fuel + 1, state, numTokens, mem, start, dst, toks =>
    match mem.get? start with
    | none => Run.fault
    | some c =>
      if c = 0 then parseFinish mem dst toks none
      else if c = 37 then
        match mem.get? (start + 1) with
        | none => Run.fault
        | some c1 =>
          if c1 = 37 then
            if lastIsString toks = true then
              match poke mem dst c1 with
              | none => Run.fault
              | some mem1 => parseLoop tags extensions fuel state numTokens mem1 (start + 2) (dst + 1) toks
            else if (toks.length : Int) < numTokens then
              match poke mem start c1 with
              | none => Run.fault
              | some mem1 =>
                parseLoop tags extensions fuel state numTokens mem1 (start + 2) (start + 1)
                  (toks ++ [sprintfToken.string start 0])
            else Run.fault
          else if (toks.length : Int) < numTokens then
            match poke mem dst 0 with
            | none => Run.fault
            | some mem1 =>
              if c1 = 124 then
                match parseExpression (parseEnter (parseLoop tags extensions fuel)) tags extensions
                    mem1 (start + 2) with
                | Run.ok (mem2, tok, newEnd) =>
                  parseLoop tags extensions fuel state numTokens mem2 newEnd (dst + 1) (toks ++ [tok])
                | Run.error m => Run.error m
                | Run.exit => Run.exit
                | Run.fault => Run.fault
                | Run.unfinished => Run.unfinished
              else
                match parseTag tags extensions mem1 (start + 1) with
                | Run.ok (mem2, tok, next) =>
                  parseLoop tags extensions fuel state numTokens mem2 next (dst + 1) (toks ++ [tok])
                | Run.error m => Run.error m
                | Run.exit => Run.exit
                | Run.fault => Run.fault
                | Run.unfinished => Run.unfinished
          else Run.fault
      else if c = 91 then
        match poke mem dst 0 with
        | none => Run.fault
        | some mem1 =>
          match poke mem1 start 0 with
          | none => Run.fault
          | some mem2 =>
            if (toks.length : Int) < numTokens then
              match parseEnter (parseLoop tags extensions fuel) mem2 (start + 1) PARSER_IN_ARRAY with
              | Run.ok r =>
                match r.endPtr with
                | none => Run.error ErrMsg.arrayEnd
                | some e =>
                  parseLoop tags extensions fuel state numTokens r.mem e e
                    (toks ++ [sprintfToken.array r.format])
              | Run.error m => Run.error m
              | Run.exit => Run.exit
              | Run.fault => Run.fault
              | Run.unfinished => Run.unfinished
            else Run.fault
      else if c = 93 ∨ c = 125 then
        if (c = 93 ∧ state ≠ PARSER_IN_ARRAY) ∨ (c = 125 ∧ state ≠ PARSER_IN_EXPR) then
          Run.error (if c = 93 then ErrMsg.unexpectedBracket else ErrMsg.unexpectedBrace)
        else
          match poke mem start 0 with
          | none => Run.fault
          | some mem1 => parseFinish mem1 dst toks (some (start + 1))
      else if lastIsString toks = true then
        if c = 92 then
          match mem.get? (start + 1) with
          | none => Run.fault
          | some c1 =>
            match poke mem dst (escapedChar c1) with
            | none => Run.fault
            | some mem1 => parseLoop tags extensions fuel state numTokens mem1 (start + 2) (dst + 1) toks
        else
          match poke mem dst c with
          | none => Run.fault
          | some mem1 => parseLoop tags extensions fuel state numTokens mem1 (start + 1) (dst + 1) toks
      else if (toks.length : Int) < numTokens then
        if c = 92 then
          match mem.get? (start + 1) with
          | none => Run.fault
          | some c1 =>
            match poke mem start (escapedChar c1) with
            | none => Run.fault
            | some mem1 =>
              parseLoop tags extensions fuel state numTokens mem1 (start + 2) (start + 1)
                (toks ++ [sprintfToken.string start 0])
        else
          parseLoop tags extensions fuel state numTokens mem (start + 1) (start + 1)
            (toks ++ [sprintfToken.string start 0])
      else Run.fault

/-- The function parseFormat; the first argument bounds the number of steps. -/
def parseFormat (fuel : Nat) (tags : List headerTagTableEntry)
    (extensions : headerSprintfExtension) (mem : List Nat) (str : Nat) (state : Int) :
    Run ParseOut :=
  parseEnter (parseLoop tags extensions fuel) mem str state

/-! ## The format engine: rendering -/

/-- The digit that printf writes for a value below the base. -/
def digitChar (d : Nat) : Nat := if d < 10 then 48 + d else 87 + d

/-- The digits of n in a base, most significant first, in front of acc; the
first argument bounds the number of digits. -/
def digitsLoop (base : Nat) : Nat → Nat → List Nat → List Nat
  | 0, _, acc => acc
  | fuel + 1, n, acc =>
    if n < base then digitChar n :: acc
    else digitsLoop base fuel (n / base) (digitChar (n % base) :: acc)

/-- The digits that printf writes for an unsigned value of at most 64 bits. -/
def printNat (base n : Nat) : List Nat := digitsLoop base 64 n []

/-- A conversion specification of printf of the form %[flags][width]c with
flags among '-' and '0': whether '-' and '0' are given, the width and the
conversion character. -/
structure ConvSpec where
  minus : Bool
  zero : Bool
  width : Nat
  conv : Nat
  deriving DecidableEq, Repr

/-- Reading of a conversion specification; none for one of another form,
which is not modelled. -/
def convSpec : List Nat → Option ConvSpec
  | 37 :: rest =>
    match (rest.drop (rest.takeWhile (fun b => b = 45 || b = 48)).length).drop
        ((rest.drop (rest.takeWhile (fun b => b = 45 || b = 48)).length).takeWhile
          (fun b => xisdigit b)).length with
    | [conv] =>
      some
        { minus := (rest.takeWhile (fun b => b = 45 || b = 48)).contains 45,
          zero := (rest.takeWhile (fun b => b = 45 || b = 48)).contains 48,
          width := ((rest.drop (rest.takeWhile (fun b => b = 45 || b = 48)).length).takeWhile
            (fun b => xisdigit b)).foldl (fun acc d => acc * 10 + (d - 48)) 0,
          conv := conv }
    | _ => none
  | _ => none

/-- The output of sprintf for one string argument; none for a specification
that is not modelled. -/
def sprintfStr (buf : List Nat) (s : List Nat) : Option (List Nat) :=
  match convSpec buf with
  | some spec =>
    if spec.conv = 115 ∧ spec.zero = false then
      if spec.minus then some (s ++ List.replicate (spec.width - s.length) 32)
      else some (List.replicate (spec.width - s.length) 32 ++ s)
    else none
  | none => none

/-- The output of sprintf for one argument of 32 bits given by its bit
pattern v: signed decimal for d, unsigned octal for o and unsigned hexadecimal
for x; none for a specification that is not modelled. -/
def sprintfInt (buf : List Nat) (v : Nat) : Option (List Nat) :=
  match convSpec buf with
  | some spec =>
    if spec.conv = 100 ∨ spec.conv = 111 ∨ spec.conv = 120 then
      let sign : List Nat := if spec.conv = 100 ∧ 2147483648 ≤ v % 4294967296 then [45] else []
      let body : List Nat :=
        if spec.conv = 100 then
          printNat 10 (if 2147483648 ≤ v % 4294967296 then 4294967296 - v % 4294967296
            else v % 4294967296)
        else if spec.conv = 111 then printNat 8 (v % 4294967296)
        else printNat 16 (v % 4294967296)
      if spec.minus then
        some (sign ++ body ++ List.replicate (spec.width - (sign.length + body.length)) 32)
      else if spec.zero then
        some (sign ++ List.replicate (spec.width - (sign.length + body.length)) 48 ++ body)
      else some (List.replicate (spec.width - (sign.length + body.length)) 32 ++ sign ++ body)
    else none
  | none => none

/-- A call sprintf(val, buf, arg) into a block val of len bytes obtained from
xmalloc(len): xmalloc of a negative int fails, an output that does not fit
the block is written behind its end; a specification that is not modelled is
reported as a fault. -/
def sprintfInto (len : Int) (out : Option (List Nat)) : Run (List Nat) :=
  if len < 0 then Run.exit
  else
    match out with
    | none => Run.fault
    | some s => if (s.length : Int) + 1 ≤ len then Run.ok s else Run.fault

/-- The string "(not a number)". -/
def notANumber : List Nat := [40, 110, 111, 116, 32, 97, 32, 110, 117, 109, 98, 101, 114, 41]

/-- The string "(none)". -/
def noneString : List Nat := [40, 110, 111, 110, 101, 41]

/-- The string "(unknown type)". -/
def unknownType : List Nat := [40, 117, 110, 107, 110, 111, 119, 110, 32, 116, 121, 112, 101, 41]

/-- The functions octalFormat (conv 'o'), hexFormat (conv 'x'): formatPrefix
is the array buf of formatValue, of 20 bytes. -/
def intFormat (conv : Nat) : headerTagFormatFunction :=
  fun type data formatPrefix padding _ =>
    if type ≠ RPM_INT32_TYPE then Run.ok (some notANumber)
    else if 20 < formatPrefix.length + 2 then Run.fault
    else
      match data with
      | FmtArg.int v =>
        (sprintfInto (wrap32 (20 + padding)) (sprintfInt (formatPrefix ++ [conv]) v)).bind
          (fun s => Run.ok (some s))
      | FmtArg.str _ => Run.fault

/-- The function octalFormat. -/
def octalFormat : headerTagFormatFunction := intFormat 111

/-- The function hexFormat. -/
def hexFormat : headerTagFormatFunction := intFormat 120

/-- The function realDateFormat; strftime gives the text that localtime and
strftime make of a time for a format (empty when localtime fails), cut to the
49 bytes of buf. -/
def realDateFormat (strftime : List Nat → Int → List Nat) (strftimeFormat : List Nat) :
    headerTagFormatFunction :=
  fun type data formatPrefix padding _ =>
    if type ≠ RPM_INT32_TYPE then Run.ok (some notANumber)
    else if 20 < formatPrefix.length + 2 then Run.fault
    else
      match data with
      | FmtArg.int v =>
        (sprintfInto (wrap32 (50 + padding))
          (sprintfStr (formatPrefix ++ [115])
            ((strftime strftimeFormat (toInt32 v)).take 49))).bind
          (fun s => Run.ok (some s))
      | FmtArg.str _ => Run.fault

/-- The function dateFormat (strftime format "%c"). -/
def dateFormat (strftime : List Nat → Int → List Nat) : headerTagFormatFunction :=
  realDateFormat strftime [37, 99]

/-- The function dayFormat (strftime format "%a %b %d %Y"). -/
def dayFormat (strftime : List Nat → Int → List Nat) : headerTagFormatFunction :=
  realDateFormat strftime [37, 97, 32, 37, 98, 32, 37, 100, 32, 37, 89]

/-- The loop of shescapeFormat that copies buf and writes '\'' for each quote. -/
def shescapeBody : List Nat → List Nat
  | [] => []
  | b :: rest => if b = 39 then 39 :: 92 :: 39 :: 39 :: shescapeBody rest else b :: shescapeBody rest

/-- The function shescapeFormat. -/
def shescapeFormat : headerTagFormatFunction :=
  fun type data formatPrefix padding _ =>
    if 20 < formatPrefix.length + 2 then Run.fault
    else
      match data with
      | FmtArg.int v =>
        if type = RPM_INT32_TYPE then
          (sprintfInto (wrap32 (padding + 20)) (sprintfInt (formatPrefix ++ [100]) v)).bind
            (fun s => Run.ok (some s))
        else Run.fault
      | FmtArg.str s =>
        if type = RPM_INT32_TYPE then Run.fault
        else
          (sprintfInto (wrap32 ((s.length : Int) + padding + 2))
            (sprintfStr (formatPrefix ++ [115]) s)).bind
            (fun b => Run.ok (some ([39] ++ shescapeBody b ++ [39])))

/-- The table headerDefaultFormats: octal, hex, date, day and shescape. -/
def headerDefaultFormats (strftime : List Nat → Int → List Nat) : headerSprintfExtension :=
  headerSprintfExtension.format (some [111, 99, 116, 97, 108]) octalFormat
    (headerSprintfExtension.format (some [104, 101, 120]) hexFormat
      (headerSprintfExtension.format (some [100, 97, 116, 101]) (dateFormat strftime)
        (headerSprintfExtension.format (some [100, 97, 121]) (dayFormat strftime)
          (headerSprintfExtension.format (some [115, 104, 101, 115, 99, 97, 112, 101])
            shescapeFormat headerSprintfExtension.last))))

/-- The header and the extension cache (for each entry of the extensions the
value stored when avail is set) during a call of headerSprintf. The field
calls is no variable of the C code: it records, in the order in which they
are made, the calls of extension tag functions by getExtension, each as the
number of the cache entry and whether the function returned 0. -/
structure RenderState where
  h : Header
  cache : List (Option ExtValue)
  calls : List (Nat × Bool)

/-- The function allocateExtensionCache: the number of cache entries. -/
def extensionCount : headerSprintfExtension → Nat
  | headerSprintfExtension.last => 0
  | headerSprintfExtension.format _ _ next => extensionCount next + 1
  | headerSprintfExtension.tag _ _ next => extensionCount next + 1
  | headerSprintfExtension.more link => extensionCount link + 1

/-- The function getExtension on the cache entry extCache + extNum: the value
it stores, none when it returns 1. -/
def getExtension (st : RenderState) (fn : headerTagTagFunction) (extNum : Option Nat) :
    Run (RenderState × Option ExtValue) :=
  match extNum with
  | none => Run.fault
  | some i =>
    match st.cache.get? i with
    | none => Run.fault
    | some (some v) => Run.ok (st, some v)
    | some none =>
      match fn st.h with
      | none => Run.ok ({ st with calls := st.calls ++ [(i, false)] }, none)
      | some v =>
        Run.ok ({ st with cache := st.cache.set i (some v), calls := st.calls ++ [(i, true)] },
          some v)

/-- The loop of formatValue that looks the format function of a name up. -/
def findFormat (name : List Nat) : headerSprintfExtension → Option headerTagFormatFunction
  | headerSprintfExtension.last => none
  | headerSprintfExtension.format n fn next =>
    if n = some name then some fn else findFormat name next
  | headerSprintfExtension.tag _ _ next => findFormat name next
  | headerSprintfExtension.more link => findFormat name link

/-- The read of element number element of an array of type CHAR, INT8, INT16
or INT32 into the unsigned int intVal: an int_8 is sign-extended, a uint_16
is not. -/
def readIntVal (le : Bool) (type : Int) (bs : List Nat) (element : Nat) : Option Nat :=
  if type = RPM_CHAR_TYPE ∨ type = RPM_INT8_TYPE then
    (bs.get? element).map (fun b => if b < 128 then b else b + 4294967040)
  else if type = RPM_INT16_TYPE then
    (readBytes bs ((2 * element : Nat) : Int) 2).map (hostVal le)
  else (readBytes bs ((4 * element : Nat) : Int) 4).map (hostVal le)

/-- The function formatValue; mem is the copy of the template, which holds
the strings tag->format and tag->type. The array buf has 20 bytes. -/
def formatValue (le : Bool) (env : LocaleEnv) (extensions : headerSprintfExtension)
    (mem : List Nat) (st : RenderState) (tag : sprintfTag) (element : Nat) :
    Run (RenderState × List Nat) := do
  let (st1, found) ←
    match tag.ext with
    | some fn => getExtension st fn tag.extNum
    | none =>
      match headerGetEntry le env st.h tag.tag with
      | Res.ok (h1, out) =>
        if out.rc = 0 then Run.ok (({ st with h := h1 } : RenderState), (none : Option ExtValue))
        else
          match out.type with
          | some ty => Run.ok ({ st with h := h1 }, some (ExtValue.mk ty out.p out.c))
          | none => Run.fault
      | Res.exit => Run.exit
      | Res.fault => Run.fault
  let v0 : ExtValue := found.getD (ExtValue.mk RPM_STRING_TYPE (some (Value.str noneString)) 1)
  let v : ExtValue :=
    if tag.arrayCount then
      ExtValue.mk RPM_INT32_TYPE
        (some (Value.bytes (hswap le (putBE32 v0.count)))) 1
    else v0
  let format ← Run.ofOption (strAt mem tag.format)
  if 20 < format.length + 2 then Run.fault
  else do
    let buf : List Nat := 37 :: format
    let tagtype ←
      match tag.type with
      | none => Run.ok (none : Option headerTagFormatFunction)
      | some a => (Run.ofOption (strAt mem a)).bind (fun name => Run.ok (findFormat name extensions))
    if v.type = RPM_STRING_ARRAY_TYPE ∨ v.type = RPM_STRING_TYPE then do
      let s ←
        match v.data with
        | some (Value.strv ss) =>
          if v.type = RPM_STRING_ARRAY_TYPE then Run.ofOption (ss.get? element) else Run.fault
        | some (Value.str s) => if v.type = RPM_STRING_TYPE then Run.ok s else Run.fault
        | _ => Run.fault
      let val ←
        match tagtype with
        | some fn =>
          fn (if v.type = RPM_STRING_ARRAY_TYPE then RPM_STRING_TYPE else RPM_STRING_ARRAY_TYPE)
            (FmtArg.str s) buf tag.pad 0
        | none => Run.ok none
      match val with
      | some x => Run.ok (st1, x)
      | none =>
        if 20 < buf.length + 2 then Run.fault
        else
          (sprintfInto (wrap32 ((s.length : Int) + tag.pad + 20))
            (sprintfStr (buf ++ [115]) s)).bind (fun x => Run.ok (st1, x))
    else if v.type = RPM_CHAR_TYPE ∨ v.type = RPM_INT8_TYPE ∨ v.type = RPM_INT16_TYPE
        ∨ v.type = RPM_INT32_TYPE then do
      let intVal ←
        match v.data with
        | some (Value.bytes bs) => Run.ofOption (readIntVal le v.type bs element)
        | _ => Run.fault
      let val ←
        match tagtype with
        | some fn => fn RPM_INT32_TYPE (FmtArg.int intVal) buf tag.pad (element : Int)
        | none => Run.ok none
      match val with
      | some x => Run.ok (st1, x)
      | none =>
        if 20 < buf.length + 2 then Run.fault
        else
          (sprintfInto (wrap32 (10 + tag.pad + 20)) (sprintfInt (buf ++ [100]) intVal)).bind
            (fun x => Run.ok (st1, x))
    else Run.ok (st1, unknownType)

/-- The loops of singleSprintf and headerSprintf that render the tokens of an
array one after the other and append each piece to val; single is the call of
singleSprintf for one token. The block of val is enlarged before a piece that
does not fit it is appended. -/
def catTokens (single : RenderState → sprintfToken → Run (RenderState × List Nat)) :
    RenderState → List sprintfToken → List Nat → Run (RenderState × List Nat)
  | st, [], val => Run.ok (st, val)
  | st, t :: rest, val =>
    match single st t with
    | Run.ok (st1, item) => catTokens single st1 rest (val ++ item)
    | Run.error m => Run.error m
    | Run.exit => Run.exit
    | Run.fault => Run.fault
    | Run.unfinished => Run.unfinished

/-- The loop of the case PTOK_ARRAY of singleSprintf that looks for the
number of elements; numElements is the variable of that name, through which
headerGetEntry stores a count also when it returns 0. -/
def arrayElements (le : Bool) (env : LocaleEnv) :
    RenderState → List sprintfToken → Int → Run (RenderState × Int)
  | st, [], numElements => Run.ok (st, numElements)
  | st, sprintfToken.tag tg :: rest, numElements =>
    if tg.arrayCount = true ∨ tg.justOne = true then arrayElements le env st rest numElements
    else
      match tg.ext with
      | some fn =>
        match getExtension st fn tg.extNum with
        | Run.ok (st1, none) => arrayElements le env st1 rest numElements
        | Run.ok (st1, some v) => Run.ok (st1, v.count)
        | Run.error m => Run.error m
        | Run.exit => Run.exit
        | Run.fault => Run.fault
        | Run.unfinished => Run.unfinished
      | none =>
        match headerGetEntry le env st.h tg.tag with
        | Res.ok (h1, out) =>
          if out.rc = 0 then arrayElements le env { st with h := h1 } rest out.c
          else Run.ok ({ st with h := h1 }, out.c)
        | Res.exit => Run.exit
        | Res.fault => Run.fault
  | st, _ :: rest, numElements => arrayElements le env st rest numElements

/-- The loop over j of the case PTOK_ARRAY of singleSprintf; row renders the
tokens of the array for one j and appends them to val, n counts the turns
left. -/
def arrayRows (row : Nat → RenderState → List Nat → Run (RenderState × List Nat)) :
    Nat → Nat → RenderState → List Nat → Run (RenderState × List Nat)
  | 0, _, st, val => Run.ok (st, val)
  | n + 1, j, st, val =>
    match row j st val with
    | Run.ok (st1, val1) => arrayRows row n (j + 1) st1 val1
    | Run.error m => Run.error m
    | Run.exit => Run.exit
    | Run.fault => Run.fault
    | Run.unfinished => Run.unfinished

/-- The function singleSprintf; the first argument bounds the depth of the
nested calls. A token PTOK_NONE makes it return the uninitialised val. -/
def singleSprintf (le : Bool) (env : LocaleEnv) (extensions : headerSprintfExtension)
    (mem : List Nat) :
    Nat → RenderState → sprintfToken → Nat → Run (RenderState × List Nat)
  | 0, _, _, _ => Run.unfinished
  | fuel + 1, st, token, element =>
    match token with
    | sprintfToken.none => Run.fault
    | sprintfToken.string a len =>
      match strAt mem a with
      | none => Run.fault
      | some s => if s.length ≤ len then Run.ok (st, s) else Run.fault
    | sprintfToken.tag tg =>
      formatValue le env extensions mem st tg (if tg.justOne then 0 else element)
    | sprintfToken.cond ifFormat elseFormat tg =>
      if tg.ext.isSome = true then
        if wrap32 ((ifFormat.length : Int) * 20) < 0 then Run.exit
        else catTokens (fun s t => singleSprintf le env extensions mem fuel s t element) st
          ifFormat []
      else if (headerIsEntry st.h tg.tag).2 ≠ 0 then
        if wrap32 ((ifFormat.length : Int) * 20) < 0 then Run.exit
        else catTokens (fun s t => singleSprintf le env extensions mem fuel s t element)
          { st with h := (headerIsEntry st.h tg.tag).1 } ifFormat []
      else
        if wrap32 ((elseFormat.length : Int) * 20) < 0 then Run.exit
        else catTokens (fun s t => singleSprintf le env extensions mem fuel s t element)
          { st with h := (headerIsEntry st.h tg.tag).1 } elseFormat []
    | sprintfToken.array format =>
      match arrayElements le env st format (-1) with
      | Run.ok (st1, numElements) =>
        if numElements = -1 then Run.ok (st1, noneString)
        else if wrap32 (wrap32 (numElements * (format.length : Int)) * 20) < 0 then Run.exit
        else
          arrayRows
            (fun j s val =>
              catTokens (fun s1 t => singleSprintf le env extensions mem fuel s1 t j) s format val)
            numElements.toNat 0 st1 []
      | Run.error m => Run.error m
      | Run.exit => Run.exit
      | Run.fault => Run.fault
      | Run.unfinished => Run.unfinished

/-- The function headerSprintf: the string it returns, or the message it
stores through errmsg when it returns NULL. fmt holds the bytes of the
template from the pointer on. The header, which the lookups sort by tag on
demand, is threaded through the rendering. -/
def headerSprintf (le : Bool) (env : LocaleEnv) (h : Header) (fmt : List Nat)
    (tabletags : List headerTagTableEntry) (extensions : headerSprintfExtension) :
    Run (List Nat) :=
  match parseFormat (2 * (cstr fmt).length + 4) tabletags extensions (cstr fmt ++ [0]) 0
      PARSER_BEGIN with
  | Run.ok r =>
    match catTokens
        (fun st t => singleSprintf le env extensions r.mem ((cstr fmt).length + 2) st t 0)
        (RenderState.mk h (List.replicate (extensionCount extensions) none) []) r.format [] with
    | Run.ok (_, answer) => Run.ok answer
    | Run.error m => Run.error m
    | Run.exit => Run.exit
    | Run.fault => Run.fault
    | Run.unfinished => Run.unfinished
  | Run.error m => Run.error m
  | Run.exit => Run.exit
  | Run.fault => Run.fault
  | Run.unfinished => Run.unfinished

/-! ## Notions used in the statements about lookup and mutation -/

/-- The index of h is in ascending tag order whenever the sorted flag of h is
set, and every tag of h lies in the range 0 .. 2^31 - 1. -/
def SortInv (h : Header) : Prop :=
  (h.sorted = true → h.index.Pairwise tagLe)
    ∧ ∀ e ∈ h.index, 0 ≤ e.info.tag ∧ e.info.tag < 2147483648

instance (h : Header) : Decidable (SortInv h) := by unfold SortInv; infer_instance

/-- The entries of h that carry the tag. -/
def withTag (h : Header) (tag : Int) : List indexEntry :=
  h.index.filter (fun e => decide (e.info.tag = tag))

/-- The strings of a list laid end to end, each followed by its NUL. -/
def joinStrings : List (List Nat) → List Nat
  | [] => []
  | s :: rest => s ++ 0 :: joinStrings rest

/-- The sum of strlen + 1 over the strings of a list. -/
def stringSizes (ss : List (List Nat)) : Nat := (ss.map (fun s => s.length + 1)).sum

/-- The locales of a colon-separated request, left to right: its non-empty
pieces between colons. -/
def requestLocales : List Nat → List (List Nat)
  | [] => []
  | c :: rest =>
    if c = 58 then requestLocales rest
    else
      match rest with
      | [] => [[c]]
      | d :: _ =>
        if d = 58 then [c] :: requestLocales rest
        else
          match requestLocales rest with
          | [] => [[c]]
          | r :: rs => (c :: r) :: rs

/-- The entry string at the position of the first table locale that matches
the request locale r. -/
def firstMatch : List (List Nat) → List (List Nat) → List Nat → Option (List Nat)
  | t :: table, s :: strs, r =>
    if headerMatchLocale t r = 1 then some s else firstMatch table strs r
  | _, _, _ => none

/-- The string selected for a request: for the leftmost request locale that
some table locale matches, the entry string at the position of the first table
locale matching it; the first entry string when no request locale matches. -/
def selectString (table strs : List (List Nat)) (lang : List Nat) : List Nat :=
  match (requestLocales lang).findSome? (firstMatch table strs) with
  | some s => s
  | none => strs.headD []

/-- The octal numeral of n, most significant digit first. -/
def octalDigits (n : Nat) : List Nat :=
  if n = 0 then [48] else (Nat.digits 8 n).reverse.map (fun d => 48 + d)

/-- Whether the search of an array block for its number of elements looks at
a token: a tag reference in neither single-value nor count mode. -/
def countsElements : sprintfToken → Bool
  | sprintfToken.tag tg => !tg.arrayCount && !tg.justOne
  | _ => false

/-- The part of the case PTOK_COND of singleSprintf behind the choice of the
branch, as far as the string is concerned: the block of condNumFormats * 20
bytes from xmalloc, then the tokens of the branch rendered one after the
other. -/
def renderBranch (le : Bool) (env : LocaleEnv) (extensions : headerSprintfExtension)
    (mem : List Nat) (fuel : Nat) (st : RenderState) (toks : List sprintfToken)
    (element : Nat) : Run (List Nat) :=
  if wrap32 ((toks.length : Int) * 20) < 0 then Run.exit
  else
    match catTokens (fun s t => singleSprintf le env extensions mem fuel s t element) st toks []
    with
    | Run.ok (_, val) => Run.ok val
    | Run.error m => Run.error m
    | Run.exit => Run.exit
    | Run.fault => Run.fault
    | Run.unfinished => Run.unfinished

/-- The condition of a conditional for what findTag gives for its name: for a
tag of the table whether headerIsEntry finds the tag in h, true for a tag
extension, and for a name that findTag does not know whether headerIsEntry
finds the tag -1. -/
def conditionHolds (h : Header) :
    Option Int × Option (headerTagTagFunction × Option Nat) → Bool
  | (some val, _) => decide ((headerIsEntry h val).2 ≠ 0)
  | (none, some _) => true
  | (none, none) => decide ((headerIsEntry h (-1)).2 ≠ 0)

/-- No extension tag function is called again after it has returned 0: no
call of the list is preceded by a call of the same cache entry that
succeeded. -/
def CallsOnce (calls : List (Nat × Bool)) : Prop :=
  calls.Pairwise (fun a b => ¬ (a.2 = true ∧ a.1 = b.1))

instance (calls : List (Nat × Bool)) : Decidable (CallsOnce calls) := by
  unfold CallsOnce; infer_instance

/-- The calls of extension tag functions that a call of headerSprintf which
returns has made, in order: the calls recorded when the rendering ends, none
for a template that is rejected before the rendering starts. -/
def headerSprintfCalls (le : Bool) (env : LocaleEnv) (h : Header) (fmt : List Nat)
    (tabletags : List headerTagTableEntry) (extensions : headerSprintfExtension) :
    Option (List (Nat × Bool)) :=
  match parseFormat (2 * (cstr fmt).length + 4) tabletags extensions (cstr fmt ++ [0]) 0
      PARSER_BEGIN with
  | Run.ok r =>
    match catTokens
        (fun st t => singleSprintf le env extensions r.mem ((cstr fmt).length + 2) st t 0)
        (RenderState.mk h (List.replicate (extensionCount extensions) none) []) r.format [] with
    | Run.ok (st, _) => some st.calls
    | _ => none
  | Run.error _ => some []
  | _ => none

/-- The state of the cache agrees with the calls made: the calls obey
CallsOnce and the cache entry of every function that has returned 0 is set. -/
def CacheInv (st : RenderState) : Prop :=
  CallsOnce st.calls ∧ ∀ i, (i, true) ∈ st.calls → ∃ v, st.cache.get? i = some (some v)

/-- Every result of the run carries the state s. -/
def EndsIn (s : RenderState) (x : Run (RenderState × List Nat)) : Prop :=
  ∀ s2 o, x = Run.ok (s2, o) → s2 = s

/-! ## Concrete inputs -/

/-- Contents of freshly allocated blocks used in the concrete runs. -/
def junk0 : Nat → Nat := fun _ => 170

/-- Calls that add one entry of every type that dataLength supports. -/
def c1Reqs : List AddReq :=
  [ { tag := 1000, type := RPM_NULL_TYPE, p := hPTR.bytes [] 0, c := 1 },
    { tag := 1001, type := RPM_CHAR_TYPE, p := hPTR.bytes [65] 0, c := 1 },
    { tag := 1002, type := RPM_INT8_TYPE, p := hPTR.bytes [7] 0, c := 1 },
    { tag := 1003, type := RPM_INT16_TYPE, p := hPTR.bytes [1, 2] 0, c := 1 },
    { tag := 1004, type := RPM_INT32_TYPE, p := hPTR.bytes [1, 2, 3, 4] 0, c := 1 },
    { tag := 1005, type := RPM_STRING_TYPE, p := hPTR.bytes [97, 0] 0, c := 1 },
    { tag := 1006, type := RPM_BIN_TYPE, p := hPTR.bytes [9, 9] 0, c := 2 },
    { tag := 1007, type := RPM_STRING_ARRAY_TYPE, p := hPTR.strv [some [97, 0], some [98, 0]], c := 2 },
    { tag := 1008, type := RPM_I18NSTRING_TYPE, p := hPTR.strv [some [99, 0]], c := 1 } ]

/-- The header built by the calls c1Reqs. -/
def c1Header : Header := (addAll headerNew c1Reqs).getD headerNew

/-- A region-format block: region descriptor (61, bin, 16, offset 1), region
member (1000, int8, 1, offset 0), and two trailing dribble descriptors that
both carry tag 1000 (int8, offsets 17 and 18); data: the member byte, the
16-byte region trailer, the dribble bytes 5 and 6. -/
def c2Buf : List Nat :=
  [0, 0, 0, 4, 0, 0, 0, 19,
   0, 0, 0, 61, 0, 0, 0, 7, 0, 0, 0, 16, 0, 0, 0, 1,
   0, 0, 3, 232, 0, 0, 0, 2, 0, 0, 0, 1, 0, 0, 0, 0,
   0, 0, 3, 232, 0, 0, 0, 2, 0, 0, 0, 1, 0, 0, 0, 17,
   0, 0, 3, 232, 0, 0, 0, 2, 0, 0, 0, 1, 0, 0, 0, 18,
   1,
   0, 0, 0, 61, 0, 0, 0, 7, 255, 255, 255, 224, 0, 0, 0, 16,
   5, 6]

/-- The block c2Buf with a single trailing dribble descriptor (tag 1000, int8,
offset 17, data byte 5). -/
def c2OneDribble : List Nat :=
  [0, 0, 0, 3, 0, 0, 0, 18,
   0, 0, 0, 61, 0, 0, 0, 7, 0, 0, 0, 16, 0, 0, 0, 1,
   0, 0, 3, 232, 0, 0, 0, 2, 0, 0, 0, 1, 0, 0, 0, 0,
   0, 0, 3, 232, 0, 0, 0, 2, 0, 0, 0, 1, 0, 0, 0, 17,
   1,
   0, 0, 0, 61, 0, 0, 0, 7, 255, 255, 255, 224, 0, 0, 0, 16,
   5]

/-- The entry that regionSwab stores for the dribble descriptor of c2OneDribble. -/
def c2Dribble : indexEntry :=
  indexEntry.mk ⟨1000, RPM_INT8_TYPE, 1, -31⟩ (EntryData.blob 73) 1 0

/-- The region entries and the dribble entry that headerLoad materializes from
c2OneDribble. -/
def c2Parts : RegionParts :=
  RegionParts.mk
    [indexEntry.mk ⟨61, RPM_BIN_TYPE, 16, -32⟩ (EntryData.blob 8) 66 1,
     indexEntry.mk ⟨1000, RPM_INT8_TYPE, 1, -32⟩ (EntryData.blob 56) 1 0]
    (some [c2Dribble]) c2OneDribble

/-- One call of headerAddEntry in a concrete run (the header is kept when the
call fails). -/
def addOne (h : Header) (r : AddReq) : Header :=
  match headerAddEntry h r.tag r.type r.p r.c with
  | Res.ok (h1, _) => h1
  | _ => h

/-- A header with one int32 entry, reloaded. -/
def c3Step1 : Header :=
  (headerReload true junk0
    (addOne headerNew { tag := 1000, type := RPM_INT32_TYPE, p := hPTR.bytes [1, 2, 3, 4] 0, c := 1 })
    0).header

/-- Then an int8 entry with tag 3000 is added and the header reloaded. -/
def c3Step2 : Header :=
  (headerReload true junk0
    (addOne c3Step1 { tag := 3000, type := RPM_INT8_TYPE, p := hPTR.bytes [7] 0, c := 1 }) 0).header

/-- Then an int32 entry with tag 2000 and a binary entry with tag 4000 are added. -/
def c3Header : Header :=
  addOne (addOne c3Step2 { tag := 2000, type := RPM_INT32_TYPE, p := hPTR.bytes [5, 6, 7, 8] 0, c := 1 })
    { tag := 4000, type := RPM_BIN_TYPE, p := hPTR.bytes [1, 2, 3, 4, 5, 6, 7, 8, 9, 10] 0, c := 10 }

/-- A legacy block with two descriptors, (1000, int8, 1, offset 0) and
(1001, int32, 1, offset 1), and 8 data bytes. -/
def c4Buf : List Nat :=
  [0, 0, 0, 2, 0, 0, 0, 8,
   0, 0, 3, 232, 0, 0, 0, 2, 0, 0, 0, 1, 0, 0, 0, 0,
   0, 0, 3, 233, 0, 0, 0, 4, 0, 0, 0, 1, 0, 0, 0, 1,
   7, 1, 2, 3, 4, 0, 0, 0]

/-- A stream whose prefix declares il = 0x10000000 and dl = 0. -/
def c6Stream : List Nat := [16, 0, 0, 0, 0, 0, 0, 0]

/-- A block declaring il = 2 and dl = -1 whose first descriptor (tag 1000) has
type id 77, followed by a descriptor (1001, int8, 1, 0) short of its last byte:
the 39 bytes that headerRead hands to headerLoad for this prefix. -/
def c7Buf : List Nat :=
  [0, 0, 0, 2, 255, 255, 255, 255,
   0, 0, 3, 232, 0, 0, 0, 77, 0, 0, 0, 1, 0, 0, 0, 0,
   0, 0, 3, 233, 0, 0, 0, 2, 0, 0, 0, 1, 0, 0, 0]

/-- A region-format block that declares dl = 99: region descriptor
(61, bin, 16, offset 4), member (1000, int32, 1, offset 0), 4 data bytes and the
16-byte region trailer. -/
def c8Buf : List Nat :=
  [0, 0, 0, 2, 0, 0, 0, 99,
   0, 0, 0, 61, 0, 0, 0, 7, 0, 0, 0, 16, 0, 0, 0, 4,
   0, 0, 3, 232, 0, 0, 0, 4, 0, 0, 0, 1, 0, 0, 0, 0,
   1, 2, 3, 4,
   0, 0, 0, 61, 0, 0, 0, 7, 255, 255, 255, 224, 0, 0, 0, 16]

/-- A stream that starts 8e ad e8 01 00 00 00 01 and goes on with a header of
one int8 entry. -/
def c9Stream : List Nat :=
  [0x8e, 0xad, 0xe8, 0x01, 0, 0, 0, 1,
   0, 0, 0, 1, 0, 0, 0, 1,
   0, 0, 3, 232, 0, 0, 0, 2, 0, 0, 0, 1, 0, 0, 0, 0,
   7]

/-- A block whose first descriptor has tag 1000, not below the sentinel. -/
def c10Buf : List Nat :=
  [0, 0, 0, 1, 0, 0, 0, 1,
   0, 0, 3, 232, 0, 0, 0, 2, 0, 0, 0, 1, 0, 0, 0, 0,
   7]

/-- Calls that add the tags 2000, 1000 and 3000 in this order. -/
def c14Reqs : List AddReq :=
  [ { tag := 2000, type := RPM_INT8_TYPE, p := hPTR.bytes [1] 0, c := 1 },
    { tag := 1000, type := RPM_INT8_TYPE, p := hPTR.bytes [2] 0, c := 1 },
    { tag := 3000, type := RPM_INT8_TYPE, p := hPTR.bytes [3] 0, c := 1 } ]

/-- The header built by the calls c14Reqs; its sorted flag is clear. -/
def c14Header : Header := (addAll headerNew c14Reqs).getD headerNew

/-- A header with one string array entry (tag 1000, the string "a"). -/
def c16Header : Header :=
  addOne headerNew { tag := 1000, type := RPM_STRING_ARRAY_TYPE, p := hPTR.strv [some [97, 0]], c := 1 }

/-- A header with one i18n string entry (tag 1000, the strings "a" and "b"). -/
def c13Header : Header :=
  addOne headerNew
    { tag := 1000, type := RPM_I18NSTRING_TYPE, p := hPTR.strv [some [97, 0], some [98, 0]], c := 2 }

/-- An environment in which none of the four locale variables is set. -/
def envNone : LocaleEnv := { language := none, lcAll := none, lcMessages := none, lang := none }

/-- The locales C, en, en_GB and fr. -/
def c19Table : List (List Nat) := [[67], [101, 110], [101, 110, 95, 71, 66], [102, 114]]

/-- The strings "one", "two", "three" and "four", one for each locale of c19Table. -/
def c19Strings : List (List Nat) :=
  [[111, 110, 101], [116, 119, 111], [116, 104, 114, 101, 101], [102, 111, 117, 114]]

/-- A header with the i18n string entry 1000 (the strings c19Strings) and the
i18n table (the locales c19Table). -/
def c19Header : Header :=
  addOne
    (addOne headerNew
      { tag := 1000, type := RPM_I18NSTRING_TYPE,
        p := hPTR.strv (c19Strings.map (fun s => some (s ++ [0]))), c := 4 })
    { tag := HEADER_I18NTABLE, type := RPM_STRING_ARRAY_TYPE,
      p := hPTR.strv (c19Table.map (fun s => some (s ++ [0]))), c := 4 }

/-- The entry 1000 of c19Header. -/
def c19Entry : indexEntry :=
  indexEntry.mk ⟨1000, RPM_I18NSTRING_TYPE, 4, 0⟩ (EntryData.owned (joinStrings c19Strings)) 19 0

/-- The i18n table entry of c19Header. -/
def c19TableEntry : indexEntry :=
  indexEntry.mk ⟨HEADER_I18NTABLE, RPM_STRING_ARRAY_TYPE, 4, 0⟩
    (EntryData.owned (joinStrings c19Table)) 14 0

/-- An environment in which only LANG is set. -/
def envLang (s : List Nat) : LocaleEnv :=
  { language := none, lcAll := none, lcMessages := none, lang := some s }

/-- Calls that add three entries of tag 1000, of the types int8, int16 and
int32. -/
def c17Reqs : List AddReq :=
  [ { tag := 1000, type := RPM_INT8_TYPE, p := hPTR.bytes [1] 0, c := 1 },
    { tag := 1000, type := RPM_INT16_TYPE, p := hPTR.bytes [2, 3] 0, c := 1 },
    { tag := 1000, type := RPM_INT32_TYPE, p := hPTR.bytes [4, 5, 6, 7] 0, c := 1 } ]

/-- The header built by the calls c17Reqs. -/
def c17Header : Header := (addAll headerNew c17Reqs).getD headerNew

/-- A header with one entry of the region tag 62 and the binary type. -/
def c11Header : Header :=
  addOne headerNew { tag := 62, type := RPM_BIN_TYPE, p := hPTR.bytes [1, 2, 3, 4] 0, c := 4 }

/-- Calls that add a locale table with the one locale "C" and an i18n string
entry of tag 1000 with the two strings "a" and "b". -/
def c11Reqs : List AddReq :=
  [ { tag := HEADER_I18NTABLE, type := RPM_STRING_ARRAY_TYPE, p := hPTR.strv [some [67, 0]], c := 1 },
    { tag := 1000, type := RPM_I18NSTRING_TYPE, p := hPTR.strv [some [97, 0], some [98, 0]],
      c := 2 } ]

/-- The header built by the calls c11Reqs. -/
def c11I18NHeader : Header := (addAll headerNew c11Reqs).getD headerNew

/-- Calls that add the tags 2000000000, -2000000000 and 200 in this order. -/
def c12Reqs : List AddReq :=
  [ { tag := 2000000000, type := RPM_INT8_TYPE, p := hPTR.bytes [1] 0, c := 1 },
    { tag := -2000000000, type := RPM_INT8_TYPE, p := hPTR.bytes [2] 0, c := 1 },
    { tag := 200, type := RPM_INT8_TYPE, p := hPTR.bytes [3] 0, c := 1 } ]

/-- The header built by the calls c12Reqs. -/
def c12Header : Header := (addAll headerNew c12Reqs).getD headerNew

/-- Calls that add, in this order, the tag 2000, an i18n string entry of tag
1000 with the strings "a" and "b", and a locale table with the locales "C"
and "de". -/
def c11GoodReqs : List AddReq :=
  [ { tag := 2000, type := RPM_INT8_TYPE, p := hPTR.bytes [1] 0, c := 1 },
    { tag := 1000, type := RPM_I18NSTRING_TYPE, p := hPTR.strv [some [97, 0], some [98, 0]],
      c := 2 },
    { tag := HEADER_I18NTABLE, type := RPM_STRING_ARRAY_TYPE,
      p := hPTR.strv [some [67, 0], some [100, 101, 0]], c := 2 } ]

/-- The header built by the calls c11GoodReqs. -/
def c11GoodHeader : Header := (addAll headerNew c11GoodReqs).getD headerNew

/-- Calls that add the tags 2000000000, -2000000000, 200 and 1500000000 in
this order. -/
def c12MissReqs : List AddReq :=
  c12Reqs ++ [{ tag := 1500000000, type := RPM_INT8_TYPE, p := hPTR.bytes [4] 0, c := 1 }]

/-- The header built by the calls c12MissReqs. -/
def c12MissHeader : Header := (addAll headerNew c12MissReqs).getD headerNew

/-- The header after headerAddI18NString(h, 1000, "a", "C") on a new header:
the locale table "C" and the entry 1000 with the one string "a". -/
def c22HeaderA : Header :=
  ((headerAddI18NString junk0 headerNew 1000 [97, 0] (some [67, 0])).toOption.map Prod.fst).getD
    headerNew

/-- The header c22HeaderA after headerAddI18NString(h, 2000, "b", "fr"): the
locale table "C", "fr", the entry 1000 with the one string "a" and the entry
2000 with the strings "" and "b". -/
def c22Header : Header :=
  ((headerAddI18NString junk0 c22HeaderA 2000 [98, 0] (some [102, 114, 0])).toOption.map
    Prod.fst).getD headerNew

/-- The tag table with the one entry of name "RPMTAG_NAME" and value val. -/
def nameTable (val : Int) : List headerTagTableEntry :=
  [{ name := [82, 80, 77, 84, 65, 71, 95, 78, 65, 77, 69], val := val }]

/-- The template "%{NAME:octal}". -/
def octalTemplate : List Nat := [37, 123, 78, 65, 77, 69, 58, 111, 99, 116, 97, 108, 125]

/-- The template "[%{NAME} ]". -/
def arrayTemplate : List Nat := [91, 37, 123, 78, 65, 77, 69, 125, 32, 93]

/-- The template "[%{NAME}]". -/
def bareArrayTemplate : List Nat := [91, 37, 123, 78, 65, 77, 69, 125, 93]

/-- The template "[%|NAME?{%{NAME} }:{x}|]". -/
def nestedTemplate : List Nat :=
  [91, 37, 124, 78, 65, 77, 69, 63, 123, 37, 123, 78, 65, 77, 69, 125, 32, 125, 58, 123, 120,
    125, 124, 93]

/-- The template "%|FOO?{yes}:{no}|". -/
def condTemplate : List Nat :=
  [37, 124, 70, 79, 79, 63, 123, 121, 101, 115, 125, 58, 123, 110, 111, 125, 124]

/-- An extension table with the one tag extension "RPMTAG_FOO", whose function
returns 1 for every header: it provides no value. -/
def fooExtensions : headerSprintfExtension :=
  headerSprintfExtension.tag (some [82, 80, 77, 84, 65, 71, 95, 70, 79, 79]) (fun _ => none)
    headerSprintfExtension.last

/-- A header with one string array entry (tag 1000, the strings "a", "bb" and
"ccc"). -/
def c27Header : Header :=
  addOne headerNew
    { tag := 1000, type := RPM_STRING_ARRAY_TYPE,
      p := hPTR.strv [some [97, 0], some [98, 98, 0], some [99, 99, 99, 0]], c := 3 }

/-- The entry of c27Header. -/
def c27Entry : indexEntry :=
  { info := { tag := 1000, type := RPM_STRING_ARRAY_TYPE, count := 3, offset := 0 },
    data := EntryData.owned [97, 0, 98, 98, 0, 99, 99, 99, 0], length := 9, rdlen := 0 }

/-- A header of a little-endian host with one int32 entry (tag 1000, the
value 8). -/
def c25Header : Header :=
  addOne headerNew { tag := 1000, type := RPM_INT32_TYPE, p := hPTR.bytes [8, 0, 0, 0] 0, c := 1 }

/-- The entry of c25Header. -/
def c25Entry : indexEntry :=
  { info := { tag := 1000, type := RPM_INT32_TYPE, count := 1, offset := 0 },
    data := EntryData.owned [8, 0, 0, 0], length := 4, rdlen := 0 }

/-- The tag of a reference "%{NAME}" to the tag 1000 whose empty format
string lies at address 0 of a block that starts with a NUL. -/
def c28Tag : sprintfTag :=
  { ext := none, extNum := none, tag := 1000, justOne := false, arrayCount := false,
    format := 0, type := none, pad := 0 }

/-- The tokens of an array block that holds a conditional on the tag 1000,
with a reference to that tag in its if-branch, in front of a reference to the
tag 1000. -/
def c28Tokens : List sprintfToken :=
  [sprintfToken.cond [sprintfToken.tag c28Tag] [] c28Tag, sprintfToken.tag c28Tag]

/-- The template "a%{FOO}c". -/
def unknownTemplate : List Nat := [97, 37, 123, 70, 79, 79, 125, 99]

/-- The template "a%{NAME}b". -/
def placeholderTemplate : List Nat := [97, 37, 123, 78, 65, 77, 69, 125, 98]

/-- The template "a]b". -/
def strayBracketTemplate : List Nat := [97, 93, 98]

/-- The template "a}b". -/
def strayBraceTemplate : List Nat := [97, 125, 98]

/-- The template "[%{NAME}", an array block that is not closed. -/
def openArrayTemplate : List Nat := [91, 37, 123, 78, 65, 77, 69, 125]

/-- The template "%|NAME?{abc", a conditional whose branch is not closed. -/
def openBranchTemplate : List Nat := [37, 124, 78, 65, 77, 69, 63, 123, 97, 98, 99]

/-- The template "%|NAME?{a}:{b", a conditional whose second branch is not
closed. -/
def openElseTemplate : List Nat :=
  [37, 124, 78, 65, 77, 69, 63, 123, 97, 125, 58, 123, 98]

/-- The template "%{FOO}%{FOO}". -/
def fooTwiceTemplate : List Nat := [37, 123, 70, 79, 79, 125, 37, 123, 70, 79, 79, 125]

/-- The template "a[b]". -/
def overrunTemplate : List Nat := [97, 91, 98, 93]

/-- A header with one int32 entry of tag 1000, reloaded. -/
def c34Step1 : Header :=
  (headerReload true junk0
    (addOne headerNew { tag := 1000, type := RPM_INT32_TYPE, p := hPTR.bytes [1, 2, 3, 4] 0, c := 1 })
    0).header

/-- Then an int8 entry with tag 700 is added and the header reloaded. -/
def c34Step2 : Header :=
  (headerReload true junk0
    (addOne c34Step1 { tag := 700, type := RPM_INT8_TYPE, p := hPTR.bytes [7] 0, c := 1 }) 0).header

/-- Then an int32 entry with tag 600 and a binary entry with tag 800 are
added and the header is reloaded once more. -/
def c34Header : Header :=
  (headerReload true junk0
    (addOne
      (addOne c34Step2
        { tag := 600, type := RPM_INT32_TYPE, p := hPTR.bytes [5, 6, 7, 8] 0, c := 1 })
      { tag := 800, type := RPM_BIN_TYPE, p := hPTR.bytes [1, 2, 3, 4, 5, 6, 7, 8, 9, 10] 0,
        c := 10 }) 0).header

/-- An extension table with the one tag extension "RPMTAG_FOO", whose function
stores the string "x" for every header. -/
def fooValueExtensions : headerSprintfExtension :=
  headerSprintfExtension.tag (some [82, 80, 77, 84, 65, 71, 95, 70, 79, 79])
    (fun _ => some (ExtValue.mk RPM_STRING_TYPE (some (Value.str [120])) 1))
    headerSprintfExtension.last

/-- Calls that add one entry of every type that dataLength supports, the null
type left out: the calls c1Reqs without the first. -/
def c37Reqs : List AddReq := c1Reqs.drop 1

/-- The header built by the calls c37Reqs. -/
def c37Header : Header := (addAll headerNew c37Reqs).getD headerNew

/-! ## Basic facts about the index operations -/

theorem firstTag_eq {uh : List Nat} {tag0 : Nat} (h : firstTag uh = some tag0) :
    ∃ mem, fixVerifyScript uh 8 = some mem ∧ getU32 mem 8 = some tag0 := by
  unfold firstTag at h
  cases hf : fixVerifyScript uh 8 with
  | none => simp [hf] at h
  | some mem => exact ⟨mem, rfl, by simpa [hf] using h⟩

theorem qsort_perm (cmp : indexEntry → indexEntry → Int) (l : List indexEntry) :
    (qsort cmp l).Perm l := List.perm_insertionSort _ l

theorem qsort_length (cmp : indexEntry → indexEntry → Int) (l : List indexEntry) :
    (qsort cmp l).length = l.length := (qsort_perm cmp l).length_eq

theorem mem_qsort {cmp : indexEntry → indexEntry → Int} {l : List indexEntry} {e : indexEntry} :
    e ∈ qsort cmp l ↔ e ∈ l := (qsort_perm cmp l).mem_iff

theorem headerSort_legacy (h : Header) : (headerSort h).legacy = h.legacy := by
  unfold headerSort; split <;> rfl

theorem headerRemoveEntry_legacy (h : Header) (tag : Int) :
    (headerRemoveEntry h tag).1.legacy = h.legacy := by
  unfold headerRemoveEntry findEntry
  simp only
  cases bsearch tag (headerSort h).index <;> simp [headerSort_legacy, RPM_NULL_TYPE]

theorem removeDuplicates_legacy (dr : List indexEntry) (h : Header) :
    (removeDuplicates h dr).legacy = h.legacy := by
  induction dr generalizing h with
  | nil => rfl
  | cons d rest ih =>
    simp only [removeDuplicates]
    rw [ih]
    split <;> simp [headerRemoveEntry_legacy]

theorem loadRegion_legacy {le : Bool} {mem : List Nat} {il pvlen : Int} {tag0 : Nat} {h : Header}
    (hl : loadRegion le mem il pvlen tag0 = Res.ok (some h)) : h.legacy = false := by
  unfold loadRegion at hl
  cases hp : loadRegionParts le mem il pvlen tag0 with
  | ok o =>
    rw [hp] at hl
    cases o with
    | none => simp at hl
    | some parts =>
      simp only at hl
      cases hd : parts.dribbles with
      | none =>
        rw [hd] at hl
        simp only [Res.ok.injEq, Option.some.injEq] at hl
        rw [← hl]
      | some dr =>
        rw [hd] at hl
        simp only [Res.ok.injEq, Option.some.injEq] at hl
        rw [← hl]
        simp [removeDuplicates_legacy]
  | exit => rw [hp] at hl; simp at hl
  | fault => rw [hp] at hl; simp at hl

theorem indexSlots_length (il : Int) (e0 : indexEntry) (out : List indexEntry) (h : 0 ≤ il) :
    (indexSlots il e0 out).length = il.toNat + 1 := by
  unfold indexSlots
  have : (il + 1).toNat = il.toNat + 1 := by omega
  simp only [List.length_take, List.length_cons, List.length_append, List.length_replicate, this]
  omega

theorem mem_indexSlots (il : Int) (e0 : indexEntry) (out : List indexEntry) (h : 0 ≤ il) :
    e0 ∈ indexSlots il e0 out := by
  unfold indexSlots
  have : (il + 1).toNat = il.toNat + 1 := by omega
  rw [this, List.take_succ_cons]
  exact List.mem_cons_self _ _

/-! ## Machine integers -/

theorem toInt32_of_lt {n : Nat} (h : n < 2147483648) : toInt32 n = (n : Int) := by
  unfold toInt32
  have : n % 4294967296 = n := Nat.mod_eq_of_lt (by omega)
  simp [this, h]

theorem wrap32_eq {x : Int} (h : isInt32 x) : wrap32 x = x := by
  unfold isInt32 at h
  unfold wrap32 toInt32
  split <;> omega

theorem isInt32_of_bounds {x : Int} (h1 : 0 ≤ x) (h2 : x < 2147483648) : isInt32 x :=
  ⟨by omega, h2⟩

theorem beVal_putBE32 (x : Int) : beVal (putBE32 x) = (x % 4294967296).toNat := by
  unfold putBE32 beVal
  simp only
  omega

theorem toInt32_beVal_putBE32 {x : Int} (h : isInt32 x) : toInt32 (beVal (putBE32 x)) = x := by
  rw [beVal_putBE32]
  exact wrap32_eq h

theorem putBE32_length (x : Int) : (putBE32 x).length = 4 := rfl

/-! ## Byte memory -/

theorem readBytes_mid (P M S : List Nat) (a : Int) (n : Nat) (ha : a = (P.length : Int))
    (hn : n = M.length) : readBytes (P ++ M ++ S) a n = some M := by
  subst ha hn
  unfold readBytes
  have h1 : (0 : Int) ≤ (P.length : Int) ∧ ((P.length : Int)).toNat + M.length ≤ (P ++ M ++ S).length := by
    simp only [List.length_append, Int.toNat_ofNat]
    omega
  rw [if_pos h1]
  simp [List.append_assoc]

theorem writeBytes_junk (P J S bs : List Nat) (a : Int) (ha : a = (P.length : Int))
    (hl : bs.length ≤ J.length) :
    writeBytes (P ++ J ++ S) a bs = some (P ++ bs ++ J.drop bs.length ++ S) := by
  subst ha
  unfold writeBytes
  have h1 : (0 : Int) ≤ (P.length : Int) ∧ ((P.length : Int)).toNat + bs.length ≤ (P ++ J ++ S).length := by
    simp only [List.length_append, Int.toNat_ofNat]
    omega
  rw [if_pos h1]
  simp only [Int.toNat_ofNat, Option.some.injEq, List.append_assoc]
  rw [List.take_left']
  · congr 2
    rw [List.drop_append_eq_append_drop, List.drop_eq_nil_of_le (by omega)]
    simp only [List.nil_append]
    have : P.length + bs.length - P.length = bs.length := by omega
    rw [this, List.drop_append_eq_append_drop]
    have h2 : bs.length - J.length = 0 := by omega
    rw [h2]
    rfl
  · rfl

theorem writeBytes_mid (P M S bs : List Nat) (a : Int) (ha : a = (P.length : Int))
    (hl : bs.length = M.length) :
    writeBytes (P ++ M ++ S) a bs = some (P ++ bs ++ S) := by
  rw [writeBytes_junk P M S bs a ha (by omega), hl, List.drop_length]
  simp

theorem getU32_mid (P S : List Nat) (x : Int) (a : Int) (ha : a = (P.length : Int)) :
    getU32 (P ++ putBE32 x ++ S) a = some (x % 4294967296).toNat := by
  unfold getU32
  rw [readBytes_mid P (putBE32 x) S a 4 ha rfl]
  simp [beVal_putBE32]

theorem getS32_mid (P S : List Nat) (x : Int) (a : Int) (ha : a = (P.length : Int))
    (hx : isInt32 x) : getS32 (P ++ putBE32 x ++ S) a = some x := by
  unfold getS32
  rw [getU32_mid P S x a ha]
  simp only [Option.map_some', Option.some.injEq]
  exact wrap32_eq hx

/-! ## Alignment -/

theorem padTo_nonneg {w off : Int} (hw : 0 < w) : 0 ≤ padTo w off :=
  Int.emod_nonneg _ (by omega)

theorem padTo_lt {w off : Int} (hw : 0 < w) : padTo w off < w :=
  Int.emod_lt_of_pos _ hw

theorem typeWidth_pos (type : Int) : 0 < typeWidth type := by
  unfold typeWidth; split
  · omega
  · split <;> omega

theorem typeWidth_le (type : Int) : typeWidth type ≤ 4 := by
  unfold typeWidth; split
  · omega
  · split <;> omega

theorem padTo_typeWidth_nonneg (type off : Int) : 0 ≤ padTo (typeWidth type) off :=
  padTo_nonneg (typeWidth_pos type)

theorem padTo_typeWidth_lt (type off : Int) : padTo (typeWidth type) off < 4 := by
  have := @padTo_lt (typeWidth type) off (typeWidth_pos type)
  have := typeWidth_le type
  omega

theorem padTo_aligned (w off : Int) : (off + padTo w off) % w = 0 := by
  unfold padTo
  rw [Int.add_emod, Int.emod_emod_of_dvd _ (dvd_refl w), ← Int.add_emod]
  have : off + (w - off % w) = w + (off - off % w) := by ring
  rw [this, Int.add_emod, Int.emod_self, zero_add, Int.emod_emod_of_dvd _ (dvd_refl w)]
  have h2 : off - off % w = w * (off / w) := by
    have := Int.emod_add_ediv off w
    omega
  rw [h2]
  exact Int.mul_emod_right w (off / w)

/-- The types that dataLength supports. -/
theorem typeSizesAt_cases {type sz : Int} (h : typeSizesAt type = some sz) :
    (type = 0 ∧ sz = 0) ∨ (type = 1 ∧ sz = 1) ∨ (type = 2 ∧ sz = 1) ∨ (type = 3 ∧ sz = 2)
      ∨ (type = 4 ∧ sz = 4) ∨ (type = 5 ∧ sz = -1) ∨ (type = 6 ∧ sz = -1) ∨ (type = 7 ∧ sz = 1)
      ∨ (type = 8 ∧ sz = -1) ∨ (type = 9 ∧ sz = -1) := by
  unfold typeSizesAt at h
  split at h
  · rename_i h0
    obtain ⟨n, rfl⟩ := Int.eq_ofNat_of_zero_le h0
    simp only [Int.toNat_ofNat, typeSizes] at h
    match n, h with
    | 0, h => simp at h; omega
    | 1, h => simp at h; omega
    | 2, h => simp at h; omega
    | 3, h => simp at h; omega
    | 4, h => simp at h; omega
    | 5, h => simp at h; omega
    | 6, h => simp at h; omega
    | 7, h => simp at h; omega
    | 8, h => simp at h; omega
    | 9, h => simp at h; omega
    | n + 10, h => simp at h
  · simp at h

theorem alignDiff_eq {type : Int} (h0 : 0 ≤ type) (h9 : type ≤ 9) {off : Int} (hoff : 0 ≤ off) :
    alignDiff type off = some (padTo (typeWidth type) off) := by
  have hcases : type = 0 ∨ type = 1 ∨ type = 2 ∨ type = 3 ∨ type = 4 ∨ type = 5 ∨ type = 6
      ∨ type = 7 ∨ type = 8 ∨ type = 9 := by omega
  have htm : ∀ w : Int, 0 < w → Int.tmod off w = off % w := by
    intro w hw
    rw [Int.tmod_eq_emod hoff (Int.le_of_lt hw)]
  rcases hcases with h | h | h | h | h | h | h | h | h | h <;> subst h <;>
    simp [alignDiff, typeSizesAt, typeSizes, typeWidth, padTo, RPM_INT16_TYPE, RPM_INT32_TYPE, htm] <;>
    omega

/-! ## Endian conversion -/

theorem hswap_length (le : Bool) (bs : List Nat) : (hswap le bs).length = bs.length := by
  unfold hswap; split <;> simp

theorem hswap_hswap (le : Bool) (bs : List Nat) : hswap le (hswap le bs) = bs := by
  unfold hswap; cases le <;> simp

theorem swabAll_length (le : Bool) (w : Nat) :
    ∀ (n : Nat) (bs : List Nat), n * w ≤ bs.length → (swabAll le w n bs).length = n * w
  | 0, _, _ => by simp [swabAll]
  | n + 1, bs, h => by
    have h1 : n * w ≤ (bs.drop w).length := by
      rw [List.length_drop]
      have : (n + 1) * w = n * w + w := by ring
      omega
    simp only [swabAll, List.length_append, hswap_length, List.length_take,
      swabAll_length le w n _ h1]
    have : (n + 1) * w = n * w + w := by ring
    omega

theorem swabAll_swabAll (le : Bool) (w : Nat) :
    ∀ (n : Nat) (bs : List Nat), n * w = bs.length → swabAll le w n (swabAll le w n bs) = bs
  | 0, bs, h => by
    have : bs = [] := List.length_eq_zero.mp (by omega)
    simp [swabAll, this]
  | n + 1, bs, h => by
    have hw : w ≤ bs.length := by
      have : (n + 1) * w = n * w + w := by ring
      omega
    have h1 : n * w = (bs.drop w).length := by
      rw [List.length_drop]
      have : (n + 1) * w = n * w + w := by ring
      omega
    have hl : (hswap le (bs.take w)).length = w := by
      rw [hswap_length, List.length_take]; omega
    simp only [swabAll]
    rw [List.take_left' hl, List.drop_left' hl, hswap_hswap, swabAll_swabAll le w n _ h1]
    exact List.take_append_drop w bs

theorem swabInts_mid (le : Bool) (w : Nat) :
    ∀ (n : Nat) (P X S : List Nat) (a : Int), a = (P.length : Int) → n * w = X.length →
      swabInts le w n a (P ++ X ++ S) = some (P ++ swabAll le w n X ++ S)
  | 0, P, X, S, a, _, hX => by
    have : X = [] := List.length_eq_zero.mp (by omega)
    simp [swabInts, swabAll, this]
  | n + 1, P, X, S, a, ha, hX => by
    have hw : w ≤ X.length := by
      have : (n + 1) * w = n * w + w := by ring
      omega
    have h1 : n * w = (X.drop w).length := by
      rw [List.length_drop]
      have : (n + 1) * w = n * w + w := by ring
      omega
    have hsplit : P ++ X ++ S = P ++ X.take w ++ (X.drop w ++ S) := by
      rw [List.append_assoc P (X.take w), ← List.append_assoc (X.take w), List.take_append_drop,
        List.append_assoc]
    have htl : (X.take w).length = w := by rw [List.length_take]; omega
    simp only [swabInts]
    rw [hsplit, readBytes_mid P (X.take w) _ a w ha htl.symm]
    simp only
    rw [writeBytes_mid P (X.take w) _ (hswap le (X.take w)) a ha (hswap_length le _)]
    simp only
    have := swabInts_mid le w n (P ++ hswap le (X.take w)) (X.drop w) S (a + (w : Int))
      (by simp [hswap_length, htl, ha]) h1
    rw [← List.append_assoc, this]
    simp [swabAll, List.append_assoc]

theorem copySwab_junk (le : Bool) (w : Nat) (src : List Nat) :
    ∀ (n k : Nat) (P J S : List Nat) (a d : Int), a = (k : Int) → d = (P.length : Int) →
      k + n * w ≤ src.length → n * w ≤ J.length →
      copySwab le w src n a d (P ++ J ++ S)
        = some (P ++ swabAll le w n (src.drop k) ++ J.drop (n * w) ++ S)
  | 0, k, P, J, S, a, d, _, _, _, _ => by simp [copySwab, swabAll]
  | n + 1, k, P, J, S, a, d, ha, hd, hsrc, hJ => by
    have hexp : (n + 1) * w = n * w + w := by ring
    have hrd : readBytes src a w = some ((src.drop k).take w) := by
      unfold readBytes
      subst ha
      have : (0 : Int) ≤ (k : Int) ∧ ((k : Int)).toNat + w ≤ src.length := by
        simp only [Int.toNat_ofNat]; omega
      rw [if_pos this]; simp
    have htl : ((src.drop k).take w).length = w := by
      rw [List.length_take, List.length_drop]; omega
    simp only [copySwab]
    rw [hrd]
    simp only
    rw [writeBytes_junk P J S _ d hd (by rw [hswap_length, htl]; omega)]
    simp only
    rw [hswap_length, htl]
    have := copySwab_junk le w src n (k + w) (P ++ hswap le ((src.drop k).take w)) (J.drop w) S
      (a + (w : Int)) (d + (w : Int)) (by subst ha; push_cast; rfl)
      (by simp [hswap_length, htl, hd]) (by omega) (by rw [List.length_drop]; omega)
    rw [this]
    simp only [swabAll, List.drop_drop, List.append_assoc, Option.some.injEq]
    rw [hexp, Nat.add_comm w (n * w)]

/-! ## Strings -/

theorem strlenList_lt : ∀ {m : List Nat} {n : Nat}, strlenList m = some n → n < m.length
  | [], _, h => by simp [strlenList] at h
  | b :: rest, n, h => by
    unfold strlenList at h
    split at h
    · simp only [Option.some.injEq] at h; subst h; simp
    · cases hr : strlenList rest with
      | none => simp [hr] at h
      | some k =>
        simp only [hr, Option.map_some', Option.some.injEq] at h
        subst h
        have := strlenList_lt hr
        simp only [List.length_cons]; omega

theorem strlenList_append : ∀ {m : List Nat} {n : Nat} (rest : List Nat),
    strlenList m = some n → strlenList (m ++ rest) = some n
  | [], _, _, h => by simp [strlenList] at h
  | b :: tl, n, rest, h => by
    unfold strlenList at h
    simp only [List.cons_append, strlenList]
    split at h
    · rename_i hb; simp [hb, h]
    · rename_i hb
      cases hr : strlenList tl with
      | none => simp [hr] at h
      | some k =>
        simp only [hr, Option.map_some', Option.some.injEq] at h
        simp [hb, strlenList_append rest hr, h]

theorem strlenList_take : ∀ {m : List Nat} {n : Nat},
    strlenList m = some n → strlenList (m.take (n + 1)) = some n
  | [], _, h => by simp [strlenList] at h
  | b :: tl, n, h => by
    unfold strlenList at h
    split at h
    · rename_i hb
      simp only [Option.some.injEq] at h; subst h
      simp [strlenList, hb]
    · rename_i hb
      cases hr : strlenList tl with
      | none => simp [hr] at h
      | some k =>
        simp only [hr, Option.map_some', Option.some.injEq] at h
        subst h
        simp [strlenList, hb, strlenList_take hr]

theorem strlenAt_mid (P M S : List Nat) (a : Int) (n : Nat) (ha : a = (P.length : Int))
    (h : strlenList M = some n) : strlenAt (P ++ M ++ S) a = some n := by
  subst ha
  unfold strlenAt
  simp only [Int.ofNat_zero_le, if_true, Int.toNat_ofNat, List.append_assoc,
    List.drop_left]
  exact strlenList_append S h

theorem strArrayLenAt_shift (mem : List Nat) :
    ∀ (i : Nat) (a : Int), 0 ≤ a →
      strArrayLenAt mem i a = strArrayLenAt (mem.drop a.toNat) i 0
  | 0, _, _ => by simp [strArrayLenAt]
  | i + 1, a, ha => by
    simp only [strArrayLenAt]
    have h1 : strlenAt mem a = strlenAt (mem.drop a.toNat) 0 := by
      simp [strlenAt, ha]
    rw [h1]
    cases hs : strlenAt (mem.drop a.toNat) 0 with
    | none => rfl
    | some n =>
      simp only
      rw [strArrayLenAt_shift mem i (a + ((n : Int) + 1)) (by omega),
        strArrayLenAt_shift (mem.drop a.toNat) i (0 + ((n : Int) + 1)) (by omega)]
      congr 2
      rw [List.drop_drop]
      congr 1
      omega

theorem strArrayLenAt_bound (mem : List Nat) :
    ∀ (i : Nat) (L : Nat), strArrayLenAt mem i 0 = some L → L ≤ mem.length ∨ i = 0
  | 0, _, _ => Or.inr rfl
  | i + 1, L, h => by
    left
    simp only [strArrayLenAt] at h
    cases hs : strlenAt mem 0 with
    | none => simp [hs] at h
    | some n =>
      simp only [hs] at h
      have hn : n < mem.length := by
        have : strlenList mem = some n := by simpa [strlenAt] using hs
        exact strlenList_lt this
      rw [strArrayLenAt_shift mem i _ (by omega)] at h
      have e1 : (0 + ((n : Int) + 1)).toNat = n + 1 := by omega
      rw [e1] at h
      cases hr : strArrayLenAt (mem.drop (n + 1)) i 0 with
      | none => simp [hr] at h
      | some k =>
        simp only [hr, Option.map_some', Option.some.injEq] at h
        subst h
        rcases strArrayLenAt_bound _ i k hr with hb | hb
        · rw [List.length_drop] at hb
          omega
        · subst hb
          simp only [strArrayLenAt, Option.some.injEq] at hr
          subst hr
          omega

theorem strArrayLenAt_append (rest : List Nat) :
    ∀ (i : Nat) (m : List Nat) (L : Nat), strArrayLenAt m i 0 = some L →
      strArrayLenAt (m ++ rest) i 0 = some L
  | 0, _, _, h => by simpa [strArrayLenAt] using h
  | i + 1, m, L, h => by
    simp only [strArrayLenAt] at h ⊢
    cases hs : strlenAt m 0 with
    | none => simp [hs] at h
    | some n =>
      have hsl : strlenList m = some n := by simpa [strlenAt] using hs
      have hn := strlenList_lt hsl
      have hs2 : strlenAt (m ++ rest) 0 = some n := by
        simpa [strlenAt] using strlenList_append rest hsl
      simp only [hs] at h
      simp only [hs2]
      rw [strArrayLenAt_shift m i _ (by omega)] at h
      rw [strArrayLenAt_shift (m ++ rest) i _ (by omega)]
      have e1 : (0 + ((n : Int) + 1)).toNat = n + 1 := by omega
      rw [e1] at h ⊢
      rw [List.drop_append_of_le_length (by omega)]
      cases hr : strArrayLenAt (m.drop (n + 1)) i 0 with
      | none => simp [hr] at h
      | some k =>
        simp only [hr, Option.map_some', Option.some.injEq] at h
        rw [strArrayLenAt_append rest i _ k hr]
        simp [h]

/-! ## The data that headerAddEntry stores -/

theorem readBytes_length {mem : List Nat} {a : Int} {n : Nat} {bs : List Nat}
    (h : readBytes mem a n = some bs) : bs.length = n := by
  unfold readBytes at h
  split at h
  · rename_i hc
    simp only [Option.some.injEq] at h
    subst h
    rw [List.length_take, List.length_drop]
    omega
  · simp at h

theorem readBytes_eq {mem : List Nat} {a : Int} {n : Nat} {bs : List Nat}
    (h : readBytes mem a n = some bs) : 0 ≤ a ∧ bs = (mem.drop a.toNat).take n := by
  unfold readBytes at h
  split at h
  · rename_i hc
    simp only [Option.some.injEq] at h
    exact ⟨hc.1, h.symm⟩
  · simp at h

theorem copyDataStrv_shape :
    ∀ (i : Nat) (ps : List (Option (List Nat))) (L : Nat) (bs : List Nat),
      strArrayLenMem i ps = some L → copyDataStrv i ps = some bs →
      bs.length = L ∧ strArrayLenAt bs i 0 = some L
  | 0, _, L, bs, h1, h2 => by
    simp only [strArrayLenMem, Option.some.injEq] at h1
    simp only [copyDataStrv, Option.some.injEq] at h2
    subst h1 h2
    simp [strArrayLenAt]
  | i + 1, [], _, _, h1, _ => by simp [strArrayLenMem] at h1
  | i + 1, none :: _, _, _, h1, _ => by simp [strArrayLenMem] at h1
  | i + 1, some s :: rest, L, bs, h1, h2 => by
    simp only [strArrayLenMem] at h1
    simp only [copyDataStrv] at h2
    cases hs : strlenList s with
    | none => simp [hs] at h1
    | some n =>
      simp only [hs] at h1 h2
      cases hr : strArrayLenMem i rest with
      | none => simp [hr] at h1
      | some L1 =>
        cases hc : copyDataStrv i rest with
        | none => simp [hc] at h2
        | some tl =>
          simp only [hr, Option.map_some', Option.some.injEq] at h1
          simp only [hc, Option.map_some', Option.some.injEq] at h2
          subst h1 h2
          obtain ⟨ih1, ih2⟩ := copyDataStrv_shape i rest L1 tl hr hc
          have hn := strlenList_lt hs
          have htl : (s.take (n + 1)).length = n + 1 := by
            rw [List.length_take]; omega
          refine ⟨by simp only [List.length_append, htl, ih1]; omega, ?_⟩
          simp only [strArrayLenAt]
          have hs2 : strlenAt (s.take (n + 1) ++ tl) 0 = some n := by
            simpa [strlenAt] using strlenList_append tl (strlenList_take hs)
          simp only [hs2]
          rw [strArrayLenAt_shift _ i _ (by omega)]
          have e1 : (0 + ((n : Int) + 1)).toNat = n + 1 := by omega
          rw [e1, List.drop_left' htl, ih2]
          simp

theorem grabData_shape {type c len : Int} {p : hPTR} {bs : List Nat}
    (h : grabData type p c = Res.ok (bs, len)) :
    len = (bs.length : Int) ∧ DataShape type c bs := by
  unfold grabData at h
  cases hd : dataLength type p c false with
  | exit => simp [hd] at h
  | fault => simp [hd] at h
  | ok length =>
    simp only [hd] at h
    by_cases hneg : length < 0
    · simp [hneg] at h
    · simp only [hneg, if_false] at h
      cases hc : copyData type p c length with
      | none => simp [hc] at h
      | some data =>
        simp only [hc, Res.ok.injEq, Prod.mk.injEq] at h
        obtain ⟨h1, h2⟩ := h
        subst h1 h2
        unfold dataLength at hd
        unfold copyData at hc
        unfold DataShape
        by_cases hstr : type = RPM_STRING_TYPE
        · subst hstr
          have hna : ¬ (RPM_STRING_TYPE = RPM_STRING_ARRAY_TYPE ∨ RPM_STRING_TYPE = RPM_I18NSTRING_TYPE) := by
            decide
          simp only [↓reduceIte] at hd ⊢
          simp only [hna, if_false] at hc
          by_cases hc1 : c = 1
          · simp only [hc1, if_true] at hd
            cases p with
            | strv ps => simp at hd
            | bytes mem a =>
              simp only at hd hc
              cases hs : strlenAt mem a with
              | none => simp [hs, Res.ofOption] at hd
              | some n =>
                simp only [hs, Option.map_some', Res.ofOption, Res.ok.injEq, Int.ofNat_eq_coe] at hd
                subst hd
                have hnn : ¬ ((n : Int) + 1 < 0) := by omega
                simp only [hnn, if_false] at hc
                have e1 : ((n : Int) + 1).toNat = n + 1 := by omega
                rw [e1] at hc
                obtain ⟨ha, hbs⟩ := readBytes_eq hc
                have hl := readBytes_length hc
                have hsl : strlenList (mem.drop a.toNat) = some n := by
                  simpa [strlenAt, ha] using hs
                refine ⟨by rw [hl]; push_cast; rfl, hc1, n, ?_, hl⟩
                rw [hbs]
                exact strlenList_take hsl
          · simp [hc1] at hd
        · by_cases harr : type = RPM_STRING_ARRAY_TYPE ∨ type = RPM_I18NSTRING_TYPE
          · simp only [hstr, harr, if_false, if_true] at hd hc ⊢
            by_cases hcn : c < 0
            · simp [hcn] at hd
            · simp only [hcn, if_false, Bool.false_eq_true] at hd
              cases p with
              | bytes mem a => simp at hd
              | strv ps =>
                simp only [hcn, if_false] at hd hc
                cases hs : strArrayLenMem c.toNat ps with
                | none => simp [hs, Res.ofOption] at hd
                | some L =>
                  simp only [hs, Option.map_some', Res.ofOption, Res.ok.injEq, Int.ofNat_eq_coe] at hd
                  subst hd
                  obtain ⟨h1, h2⟩ := copyDataStrv_shape _ _ _ _ hs hc
                  refine ⟨by rw [h1], by omega, ?_⟩
                  rw [h1]; exact h2
          · simp only [hstr, harr, if_false] at hd hc ⊢
            cases hts : typeSizesAt type with
            | none => simp [hts] at hd
            | some sz =>
              simp only [hts] at hd
              by_cases hsz : sz ≠ -1
              · simp only [hsz, not_false_eq_true, if_true, ne_eq] at hd
                split at hd
                · simp only [Res.ok.injEq] at hd
                  subst hd
                  cases p with
                  | strv ps => simp at hc
                  | bytes mem a =>
                    simp only [hneg, if_false] at hc
                    have hl := readBytes_length hc
                    have : (data.length : Int) = sz * c := by
                      rw [hl]; omega
                    exact ⟨this.symm, sz, rfl, hsz, this.symm⟩
                · simp at hd
              · simp [hsz] at hd

/-! ## Headers built by headerAddEntry -/

theorem headerAddEntry_ok {h h1 : Header} {tag type c : Int} {p : hPTR}
    (hadd : headerAddEntry h tag type p c = Res.ok (h1, 1)) :
    1 ≤ c ∧ ∃ data length, grabData type p c = Res.ok (data, length) ∧
      h1 = { h with
        index := h.index ++ [{ info := { tag := tag, type := type, count := c, offset := 0 },
                               data := EntryData.owned data, length := length, rdlen := 0 }],
        sorted := h.sorted && !(match h.index.getLast? with
          | some e => decide (tag < e.info.tag)
          | none => false) } := by
  unfold headerAddEntry at hadd
  by_cases hc : c ≤ 0
  · simp [hc] at hadd
  · simp only [hc, if_false] at hadd
    cases hg : grabData type p c with
    | exit => simp [hg] at hadd
    | fault => simp [hg] at hadd
    | ok r =>
      obtain ⟨data, length⟩ := r
      simp only [hg, Res.ok.injEq, Prod.mk.injEq, and_true] at hadd
      exact ⟨by omega, data, length, rfl, hadd.symm⟩

theorem pairwise_tag_snoc {l : List indexEntry} {x e : indexEntry}
    (hp : l.Pairwise tagLe) (hlast : l.getLast? = some e)
    (hle : e.info.tag ≤ x.info.tag) :
    (l ++ [x]).Pairwise tagLe := by
  rw [List.pairwise_append]
  refine ⟨hp, List.pairwise_singleton _ _, ?_⟩
  intro a ha b hb
  simp only [List.mem_singleton] at hb
  subst hb
  obtain ⟨init, rfl⟩ := List.getLast?_eq_some_iff.1 hlast
  rw [List.pairwise_append] at hp
  rcases List.mem_append.mp ha with h1 | h1
  · have := hp.2.2 a h1 e (List.mem_singleton_self e)
    unfold tagLe at *
    omega
  · simp only [List.mem_singleton] at h1
    subst h1
    exact hle

theorem built_inv {h : Header} (hb : Built h) :
    (∀ e ∈ h.index, Added e) ∧ h.blob = [] ∧ h.legacy = false
      ∧ (h.sorted = true → h.index.Pairwise tagLe) := by
  induction hb with
  | new => exact ⟨by simp [headerNew], rfl, rfl, by simp [headerNew]⟩
  | @add h h1 tag type p c _ htag htype hcount hadd ih =>
    obtain ⟨hc, data, length, hg, rfl⟩ := headerAddEntry_ok hadd
    obtain ⟨ih1, ih2, ih3, ih4⟩ := ih
    obtain ⟨hlen, hshape⟩ := grabData_shape hg
    refine ⟨?_, ih2, ih3, ?_⟩
    · intro e he
      simp only [List.mem_append, List.mem_singleton] at he
      rcases he with he | he
      · exact ih1 e he
      · subst he
        exact ⟨rfl, rfl, htag, htype, hcount, hc, rfl, hlen, hshape⟩
    · intro hs
      simp only [Bool.and_eq_true, Bool.not_eq_true'] at hs
      obtain ⟨hs1, hs2⟩ := hs
      cases hl : h.index.getLast? with
      | none =>
        have : h.index = [] := by
          cases hi : h.index with
          | nil => rfl
          | cons a l => rw [hi] at hl; simp [List.getLast?_cons] at hl
        simp [this]
      | some e =>
        simp only [hl, decide_eq_false_iff_not, not_lt] at hs2
        exact pairwise_tag_snoc (ih4 hs1) hl hs2

theorem built_of_addAll : ∀ (reqs : List AddReq) {h h1 : Header}, Built h →
    addAll h reqs = some h1 → Built h1
  | [], h, h1, hb, ha => by
    simp only [addAll, Option.some.injEq] at ha
    subst ha; exact hb
  | r :: rest, h, h1, hb, ha => by
    simp only [addAll] at ha
    split at ha
    · rename_i hint
      cases hr : headerAddEntry h r.tag r.type r.p r.c with
      | exit => simp [hr] at ha
      | fault => simp [hr] at ha
      | ok o =>
        obtain ⟨h2, rc⟩ := o
        simp only [hr] at ha
        split at ha
        · rename_i hrc
          subst hrc
          exact built_of_addAll rest (Built.add hb hint.1 hint.2.1 hint.2.2 hr) ha
        · simp at ha
    · simp at ha

/-- An added entry of a type other than the null type has non-empty data. -/
theorem Added.length_pos {e : indexEntry} (ha : Added e) (hn : e.info.type ≠ RPM_NULL_TYPE) :
    0 < e.length := by
  have hs := ha.shape
  have hc := ha.pos
  rw [ha.length]
  unfold DataShape at hs
  split at hs
  · obtain ⟨_, n, _, hl⟩ := hs
    omega
  · split at hs
    · obtain ⟨_, hl⟩ := hs
      obtain ⟨k, hk⟩ : ∃ k, e.info.count.toNat = k + 1 := ⟨e.info.count.toNat - 1, by omega⟩
      rw [hk] at hl
      simp only [strArrayLenAt] at hl
      cases hs : strlenAt (entryBytes e) 0 with
      | none => simp [hs] at hl
      | some n =>
        simp only [hs, Option.map_eq_some'] at hl
        obtain ⟨m, _, hm⟩ := hl
        omega
    · obtain ⟨sz, hts, hsz, hl⟩ := hs
      have hcs := typeSizesAt_cases hts
      simp only [RPM_NULL_TYPE] at hn
      rcases hcs with ⟨h1, h2⟩ | ⟨h1, h2⟩ | ⟨h1, h2⟩ | ⟨h1, h2⟩ | ⟨h1, h2⟩ | ⟨h1, h2⟩ | ⟨h1, h2⟩
        | ⟨h1, h2⟩ | ⟨h1, h2⟩ | ⟨h1, h2⟩ <;> subst h2 <;> omega

/-- The types of added entries lie between 0 and 9. -/
theorem Added.type_range {e : indexEntry} (ha : Added e) :
    0 ≤ e.info.type ∧ e.info.type ≤ 9 := by
  have hs := ha.shape
  unfold DataShape at hs
  split at hs
  · rename_i h; rw [h]; decide
  · split at hs
    · rename_i h; rcases h with h | h <;> rw [h] <;> decide
    · obtain ⟨sz, hts, _, _⟩ := hs
      have hcs := typeSizesAt_cases hts
      omega

/-! ## Sorting -/

theorem orderedInsert_congr {r s : indexEntry → indexEntry → Prop} [DecidableRel r] [DecidableRel s]
    (a : indexEntry) : ∀ (l : List indexEntry), (∀ b ∈ l, r a b ↔ s a b) →
      l.orderedInsert r a = l.orderedInsert s a
  | [], _ => rfl
  | b :: l, h => by
    have hb := h b (List.mem_cons_self _ _)
    simp only [List.orderedInsert]
    by_cases hr : r a b
    · simp [hr, hb.mp hr]
    · have hs : ¬ s a b := fun hs => hr (hb.mpr hs)
      simp only [hr, hs, if_false]
      rw [orderedInsert_congr a l (fun c hc => h c (List.mem_cons_of_mem _ hc))]

theorem insertionSort_congr {r s : indexEntry → indexEntry → Prop} [DecidableRel r] [DecidableRel s] :
    ∀ (l : List indexEntry), (∀ a ∈ l, ∀ b ∈ l, r a b ↔ s a b) →
      l.insertionSort r = l.insertionSort s
  | [], _ => rfl
  | a :: l, h => by
    simp only [List.insertionSort]
    rw [insertionSort_congr l (fun x hx y hy =>
      h x (List.mem_cons_of_mem _ hx) y (List.mem_cons_of_mem _ hy))]
    apply orderedInsert_congr
    intro b hb
    have hb2 : b ∈ l := (List.perm_insertionSort s l).mem_iff.mp hb
    exact h a (List.mem_cons_self _ _) b (List.mem_cons_of_mem _ hb2)

theorem indexCmp_le_iff {a b : indexEntry} (ha : 0 ≤ a.info.tag ∧ a.info.tag < 2147483648)
    (hb : 0 ≤ b.info.tag ∧ b.info.tag < 2147483648) : indexCmp a b ≤ 0 ↔ tagLe a b := by
  unfold indexCmp tagLe
  rw [wrap32_eq ⟨by omega, by omega⟩]
  omega

theorem offsetCmp_le_iff {a b : indexEntry} (ha : 0 ≤ a.info.tag ∧ a.info.tag < 2147483648)
    (hb : 0 ≤ b.info.tag ∧ b.info.tag < 2147483648) (hoff : a.info.offset = b.info.offset) :
    offsetCmp a b ≤ 0 ↔ tagLe a b := by
  unfold offsetCmp tagLe
  have h0 : wrap32 (a.info.offset - b.info.offset) = 0 := by
    rw [hoff, sub_self]; rfl
  simp only [h0, if_true]
  rw [wrap32_eq ⟨by omega, by omega⟩]
  omega

/-- Tags that are no region tags and fit an int_32. -/
theorem qsort_indexCmp_eq {l : List indexEntry}
    (h : ∀ e ∈ l, 0 ≤ e.info.tag ∧ e.info.tag < 2147483648) :
    qsort indexCmp l = l.insertionSort tagLe := by
  unfold qsort
  exact insertionSort_congr l (fun a ha b hb => indexCmp_le_iff (h a ha) (h b hb))

theorem qsort_offsetCmp_eq {l : List indexEntry}
    (h : ∀ e ∈ l, 0 ≤ e.info.tag ∧ e.info.tag < 2147483648) (hoff : ∀ e ∈ l, e.info.offset = 0) :
    qsort offsetCmp l = l.insertionSort tagLe := by
  unfold qsort
  exact insertionSort_congr l (fun a ha b hb =>
    offsetCmp_le_iff (h a ha) (h b hb) (by rw [hoff a ha, hoff b hb]))

theorem insertionSort_tagLe_sorted (l : List indexEntry) :
    (l.insertionSort tagLe).Pairwise tagLe :=
  List.sorted_insertionSort tagLe l

theorem insertionSort_tagLe_eq {l : List indexEntry} (h : l.Pairwise tagLe) :
    l.insertionSort tagLe = l :=
  List.Sorted.insertionSort_eq h

/-! ## The first pass of doHeaderUnload -/

theorem dataEnd_mono : ∀ (es : List indexEntry) (dl : Int), (∀ e ∈ es, 0 ≤ e.length) →
    dl ≤ dataEnd es dl
  | [], _, _ => by simp [dataEnd]
  | e :: rest, dl, h => by
    simp only [dataEnd]
    have h1 := dataEnd_mono rest (dl + padTo (typeWidth e.info.type) dl + e.length)
      (fun x hx => h x (List.mem_cons_of_mem _ hx))
    have h2 := padTo_typeWidth_nonneg e.info.type dl
    have h3 := h e (List.mem_cons_self _ _)
    omega

theorem live_cons_pos {e : indexEntry} {es : List indexEntry} (h : 0 < e.length) :
    live (e :: es) = e :: live es := by
  simp [live, h]

theorem live_cons_neg {e : indexEntry} {es : List indexEntry} (h : ¬ 0 < e.length) :
    live (e :: es) = live es := by
  simp [live, h]

theorem mem_live {e : indexEntry} {es : List indexEntry} : e ∈ live es ↔ e ∈ es ∧ 0 < e.length := by
  simp [live]

theorem not_region_of_tag {e : indexEntry} (h : HEADER_I18NTABLE ≤ e.info.tag) :
    ENTRY_IS_REGION e = false := by
  unfold ENTRY_IS_REGION
  simp only [decide_eq_false_iff_not, not_lt]
  exact h

theorem unloadCount_added : ∀ (es : List indexEntry) (i : Nat) (s : Pass1),
    (∀ e ∈ es, Added e ∧ HEADER_I18NTABLE ≤ e.info.tag) → 0 ≤ s.il → 0 ≤ s.dl →
    s.il + (live es).length < 2147483648 → dataEnd (live es) s.dl < 2147483648 →
    unloadCount false es i none s
      = some { s with il := s.il + (live es).length, dl := dataEnd (live es) s.dl }
  | [], _, s, _, _, _, _, _ => by
    simp [unloadCount, live, dataEnd]
  | e :: rest, i, s, h, hil, hdl, hn, hd => by
    obtain ⟨ha, ht⟩ := h e (List.mem_cons_self _ _)
    have hrest : ∀ x ∈ rest, Added x ∧ HEADER_I18NTABLE ≤ x.info.tag :=
      fun x hx => h x (List.mem_cons_of_mem _ hx)
    have hnr := not_region_of_tag ht
    have hdata : ¬ (e.data = EntryData.null) := by rw [ha.data]; simp
    simp only [unloadCount, inRegionRun, hnr, Bool.false_eq_true, if_false, hdata, false_or]
    by_cases hl : 0 < e.length
    · have hl2 : ¬ e.length ≤ 0 := by omega
      rw [live_cons_pos hl] at hn hd
      simp only [dataEnd, List.length_cons] at hn hd
      obtain ⟨ht0, ht9⟩ := ha.type_range
      have hp0 := padTo_typeWidth_nonneg e.info.type s.dl
      have hmono := dataEnd_mono (live rest) (s.dl + padTo (typeWidth e.info.type) s.dl + e.length)
        (fun x hx => by have := (mem_live.mp hx).2; omega)
      simp only [hl2, if_false, alignDiff_eq ht0 ht9 hdl]
      rw [wrap32_eq (x := s.il + 1) ⟨by omega, by push_cast at hn; omega⟩,
        wrap32_eq (x := s.dl + padTo (typeWidth e.info.type) s.dl) ⟨by omega, by omega⟩,
        wrap32_eq (x := s.dl + padTo (typeWidth e.info.type) s.dl + e.length) ⟨by omega, by omega⟩]
      rw [unloadCount_added rest (i + 1) _ hrest (by simp only; omega) (by simp only; omega)
        (by simp only; push_cast at hn; omega) (by simpa using hd)]
      simp only [live_cons_pos hl, dataEnd, List.length_cons]
      congr 2
      push_cast; ring
    · have hl2 : e.length ≤ 0 := by omega
      rw [live_cons_neg hl] at hn hd ⊢
      simp only [hl2, if_true]
      exact unloadCount_added rest (i + 1) s hrest hil hdl hn hd

/-! ## The second pass of doHeaderUnload -/

theorem entryMem_owned (blob : List Nat) {e : indexEntry} (ha : Added e) :
    entryMem blob e.data = some (entryBytes e, 0) := by
  rw [ha.data]; rfl

theorem readBytes_all (bs : List Nat) (n : Nat) (h : n = bs.length) :
    readBytes bs 0 n = some bs := by
  have := readBytes_mid [] bs [] 0 n (by simp) h
  simpa using this

/-- The items of int32 and int16 data fill the block, and the data written
for an entry is as long as the block. -/
theorem Added.int32_len {e : indexEntry} (ha : Added e) (ht : e.info.type = RPM_INT32_TYPE) :
    e.info.count.toNat * 4 = (entryBytes e).length ∧ e.length = 4 * e.info.count := by
  have hs := ha.shape
  have hc := ha.pos
  have hl := ha.length
  unfold DataShape at hs
  rw [ht] at hs
  simp only [RPM_INT32_TYPE, RPM_STRING_TYPE, RPM_STRING_ARRAY_TYPE, RPM_I18NSTRING_TYPE] at hs
  norm_num at hs
  obtain ⟨sz, hts, _, h⟩ := hs
  have : sz = 4 := by
    have := typeSizesAt_cases hts
    omega
  subst this
  omega

theorem Added.int16_len {e : indexEntry} (ha : Added e) (ht : e.info.type = RPM_INT16_TYPE) :
    e.info.count.toNat * 2 = (entryBytes e).length ∧ e.length = 2 * e.info.count := by
  have hs := ha.shape
  have hc := ha.pos
  have hl := ha.length
  unfold DataShape at hs
  rw [ht] at hs
  simp only [RPM_INT16_TYPE, RPM_STRING_TYPE, RPM_STRING_ARRAY_TYPE, RPM_I18NSTRING_TYPE] at hs
  norm_num at hs
  obtain ⟨sz, hts, _, h⟩ := hs
  have : sz = 2 := by
    have := typeSizesAt_cases hts
    omega
  subst this
  omega

theorem wireRaw_length (le : Bool) {e : indexEntry} (ha : Added e) :
    (wireRaw le e).length = (entryBytes e).length := by
  unfold wireRaw
  split
  · rename_i ht
    have := (ha.int32_len ht).1
    rw [swabAll_length le 4 _ _ (by omega)]; exact this
  · split
    · rename_i ht
      have := (ha.int16_len ht).1
      rw [swabAll_length le 2 _ _ (by omega)]; exact this
    · rfl

theorem unloadEntry_added (le : Bool) {e : indexEntry} (ha : Added e)
    (A J1 X J2 : List Nat) (ds : Int) (hds : ds = (A.length : Int) + (J1.length : Int))
    (hJ1 : 16 ≤ J1.length)
    (hJ2 : (padTo (typeWidth e.info.type) X.length).toNat + (entryBytes e).length ≤ J2.length) :
    unloadEntry le [] ds e
        { buf := A ++ (putBE32 e.info.tag ++ putBE32 e.info.type ++ putBE32 e.info.count)
                  ++ J1.drop 12 ++ (X ++ J2),
          pe := (A.length : Int), te := ds + (X.length : Int) }
      = some
        { buf := (A ++ (putBE32 e.info.tag ++ putBE32 e.info.type ++ putBE32 e.info.count
                    ++ putBE32 ((X.length : Int) + padTo (typeWidth e.info.type) X.length)))
                  ++ J1.drop 16
                  ++ ((X ++ (List.replicate (padTo (typeWidth e.info.type) X.length).toNat 0
                        ++ wireRaw le e))
                      ++ J2.drop ((padTo (typeWidth e.info.type) X.length).toNat
                          + (entryBytes e).length)),
          pe := (A.length : Int) + 16,
          te := ds + (X.length : Int) + padTo (typeWidth e.info.type) X.length + e.length } := by
  obtain ⟨ht0, ht9⟩ := ha.type_range
  have hpn := padTo_typeWidth_nonneg e.info.type (X.length : Int)
  generalize hpad : padTo (typeWidth e.info.type) (X.length : Int) = pad at *
  generalize hD : putBE32 e.info.tag ++ putBE32 e.info.type ++ putBE32 e.info.count = D12
  have hD12 : D12.length = 12 := by rw [← hD]; simp [putBE32_length]
  have hwl := wireRaw_length le ha
  unfold unloadEntry
  simp only
  have hte : ds + (X.length : Int) - ds = (X.length : Int) := by omega
  rw [hte, alignDiff_eq ht0 ht9 (by omega), hpad, entryMem_owned [] ha]
  simp only
  -- the padding
  have hz : (List.replicate pad.toNat 0).length = pad.toNat := by simp
  have hpadw : (if pad = 0 then some (A ++ D12 ++ J1.drop 12 ++ (X ++ J2))
      else writeBytes (A ++ D12 ++ J1.drop 12 ++ (X ++ J2)) (ds + (X.length : Int))
        (List.replicate pad.toNat 0))
      = some ((A ++ D12) ++ J1.drop 12 ++ (X ++ List.replicate pad.toNat 0 ++ J2.drop pad.toNat)) := by
    split
    · rename_i h0
      subst h0
      simp
    · have e1 : A ++ D12 ++ J1.drop 12 ++ (X ++ J2) = (A ++ D12 ++ J1.drop 12 ++ X) ++ J2 ++ [] := by
        simp [List.append_assoc]
      rw [e1, writeBytes_junk _ J2 [] _ _ (by
        simp only [List.length_append, List.length_drop, hD12]; push_cast; omega) (by rw [hz]; omega)]
      simp [List.append_assoc]
  rw [hpadw]
  simp only
  -- the offset field
  have hoffw : writeBytes ((A ++ D12) ++ J1.drop 12 ++ (X ++ List.replicate pad.toNat 0 ++ J2.drop pad.toNat))
      ((A.length : Int) + 12) (putBE32 (ds + (X.length : Int) + pad - ds))
      = some ((A ++ (D12 ++ putBE32 ((X.length : Int) + pad))) ++ J1.drop 16
          ++ (X ++ List.replicate pad.toNat 0) ++ J2.drop pad.toNat ++ []) := by
    have e2 : ds + (X.length : Int) + pad - ds = (X.length : Int) + pad := by omega
    rw [e2, writeBytes_junk (A ++ D12) (J1.drop 12) _ _ _ (by
      simp only [List.length_append, hD12]; push_cast; omega) (by
      rw [putBE32_length, List.length_drop]; omega)]
    simp [putBE32_length, List.append_assoc, List.drop_drop]
  rw [hoffw]
  simp only
  have hP3 : ((((A ++ (D12 ++ putBE32 ((X.length : Int) + pad))) ++ J1.drop 16
      ++ (X ++ List.replicate pad.toNat 0)).length : Nat) : Int) = ds + (X.length : Int) + pad := by
    simp only [List.length_append, List.length_drop, hD12, putBE32_length, hz]
    push_cast
    omega
  by_cases h32 : e.info.type = RPM_INT32_TYPE
  · obtain ⟨hc4, hlen4⟩ := ha.int32_len h32
    have hcn : ¬ e.info.count < 0 := by have := ha.pos; omega
    simp only [h32, if_true, hcn, if_false]
    rw [copySwab_junk le 4 (entryBytes e) e.info.count.toNat 0 _ (J2.drop pad.toNat) [] 0 _ rfl
      hP3.symm (by omega) (by rw [List.length_drop]; omega)]
    simp only [Option.map_some', List.drop_zero, Option.some.injEq, Pass2.mk.injEq]
    refine ⟨?_, trivial, by omega⟩
    have hw : wireRaw le e = swabAll le 4 e.info.count.toNat (entryBytes e) := by
      simp [wireRaw, h32]
    rw [hw, hc4]
    simp [List.append_assoc, List.drop_drop, Nat.add_comm]
  · by_cases h16 : e.info.type = RPM_INT16_TYPE
    · obtain ⟨hc2, hlen2⟩ := ha.int16_len h16
      have hcn : ¬ e.info.count < 0 := by have := ha.pos; omega
      have hne : ¬ (RPM_INT16_TYPE = RPM_INT32_TYPE) := by decide
      simp only [h16, hne, if_true, hcn, if_false]
      rw [copySwab_junk le 2 (entryBytes e) e.info.count.toNat 0 _ (J2.drop pad.toNat) [] 0 _ rfl
        hP3.symm (by omega) (by rw [List.length_drop]; omega)]
      simp only [Option.map_some', List.drop_zero, Option.some.injEq, Pass2.mk.injEq]
      refine ⟨?_, trivial, by omega⟩
      have hw : wireRaw le e = swabAll le 2 e.info.count.toNat (entryBytes e) := by
        simp [wireRaw, h16, hne]
      rw [hw, hc2]
      simp [List.append_assoc, List.drop_drop, Nat.add_comm]
    · simp only [h32, h16, if_false]
      have hw : wireRaw le e = entryBytes e := by simp [wireRaw, h32, h16]
      have hlen := ha.length
      have hrd : readBytes (entryBytes e) 0 e.length.toNat = some (entryBytes e) :=
        readBytes_all _ _ (by omega)
      unfold memcpyTo
      have hneg : ¬ e.length < 0 := by omega
      simp only [hneg, if_false, hrd]
      rw [writeBytes_junk _ (J2.drop pad.toNat) [] _ _ hP3.symm (by rw [List.length_drop]; omega)]
      simp only [Option.map_some', Option.some.injEq, Pass2.mk.injEq]
      refine ⟨?_, trivial, trivial⟩
      rw [hw]
      simp [List.append_assoc, List.drop_drop, Nat.add_comm]

theorem descImage_length : ∀ (es : List indexEntry) (dl : Int),
    (descImage es dl).length = 16 * es.length
  | [], _ => rfl
  | e :: rest, dl => by
    simp only [descImage, List.length_append, putBE32_length, descImage_length rest,
      List.length_cons]
    omega

theorem dataImageWith_length (f : indexEntry → List Nat) :
    ∀ (es : List indexEntry) (dl : Int),
      (∀ e ∈ es, ((f e).length : Int) = e.length) →
      ((dataImageWith f es dl).length : Int) = dataEnd es dl - dl
  | [], dl, _ => by simp [dataImageWith, dataEnd]
  | e :: rest, dl, h => by
    have h1 := h e (List.mem_cons_self _ _)
    have h2 := dataImageWith_length f rest (dl + padTo (typeWidth e.info.type) dl + e.length)
      (fun x hx => h x (List.mem_cons_of_mem _ hx))
    have h3 := padTo_typeWidth_nonneg e.info.type dl
    simp only [dataImageWith, dataEnd, List.length_append, List.length_replicate]
    push_cast
    rw [h2, h1, Int.toNat_of_nonneg h3]
    ring

theorem unloadWrite_added (le : Bool) (ds nd dr : Int) :
    ∀ (es : List indexEntry) (i : Nat) (A J1 X J2 : List Nat),
      (∀ e ∈ es, Added e ∧ HEADER_I18NTABLE ≤ e.info.tag) →
      ds = (A.length : Int) + (J1.length : Int) →
      J1.length = 16 * (live es).length →
      J2.length = (dataImageWith (wireRaw le) (live es) (X.length : Int)).length →
      unloadWrite le false [] ds nd dr es i none
          { buf := A ++ J1 ++ (X ++ J2), pe := (A.length : Int), te := ds + (X.length : Int) }
        = Res.ok (some
          { buf := A ++ descImage (live es) (X.length : Int)
                    ++ (X ++ dataImageWith (wireRaw le) (live es) (X.length : Int)),
            pe := (A.length : Int) + 16 * ((live es).length : Int),
            te := ds + (X.length : Int)
                    + ((dataImageWith (wireRaw le) (live es) (X.length : Int)).length : Int) })
  | [], _, A, J1, X, J2, _, _, hJ1, hJ2 => by
    have h1 : J1 = [] := List.length_eq_zero.mp (by simpa [live] using hJ1)
    have h2 : J2 = [] := List.length_eq_zero.mp (by simpa [live, dataImageWith] using hJ2)
    subst h1 h2
    simp [unloadWrite, live, descImage, dataImageWith]
  | e :: rest, i, A, J1, X, J2, h, hds, hJ1, hJ2 => by
    obtain ⟨ha, ht⟩ := h e (List.mem_cons_self _ _)
    have hrest : ∀ x ∈ rest, Added x ∧ HEADER_I18NTABLE ≤ x.info.tag :=
      fun x hx => h x (List.mem_cons_of_mem _ hx)
    have hnr := not_region_of_tag ht
    have hdata : ¬ (e.data = EntryData.null) := by rw [ha.data]; simp
    simp only [unloadWrite, inRegionRun, Bool.false_eq_true, if_false, hdata, false_or]
    by_cases hl : 0 < e.length
    · have hl2 : ¬ e.length ≤ 0 := by omega
      rw [live_cons_pos hl] at hJ1 hJ2 ⊢
      simp only [List.length_cons] at hJ1
      simp only [dataImageWith, List.length_append, List.length_replicate, wireRaw_length le ha]
        at hJ2
      have hpn := padTo_typeWidth_nonneg e.info.type (X.length : Int)
      simp only [hl2, if_false]
      have hw12 : (putBE32 e.info.tag ++ putBE32 e.info.type ++ putBE32 e.info.count).length ≤ J1.length := by
        simp only [List.length_append, putBE32_length]
        omega
      rw [writeBytes_junk A J1 (X ++ J2) _ _ rfl hw12]
      simp only [hnr, Bool.false_eq_true, if_false, List.length_append, putBE32_length]
      rw [unloadEntry_added le ha A J1 X J2 ds hds (by omega) (by omega)]
      simp only
      have hA : ((A.length : Int) + 16) = (((A ++ (putBE32 e.info.tag ++ putBE32 e.info.type
          ++ putBE32 e.info.count
          ++ putBE32 ((X.length : Int) + padTo (typeWidth e.info.type) X.length))).length : Nat)
          : Int) := by
        simp [putBE32_length]
      have hX : ((X.length : Int) + padTo (typeWidth e.info.type) X.length + e.length)
          = (((X ++ (List.replicate (padTo (typeWidth e.info.type) X.length).toNat 0
              ++ wireRaw le e)).length : Nat) : Int) := by
        simp only [List.length_append, List.length_replicate, wireRaw_length le ha]
        push_cast
        rw [Int.toNat_of_nonneg hpn, ha.length]
        ring
      have hte : ds + (X.length : Int) + padTo (typeWidth e.info.type) X.length + e.length
          = ds + (((X ++ (List.replicate (padTo (typeWidth e.info.type) X.length).toNat 0
              ++ wireRaw le e)).length : Nat) : Int) := by
        rw [← hX]; ring
      rw [hA, hte]
      rw [unloadWrite_added le ds nd dr rest (i + 1) _ (J1.drop 16) _ _ hrest
        (by simp only [List.length_append, putBE32_length, List.length_drop]; push_cast; omega)
        (by rw [List.length_drop]; omega)
        (by rw [List.length_drop, ← hX]; omega)]
      simp only [Res.ok.injEq, Option.some.injEq, Pass2.mk.injEq, descImage, dataImageWith,
        List.length_cons]
      rw [← hX]
      refine ⟨by simp [List.append_assoc], ?_, ?_⟩
      · rw [← hA]; push_cast; ring
      · simp only [List.length_append, List.length_replicate, wireRaw_length le ha]
        push_cast
        rw [Int.toNat_of_nonneg hpn, ha.length]
        ring
    · have hl2 : e.length ≤ 0 := by omega
      rw [live_cons_neg hl] at hJ1 hJ2 ⊢
      simp only [hl2, if_true]
      exact unloadWrite_added le ds nd dr rest (i + 1) A J1 X J2 hrest hds hJ1 hJ2

/-! ## doHeaderUnload on a header built by headerAddEntry -/

theorem built_tags {h : Header} (hb : Built h)
    (htags : ∀ e ∈ h.index, HEADER_I18NTABLE ≤ e.info.tag) :
    ∀ e ∈ h.index, 0 ≤ e.info.tag ∧ e.info.tag < 2147483648 := by
  intro e he
  have h1 := ((built_inv hb).1 e he).tag
  have h2 := htags e he
  unfold isInt32 at h1
  unfold HEADER_I18NTABLE at h2
  omega

theorem unsort_built {h : Header} (hb : Built h)
    (htags : ∀ e ∈ h.index, HEADER_I18NTABLE ≤ e.info.tag) :
    qsort offsetCmp h.index = qsort indexCmp h.index := by
  rw [qsort_offsetCmp_eq (built_tags hb htags) (fun e he => ((built_inv hb).1 e he).offset),
    qsort_indexCmp_eq (built_tags hb htags)]

theorem sorted_entries_built {h : Header} (hb : Built h)
    (htags : ∀ e ∈ h.index, HEADER_I18NTABLE ≤ e.info.tag) :
    ∀ e ∈ qsort indexCmp h.index, Added e ∧ HEADER_I18NTABLE ≤ e.info.tag := by
  intro e he
  have he2 := mem_qsort.mp he
  exact ⟨(built_inv hb).1 e he2, htags e he2⟩

theorem qsort_indexCmp_idem {l : List indexEntry}
    (h : ∀ e ∈ l, 0 ≤ e.info.tag ∧ e.info.tag < 2147483648) :
    qsort indexCmp (qsort indexCmp l) = qsort indexCmp l := by
  have h2 : ∀ e ∈ qsort indexCmp l, 0 ≤ e.info.tag ∧ e.info.tag < 2147483648 :=
    fun e he => h e (mem_qsort.mp he)
  rw [qsort_indexCmp_eq h2, qsort_indexCmp_eq h]
  exact insertionSort_tagLe_eq (insertionSort_tagLe_sorted l)

theorem junk_block (junk : Nat → Nat) (n m k : Nat) (hlen : 8 + n + m = k) :
    ∃ J1 J2 : List Nat, J1.length = n ∧ J2.length = m ∧
      writeBytes ((List.range k).map junk) 0 (putBE32 a ++ putBE32 b)
        = some ((putBE32 a ++ putBE32 b) ++ J1 ++ ([] ++ J2)) := by
  refine ⟨(((List.range k).map junk).drop 8).take n, (((List.range k).map junk).drop 8).drop n,
    ?_, ?_, ?_⟩
  · simp only [List.length_take, List.length_drop, List.length_map, List.length_range]; omega
  · simp only [List.length_drop, List.length_map, List.length_range]; omega
  · have := writeBytes_junk [] ((List.range k).map junk) [] (putBE32 a ++ putBE32 b) 0 (by simp)
      (by simp only [List.length_append, putBE32_length, List.length_map, List.length_range]; omega)
    simp only [List.nil_append, List.append_nil] at this
    rw [this]
    simp only [List.length_append, putBE32_length, List.append_assoc, Option.some.injEq,
      List.nil_append, List.take_append_drop]

theorem doHeaderUnload_built (le : Bool) (junk : Nat → Nat) {h : Header} (hb : Built h)
    (htags : ∀ e ∈ h.index, HEADER_I18NTABLE ≤ e.info.tag)
    (hsize : 8 + 16 * ((liveEntries h).length : Int) + dataEnd (liveEntries h) 0 < 2147483648) :
    doHeaderUnload le junk h
      = Res.ok ({ h with index := qsort indexCmp h.index, sorted := true },
          some (rawImage le (liveEntries h))) := by
  obtain ⟨_, hblob, hlegacy, _⟩ := built_inv hb
  have hes := sorted_entries_built hb htags
  unfold liveEntries at hsize ⊢
  have hlive : ∀ e ∈ live (qsort indexCmp h.index), Added e :=
    fun e he => (hes e (mem_live.mp he).1).1
  have hD0 : 0 ≤ dataEnd (live (qsort indexCmp h.index)) 0 :=
    dataEnd_mono _ 0 (fun e he => by have := (mem_live.mp he).2; omega)
  unfold doHeaderUnload headerUnsort
  simp only [hlegacy, hblob, unsort_built hb htags]
  have hcount := unloadCount_added (qsort indexCmp h.index) 0
    { il := 0, dl := 0, drlen := 0, ndribbles := 0 } hes (by simp) (by simp)
    (by simp only [zero_add]; omega) (by simp only; omega)
  simp only [zero_add] at hcount
  rw [hcount]
  simp only
  have hdl := dataImageWith_length (wireRaw le) (live (qsort indexCmp h.index)) 0
    (fun e he => by rw [wireRaw_length le (hlive e he), (hlive e he).length])
  simp only [sub_zero] at hdl
  have hlen : ((8 + ((live (qsort indexCmp h.index)).length : Int) * 16
      + dataEnd (live (qsort indexCmp h.index)) 0) % 4294967296).toNat
      = 8 + 16 * (live (qsort indexCmp h.index)).length
        + (dataImageWith (wireRaw le) (live (qsort indexCmp h.index)) 0).length := by
    omega
  rw [hlen]
  obtain ⟨J1, J2, hJ1, hJ2, hw⟩ := junk_block (a := ((live (qsort indexCmp h.index)).length : Int))
    (b := dataEnd (live (qsort indexCmp h.index)) 0) junk
    (16 * (live (qsort indexCmp h.index)).length)
    (dataImageWith (wireRaw le) (live (qsort indexCmp h.index)) 0).length _ rfl
  rw [hw]
  simp only
  have hA : (8 : Int) = (((putBE32 ((live (qsort indexCmp h.index)).length : Int)
      ++ putBE32 (dataEnd (live (qsort indexCmp h.index)) 0)).length : Nat) : Int) := by
    simp [putBE32_length]
  have hwr := unloadWrite_added le (8 + ((live (qsort indexCmp h.index)).length : Int) * 16) 0 0
    (qsort indexCmp h.index) 0
    (putBE32 ((live (qsort indexCmp h.index)).length : Int)
      ++ putBE32 (dataEnd (live (qsort indexCmp h.index)) 0)) J1 [] J2 hes
    (by rw [← hA, hJ1]; push_cast; ring)
    (by rw [hJ1])
    (by rw [hJ2]; rfl)
  rw [← hA] at hwr
  simp only [List.length_nil, Nat.cast_zero, add_zero] at hwr
  rw [hwr]
  simp only
  have hpe : ¬ ((8 : Int) + 16 * ((live (qsort indexCmp h.index)).length : Int)
      ≠ 8 + ((live (qsort indexCmp h.index)).length : Int) * 16) := by
    simp only [ne_eq, not_not]; ring
  have hte : ¬ ((((8 + 16 * (live (qsort indexCmp h.index)).length
      + (dataImageWith (wireRaw le) (live (qsort indexCmp h.index)) 0).length : Nat)) : Int)
      ≠ 8 + ((live (qsort indexCmp h.index)).length : Int) * 16
        + ((dataImageWith (wireRaw le) (live (qsort indexCmp h.index)) 0).length : Int)) := by
    simp only [ne_eq, not_not]; push_cast; ring
  rw [if_neg hpe, if_neg hte]
  simp only [Res.ok.injEq, Prod.mk.injEq, Option.some.injEq]
  refine ⟨?_, ?_⟩
  · rw [qsort_indexCmp_idem (built_tags hb htags)]
  · unfold rawImage
    simp [List.append_assoc]

/-! ## Iteration -/

theorem takeWhile_region_append (regs L : List indexEntry)
    (hr : ∀ e ∈ regs, ENTRY_IS_REGION e = true)
    (hL : ∀ e ∈ L, ENTRY_IS_REGION e = false) :
    (regs ++ L).takeWhile ENTRY_IS_REGION = regs := by
  induction regs with
  | nil =>
    cases L with
    | nil => rfl
    | cons e rest => simp [List.takeWhile, hL e (List.mem_cons_self _ _)]
  | cons r rest ih =>
    have := ih (fun e he => hr e (List.mem_cons_of_mem _ he))
    simp only [List.cons_append, List.takeWhile_cons, hr r (List.mem_cons_self _ _), if_true, this]

theorem get?_of_drop_eq {l : List indexEntry} {k : Nat} {regs : List indexEntry} {e : indexEntry}
    {rest : List indexEntry} (h : l.drop k = regs ++ e :: rest) :
    l.get? (k + regs.length) = some e ∧ l.drop (k + regs.length + 1) = rest := by
  have h1 : l.drop (k + regs.length) = e :: rest := by
    rw [← List.drop_drop, h, List.drop_left]
  constructor
  · have := congrArg List.head? h1
    simpa [List.head?_drop] using this
  · rw [← List.drop_drop, h1]; rfl

theorem iterateLoop_eq (le : Bool) (h : Header) :
    ∀ (L regs : List indexEntry) (fuel k : Nat),
      h.index.drop k = regs ++ L → (∀ e ∈ regs, ENTRY_IS_REGION e = true) →
      (∀ e ∈ L, ENTRY_IS_REGION e = false) → L.length < fuel →
      iterateLoop le fuel { h := h, next_index := k } = itemsOf le h.blob L
  | [], regs, fuel, k, hd, hr, _, hf => by
    obtain ⟨f, rfl⟩ : ∃ f, fuel = f + 1 := ⟨fuel - 1, by simp at hf; omega⟩
    simp only [iterateLoop, headerNextIterator, hd, itemsOf]
    rw [List.append_nil] at hd ⊢
    have htw : regs.takeWhile ENTRY_IS_REGION = regs := by
      have := takeWhile_region_append regs [] hr (by simp)
      simpa using this
    rw [htw]
    have hlen : h.index.length ≤ k + regs.length := by
      have := congrArg List.length hd
      rw [List.length_drop] at this
      omega
    rw [List.get?_eq_none.mpr hlen]
  | e :: rest, regs, fuel, k, hd, hr, hL, hf => by
    obtain ⟨f, rfl⟩ : ∃ f, fuel = f + 1 := ⟨fuel - 1, by simp at hf; omega⟩
    simp only [iterateLoop, headerNextIterator, hd, itemsOf]
    rw [takeWhile_region_append regs (e :: rest) hr hL]
    obtain ⟨hg, hdrop⟩ := get?_of_drop_eq hd
    rw [hg]
    simp only
    cases hc : copyEntry le h.blob e true false with
    | exit => simp
    | fault => simp
    | ok out =>
      simp only
      by_cases hrc : out.rc = 1
      · simp only [hrc, if_true]
        cases hp : out.p with
        | none => simp
        | some v =>
          simp only
          rw [iterateLoop_eq le h rest [] f (k + regs.length + 1) (by rw [hdrop]; rfl) (by simp)
            (fun x hx => hL x (List.mem_cons_of_mem _ hx)) (by simp at hf; omega)]
      · simp [hrc]

/-! ## copyEntry on an entry stored by headerAddEntry -/

theorem splitStrings_ok : ∀ (i : Nat) (bs : List Nat) (L : Nat),
    strArrayLenAt bs i 0 = some L → ∃ ss, splitStrings i bs = some ss
  | 0, _, _, _ => ⟨[], rfl⟩
  | i + 1, bs, L, h => by
    simp only [strArrayLenAt] at h
    cases hs : strlenAt bs 0 with
    | none => simp [hs] at h
    | some n =>
      have hsl : strlenList bs = some n := by simpa [strlenAt] using hs
      simp only [hs, Option.map_eq_some'] at h
      obtain ⟨m, hm, _⟩ := h
      rw [strArrayLenAt_shift bs i _ (by omega)] at hm
      have e1 : (0 + ((n : Int) + 1)).toNat = n + 1 := by omega
      rw [e1] at hm
      obtain ⟨ss, hss⟩ := splitStrings_ok i _ m hm
      exact ⟨bs.take n :: ss, by simp [splitStrings, hsl, hss]⟩

theorem copyEntry_at (le : Bool) (blob : List Nat) {e : indexEntry} (ha : Added e)
    (ht : HEADER_I18NTABLE ≤ e.info.tag) (d : EntryData) (off rd : Int) (P S : List Nat) (a : Int)
    (hmem : entryMem blob d = some (P ++ entryBytes e ++ S, a)) (hP : a = (P.length : Int)) :
    copyEntry le blob
        { info := { e.info with offset := off }, data := d, length := e.length, rdlen := rd }
        true false
      = Res.ok { rc := 1, type := e.info.type, p := some (entryValue e),
                 c := if e.info.type = RPM_BIN_TYPE then e.length else e.info.count } := by
  have hlen := ha.length
  have hshape := ha.shape
  have hnr : ∀ ty : Int, ENTRY_IS_REGION (indexEntry.mk ⟨e.info.tag, ty, e.info.count, off⟩ d
      e.length rd) = false := fun _ => not_region_of_tag ht
  have hrd : readBytes (P ++ entryBytes e ++ S) a e.length.toNat = some (entryBytes e) :=
    readBytes_mid P _ S a _ hP (by omega)
  have hneg : ¬ e.length < 0 := by omega
  unfold copyEntry entryValue
  simp only [Bool.not_true, Bool.false_eq_true, if_false]
  by_cases hbin : e.info.type = RPM_BIN_TYPE
  · simp only [hbin, if_true, hnr, Bool.false_eq_true, if_false, hmem, hneg, hrd]
  · simp only [hbin, if_false]
    unfold DataShape at hshape
    by_cases hstr : e.info.type = RPM_STRING_TYPE
    · simp only [hstr, if_true] at hshape
      obtain ⟨hc1, n, hsl, hbl⟩ := hshape
      simp only [hstr, hc1, and_self, if_true, hmem]
      rw [strlenAt_mid P _ S a n hP hsl]
      simp only [Res.ok.injEq, CopyOut.mk.injEq, true_and, Option.some.injEq, Value.str.injEq,
        and_true]
      subst hP
      simp only [Int.toNat_ofNat, List.append_assoc, List.drop_left]
      rw [List.take_append_of_le_length (by omega)]
      congr 1
      omega
    · simp only [hstr, if_false, false_and] at hshape ⊢
      by_cases harr : e.info.type = RPM_STRING_ARRAY_TYPE ∨ e.info.type = RPM_I18NSTRING_TYPE
      · simp only [harr, if_true] at hshape
        obtain ⟨hc0, hsa⟩ := hshape
        obtain ⟨ss, hss⟩ := splitStrings_ok _ _ _ hsa
        have hts : ¬ (e.info.count * 8 + e.length < 0) := by omega
        simp only [false_or, harr, if_true, hts, if_false, hmem, hneg, hrd, hss, Option.getD_some,
          Bool.false_eq_true]
      · simp only [harr, if_false, false_or, hmem, hrd]

theorem copyEntry_added (le : Bool) (blob : List Nat) {e : indexEntry} (ha : Added e)
    (ht : HEADER_I18NTABLE ≤ e.info.tag) :
    copyEntry le blob e true false
      = Res.ok { rc := 1, type := e.info.type, p := some (entryValue e),
                 c := if e.info.type = RPM_BIN_TYPE then e.length else e.info.count } := by
  have := copyEntry_at le blob ha ht e.data e.info.offset e.rdlen [] [] 0
    (by rw [ha.data]; simp [entryMem]) (by simp)
  exact this

theorem itemsOf_added (le : Bool) (blob : List Nat) :
    ∀ (es : List indexEntry), (∀ e ∈ es, Added e ∧ HEADER_I18NTABLE ≤ e.info.tag) →
      itemsOf le blob es = Res.ok (es.map entryItem)
  | [], _ => rfl
  | e :: rest, h => by
    obtain ⟨ha, ht⟩ := h e (List.mem_cons_self _ _)
    simp only [itemsOf, copyEntry_added le blob ha ht, if_true,
      itemsOf_added le blob rest (fun x hx => h x (List.mem_cons_of_mem _ hx)), List.map_cons,
      entryItem]

theorem itemsOf_loaded (le : Bool) (rid ds : Int) :
    ∀ (es : List indexEntry) (off : Int) (P S : List Nat),
      (∀ e ∈ es, Added e ∧ HEADER_I18NTABLE ≤ e.info.tag) → 0 ≤ off →
      (P.length : Int) = ds + off →
      itemsOf le (P ++ dataImageWith entryBytes es off ++ S) (loadedEntries rid ds es off)
        = Res.ok (es.map entryItem)
  | [], _, _, _, _, _, _ => rfl
  | e :: rest, off, P, S, h, hoff, hP => by
    obtain ⟨ha, ht⟩ := h e (List.mem_cons_self _ _)
    have hpn := padTo_typeWidth_nonneg e.info.type off
    have hmem : P ++ dataImageWith entryBytes (e :: rest) off ++ S
        = (P ++ List.replicate (padTo (typeWidth e.info.type) off).toNat 0) ++ entryBytes e
          ++ (dataImageWith entryBytes rest (off + padTo (typeWidth e.info.type) off + e.length)
              ++ S) := by
      simp [dataImageWith, List.append_assoc]
    have hcopy := copyEntry_at le (P ++ dataImageWith entryBytes (e :: rest) off ++ S) ha ht
      (EntryData.blob (ds + (off + padTo (typeWidth e.info.type) off))) rid 0
      (P ++ List.replicate (padTo (typeWidth e.info.type) off).toNat 0)
      (dataImageWith entryBytes rest (off + padTo (typeWidth e.info.type) off + e.length) ++ S)
      (ds + (off + padTo (typeWidth e.info.type) off))
      (by simp only [entryMem]; rw [hmem])
      (by simp only [List.length_append, List.length_replicate]; push_cast
          rw [Int.toNat_of_nonneg hpn]; omega)
    have htail := itemsOf_loaded le rid ds rest (off + padTo (typeWidth e.info.type) off + e.length)
      (P ++ List.replicate (padTo (typeWidth e.info.type) off).toNat 0 ++ entryBytes e) S
      (fun x hx => h x (List.mem_cons_of_mem _ hx))
      (by have := ha.length; omega)
      (by simp only [List.length_append, List.length_replicate]; push_cast
          rw [Int.toNat_of_nonneg hpn, ha.length]; omega)
    have hmem2 : P ++ dataImageWith entryBytes (e :: rest) off ++ S
        = P ++ List.replicate (padTo (typeWidth e.info.type) off).toNat 0 ++ entryBytes e
          ++ dataImageWith entryBytes rest (off + padTo (typeWidth e.info.type) off + e.length)
          ++ S := by
      simp [dataImageWith, List.append_assoc]
    simp only [loadedEntries, itemsOf, hcopy, if_true, List.map_cons]
    rw [hmem2, htail]
    simp [entryItem]

/-! ## regionSwab on the block written for added entries -/

theorem wireRaw_other (le : Bool) {e : indexEntry} (h32 : e.info.type ≠ RPM_INT32_TYPE)
    (h16 : e.info.type ≠ RPM_INT16_TYPE) : wireRaw le e = entryBytes e := by
  simp [wireRaw, h32, h16]

theorem dataLength_disk (le : Bool) {e : indexEntry} (ha : Added e) (hlt : e.length < 2147483648)
    (P S : List Nat) (t : Int) (ht : t = (P.length : Int)) :
    dataLength e.info.type (hPTR.bytes (P ++ wireRaw le e ++ S) t) e.info.count true
      = Res.ok e.length := by
  have hlen := ha.length
  have hshape := ha.shape
  unfold DataShape at hshape
  unfold dataLength
  by_cases hstr : e.info.type = RPM_STRING_TYPE
  · simp only [hstr, if_true] at hshape ⊢
    obtain ⟨hc1, n, hsl, hbl⟩ := hshape
    have hw : wireRaw le e = entryBytes e :=
      wireRaw_other le (by rw [hstr]; decide) (by rw [hstr]; decide)
    rw [hw, strlenAt_mid P _ S t n ht hsl]
    simp only [hc1, if_true, Option.map_some', Res.ofOption, Res.ok.injEq, Int.ofNat_eq_coe]
    omega
  · simp only [hstr, if_false] at hshape ⊢
    by_cases harr : e.info.type = RPM_STRING_ARRAY_TYPE ∨ e.info.type = RPM_I18NSTRING_TYPE
    · simp only [harr, if_true] at hshape ⊢
      obtain ⟨hc0, hsa⟩ := hshape
      have hw : wireRaw le e = entryBytes e :=
        wireRaw_other le (by rcases harr with h | h <;> rw [h] <;> decide)
          (by rcases harr with h | h <;> rw [h] <;> decide)
      have hcn : ¬ e.info.count < 0 := by omega
      simp only [hcn, if_false, if_true]
      rw [strArrayLenAt_shift _ _ t (by omega), hw]
      subst ht
      simp only [Int.toNat_ofNat, List.append_assoc, List.drop_left]
      rw [strArrayLenAt_append S _ _ _ hsa]
      simp only [Option.map_some', Res.ofOption, Res.ok.injEq, Int.ofNat_eq_coe]
      omega
    · simp only [harr, if_false] at hshape ⊢
      obtain ⟨sz, hts, hsz, hl⟩ := hshape
      simp only [hts, ne_eq, hsz, not_false_eq_true, if_true]
      have hr : -2147483648 ≤ sz * e.info.count ∧ sz * e.info.count < 2147483648 := by
        rw [hl]; omega
      rw [if_pos hr, hl, hlen]

theorem readDesc (Q R : List Nat) (a b c d pe : Int) (hpe : pe = (Q.length : Int))
    (ha : isInt32 a) (hb : isInt32 b) (hc : isInt32 c) (hd : isInt32 d) :
    getS32 (Q ++ (putBE32 a ++ putBE32 b ++ putBE32 c ++ putBE32 d) ++ R) pe = some a
      ∧ getS32 (Q ++ (putBE32 a ++ putBE32 b ++ putBE32 c ++ putBE32 d) ++ R) (pe + 4) = some b
      ∧ getS32 (Q ++ (putBE32 a ++ putBE32 b ++ putBE32 c ++ putBE32 d) ++ R) (pe + 8) = some c
      ∧ getS32 (Q ++ (putBE32 a ++ putBE32 b ++ putBE32 c ++ putBE32 d) ++ R) (pe + 12) = some d := by
  refine ⟨?_, ?_, ?_, ?_⟩
  · have := getS32_mid Q (putBE32 b ++ putBE32 c ++ putBE32 d ++ R) a pe hpe ha
    simpa [List.append_assoc] using this
  · have := getS32_mid (Q ++ putBE32 a) (putBE32 c ++ putBE32 d ++ R) b (pe + 4)
      (by simp [putBE32_length, hpe]) hb
    simpa [List.append_assoc] using this
  · have := getS32_mid (Q ++ putBE32 a ++ putBE32 b) (putBE32 d ++ R) c (pe + 8)
      (by simp [putBE32_length, hpe]) hc
    simpa [List.append_assoc] using this
  · have := getS32_mid (Q ++ putBE32 a ++ putBE32 b ++ putBE32 c) R d (pe + 12)
      (by simp [putBE32_length, hpe]) hd
    simpa [List.append_assoc] using this

theorem regionSwabStep_added (le : Bool) (cap : Nat) (ds rid pe : Int) {e : indexEntry}
    (ha : Added e) (ht : HEADER_I18NTABLE ≤ e.info.tag) (s : SwabSt) (Q R M S : List Nat)
    (off : Int) (hoff : 0 ≤ off)
    (hfit : off + padTo (typeWidth e.info.type) off + e.length < 2147483648)
    (hpe : pe = (Q.length : Int))
    (hmem1 : s.mem = Q ++ (putBE32 e.info.tag ++ putBE32 e.info.type ++ putBE32 e.info.count
        ++ putBE32 (off + padTo (typeWidth e.info.type) off)) ++ R)
    (hmem2 : s.mem = M ++ wireRaw le e ++ S)
    (hM : (M.length : Int) = ds + (off + padTo (typeWidth e.info.type) off))
    (hcap : s.out.length < cap) (hdl : s.dl = off)
    (htl : (s.tprev = none ∧ s.tl = 0 ∧ off = 0)
      ∨ ∃ op, s.tprev = some (ds + op) ∧ s.tl = op ∧ 0 ≤ op ∧ op ≤ off) :
    regionSwabStep le (some cap) ds rid pe s
      = Res.ok (SwabSt.mk (M ++ entryBytes e ++ S)
          (s.out ++ [indexEntry.mk ⟨e.info.tag, e.info.type, e.info.count, rid⟩
            (EntryData.blob (ds + (off + padTo (typeWidth e.info.type) off))) e.length 0])
          (off + padTo (typeWidth e.info.type) off + e.length)
          (off + padTo (typeWidth e.info.type) off)
          (some (ds + (off + padTo (typeWidth e.info.type) off)))
          (some (ds + (off + padTo (typeWidth e.info.type) off) + e.length)), true) := by
  obtain ⟨ht0, ht9⟩ := ha.type_range
  have hpn := padTo_typeWidth_nonneg e.info.type off
  have hp4 := padTo_typeWidth_lt e.info.type off
  have hlen := ha.length
  generalize ho : off + padTo (typeWidth e.info.type) off = o at *
  have hoI : isInt32 o := ⟨by omega, by omega⟩
  obtain ⟨r1, r2, r3, r4⟩ := readDesc Q R e.info.tag e.info.type e.info.count o pe hpe
    ha.tag ha.type ha.count hoI
  have htr : ¬ (e.info.type < RPM_MIN_TYPE ∨ e.info.type > RPM_MAX_TYPE) := by
    simp only [RPM_MIN_TYPE, RPM_MAX_TYPE]; omega
  have hdlen : dataLength e.info.type (hPTR.bytes s.mem (ds + o)) e.info.count true
      = Res.ok e.length := by
    rw [hmem2]
    exact dataLength_disk le ha (by omega) M S (ds + o) hM.symm
  have hal : alignDiff e.info.type s.dl = some (padTo (typeWidth e.info.type) off) := by
    rw [hdl]; exact alignDiff_eq ht0 ht9 hoff
  have hnreg : ¬ (e.info.tag < HEADER_I18NTABLE) := by omega
  have hdl2 : wrap32 (wrap32 (s.dl + padTo (typeWidth e.info.type) off) + e.length) = o + e.length := by
    rw [hdl, ho, wrap32_eq hoI, wrap32_eq ⟨by omega, by omega⟩]
  have htl2 : wrap32 (s.tl + (match s.tprev with
      | some tp => wrap32 (ds + o - tp)
      | none => 0)) = o := by
    rcases htl with ⟨h1, h2, h3⟩ | ⟨op, h1, h2, h3, h4⟩
    · rw [h1, h2]
      have hp0 : padTo (typeWidth e.info.type) 0 = 0 := by
        unfold padTo
        have := typeWidth_pos e.info.type
        simp [Int.emod_self]
      subst h3
      rw [hp0] at ho
      simp only [add_zero] at ho
      subst ho
      rfl
    · rw [h1, h2]
      simp only
      have : ds + o - (ds + op) = o - op := by ring
      rw [this, wrap32_eq (x := o - op) ⟨by omega, by omega⟩]
      have : op + (o - op) = o := by ring
      rw [this, wrap32_eq hoI]
  rw [← hmem1] at r1 r2 r3 r4
  unfold regionSwabStep
  simp only [r1, r2, r3, r4, htr, if_false, hdlen, hcap, if_true, hal, hnreg, hdl2, htl2]
  by_cases h32 : e.info.type = RPM_INT32_TYPE
  · obtain ⟨hc4, hl4⟩ := ha.int32_len h32
    have hw : wireRaw le e = swabAll le 4 e.info.count.toNat (entryBytes e) := by
      simp [wireRaw, h32]
    have hwl := wireRaw_length le ha
    simp only [h32, if_true]
    rw [hmem2, swabInts_mid le 4 _ M (wireRaw le e) S (ds + o) hM.symm (by rw [hwl]; exact hc4)]
    simp only [Res.ok.injEq, Prod.mk.injEq, and_true, SwabSt.mk.injEq, true_and, Option.some.injEq]
    refine ⟨?_, ?_⟩
    · rw [hw, swabAll_swabAll le 4 _ _ hc4]
    · have := ha.pos; omega
  · by_cases h16 : e.info.type = RPM_INT16_TYPE
    · obtain ⟨hc2, hl2⟩ := ha.int16_len h16
      have hne : ¬ (RPM_INT16_TYPE = RPM_INT32_TYPE) := by decide
      have hw : wireRaw le e = swabAll le 2 e.info.count.toNat (entryBytes e) := by
        simp [wireRaw, h16, hne]
      have hwl := wireRaw_length le ha
      simp only [h16, hne, if_false, if_true]
      rw [hmem2, swabInts_mid le 2 _ M (wireRaw le e) S (ds + o) hM.symm (by rw [hwl]; exact hc2)]
      simp only [Res.ok.injEq, Prod.mk.injEq, and_true, SwabSt.mk.injEq, true_and,
        Option.some.injEq]
      refine ⟨?_, ?_⟩
      · rw [hw, swabAll_swabAll le 2 _ _ hc2]
      · have := ha.pos; omega
    · simp only [h32, h16, if_false]
      rw [hmem2, wireRaw_other le h32 h16]

theorem regionSwabLoop_added (le : Bool) (cap : Nat) (ds rid : Int) :
    ∀ (es : List indexEntry) (Q H : List Nat) (s : SwabSt) (off pe : Int),
      (∀ e ∈ es, Added e ∧ HEADER_I18NTABLE ≤ e.info.tag) →
      0 ≤ off → dataEnd es off < 2147483648 →
      pe = (Q.length : Int) → (Q.length : Int) + 16 * (es.length : Int) = ds →
      (H.length : Int) = off →
      s.mem = Q ++ descImage es off ++ (H ++ dataImageWith (wireRaw le) es off) →
      s.out.length + es.length ≤ cap → s.dl = off →
      ((s.tprev = none ∧ s.tl = 0 ∧ s.t = none ∧ off = 0)
        ∨ ∃ op, s.tprev = some (ds + op) ∧ s.tl = op ∧ 0 ≤ op ∧ op ≤ off ∧ s.t = some (ds + off)) →
      regionSwabLoop le (some cap) ds rid es.length pe s
        = Res.ok { rc := dataEnd es off,
                   mem := Q ++ descImage es off ++ (H ++ dataImageWith entryBytes es off),
                   out := s.out ++ loadedEntries rid ds es off }
  | [], Q, H, s, off, pe, _, hoff, hfit, _, _, _, hmem, _, hdl, htl => by
    simp only [dataEnd] at hfit
    simp only [List.length_nil, regionSwabLoop, dataEnd, descImage, dataImageWith, loadedEntries,
      List.append_nil, Res.ok.injEq, SwabRet.mk.injEq, and_true]
    refine ⟨?_, by simpa [descImage, dataImageWith] using hmem⟩
    rcases htl with ⟨h1, h2, h3, h4⟩ | ⟨op, h1, h2, h3, h4, h5⟩
    · rw [h1, h2, hdl, h4]
      simp only [add_zero]
      have : wrap32 0 = 0 := rfl
      rw [this]; simp
    · rw [h1, h2, h5, hdl]
      simp only
      have e1 : ds + off - (ds + op) = off - op := by ring
      rw [e1, wrap32_eq (x := off - op) ⟨by omega, by omega⟩]
      have e2 : op + (off - op) = off := by ring
      rw [e2, wrap32_eq ⟨by omega, by omega⟩]
      simp
  | e :: rest, Q, H, s, off, pe, h, hoff, hfit, hpe, hds, hH, hmem, hcap, hdl, htl => by
    obtain ⟨ha, ht⟩ := h e (List.mem_cons_self _ _)
    have hrest : ∀ x ∈ rest, Added x ∧ HEADER_I18NTABLE ≤ x.info.tag :=
      fun x hx => h x (List.mem_cons_of_mem _ hx)
    have hpn := padTo_typeWidth_nonneg e.info.type off
    have hlen := ha.length
    simp only [dataEnd] at hfit
    have hmono := dataEnd_mono rest (off + padTo (typeWidth e.info.type) off + e.length)
      (fun x hx => by have := (hrest x hx).1.length; omega)
    simp only [List.length_cons] at hds hcap
    have hmem1 : s.mem = Q ++ (putBE32 e.info.tag ++ putBE32 e.info.type ++ putBE32 e.info.count
        ++ putBE32 (off + padTo (typeWidth e.info.type) off))
        ++ (descImage rest (off + padTo (typeWidth e.info.type) off + e.length)
            ++ (H ++ dataImageWith (wireRaw le) (e :: rest) off)) := by
      rw [hmem]; simp [descImage, List.append_assoc]
    have hmem2 : s.mem = (Q ++ descImage (e :: rest) off ++ H
        ++ List.replicate (padTo (typeWidth e.info.type) off).toNat 0) ++ wireRaw le e
        ++ dataImageWith (wireRaw le) rest (off + padTo (typeWidth e.info.type) off + e.length) := by
      rw [hmem]; simp [dataImageWith, List.append_assoc]
    have hM : (((Q ++ descImage (e :: rest) off ++ H
        ++ List.replicate (padTo (typeWidth e.info.type) off).toNat 0).length : Nat) : Int)
        = ds + (off + padTo (typeWidth e.info.type) off) := by
      simp only [List.length_append, descImage_length, List.length_cons, List.length_replicate]
      push_cast
      rw [Int.toNat_of_nonneg hpn]
      omega
    have htl1 : (s.tprev = none ∧ s.tl = 0 ∧ off = 0)
        ∨ ∃ op, s.tprev = some (ds + op) ∧ s.tl = op ∧ 0 ≤ op ∧ op ≤ off := by
      rcases htl with ⟨h1, h2, _, h4⟩ | ⟨op, h1, h2, h3, h4, _⟩
      · exact Or.inl ⟨h1, h2, h4⟩
      · exact Or.inr ⟨op, h1, h2, h3, h4⟩
    have hstep := regionSwabStep_added le cap ds rid pe ha ht s Q _ _ _ off hoff (by omega) hpe
      hmem1 hmem2 hM (by omega) hdl htl1
    simp only [List.length_cons, regionSwabLoop, hstep]
    have hih := regionSwabLoop_added le cap ds rid rest
      (Q ++ (putBE32 e.info.tag ++ putBE32 e.info.type ++ putBE32 e.info.count
        ++ putBE32 (off + padTo (typeWidth e.info.type) off)))
      (H ++ List.replicate (padTo (typeWidth e.info.type) off).toNat 0 ++ entryBytes e)
      (SwabSt.mk ((Q ++ descImage (e :: rest) off ++ H
          ++ List.replicate (padTo (typeWidth e.info.type) off).toNat 0) ++ entryBytes e
          ++ dataImageWith (wireRaw le) rest (off + padTo (typeWidth e.info.type) off + e.length))
        (s.out ++ [indexEntry.mk ⟨e.info.tag, e.info.type, e.info.count, rid⟩
            (EntryData.blob (ds + (off + padTo (typeWidth e.info.type) off))) e.length 0])
        (off + padTo (typeWidth e.info.type) off + e.length)
        (off + padTo (typeWidth e.info.type) off)
        (some (ds + (off + padTo (typeWidth e.info.type) off)))
        (some (ds + (off + padTo (typeWidth e.info.type) off) + e.length)))
      (off + padTo (typeWidth e.info.type) off + e.length) (pe + sizeofEntryInfo) hrest
      (by omega) hfit
      (by simp only [List.length_append, putBE32_length, sizeofEntryInfo]; push_cast; omega)
      (by simp only [List.length_append, putBE32_length]; push_cast; omega)
      (by simp only [List.length_append, List.length_replicate]; push_cast
          rw [Int.toNat_of_nonneg hpn]; omega)
      (by simp [descImage, List.append_assoc])
      (by simp only [List.length_append, List.length_singleton]; omega)
      rfl
      (Or.inr ⟨off + padTo (typeWidth e.info.type) off, rfl, rfl, by omega, by omega, by
        simp only [Option.some.injEq]; ring⟩)
    rw [hih]
    simp [dataEnd, descImage, dataImageWith, loadedEntries, List.append_assoc]

/-! ## headerLoad on the block written for added entries -/

theorem loadedEntries_length (rid ds : Int) : ∀ (es : List indexEntry) (off : Int),
    (loadedEntries rid ds es off).length = es.length
  | [], _ => rfl
  | e :: rest, off => by simp [loadedEntries, loadedEntries_length rid ds rest]

theorem loadedEntries_tags (rid ds : Int) : ∀ (es : List indexEntry) (off : Int),
    (loadedEntries rid ds es off).map (fun e => e.info.tag) = es.map (fun e => e.info.tag)
  | [], _ => rfl
  | e :: rest, off => by simp [loadedEntries, loadedEntries_tags rid ds rest]

theorem mem_loadedEntries_tag (rid ds : Int) {es : List indexEntry} {off : Int} {x : indexEntry}
    (hx : x ∈ loadedEntries rid ds es off) : ∃ e ∈ es, x.info.tag = e.info.tag := by
  have h1 : x.info.tag ∈ (loadedEntries rid ds es off).map (fun e => e.info.tag) :=
    List.mem_map_of_mem _ hx
  rw [loadedEntries_tags] at h1
  obtain ⟨e, he, h2⟩ := List.mem_map.mp h1
  exact ⟨e, he, h2.symm⟩

theorem pairwise_tagLe_iff (l : List indexEntry) :
    l.Pairwise tagLe ↔ (l.map (fun e => e.info.tag)).Pairwise (· ≤ ·) := by
  rw [List.pairwise_map]; rfl

theorem loadedEntries_sorted (rid ds : Int) {es : List indexEntry} (off : Int)
    (h : es.Pairwise tagLe) : (loadedEntries rid ds es off).Pairwise tagLe := by
  rw [pairwise_tagLe_iff] at h ⊢
  rw [loadedEntries_tags]; exact h

/-- The header that headerLoad makes of the block written for added entries. -/
theorem headerLoad_rawImage (le : Bool) {es : List indexEntry}
    (hes : ∀ e ∈ es, Added e ∧ HEADER_I18NTABLE ≤ e.info.tag) (hne : es ≠ [])
    (hsorted : es.Pairwise tagLe)
    (hsize : 8 + 16 * (es.length : Int) + dataEnd es 0 < 2147483648) :
    ∃ (e0 : indexEntry) (Q : List Nat), ENTRY_IS_REGION e0 = true
      ∧ (Q.length : Int) = 8 + 16 * (es.length : Int)
      ∧ headerLoad le (rawImage le es)
        = Res.ok (some
            { index := e0 :: loadedEntries (wrap32 (8 - (8 + (es.length : Int) * 16)))
                (8 + (es.length : Int) * 16) es 0,
              sorted := true, allocated := false, legacy := true,
              blob := Q ++ dataImageWith entryBytes es 0 ++ [] }) := by
  obtain ⟨e, rest, rfl⟩ : ∃ e rest, es = e :: rest := by
    cases es with
    | nil => exact absurd rfl hne
    | cons e rest => exact ⟨e, rest, rfl⟩
  generalize hL : e :: rest = es at *
  have hD0 : 0 ≤ dataEnd es 0 :=
    dataEnd_mono _ 0 (fun x hx => by have := (hes x hx).1.length; omega)
  have hnI : isInt32 (es.length : Int) := ⟨by omega, by omega⟩
  have hDI : isInt32 (dataEnd es 0) := ⟨by omega, by omega⟩
  have hil : getS32 (rawImage le es) 0 = some (es.length : Int) := by
    have := getS32_mid [] (putBE32 (dataEnd es 0) ++ descImage es 0
      ++ dataImageWith (wireRaw le) es 0) (es.length : Int) 0 (by simp) hnI
    simpa [rawImage, List.append_assoc] using this
  have hdl : getS32 (rawImage le es) 4 = some (dataEnd es 0) := by
    have := getS32_mid (putBE32 (es.length : Int)) (descImage es 0
      ++ dataImageWith (wireRaw le) es 0) (dataEnd es 0) 4 (by simp [putBE32_length]) hDI
    simpa [rawImage, List.append_assoc] using this
  obtain ⟨hae, hte⟩ := hes e (by rw [← hL]; exact List.mem_cons_self _ _)
  have htagI := hae.tag
  have htag0 : getU32 (rawImage le es) 8 = some e.info.tag.toNat := by
    have := getU32_mid (putBE32 (es.length : Int) ++ putBE32 (dataEnd es 0))
      (putBE32 e.info.type ++ putBE32 e.info.count
        ++ putBE32 (0 + padTo (typeWidth e.info.type) 0)
        ++ descImage rest (0 + padTo (typeWidth e.info.type) 0 + e.length)
        ++ dataImageWith (wireRaw le) es 0) e.info.tag 8 (by simp [putBE32_length])
    have e1 : (e.info.tag % 4294967296).toNat = e.info.tag.toNat := by
      unfold isInt32 at htagI; unfold HEADER_I18NTABLE at hte; omega
    rw [e1] at this
    rw [← this, ← hL]
    simp [rawImage, descImage, List.append_assoc]
  have hfix : fixVerifyScript (rawImage le es) 8 = some (rawImage le es) := by
    unfold fixVerifyScript
    rw [htag0]
    have : ¬ (e.info.tag.toNat = 15) := by unfold HEADER_I18NTABLE at hte; omega
    simp [this]
  have hleg : ¬ (((e.info.tag.toNat : Nat) : Int) < HEADER_I18NTABLE) := by
    unfold HEADER_I18NTABLE at hte ⊢; omega
  have hloop := regionSwabLoop_added le es.length (8 + (es.length : Int) * 16)
    (wrap32 (8 - (8 + (es.length : Int) * 16))) es
    (putBE32 (es.length : Int) ++ putBE32 (dataEnd es 0)) []
    { mem := rawImage le es, out := [], dl := 0, tl := 0, tprev := none, t := none } 0 8 hes
    (by omega) (by omega) (by simp [putBE32_length])
    (by simp only [List.length_append, putBE32_length]; push_cast; omega) (by simp)
    (by simp [rawImage, List.append_assoc]) (by simp) rfl (Or.inl ⟨rfl, rfl, rfl, rfl⟩)
  refine ⟨indexEntry.mk ⟨HEADER_IMAGE, REGION_TAG_TYPE, REGION_TAG_COUNT,
      wrap32 (8 - (8 + (es.length : Int) * 16))⟩ (EntryData.blob 8)
      (wrap32 (wrap32 (8 + (es.length : Int) * 16 + dataEnd es 0) - 8)) (dataEnd es 0),
    putBE32 (es.length : Int) ++ putBE32 (dataEnd es 0) ++ descImage es 0, ?_, ?_, ?_⟩
  rotate_left
  · simp only [List.length_append, putBE32_length, descImage_length]; push_cast; omega
  · unfold headerLoad
    have h1 : ¬ ((es.length : Int) + 1 < 0) := by omega
    have h2 : ¬ ((es.length : Int) < 0) := by omega
    simp only [hil, hdl, h1, if_false, hfix, htag0, hleg, not_false_eq_true, if_true]
    unfold loadLegacy regionSwab
    simp only [h2, if_false, Int.toNat_ofNat, hloop, ne_eq, not_true_eq_false, if_false]
    simp only [Res.ok.injEq, Option.some.injEq, Header.mk.injEq, and_true, true_and,
      List.nil_append]
    refine ⟨?_, by simp [List.append_assoc]⟩
    have hslots : indexSlots (es.length : Int)
        { info := { tag := HEADER_IMAGE, type := REGION_TAG_TYPE, count := REGION_TAG_COUNT,
                    offset := wrap32 (8 - (8 + (es.length : Int) * 16)) },
          data := EntryData.blob 8,
          length := wrap32 (wrap32 (8 + (es.length : Int) * 16 + dataEnd es 0) - 8),
          rdlen := dataEnd es 0 }
        (loadedEntries (wrap32 (8 - (8 + (es.length : Int) * 16)))
          (8 + (es.length : Int) * 16) es 0)
        = { info := { tag := HEADER_IMAGE, type := REGION_TAG_TYPE, count := REGION_TAG_COUNT,
                      offset := wrap32 (8 - (8 + (es.length : Int) * 16)) },
            data := EntryData.blob 8,
            length := wrap32 (wrap32 (8 + (es.length : Int) * 16 + dataEnd es 0) - 8),
            rdlen := dataEnd es 0 }
          :: loadedEntries (wrap32 (8 - (8 + (es.length : Int) * 16)))
            (8 + (es.length : Int) * 16) es 0 := by
      unfold indexSlots
      have e1 : ((es.length : Int) + 1).toNat = es.length + 1 := by omega
      simp only [Int.toNat_ofNat, loadedEntries_length, Nat.sub_self, List.replicate_zero,
        List.append_nil, e1]
      rw [List.take_of_length_le (by simp [loadedEntries_length])]
    rw [hslots]
    have htags : ∀ x ∈ (indexEntry.mk ⟨HEADER_IMAGE, REGION_TAG_TYPE, REGION_TAG_COUNT,
          wrap32 (8 - (8 + (es.length : Int) * 16))⟩ (EntryData.blob 8)
          (wrap32 (wrap32 (8 + (es.length : Int) * 16 + dataEnd es 0) - 8)) (dataEnd es 0))
        :: loadedEntries (wrap32 (8 - (8 + (es.length : Int) * 16)))
          (8 + (es.length : Int) * 16) es 0,
        0 ≤ x.info.tag ∧ x.info.tag < 2147483648 := by
      intro x hx
      rcases List.mem_cons.mp hx with hx | hx
      · subst hx; simp [HEADER_IMAGE]
      · obtain ⟨y, hy, hxy⟩ := mem_loadedEntries_tag _ _ hx
        have h3 := (hes y hy).1.tag
        have h4 := (hes y hy).2
        unfold isInt32 at h3; unfold HEADER_I18NTABLE at h4
        omega
    rw [qsort_indexCmp_eq htags]
    apply insertionSort_tagLe_eq
    rw [List.pairwise_cons]
    refine ⟨?_, loadedEntries_sorted _ _ 0 hsorted⟩
    intro x hx
    obtain ⟨y, hy, hxy⟩ := mem_loadedEntries_tag _ _ hx
    have h4 := (hes y hy).2
    unfold tagLe
    rw [hxy]
    simp only [HEADER_IMAGE]
    unfold HEADER_I18NTABLE at h4
    omega
  · simp [ENTRY_IS_REGION, HEADER_IMAGE, HEADER_I18NTABLE]

/-! ## Iteration over a built header and over its reloaded image -/

theorem live_all {es : List indexEntry} (h : ∀ e ∈ es, 0 < e.length) : live es = es := by
  unfold live
  exact List.filter_eq_self.mpr (fun e he => by simpa using h e he)

theorem live_sublist (es : List indexEntry) : (live es).Sublist es := by
  unfold live; exact List.filter_sublist es

theorem qsort_indexCmp_sorted {l : List indexEntry}
    (h : ∀ e ∈ l, 0 ≤ e.info.tag ∧ e.info.tag < 2147483648) :
    (qsort indexCmp l).Pairwise tagLe := by
  rw [qsort_indexCmp_eq h]; exact insertionSort_tagLe_sorted l

theorem liveEntries_sorted {h : Header} (hb : Built h)
    (htags : ∀ e ∈ h.index, HEADER_I18NTABLE ≤ e.info.tag) :
    (liveEntries h).Pairwise tagLe :=
  List.Pairwise.sublist (live_sublist _) (qsort_indexCmp_sorted (built_tags hb htags))

theorem liveEntries_added {h : Header} (hb : Built h)
    (htags : ∀ e ∈ h.index, HEADER_I18NTABLE ≤ e.info.tag) :
    ∀ e ∈ liveEntries h, Added e ∧ HEADER_I18NTABLE ≤ e.info.tag :=
  fun e he => sorted_entries_built hb htags e (mem_live.mp he).1

theorem headerSort_built_index {h : Header} (hb : Built h)
    (htags : ∀ e ∈ h.index, HEADER_I18NTABLE ≤ e.info.tag) :
    (headerSort h).index = qsort indexCmp h.index ∧ (headerSort h).blob = h.blob := by
  unfold headerSort
  by_cases hs : h.sorted = true
  · simp only [hs, if_true, and_true]
    rw [qsort_indexCmp_eq (built_tags hb htags)]
    exact (insertionSort_tagLe_eq ((built_inv hb).2.2.2 hs)).symm
  · simp [hs]

/-- The iteration of a built header hands out its entries in ascending tag
order. -/
theorem iterate_built (le : Bool) {h : Header} (hb : Built h)
    (htags : ∀ e ∈ h.index, HEADER_I18NTABLE ≤ e.info.tag) :
    iterate le h = Res.ok ((qsort indexCmp h.index).map entryItem) := by
  obtain ⟨hi, hbl⟩ := headerSort_built_index hb htags
  have hes := sorted_entries_built hb htags
  unfold iterate headerInitIterator
  rw [iterateLoop_eq le (headerSort h) (qsort indexCmp h.index) [] _ 0
    (by simp [hi]) (by simp) (fun e he => not_region_of_tag (hes e he).2)
    (by rw [qsort_length]; omega)]
  exact itemsOf_added le _ _ hes

/-- The iteration of the header that headerLoad makes of the block written for
added entries hands out these entries. -/
theorem iterate_loaded (le : Bool) {es : List indexEntry} {e0 : indexEntry} {Q : List Nat}
    (hes : ∀ e ∈ es, Added e ∧ HEADER_I18NTABLE ≤ e.info.tag)
    (he0 : ENTRY_IS_REGION e0 = true) (rid ds : Int) (hQ : (Q.length : Int) = ds) :
    iterate le { index := e0 :: loadedEntries rid ds es 0, sorted := true, allocated := false,
                 legacy := true, blob := Q ++ dataImageWith entryBytes es 0 ++ [] }
      = Res.ok (es.map entryItem) := by
  unfold iterate headerInitIterator headerSort
  simp only [if_true]
  rw [iterateLoop_eq le _ (loadedEntries rid ds es 0) [e0] _ 0 (by simp)
    (by simpa using he0)
    (fun x hx => by
      obtain ⟨y, hy, hxy⟩ := mem_loadedEntries_tag _ _ hx
      exact not_region_of_tag (by rw [hxy]; exact (hes y hy).2))
    (by simp only [loadedEntries_length, List.length_cons]; omega)]
  exact itemsOf_loaded le rid ds es 0 Q [] hes (le_refl 0) (by omega)

/-- The composition headerLoad(headerUnload(h)) on a built header with at least
one entry with data. -/
theorem loadUnload_built (le : Bool) (junk : Nat → Nat) {h : Header} (hb : Built h)
    (htags : ∀ e ∈ h.index, HEADER_I18NTABLE ≤ e.info.tag)
    (hne : liveEntries h ≠ [])
    (hsize : 8 + 16 * ((liveEntries h).length : Int) + dataEnd (liveEntries h) 0 < 2147483648) :
    ∃ nh, loadUnload le junk h = Res.ok (some nh)
      ∧ iterate le nh = Res.ok ((liveEntries h).map entryItem) := by
  have hes := liveEntries_added hb htags
  obtain ⟨e0, Q, he0, hQ, hload⟩ :=
    headerLoad_rawImage le hes hne (liveEntries_sorted hb htags) hsize
  refine ⟨_, ?_, iterate_loaded le hes he0
    (wrap32 (8 - (8 + ((liveEntries h).length : Int) * 16)))
    (8 + ((liveEntries h).length : Int) * 16) (Q := Q) (by omega)⟩
  unfold loadUnload headerUnload
  rw [doHeaderUnload_built le junk hb htags hsize]
  exact hload

/-! ## The byte order of the items the encoder converts -/

theorem beBytes4_hostVal (le : Bool) {a b c d : Nat} (ha : a < 256) (hb : b < 256)
    (hc : c < 256) (hd : d < 256) :
    beBytes 4 (hostVal le [a, b, c, d]) = hswap le [a, b, c, d] := by
  cases le
  · simp only [hostVal, hswap, beBytes, leVal, List.reverse_cons, List.reverse_nil,
      List.nil_append, List.cons_append, Bool.false_eq_true, if_false]
    norm_num
    refine ⟨?_, ?_, ?_, ?_⟩ <;> omega
  · simp only [hostVal, hswap, beBytes, leVal, List.reverse_cons, List.reverse_nil,
      List.nil_append, List.cons_append, if_true]
    norm_num
    refine ⟨?_, ?_, ?_, ?_⟩ <;> omega

theorem beBytes2_hostVal (le : Bool) {a b : Nat} (ha : a < 256) (hb : b < 256) :
    beBytes 2 (hostVal le [a, b]) = hswap le [a, b] := by
  cases le
  · simp only [hostVal, hswap, beBytes, leVal, List.reverse_cons, List.reverse_nil,
      List.nil_append, List.cons_append, Bool.false_eq_true, if_false]
    norm_num
    refine ⟨?_, ?_⟩ <;> omega
  · simp only [hostVal, hswap, beBytes, leVal, List.reverse_cons, List.reverse_nil,
      List.nil_append, List.cons_append, if_true]
    norm_num
    refine ⟨?_, ?_⟩ <;> omega

theorem beElems4_eq (le : Bool) : ∀ (n : Nat) (bs : List Nat), (∀ b ∈ bs, b < 256) →
    n * 4 ≤ bs.length → beElems le 4 n bs = swabAll le 4 n bs
  | 0, _, _, _ => rfl
  | n + 1, bs, hb, hl => by
    match bs, hb, hl with
    | a :: b :: c :: d :: rest, hb, hl =>
      simp only [beElems, swabAll, List.take_succ_cons, List.take_zero, List.drop_succ_cons,
        List.drop_zero]
      rw [beBytes4_hostVal le (hb a (by simp)) (hb b (by simp)) (hb c (by simp))
        (hb d (by simp)),
        beElems4_eq le n rest (fun x hx => hb x (by simp [hx]))
          (by simp only [List.length_cons] at hl; omega)]
    | [], _, hl => simp at hl
    | [_], _, hl => simp at hl; omega
    | [_, _], _, hl => simp at hl; omega
    | [_, _, _], _, hl => simp at hl; omega

theorem beElems2_eq (le : Bool) : ∀ (n : Nat) (bs : List Nat), (∀ b ∈ bs, b < 256) →
    n * 2 ≤ bs.length → beElems le 2 n bs = swabAll le 2 n bs
  | 0, _, _, _ => rfl
  | n + 1, bs, hb, hl => by
    match bs, hb, hl with
    | a :: b :: rest, hb, hl =>
      simp only [beElems, swabAll, List.take_succ_cons, List.take_zero, List.drop_succ_cons,
        List.drop_zero]
      rw [beBytes2_hostVal le (hb a (by simp)) (hb b (by simp)),
        beElems2_eq le n rest (fun x hx => hb x (by simp [hx]))
          (by simp only [List.length_cons] at hl; omega)]
    | [], _, hl => simp at hl
    | [_], _, hl => simp at hl; omega

/-- The data that the encoder writes for an entry stored by headerAddEntry
holds its int16 and int32 items big-endian. -/
theorem wireRaw_eq_wireData (le : Bool) {e : indexEntry} (ha : Added e)
    (hb : ∀ b ∈ entryBytes e, b < 256) : wireRaw le e = wireData le e := by
  unfold wireRaw wireData
  split
  · rename_i ht
    exact (beElems4_eq le _ _ hb (by have := (ha.int32_len ht).1; omega)).symm
  · split
    · rename_i ht
      exact (beElems2_eq le _ _ hb (by have := (ha.int16_len ht).1; omega)).symm
    · rfl

theorem dataImageWith_congr {f g : indexEntry → List Nat} :
    ∀ (es : List indexEntry) (dl : Int), (∀ e ∈ es, f e = g e) →
      dataImageWith f es dl = dataImageWith g es dl
  | [], _, _ => rfl
  | e :: rest, dl, h => by
    simp only [dataImageWith, h e (List.mem_cons_self _ _),
      dataImageWith_congr rest _ (fun x hx => h x (List.mem_cons_of_mem _ hx))]

theorem rawImage_eq_wireImage (le : Bool) {es : List indexEntry}
    (h : ∀ e ∈ es, Added e ∧ ∀ b ∈ entryBytes e, b < 256) :
    rawImage le es = wireImage le es := by
  unfold rawImage wireImage
  rw [dataImageWith_congr es 0 (fun e he => wireRaw_eq_wireData le (h e he).1 (h e he).2)]

theorem rawImage_length (le : Bool) {es : List indexEntry} (h : ∀ e ∈ es, Added e) :
    ((rawImage le es).length : Int) = 8 + 16 * (es.length : Int) + dataEnd es 0 := by
  unfold rawImage
  simp only [List.length_append, putBE32_length, descImage_length]
  have := dataImageWith_length (wireRaw le) es 0
    (fun e he => by rw [wireRaw_length le (h e he), (h e he).length])
  push_cast
  omega

theorem liveEntries_perm (h : Header) :
    (liveEntries h).Perm (h.index.filter (fun e => decide (0 < e.length))) := by
  unfold liveEntries live
  exact List.Perm.filter _ (qsort_perm _ _)

/-! ## The descriptors of the block written for added entries -/

theorem range_filterMap_get? {α : Type} : ∀ (l : List α),
    (List.range l.length).filterMap (fun i => l.get? i) = l
  | [] => rfl
  | a :: l => by
    rw [List.length_cons, List.range_succ_eq_map, List.filterMap_cons]
    simp only [List.get?_cons_zero, List.filterMap_map]
    have : ((fun i => (a :: l).get? i) ∘ Nat.succ) = fun i => l.get? i := by
      funext i; simp
    rw [this, range_filterMap_get? l]

theorem entryInfos_length : ∀ (es : List indexEntry) (dl : Int),
    (entryInfos es dl).length = es.length
  | [], _ => rfl
  | e :: rest, dl => by simp [entryInfos, entryInfos_length rest]

theorem descriptorAt_descImage : ∀ (es : List indexEntry) (off : Int) (Q S : List Nat)
    (k j : Nat), (∀ e ∈ es, Added e) → 0 ≤ off → dataEnd es off < 2147483648 →
    (Q.length : Int) = 8 + 16 * (k : Int) → j < es.length →
    descriptorAt (Q ++ descImage es off ++ S) (k + j) = (entryInfos es off).get? j
  | [], _, _, _, _, _, _, _, _, _, hj => by simp at hj
  | e :: rest, off, Q, S, k, j, hes, hoff, hend, hQ, hj => by
    have ha := hes e (List.mem_cons_self _ _)
    have hp0 := padTo_typeWidth_nonneg e.info.type off
    simp only [dataEnd] at hend
    have hl0 : 0 ≤ e.length := by rw [ha.length]; omega
    have hmono := dataEnd_mono rest (off + padTo (typeWidth e.info.type) off + e.length)
      (fun x hx => by
        have := (hes x (List.mem_cons_of_mem _ hx)).length; omega)
    cases j with
    | zero =>
      have hoI : isInt32 (off + padTo (typeWidth e.info.type) off) := by
        unfold isInt32; omega
      have r1 := getS32_mid Q (putBE32 e.info.type ++ putBE32 e.info.count
        ++ putBE32 (off + padTo (typeWidth e.info.type) off)
        ++ descImage rest (off + padTo (typeWidth e.info.type) off + e.length) ++ S)
        e.info.tag (8 + 16 * ((k + 0 : Nat) : Int)) (by push_cast; omega) ha.tag
      have r2 := getS32_mid (Q ++ putBE32 e.info.tag) (putBE32 e.info.count
        ++ putBE32 (off + padTo (typeWidth e.info.type) off)
        ++ descImage rest (off + padTo (typeWidth e.info.type) off + e.length) ++ S)
        e.info.type (8 + 16 * ((k + 0 : Nat) : Int) + 4)
        (by simp only [List.length_append, putBE32_length]; push_cast; omega) ha.type
      have r3 := getS32_mid (Q ++ putBE32 e.info.tag ++ putBE32 e.info.type)
        (putBE32 (off + padTo (typeWidth e.info.type) off)
        ++ descImage rest (off + padTo (typeWidth e.info.type) off + e.length) ++ S)
        e.info.count (8 + 16 * ((k + 0 : Nat) : Int) + 8)
        (by simp only [List.length_append, putBE32_length]; push_cast; omega) ha.count
      have r4 := getS32_mid (Q ++ putBE32 e.info.tag ++ putBE32 e.info.type
        ++ putBE32 e.info.count)
        (descImage rest (off + padTo (typeWidth e.info.type) off + e.length) ++ S)
        (off + padTo (typeWidth e.info.type) off) (8 + 16 * ((k + 0 : Nat) : Int) + 12)
        (by simp only [List.length_append, putBE32_length]; push_cast; omega) hoI
      simp only [List.append_assoc] at r1 r2 r3 r4
      simp only [descriptorAt, descImage, List.append_assoc, r1, r2, r3, r4, entryInfos,
        List.get?_cons_zero]
    | succ j =>
      have := descriptorAt_descImage rest (off + padTo (typeWidth e.info.type) off + e.length)
        (Q ++ (putBE32 e.info.tag ++ putBE32 e.info.type ++ putBE32 e.info.count
          ++ putBE32 (off + padTo (typeWidth e.info.type) off))) S (k + 1) j
        (fun x hx => hes x (List.mem_cons_of_mem _ hx)) (by omega) hend
        (by simp only [List.length_append, putBE32_length]; push_cast; omega)
        (by simp only [List.length_cons] at hj; omega)
      have e1 : k + (j + 1) = k + 1 + j := by omega
      rw [e1]
      simp only [entryInfos, List.get?_cons_succ]
      rw [← this]
      simp only [descImage, List.append_assoc]

/-- The descriptors of the block that the encoder writes for added entries. -/
theorem descriptors_rawImage (le : Bool) {es : List indexEntry} (hes : ∀ e ∈ es, Added e)
    (hsize : 8 + 16 * (es.length : Int) + dataEnd es 0 < 2147483648) :
    descriptors (rawImage le es) = entryInfos es 0 := by
  have hD0 : 0 ≤ dataEnd es 0 :=
    dataEnd_mono _ 0 (fun x hx => by have := (hes x hx).length; omega)
  have hil : getS32 (rawImage le es) 0 = some (es.length : Int) := by
    have := getS32_mid [] (putBE32 (dataEnd es 0) ++ descImage es 0
      ++ dataImageWith (wireRaw le) es 0) (es.length : Int) 0 (by simp)
      ⟨by omega, by omega⟩
    simpa [rawImage, List.append_assoc] using this
  unfold descriptors
  rw [hil]
  simp only [Int.toNat_ofNat]
  have hcongr : ∀ i ∈ List.range es.length,
      descriptorAt (rawImage le es) i = (entryInfos es 0).get? i := by
    intro i hi
    have := descriptorAt_descImage es 0 (putBE32 (es.length : Int) ++ putBE32 (dataEnd es 0))
      (dataImageWith (wireRaw le) es 0) 0 i hes (le_refl 0) (by omega)
      (by simp [putBE32_length]) (List.mem_range.mp hi)
    rw [Nat.zero_add] at this
    rw [← this]; rfl
  rw [List.filterMap_congr hcongr]
  have := range_filterMap_get? (entryInfos es 0)
  rw [entryInfos_length] at this
  exact this

theorem entryInfos_aligned : ∀ (es : List indexEntry) (dl : Int),
    ∀ d ∈ entryInfos es dl, d.offset % typeWidth d.type = 0
  | [], _, d, hd => by simp [entryInfos] at hd
  | e :: rest, dl, d, hd => by
    simp only [entryInfos, List.mem_cons] at hd
    rcases hd with hd | hd
    · subst hd
      exact padTo_aligned (typeWidth e.info.type) dl
    · exact entryInfos_aligned rest _ d hd

theorem rawImage_data (le : Bool) (es : List indexEntry) :
    (rawImage le es).drop (8 + 16 * es.length) = dataImageWith (wireRaw le) es 0 := by
  unfold rawImage
  rw [List.drop_append_eq_append_drop, List.drop_of_length_le, List.nil_append]
  · have : 8 + 16 * es.length
        - (putBE32 (es.length : Int) ++ putBE32 (dataEnd es 0) ++ descImage es 0).length = 0 := by
      simp only [List.length_append, putBE32_length, descImage_length]; omega
    rw [this, List.drop_zero]
  · simp only [List.length_append, putBE32_length, descImage_length]; omega

/-! ## bsearch and headerRemoveEntry on an index in ascending tag order -/

theorem sorted_get? {l : List indexEntry} (h : l.Pairwise tagLe) {i j : Nat} {a b : indexEntry}
    (hij : i ≤ j) (ha : l.get? i = some a) (hb : l.get? j = some b) :
    a.info.tag ≤ b.info.tag := by
  rcases Nat.eq_or_lt_of_le hij with heq | hlt
  · subst heq
    rw [ha] at hb
    cases hb
    exact le_refl _
  · obtain ⟨hi, rfl⟩ := List.get?_eq_some.mp ha
    obtain ⟨hj, rfl⟩ := List.get?_eq_some.mp hb
    exact List.pairwise_iff_get.mp h ⟨i, hi⟩ ⟨j, hj⟩ hlt

theorem wrap32_tag_sub {x y : Int} (hx : 0 ≤ x ∧ x < 2147483648)
    (hy : 0 ≤ y ∧ y < 2147483648) : wrap32 (x - y) = x - y :=
  wrap32_eq ⟨by omega, by omega⟩

theorem bsearchLoop_some {tag : Int} {index : List indexEntry}
    (ht : 0 ≤ tag ∧ tag < 2147483648)
    (hb : ∀ e ∈ index, 0 ≤ e.info.tag ∧ e.info.tag < 2147483648) :
    ∀ (fuel l u i : Nat), bsearchLoop tag index fuel l u = some i →
      ∃ e, index.get? i = some e ∧ e.info.tag = tag
  | 0, _, _, _, h => by simp [bsearchLoop] at h
  | fuel + 1, l, u, i, h => by
    unfold bsearchLoop at h
    by_cases hlu : l < u
    · simp only [hlu, if_true] at h
      cases hg : index.get? ((l + u) / 2) with
      | none => simp only [hg] at h; cases h
      | some e =>
        simp only [hg] at h
        have he := hb e (List.get?_mem hg)
        rw [wrap32_tag_sub ht he] at h
        split at h
        · exact bsearchLoop_some ht hb fuel _ _ i h
        · split at h
          · exact bsearchLoop_some ht hb fuel _ _ i h
          · simp only [Option.some.injEq] at h
            subst h
            exact ⟨e, hg, by omega⟩
    · simp only [hlu, if_false] at h; cases h

theorem bsearchLoop_none {tag : Int} {index : List indexEntry}
    (ht : 0 ≤ tag ∧ tag < 2147483648)
    (hb : ∀ e ∈ index, 0 ≤ e.info.tag ∧ e.info.tag < 2147483648)
    (hs : index.Pairwise tagLe) :
    ∀ (fuel l u : Nat), u ≤ index.length → u - l < fuel →
      bsearchLoop tag index fuel l u = none →
      ∀ (i : Nat) (e : indexEntry), l ≤ i → i < u → index.get? i = some e → e.info.tag ≠ tag
  | 0, _, _, _, hf, _ => by omega
  | fuel + 1, l, u, hu, hf, h => by
    intro i e hli hiu hge
    unfold bsearchLoop at h
    have hlu : l < u := by omega
    simp only [hlu, if_true] at h
    have hidx : (l + u) / 2 < index.length := by omega
    obtain ⟨e0, hg⟩ : ∃ e0, index.get? ((l + u) / 2) = some e0 :=
      ⟨index.get ⟨_, hidx⟩, List.get?_eq_get hidx⟩
    simp only [hg] at h
    have he0 := hb e0 (List.get?_mem hg)
    rw [wrap32_tag_sub ht he0] at h
    split at h
    · by_cases hi : i < (l + u) / 2
      · exact bsearchLoop_none ht hb hs fuel l _ (by omega) (by omega) h i e hli hi hge
      · have := sorted_get? hs (by omega : (l + u) / 2 ≤ i) hg hge
        omega
    · split at h
      · by_cases hi : (l + u) / 2 + 1 ≤ i
        · exact bsearchLoop_none ht hb hs fuel _ u hu (by omega) h i e hi hiu hge
        · have := sorted_get? hs (by omega : i ≤ (l + u) / 2) hge hg
          omega
      · simp at h

/-- An index in ascending tag order splits into the entries below a tag, the
entries with the tag and the entries above it. -/
theorem sorted_split (tag : Int) : ∀ {l : List indexEntry}, l.Pairwise tagLe →
    ∃ A B C : List indexEntry, l = A ++ B ++ C ∧ (∀ a ∈ A, a.info.tag < tag)
      ∧ (∀ b ∈ B, b.info.tag = tag) ∧ (∀ c ∈ C, tag < c.info.tag)
  | [], _ => ⟨[], [], [], rfl, by simp, by simp, by simp⟩
  | x :: l, h => by
    rw [List.pairwise_cons] at h
    obtain ⟨hx, hl⟩ := h
    obtain ⟨A, B, C, rfl, hA, hB, hC⟩ := sorted_split tag hl
    rcases lt_trichotomy x.info.tag tag with hlt | heq | hgt
    · exact ⟨x :: A, B, C, rfl, by
        intro a ha
        rcases List.mem_cons.mp ha with rfl | ha
        · exact hlt
        · exact hA a ha, hB, hC⟩
    · have hAe : A = [] := by
        cases A with
        | nil => rfl
        | cons a A =>
          have h1 := hx a (by simp)
          have h2 := hA a (by simp)
          unfold tagLe at h1; omega
      subst hAe
      exact ⟨[], x :: B, C, rfl, by simp, by
        intro b hb
        rcases List.mem_cons.mp hb with rfl | hb
        · exact heq
        · exact hB b hb, hC⟩
    · have hAe : A = [] := by
        cases A with
        | nil => rfl
        | cons a A =>
          have h1 := hx a (by simp)
          have h2 := hA a (by simp)
          unfold tagLe at h1; omega
      have hBe : B = [] := by
        cases B with
        | nil => rfl
        | cons b B =>
          have h1 := hx b (by simp)
          have h2 := hB b (by simp)
          unfold tagLe at h1; omega
      subst hAe hBe
      exact ⟨[], [], x :: C, rfl, by simp, by simp, by
        intro c hc
        rcases List.mem_cons.mp hc with rfl | hc
        · exact hgt
        · exact hC c hc⟩

theorem filter_split (tag : Int) {A B C : List indexEntry} (hA : ∀ a ∈ A, a.info.tag < tag)
    (hB : ∀ b ∈ B, b.info.tag = tag) (hC : ∀ c ∈ C, tag < c.info.tag) :
    (A ++ B ++ C).filter (fun e => decide (e.info.tag ≠ tag)) = A ++ C := by
  rw [List.filter_append, List.filter_append,
    List.filter_eq_self.mpr (fun a ha => by have := hA a ha; simp; omega),
    List.filter_eq_nil_iff.mpr (fun b hb => by have := hB b hb; simp; omega),
    List.filter_eq_self.mpr (fun c hc => by have := hC c hc; simp; omega), List.append_nil]

theorem firstOccurrence_split (tag : Int) {A B C : List indexEntry}
    (hA : ∀ a ∈ A, a.info.tag < tag) (hB : ∀ b ∈ B, b.info.tag = tag) :
    ∀ (j : Nat), j ≤ B.length → firstOccurrence tag (A ++ B ++ C) (A.length + j) = A.length
  | 0, _ => by
    cases hA0 : A.length with
    | zero => rfl
    | succ n =>
      simp only [Nat.add_zero, firstOccurrence]
      have hn : n < A.length := by omega
      have hg : (A ++ B ++ C).get? n = some (A.get ⟨n, hn⟩) := by
        rw [List.append_assoc, List.get?_eq_getElem?, List.getElem?_append_left hn,
          ← List.get?_eq_getElem?, List.get?_eq_get hn]
      have := hA _ (List.get_mem A n hn)
      simp only [hg]
      rw [if_neg (by omega)]
  | j + 1, hj => by
    have e1 : A.length + (j + 1) = (A.length + j) + 1 := by omega
    rw [e1]
    simp only [firstOccurrence]
    have hjB : j < B.length := by omega
    have hg : (A ++ B ++ C).get? (A.length + j) = some (B.get ⟨j, hjB⟩) := by
      rw [List.append_assoc, List.get?_eq_getElem?, List.getElem?_append_right (by omega),
        Nat.add_sub_cancel_left, List.getElem?_append_left hjB, ← List.get?_eq_getElem?,
        List.get?_eq_get hjB]
    have := hB _ (List.get_mem B j hjB)
    simp only [hg, this, if_true]
    exact firstOccurrence_split tag hA hB j (by omega)

theorem takeWhile_split (tag : Int) {B C : List indexEntry}
    (hB : ∀ b ∈ B, b.info.tag = tag) (hC : ∀ c ∈ C, tag < c.info.tag) :
    (B ++ C).takeWhile (fun e => decide (e.info.tag = tag)) = B := by
  induction B with
  | nil =>
    cases C with
    | nil => rfl
    | cons c C =>
      have := hC c (by simp)
      rw [List.nil_append, List.takeWhile_cons]
      rw [if_neg (by simp; omega)]
  | cons b B ih =>
    have := hB b (by simp)
    rw [List.cons_append, List.takeWhile_cons]
    simp only [this, decide_True, if_true]
    rw [ih (fun x hx => hB x (List.mem_cons_of_mem _ hx))]

/-- On a sorted index in ascending tag order headerRemoveEntry deletes exactly
the entries that carry the tag. -/
theorem headerRemoveEntry_sorted {h : Header} {tag : Int} (hsorted : h.sorted = true)
    (hs : h.index.Pairwise tagLe) (ht : 0 ≤ tag ∧ tag < 2147483648)
    (hb : ∀ e ∈ h.index, 0 ≤ e.info.tag ∧ e.info.tag < 2147483648) :
    (headerRemoveEntry h tag).1
      = { h with index := h.index.filter (fun e => decide (e.info.tag ≠ tag)) } := by
  obtain ⟨index, sorted, allocated, legacy, blob⟩ := h
  simp only at hsorted hs hb
  subst hsorted
  unfold headerRemoveEntry findEntry headerSort
  simp only [if_true]
  cases hbs : bsearch tag index with
  | none =>
    simp only
    have hnone := bsearchLoop_none ht hb hs _ 0 index.length (le_refl _) (by omega) hbs
    have : index.filter (fun e => decide (e.info.tag ≠ tag)) = index := by
      apply List.filter_eq_self.mpr
      intro e he
      obtain ⟨i, hge⟩ := List.mem_iff_get?.mp he
      obtain ⟨hi, _⟩ := List.get?_eq_some.mp hge
      have := hnone i e (Nat.zero_le _) hi hge
      simpa using this
    rw [this]
  | some i =>
    simp only [if_true]
    obtain ⟨e, hge, hte⟩ := bsearchLoop_some ht hb _ _ _ _ hbs
    obtain ⟨A, B, C, hABC, hA, hB, hC⟩ := sorted_split tag hs
    have hiA : A.length ≤ i := by
      by_contra hlt
      have hlt2 : i < A.length := by omega
      rw [hABC, List.append_assoc, List.get?_eq_getElem?, List.getElem?_append_left hlt2,
        ← List.get?_eq_getElem?] at hge
      have := hA e (List.get?_mem hge)
      omega
    have hiB : i < A.length + B.length := by
      by_contra hge2
      rw [hABC, List.get?_eq_getElem?, List.getElem?_append_right (by simp; omega),
        ← List.get?_eq_getElem?] at hge
      have := hC e (List.get?_mem hge)
      omega
    have hfo : firstOccurrence tag index i = A.length := by
      have := firstOccurrence_split tag (C := C) hA hB (i - A.length) (by omega)
      rw [← hABC, Nat.add_sub_cancel' hiA] at this
      exact this
    rw [hfo]
    have hdrop : index.drop A.length = B ++ C := by
      rw [hABC, List.append_assoc, List.drop_left]
    have htake : index.take A.length = A := by
      rw [hABC, List.append_assoc, List.take_left]
    rw [hdrop, takeWhile_split tag hB hC, htake]
    have hdrop2 : index.drop (A.length + B.length) = C := by
      rw [hABC, ← List.length_append, List.drop_left]
    rw [hdrop2]
    have := filter_split tag hA hB hC
    rw [← hABC] at this
    rw [this]

/-! ## The replacement of region entries by dribble entries -/

theorem removeDuplicates_sorted : ∀ (dr index : List indexEntry) (allocated legacy : Bool)
    (blob : List Nat), index.Pairwise tagLe →
    (∀ e ∈ index, 0 ≤ e.info.tag ∧ e.info.tag < 2147483648) →
    (∀ d ∈ dr, 0 ≤ d.info.tag ∧ d.info.tag < 2147483648) →
    ∃ idx, removeDuplicates (Header.mk index true allocated legacy blob) dr
        = Header.mk idx true allocated legacy blob
      ∧ idx.Sublist index ∧ ∀ e ∈ idx, ∀ d ∈ dr, e.info.tag ≠ d.info.tag
  | [], index, _, _, _, _, _, _ => ⟨index, rfl, List.Sublist.refl _, by simp⟩
  | d :: rest, index, allocated, legacy, blob, hs, hb, hd => by
    have hdt := hd d (List.mem_cons_self _ _)
    have h1 := @headerRemoveEntry_sorted (Header.mk index true allocated legacy blob)
      d.info.tag rfl hs hdt hb
    have hsub1 : (index.filter (fun e => decide (e.info.tag ≠ d.info.tag))).Sublist index :=
      List.filter_sublist _
    have hs1 := List.Pairwise.sublist hsub1 hs
    have hb1 : ∀ e ∈ index.filter (fun e => decide (e.info.tag ≠ d.info.tag)),
        0 ≤ e.info.tag ∧ e.info.tag < 2147483648 := fun e he => hb e (hsub1.subset he)
    have h2 := @headerRemoveEntry_sorted
      (Header.mk (index.filter (fun e => decide (e.info.tag ≠ d.info.tag))) true allocated
        legacy blob)
      HEADER_OLDFILENAMES rfl hs1 (by simp [HEADER_OLDFILENAMES]) hb1
    simp only at h1 h2
    simp only [removeDuplicates, h1]
    by_cases hbn : d.info.tag = HEADER_BASENAMES
    · simp only [hbn, if_true]
      rw [hbn] at h2
      rw [h2]
      have hsub2 : ((index.filter (fun e => decide (e.info.tag ≠ HEADER_BASENAMES))).filter
          (fun e => decide (e.info.tag ≠ HEADER_OLDFILENAMES))).Sublist index :=
        (List.filter_sublist _).trans (List.filter_sublist _)
      obtain ⟨idx, hr, hsub, hne⟩ := removeDuplicates_sorted rest
        ((index.filter (fun e => decide (e.info.tag ≠ HEADER_BASENAMES))).filter
          (fun e => decide (e.info.tag ≠ HEADER_OLDFILENAMES))) allocated legacy blob
        (List.Pairwise.sublist hsub2 hs) (fun e he => hb e (hsub2.subset he))
        (fun x hx => hd x (List.mem_cons_of_mem _ hx))
      refine ⟨idx, hr, hsub.trans hsub2, ?_⟩
      intro e he x hx
      rcases List.mem_cons.mp hx with rfl | hx
      · have hmem := hsub.subset he
        simp only [List.mem_filter, decide_eq_true_eq] at hmem
        rw [hbn]; exact hmem.1.2
      · exact hne e he x hx
    · simp only [hbn, if_false]
      obtain ⟨idx, hr, hsub, hne⟩ := removeDuplicates_sorted rest
        (index.filter (fun e => decide (e.info.tag ≠ d.info.tag))) allocated legacy blob
        hs1 hb1 (fun x hx => hd x (List.mem_cons_of_mem _ hx))
      refine ⟨idx, hr, hsub.trans hsub1, ?_⟩
      intro e he x hx
      rcases List.mem_cons.mp hx with rfl | hx
      · have hmem := hsub.subset he
        simp only [List.mem_filter, decide_eq_true_eq] at hmem
        exact hmem.2
      · exact hne e he x hx

/-! ## findEntry on an index in ascending tag order -/

theorem headerSort_sorted (h : Header) : (headerSort h).sorted = true := by
  unfold headerSort
  by_cases hs : h.sorted = true
  · simp [hs]
  · simp [hs]

theorem headerSort_blob (h : Header) : (headerSort h).blob = h.blob := by
  unfold headerSort; split <;> rfl

theorem headerSort_perm (h : Header) : (headerSort h).index.Perm h.index := by
  unfold headerSort
  split
  · exact List.Perm.refl _
  · exact qsort_perm _ _

theorem headerSort_of_sorted {h : Header} (hs : h.sorted = true) : headerSort h = h := by
  unfold headerSort; simp [hs]

theorem headerSort_idem (h : Header) : headerSort (headerSort h) = headerSort h :=
  headerSort_of_sorted (headerSort_sorted h)

theorem mem_headerSort {h : Header} {e : indexEntry} :
    e ∈ (headerSort h).index ↔ e ∈ h.index := (headerSort_perm h).mem_iff

theorem headerSort_inv {h : Header} (hi : SortInv h) :
    (headerSort h).index.Pairwise tagLe
      ∧ ∀ e ∈ (headerSort h).index, 0 ≤ e.info.tag ∧ e.info.tag < 2147483648 := by
  refine ⟨?_, fun e he => hi.2 e (mem_headerSort.mp he)⟩
  unfold headerSort
  by_cases hs : h.sorted = true
  · simp only [hs, if_true]; exact hi.1 hs
  · simp only [hs]
    exact qsort_indexCmp_sorted hi.2

theorem sortInv_headerSort {h : Header} (hi : SortInv h) : SortInv (headerSort h) :=
  ⟨fun _ => (headerSort_inv hi).1, (headerSort_inv hi).2⟩

theorem findEntry_fst (h : Header) (tag type : Int) :
    (findEntry h tag type).1 = headerSort h := by
  unfold findEntry
  simp only
  cases bsearch tag (headerSort h).index with
  | none => rfl
  | some i =>
    simp only
    split
    · rfl
    · cases (headerSort h).index.get? (lookBack tag type (headerSort h).index i) with
      | none => rfl
      | some e => simp only; split <;> rfl

theorem findEntry_eq (h : Header) (tag type : Int) :
    findEntry h tag type = (headerSort h, (findEntry h tag type).2) := by
  rw [← findEntry_fst h tag type]

/-- What findEntry hands out for a type other than RPM_NULL_TYPE is an entry
with the tag and the type. -/
theorem findEntry_typed {h : Header} {tag type : Int} {i : Nat} (ht : type ≠ RPM_NULL_TYPE)
    (hf : (findEntry h tag type).2 = some i) :
    ∃ e, (headerSort h).index.get? i = some e ∧ e.info.tag = tag ∧ e.info.type = type := by
  unfold findEntry at hf
  simp only at hf
  cases hb : bsearch tag (headerSort h).index with
  | none => simp [hb] at hf
  | some k =>
    simp only [hb, ht, if_false] at hf
    cases hg : (headerSort h).index.get? (lookBack tag type (headerSort h).index k) with
    | none => rw [hg] at hf; simp at hf
    | some e =>
      rw [hg] at hf
      simp only at hf
      by_cases hc : e.info.tag = tag ∧ e.info.type = type
      · simp only [hc, and_self, if_true, Option.some.injEq] at hf
        subst hf
        exact ⟨e, hg, hc.1, hc.2⟩
      · simp [hc] at hf

/-- An entry with the tag is found by bsearch on an index in ascending tag
order. -/
theorem bsearch_present {tag : Int} {index : List indexEntry}
    (ht : 0 ≤ tag ∧ tag < 2147483648)
    (hb : ∀ e ∈ index, 0 ≤ e.info.tag ∧ e.info.tag < 2147483648)
    (hs : index.Pairwise tagLe) (hp : ∃ e ∈ index, e.info.tag = tag) :
    ∃ i e, bsearch tag index = some i ∧ index.get? i = some e ∧ e.info.tag = tag := by
  cases hbs : bsearch tag index with
  | none =>
    exfalso
    obtain ⟨e, he, hte⟩ := hp
    obtain ⟨i, hge⟩ := List.mem_iff_get?.mp he
    obtain ⟨hi, _⟩ := List.get?_eq_some.mp hge
    exact bsearchLoop_none ht hb hs _ 0 index.length (le_refl _) (by omega) hbs i e
      (Nat.zero_le _) hi hge hte
  | some i =>
    obtain ⟨e, hge, hte⟩ := bsearchLoop_some ht hb _ _ _ _ hbs
    exact ⟨i, e, rfl, hge, hte⟩

theorem bsearch_absent {tag : Int} {index : List indexEntry}
    (ht : 0 ≤ tag ∧ tag < 2147483648)
    (hb : ∀ e ∈ index, 0 ≤ e.info.tag ∧ e.info.tag < 2147483648)
    (hp : ∀ e ∈ index, e.info.tag ≠ tag) : bsearch tag index = none := by
  cases hbs : bsearch tag index with
  | none => rfl
  | some i =>
    obtain ⟨e, hge, hte⟩ := bsearchLoop_some ht hb _ _ _ _ hbs
    exact absurd hte (hp e (List.get?_mem hge))

/-- The position that findEntry hands out for a tag that one entry carries. -/
theorem findEntry_unique {h : Header} {tag type : Int} {A B : List indexEntry} {e : indexEntry}
    (hi : SortInv h) (ht : 0 ≤ tag ∧ tag < 2147483648)
    (hsplit : (headerSort h).index = A ++ e :: B) (he : e.info.tag = tag)
    (hA : ∀ x ∈ A, x.info.tag ≠ tag) (hB : ∀ x ∈ B, x.info.tag ≠ tag) :
    findEntry h tag type
      = (headerSort h, if type = RPM_NULL_TYPE ∨ e.info.type = type then some A.length else none) := by
  obtain ⟨hs, hb⟩ := headerSort_inv hi
  obtain ⟨i, e1, hbs, hge, hte⟩ := bsearch_present ht hb hs
    ⟨e, by rw [hsplit]; simp, he⟩
  have hiA : i = A.length := by
    rw [hsplit] at hge
    rcases Nat.lt_trichotomy i A.length with hlt | heq | hgt
    · rw [List.get?_eq_getElem?, List.getElem?_append_left hlt, ← List.get?_eq_getElem?] at hge
      exact absurd hte (hA e1 (List.get?_mem hge))
    · exact heq
    · obtain ⟨k, rfl⟩ : ∃ k, i = A.length + (k + 1) := ⟨i - A.length - 1, by omega⟩
      rw [List.get?_eq_getElem?, List.getElem?_append_right (by omega)] at hge
      have e2 : A.length + (k + 1) - A.length = k + 1 := by omega
      rw [e2, List.getElem?_cons_succ, ← List.get?_eq_getElem?] at hge
      exact absurd hte (hB e1 (List.get?_mem hge))
  subst hiA
  have hgetA : (headerSort h).index.get? A.length = some e := by
    rw [hsplit, List.get?_eq_getElem?, List.getElem?_append_right (le_refl _)]
    simp
  unfold findEntry
  simp only [hbs]
  by_cases hn : type = RPM_NULL_TYPE
  · simp [hn]
  · simp only [hn, if_false, false_or]
    by_cases hty : e.info.type = type
    · have hlb : lookBack tag type (headerSort h).index A.length = A.length := by
        cases hA0 : A.length with
        | zero => rfl
        | succ n =>
          simp only [lookBack]
          rw [← hA0, hgetA]
          simp [hty]
      rw [hlb, hgetA]
      simp [he, hty]
    · simp only [hty, if_false]
      cases hA0 : A.length with
      | zero =>
        have : lookBack tag type (headerSort h).index 0 = 0 := rfl
        rw [this, ← hA0, hgetA]
        simp [hty]
      | succ n =>
        have hn1 : n < A.length := by omega
        have hgetn : (headerSort h).index.get? n = some A[n] := by
          rw [hsplit, List.get?_eq_getElem?, List.getElem?_append_left hn1]
          simp
        have hAn : A[n].info.tag ≠ tag := hA _ (List.getElem_mem hn1)
        have hlb : lookBack tag type (headerSort h).index (n + 1) = n := by
          simp only [lookBack]
          rw [← hA0, hgetA]
          simp only [he, hty, ne_eq, not_false_eq_true, and_self, if_true]
          cases n with
          | zero => rfl
          | succ m =>
            simp only [lookBack]
            rw [hgetn]
            simp [hAn]
        rw [hlb, hgetn]
        simp [hAn]

/-! ## headerRemoveEntry in general -/

theorem findEntry_headerSort (h : Header) (tag type : Int) :
    findEntry (headerSort h) tag type = findEntry h tag type := by
  unfold findEntry
  rw [headerSort_idem]

theorem headerRemoveEntry_headerSort (h : Header) (tag : Int) :
    headerRemoveEntry (headerSort h) tag = headerRemoveEntry h tag := by
  unfold headerRemoveEntry
  rw [findEntry_headerSort]

/-- The return value of headerRemoveEntry tells whether the tag was present. -/
theorem headerRemoveEntry_rc {h : Header} {tag : Int} (hi : SortInv h)
    (ht : 0 ≤ tag ∧ tag < 2147483648) :
    ((∃ e ∈ h.index, e.info.tag = tag) → (headerRemoveEntry h tag).2 = 0)
      ∧ ((∀ e ∈ h.index, e.info.tag ≠ tag) → headerRemoveEntry h tag = (headerSort h, 1)) := by
  obtain ⟨hs, hb⟩ := headerSort_inv hi
  constructor
  · rintro ⟨e, he, hte⟩
    obtain ⟨i, e1, hbs, _, _⟩ := bsearch_present ht hb hs ⟨e, mem_headerSort.mpr he, hte⟩
    unfold headerRemoveEntry findEntry
    simp [hbs]
  · intro hab
    have hbs := bsearch_absent ht hb (fun e he => hab e (mem_headerSort.mp he))
    unfold headerRemoveEntry findEntry
    simp [hbs]

/-! ## strncmp and headerMatchLocale -/

theorem strncmpEq_iff : ∀ (n : Nat) (td l : List Nat), n ≤ l.length → (∀ b ∈ l.take n, b ≠ 0) →
    (strncmpEq (td ++ [0]) (l ++ [0]) n = true ↔ l.take n <+: td)
  | 0, td, l, _, _ => by simp [strncmpEq]
  | n + 1, td, [], hn, _ => by simp at hn
  | n + 1, [], b :: l, _, hz => by
    have hb : b ≠ 0 := hz b (by simp)
    have : (0 : Nat) ≠ b := fun h => hb h.symm
    simp [strncmpEq, this]
  | n + 1, a :: td, b :: l, hn, hz => by
    have hb : b ≠ 0 := hz b (by simp)
    have ih := strncmpEq_iff n td l (by simp at hn; omega)
      (fun x hx => hz x (by simp only [List.take_succ_cons, List.mem_cons]; exact Or.inr hx))
    have e1 : strncmpEq ((a :: td) ++ [0]) ((b :: l) ++ [0]) (n + 1)
        = if a ≠ b then false else if a = 0 then true else strncmpEq (td ++ [0]) (l ++ [0]) n :=
      rfl
    rw [e1, List.take_succ_cons]
    by_cases hab : a = b
    · subst hab
      simp only [ne_eq, not_true_eq_false, if_false, hb]
      rw [ih]
      exact (List.prefix_cons_inj a).symm
    · simp only [ne_eq, hab, not_false_eq_true, if_true]
      constructor
      · intro h; cases h
      · intro h
        obtain ⟨t, ht⟩ := h
        simp only [List.cons_append, List.cons.injEq] at ht
        exact absurd ht.1.symm hab

theorem scanTo_le (ch : Nat) (l : List Nat) : scanTo ch l ≤ l.length := by
  unfold scanTo
  exact (List.takeWhile_prefix _).length_le

theorem take_scanTo (ch : Nat) (l : List Nat) :
    l.take (scanTo ch l) = l.takeWhile (fun b => decide (b ≠ ch)) := by
  unfold scanTo
  exact (List.prefix_iff_eq_take.mp (List.takeWhile_prefix _)).symm

theorem scanTo_lt_iff (ch : Nat) : ∀ (l : List Nat), scanTo ch l < l.length ↔ ch ∈ l
  | [] => by simp [scanTo]
  | b :: l => by
    have ih := scanTo_lt_iff ch l
    unfold scanTo at ih ⊢
    rw [List.takeWhile_cons]
    by_cases hb : b = ch
    · subst hb
      simp
    · have hd : decide (b ≠ ch) = true := by simpa using hb
      have hb2 : ¬ ch = b := fun h => hb h.symm
      simp only [hd, ↓reduceIte, List.length_cons, List.mem_cons, hb2, false_or]
      rw [← ih]
      omega

/-- One stripping rule of headerMatchLocale: the request holds the character
and the table string begins with the part of the request before it. -/
theorem rule_iff (ch : Nat) (td l : List Nat) (hl : ∀ b ∈ l, b ≠ 0) :
    (scanTo ch l < l.length ∧ strncmpEq (td ++ [0]) (l ++ [0]) (scanTo ch l) = true)
      ↔ (ch ∈ l ∧ l.takeWhile (fun b => decide (b ≠ ch)) <+: td) := by
  rw [scanTo_lt_iff, strncmpEq_iff _ td l (scanTo_le ch l)
    (fun b hb => hl b (List.mem_of_mem_take hb)), take_scanTo]

theorem exact_iff (td l : List Nat) (hl : ∀ b ∈ l, b ≠ 0) :
    (td.length = l.length ∧ strncmpEq (td ++ [0]) (l ++ [0]) l.length = true) ↔ td = l := by
  rw [strncmpEq_iff _ td l (le_refl _) (fun b hb => hl b (List.mem_of_mem_take hb)),
    List.take_length]
  constructor
  · rintro ⟨h1, h2⟩
    exact (List.IsPrefix.eq_of_length h2 h1.symm).symm
  · intro h; subst h; exact ⟨rfl, List.prefix_refl _⟩

theorem headerMatchLocale_iff (td l : List Nat) (hl : ∀ b ∈ l, b ≠ 0) :
    headerMatchLocale td l = 1
      ↔ (td = l
          ∨ (64 ∈ l ∧ l.takeWhile (fun b => decide (b ≠ 64)) <+: td)
          ∨ (46 ∈ l ∧ l.takeWhile (fun b => decide (b ≠ 46)) <+: td)
          ∨ (95 ∈ l ∧ l.takeWhile (fun b => decide (b ≠ 95)) <+: td)) := by
  have e1 := exact_iff td l hl
  have e2 := rule_iff 64 td l hl
  have e3 := rule_iff 46 td l hl
  have e4 := rule_iff 95 td l hl
  unfold headerMatchLocale
  by_cases c1 : td.length = l.length ∧ strncmpEq (td ++ [0]) (l ++ [0]) l.length = true
  · rw [if_pos c1]
    exact ⟨fun _ => Or.inl (e1.mp c1), fun _ => rfl⟩
  · rw [if_neg c1]
    by_cases c2 : scanTo 64 l < l.length ∧ strncmpEq (td ++ [0]) (l ++ [0]) (scanTo 64 l) = true
    · rw [if_pos c2]
      exact ⟨fun _ => Or.inr (Or.inl (e2.mp c2)), fun _ => rfl⟩
    · rw [if_neg c2]
      by_cases c3 : scanTo 46 l < l.length ∧ strncmpEq (td ++ [0]) (l ++ [0]) (scanTo 46 l) = true
      · rw [if_pos c3]
        exact ⟨fun _ => Or.inr (Or.inr (Or.inl (e3.mp c3))), fun _ => rfl⟩
      · rw [if_neg c3]
        by_cases c4 : scanTo 95 l < l.length ∧ strncmpEq (td ++ [0]) (l ++ [0]) (scanTo 95 l) = true
        · rw [if_pos c4]
          exact ⟨fun _ => Or.inr (Or.inr (Or.inr (e4.mp c4))), fun _ => rfl⟩
        · rw [if_neg c4]
          constructor
          · intro h; exact absurd h (by decide)
          · rintro (h | h | h | h)
            · exact absurd (e1.mpr h) c1
            · exact absurd (e2.mpr h) c2
            · exact absurd (e3.mpr h) c3
            · exact absurd (e4.mpr h) c4

theorem headerMatchLocale_range (td l : List Nat) :
    headerMatchLocale td l = 1 ∨ headerMatchLocale td l = 0 := by
  unfold headerMatchLocale
  split
  · exact Or.inl rfl
  · split
    · exact Or.inl rfl
    · split
      · exact Or.inl rfl
      · split
        · exact Or.inl rfl
        · exact Or.inr rfl

/-! ## The loops of headerFindI18NString -/

theorem requestLocales_colon (l : List Nat) : requestLocales (58 :: l) = requestLocales l := by
  simp [requestLocales]

theorem requestLocales_dropWhile : ∀ (l : List Nat),
    requestLocales l = requestLocales (l.dropWhile (fun b => decide (b = 58)))
  | [] => rfl
  | b :: l => by
    rw [List.dropWhile_cons]
    by_cases hb : b = 58
    · subst hb
      simp only [decide_True, if_true]
      rw [requestLocales_colon]
      exact requestLocales_dropWhile l
    · have hd : decide (b = 58) = false := by simpa using hb
      simp only [hd, Bool.false_eq_true, if_false]

theorem requestLocales_cons : ∀ (l : List Nat) (b : Nat), b ≠ 58 →
    requestLocales (b :: l)
      = (b :: l).takeWhile (fun x => decide (x ≠ 58))
          :: requestLocales ((b :: l).drop ((b :: l).takeWhile (fun x => decide (x ≠ 58))).length)
  | [], b, hb => by
    have hd : decide (b ≠ 58) = true := by simpa using hb
    simp [requestLocales, hb, List.takeWhile_cons, hd]
  | d :: l, b, hb => by
    have hd : decide (b ≠ 58) = true := by simpa using hb
    rw [List.takeWhile_cons]
    simp only [hd, if_true, List.length_cons, List.drop_succ_cons]
    by_cases hd58 : d = 58
    · subst hd58
      simp [requestLocales, hb, List.takeWhile_cons]
    · have ih := requestLocales_cons l d hd58
      have e1 : requestLocales (b :: d :: l)
          = match requestLocales (d :: l) with
            | [] => [[b]]
            | r :: rs => (b :: r) :: rs := by
        simp [requestLocales, hb, hd58]
      rw [e1, ih]

theorem strlenList_string : ∀ (s X : List Nat), (∀ b ∈ s, b ≠ 0) →
    strlenList (s ++ 0 :: X) = some s.length
  | [], _, _ => by simp [strlenList]
  | b :: s, X, h => by
    have hb : b ≠ 0 := h b (by simp)
    have ih := strlenList_string s X (fun x hx => h x (by simp [hx]))
    have e1 : strlenList ((b :: s) ++ 0 :: X)
        = if b = 0 then some 0 else (strlenList (s ++ 0 :: X)).map (· + 1) := rfl
    rw [e1, ih]
    simp [hb]

theorem cstr_string (s X : List Nat) (h : ∀ b ∈ s, b ≠ 0) : cstr (s ++ 0 :: X) = s := by
  unfold cstr
  rw [List.takeWhile_append_of_pos (by simpa using h)]
  simp

theorem matchTable_spec (r St Se : List Nat) :
    ∀ (strs tbl : List (List Nat)) (Pt Pe : List Nat), strs.length ≤ tbl.length →
      (∀ t ∈ tbl, ∀ b ∈ t, b ≠ 0) → (∀ s ∈ strs, ∀ b ∈ s, b ≠ 0) →
      (firstMatch tbl strs r = none →
          matchTable (Pt ++ joinStrings tbl ++ St) (Pe ++ joinStrings strs ++ Se) r strs.length
            (Pt.length : Int) (Pe.length : Int) = Res.ok none)
        ∧ (∀ s, firstMatch tbl strs r = some s →
            ∃ a : Int, matchTable (Pt ++ joinStrings tbl ++ St) (Pe ++ joinStrings strs ++ Se) r
                strs.length (Pt.length : Int) (Pe.length : Int) = Res.ok (some a)
              ∧ 0 ≤ a ∧ cstr ((Pe ++ joinStrings strs ++ Se).drop a.toNat) = s
              ∧ strlenAt (Pe ++ joinStrings strs ++ Se) a = some s.length)
  | [], tbl, Pt, Pe, _, _, _ => by
    constructor
    · intro _; rfl
    · intro s hs
      cases tbl <;> simp [firstMatch] at hs
  | s :: strs, [], _, _, hlen, _, _ => by simp at hlen
  | s :: strs, t :: tbl, Pt, Pe, hlen, ht, hs => by
    have ht0 := ht t (List.mem_cons_self _ _)
    have hs0 := hs s (List.mem_cons_self _ _)
    have htm : Pt ++ joinStrings (t :: tbl) ++ St
        = Pt ++ (t ++ 0 :: (joinStrings tbl ++ St)) ++ [] := by
      simp [joinStrings, List.append_assoc]
    have hem : Pe ++ joinStrings (s :: strs) ++ Se
        = Pe ++ (s ++ 0 :: (joinStrings strs ++ Se)) ++ [] := by
      simp [joinStrings, List.append_assoc]
    have hlt : strlenAt (Pt ++ joinStrings (t :: tbl) ++ St) (Pt.length : Int) = some t.length := by
      rw [htm]
      exact strlenAt_mid Pt _ [] _ _ rfl (strlenList_string t _ ht0)
    have hle : strlenAt (Pe ++ joinStrings (s :: strs) ++ Se) (Pe.length : Int) = some s.length := by
      rw [hem]
      exact strlenAt_mid Pe _ [] _ _ rfl (strlenList_string s _ hs0)
    have htd : ((Pt ++ joinStrings (t :: tbl) ++ St).drop ((Pt.length : Int)).toNat).take t.length
        = t := by
      simp [joinStrings, List.append_assoc]
    have ih := matchTable_spec r St Se strs tbl (Pt ++ t ++ [0]) (Pe ++ s ++ [0])
      (by simp only [List.length_cons] at hlen; omega)
      (fun x hx => ht x (List.mem_cons_of_mem _ hx))
      (fun x hx => hs x (List.mem_cons_of_mem _ hx))
    have htm2 : Pt ++ t ++ [0] ++ joinStrings tbl ++ St = Pt ++ joinStrings (t :: tbl) ++ St := by
      simp [joinStrings, List.append_assoc]
    have hem2 : Pe ++ s ++ [0] ++ joinStrings strs ++ Se = Pe ++ joinStrings (s :: strs) ++ Se := by
      simp [joinStrings, List.append_assoc]
    have hl1 : (((Pt ++ t ++ [0]).length : Nat) : Int) = (Pt.length : Int) + ((t.length : Int) + 1) := by
      simp only [List.length_append, List.length_singleton]; push_cast; omega
    have hl2 : (((Pe ++ s ++ [0]).length : Nat) : Int) = (Pe.length : Int) + ((s.length : Int) + 1) := by
      simp only [List.length_append, List.length_singleton]; push_cast; omega
    rw [htm2, hem2, hl1, hl2] at ih
    simp only [List.length_cons, matchTable, hlt, htd, hle, firstMatch]
    by_cases hm : headerMatchLocale t r = 1
    · simp only [hm, if_true]
      constructor
      · intro h; cases h
      · intro s1 hs1
        simp only [Option.some.injEq] at hs1
        subst hs1
        refine ⟨_, rfl, by omega, ?_, hle⟩
        rw [hem]
        simp only [Int.toNat_ofNat, List.append_nil, List.drop_left]
        exact cstr_string s _ hs0
    · simp only [hm, if_false]
      exact ih

theorem dropWhile_head_not {p : Nat → Bool} : ∀ {l : List Nat} {b : Nat} {rest : List Nat},
    l.dropWhile p = b :: rest → p b = false ∧ (b :: rest).length ≤ l.length
  | [], _, _, h => by simp at h
  | x :: l, b, rest, h => by
    rw [List.dropWhile_cons] at h
    by_cases hx : p x = true
    · simp only [hx, if_true] at h
      have := dropWhile_head_not h
      exact ⟨this.1, by simp only [List.length_cons] at this ⊢; omega⟩
    · simp only [hx, if_false, List.cons.injEq] at h
      obtain ⟨rfl, rfl⟩ := h
      exact ⟨by simpa using hx, le_refl _⟩

theorem findI18NLoop_spec (St Se : List Nat) (strs tbl : List (List Nat)) (Pt Pe : List Nat)
    (hlen : strs.length ≤ tbl.length) (ht : ∀ t ∈ tbl, ∀ b ∈ t, b ≠ 0)
    (hs : ∀ s ∈ strs, ∀ b ∈ s, b ≠ 0) :
    ∀ (fuel : Nat) (l : List Nat), l.length < fuel →
      ((requestLocales l).findSome? (firstMatch tbl strs) = none →
          findI18NLoop (Pt ++ joinStrings tbl ++ St) (Pe ++ joinStrings strs ++ Se)
            (strs.length : Int) (Pt.length : Int) (Pe.length : Int) fuel l = Res.ok none)
        ∧ (∀ s, (requestLocales l).findSome? (firstMatch tbl strs) = some s →
            ∃ a : Int, findI18NLoop (Pt ++ joinStrings tbl ++ St) (Pe ++ joinStrings strs ++ Se)
                (strs.length : Int) (Pt.length : Int) (Pe.length : Int) fuel l = Res.ok (some a)
              ∧ 0 ≤ a ∧ cstr ((Pe ++ joinStrings strs ++ Se).drop a.toNat) = s
              ∧ strlenAt (Pe ++ joinStrings strs ++ Se) a = some s.length)
  | 0, _, h => by omega
  | fuel + 1, l, hf => by
    rw [requestLocales_dropWhile l]
    unfold findI18NLoop
    cases hd : l.dropWhile (fun b => decide (b = 58)) with
    | nil =>
      simp only [requestLocales, List.findSome?_nil]
      constructor
      · intro _; first | rfl | trivial
      · intro s h; cases h
    | cons b rest =>
      obtain ⟨hb, hle⟩ := dropWhile_head_not hd
      have hb58 : b ≠ 58 := by simpa using hb
      have hdb : decide (b ≠ 58) = true := by simpa using hb58
      rw [requestLocales_cons rest b hb58]
      simp only [List.findSome?_cons, Int.toNat_ofNat]
      have hmt := matchTable_spec ((b :: rest).takeWhile (fun x => decide (x ≠ 58))) St Se strs tbl
        Pt Pe hlen ht hs
      have hpos : 1 ≤ ((b :: rest).takeWhile (fun x => decide (x ≠ 58))).length := by
        rw [List.takeWhile_cons]; simp [hdb]
      have hg : ((b :: rest).takeWhile (fun x => decide (x ≠ 58))).length ≤ (b :: rest).length :=
        (List.takeWhile_prefix _).length_le
      have ih := findI18NLoop_spec St Se strs tbl Pt Pe hlen ht hs fuel
        ((b :: rest).drop ((b :: rest).takeWhile (fun x => decide (x ≠ 58))).length)
        (by rw [List.length_drop]; omega)
      cases hfm : firstMatch tbl strs ((b :: rest).takeWhile (fun x => decide (x ≠ 58))) with
      | none =>
        rw [hmt.1 hfm]
        exact ih
      | some s =>
        obtain ⟨a, ha, ha0, hc⟩ := hmt.2 s hfm
        rw [ha]
        simp only
        constructor
        · intro h; cases h
        · intro s1 hs1
          simp only [Option.some.injEq] at hs1
          subst hs1
          exact ⟨a, rfl, ha0, hc⟩

/-- A list with one entry carrying the tag splits around that entry. -/
theorem split_of_filter {tag : Int} {t : indexEntry} : ∀ {l : List indexEntry},
    l.filter (fun e => decide (e.info.tag = tag)) = [t] →
    ∃ A B, l = A ++ t :: B ∧ t.info.tag = tag ∧ (∀ x ∈ A, x.info.tag ≠ tag)
      ∧ (∀ x ∈ B, x.info.tag ≠ tag)
  | [], h => by simp at h
  | x :: l, h => by
    rw [List.filter_cons] at h
    by_cases hx : x.info.tag = tag
    · simp only [hx, decide_True, if_true, List.cons.injEq] at h
      obtain ⟨rfl, hnil⟩ := h
      refine ⟨[], l, rfl, hx, by simp, ?_⟩
      intro y hy
      have := List.filter_eq_nil_iff.mp hnil y hy
      simpa using this
    · have hd : decide (x.info.tag = tag) = false := by simpa using hx
      simp only [hd, Bool.false_eq_true, if_false] at h
      obtain ⟨A, B, rfl, ht, hA, hB⟩ := split_of_filter h
      refine ⟨x :: A, B, rfl, ht, ?_, hB⟩
      intro y hy
      rcases List.mem_cons.mp hy with rfl | hy
      · exact hx
      · exact hA y hy

theorem withTag_headerSort {h : Header} {tag : Int} {t : indexEntry}
    (hw : withTag h tag = [t]) : withTag (headerSort h) tag = [t] := by
  unfold withTag at hw ⊢
  have := List.Perm.filter (fun e => decide (e.info.tag = tag)) (headerSort_perm h)
  rw [hw] at this
  exact List.perm_singleton.mp this

/-! ## Removing an entry and adding it again -/

theorem headerRemoveEntry_index {h : Header} {tag : Int} (hi : SortInv h)
    (ht : 0 ≤ tag ∧ tag < 2147483648) :
    (headerRemoveEntry h tag).1
      = Header.mk ((headerSort h).index.filter (fun e => decide (e.info.tag ≠ tag))) true
          h.allocated h.legacy h.blob := by
  obtain ⟨hs, hb⟩ := headerSort_inv hi
  rw [← headerRemoveEntry_headerSort, headerRemoveEntry_sorted (headerSort_sorted h) hs ht hb]
  have h1 : (headerSort h).allocated = h.allocated := by unfold headerSort; split <;> rfl
  have h2 : (headerSort h).legacy = h.legacy := headerSort_legacy h
  simp only [headerSort_sorted, h1, h2, headerSort_blob]

theorem sortInv_removed {h : Header} {tag : Int} (hi : SortInv h)
    (ht : 0 ≤ tag ∧ tag < 2147483648) :
    SortInv (headerRemoveEntry h tag).1 ∧ (headerRemoveEntry h tag).1.sorted = true
      ∧ ∀ e ∈ (headerRemoveEntry h tag).1.index, e.info.tag ≠ tag := by
  obtain ⟨hs, hb⟩ := headerSort_inv hi
  rw [headerRemoveEntry_index hi ht]
  refine ⟨⟨fun _ => List.Pairwise.sublist (List.filter_sublist _) hs,
    fun e he => hb e (List.mem_of_mem_filter he)⟩, rfl, ?_⟩
  intro e he
  have := (List.mem_filter.mp he).2
  simpa using this

theorem headerAddEntry_grab (h : Header) {tag type c length : Int} {p : hPTR} {data : List Nat}
    (hc : 1 ≤ c) (hg : grabData type p c = Res.ok (data, length)) :
    headerAddEntry h tag type p c
      = Res.ok (Header.mk
          (h.index ++ [indexEntry.mk ⟨tag, type, c, 0⟩ (EntryData.owned data) length 0])
          (h.sorted && !(match h.index.getLast? with
            | some e => decide (tag < e.info.tag)
            | none => false))
          h.allocated h.legacy h.blob, 1) := by
  unfold headerAddEntry
  have : ¬ c ≤ 0 := by omega
  simp only [this, if_false, hg]

theorem sortInv_snoc {h : Header} {x : indexEntry} (hi : SortInv h)
    (ht : 0 ≤ x.info.tag ∧ x.info.tag < 2147483648) :
    SortInv (Header.mk (h.index ++ [x])
      (h.sorted && !(match h.index.getLast? with
        | some e => decide (x.info.tag < e.info.tag)
        | none => false))
      h.allocated h.legacy h.blob) := by
  constructor
  · intro hs
    simp only [Bool.and_eq_true, Bool.not_eq_true'] at hs
    obtain ⟨hs1, hs2⟩ := hs
    cases hl : h.index.getLast? with
    | none =>
      have : h.index = [] := by
        cases hidx : h.index with
        | nil => rfl
        | cons a l => rw [hidx] at hl; simp [List.getLast?_cons] at hl
      simp [this]
    | some e =>
      simp only [hl, decide_eq_false_iff_not, not_lt] at hs2
      exact pairwise_tag_snoc (hi.1 hs1) hl hs2
  · intro e he
    simp only [List.mem_append, List.mem_singleton] at he
    rcases he with he | he
    · exact hi.2 e he
    · subst he; exact ht

/-- The lookup of an absent tag by intGetEntry. -/
theorem intGetEntry_absent (le : Bool) (env : LocaleEnv) {h : Header} {tag : Int} (minMem : Bool)
    (hi : SortInv h) (ht : 0 ≤ tag ∧ tag < 2147483648) (hab : ∀ e ∈ h.index, e.info.tag ≠ tag) :
    intGetEntry le env h tag minMem = Res.ok (headerSort h, GetOut.mk 0 none none 0) := by
  obtain ⟨hs, hb⟩ := headerSort_inv hi
  have hbs := bsearch_absent ht hb (fun e he => hab e (mem_headerSort.mp he))
  unfold intGetEntry findEntry
  simp [hbs]

/-- The lookup by intGetEntry of a tag that one entry, stored by
headerAddEntry and not of the i18n string type, carries. -/
theorem intGetEntry_unique (le : Bool) (env : LocaleEnv) {h : Header} {e : indexEntry}
    (hi : SortInv h) (hw : withTag h e.info.tag = [e]) (ha : Added e)
    (ht : HEADER_I18NTABLE ≤ e.info.tag ∧ e.info.tag < 2147483648)
    (hty : e.info.type ≠ RPM_I18NSTRING_TYPE) :
    intGetEntry le env h e.info.tag false
      = Res.ok (headerSort h, GetOut.mk 1 (some e.info.type) (some (entryValue e))
          (if e.info.type = RPM_BIN_TYPE then e.length else e.info.count)) := by
  obtain ⟨A, B, hsplit, htag, hA, hB⟩ := split_of_filter (withTag_headerSort hw)
  have ht0 : 0 ≤ e.info.tag ∧ e.info.tag < 2147483648 := by
    unfold HEADER_I18NTABLE at ht; omega
  have hfind := @findEntry_unique h e.info.tag RPM_NULL_TYPE A B e hi ht0 hsplit rfl hA hB
  simp only [true_or, if_true] at hfind
  have hget : (headerSort h).index.get? A.length = some e := by
    rw [hsplit, List.get?_eq_getElem?, List.getElem?_append_right (le_refl _)]
    simp
  unfold intGetEntry
  simp only [hfind, hget, hty, if_false, copyEntry_added le _ ha ht.1, if_true]

/-! ## headerAppendEntry and headerModifyEntry on a tag that one entry carries -/

theorem headerSort_fields (h : Header) :
    (headerSort h).allocated = h.allocated ∧ (headerSort h).legacy = h.legacy
      ∧ (headerSort h).blob = h.blob :=
  ⟨by unfold headerSort; split <;> rfl, headerSort_legacy h, headerSort_blob h⟩

theorem strlenList_split : ∀ {m : List Nat} {n : Nat}, strlenList m = some n →
    ∃ s X, m = s ++ 0 :: X ∧ s.length = n ∧ ∀ b ∈ s, b ≠ 0
  | [], _, h => by simp [strlenList] at h
  | b :: rest, n, h => by
    unfold strlenList at h
    by_cases hb : b = 0
    · simp only [hb, if_true, Option.some.injEq] at h
      subst h; subst hb
      exact ⟨[], rest, rfl, rfl, by simp⟩
    · simp only [hb, if_false] at h
      cases hr : strlenList rest with
      | none => simp [hr] at h
      | some k =>
        simp only [hr, Option.map_some', Option.some.injEq] at h
        obtain ⟨s, X, rfl, hl, hs⟩ := strlenList_split hr
        refine ⟨b :: s, X, rfl, by simp only [List.length_cons]; omega, ?_⟩
        intro x hx
        simp only [List.mem_cons] at hx
        rcases hx with rfl | hx
        · exact hb
        · exact hs x hx

/-- A block that holds exactly k strings laid end to end is the join of k
strings without a NUL. -/
theorem shape_join : ∀ (k : Nat) (m : List Nat), strArrayLenAt m k 0 = some m.length →
    ∃ ss : List (List Nat), ss.length = k ∧ m = joinStrings ss ∧ ∀ s ∈ ss, ∀ b ∈ s, b ≠ 0
  | 0, m, h => by
    simp only [strArrayLenAt, Option.some.injEq] at h
    have : m = [] := List.length_eq_zero.mp h.symm
    subst this
    exact ⟨[], rfl, rfl, by simp⟩
  | k + 1, m, h => by
    simp only [strArrayLenAt] at h
    cases hs : strlenAt m 0 with
    | none => simp [hs] at h
    | some n =>
      simp only [hs] at h
      have hsl : strlenList m = some n := by simpa [strlenAt] using hs
      obtain ⟨s, X, rfl, hl, hnz⟩ := strlenList_split hsl
      rw [strArrayLenAt_shift _ k _ (by omega)] at h
      have e1 : (0 + ((n : Int) + 1)).toNat = n + 1 := by omega
      rw [e1] at h
      have hd : (s ++ 0 :: X).drop (n + 1) = X := by
        have e2 : s ++ 0 :: X = (s ++ [0]) ++ X := by simp
        rw [e2]
        exact List.drop_left' (by simp [hl])
      rw [hd] at h
      cases hr : strArrayLenAt X k 0 with
      | none => simp [hr] at h
      | some L =>
        simp only [hr, Option.map_some', Option.some.injEq, List.length_append,
          List.length_cons] at h
        have hL : L = X.length := by omega
        rw [hL] at hr
        obtain ⟨ss, hk, hX, hss⟩ := shape_join k X hr
        refine ⟨s :: ss, by simp [hk], by simp only [joinStrings, ← hX], ?_⟩
        intro x hx
        simp only [List.mem_cons] at hx
        rcases hx with rfl | hx
        · exact hnz
        · exact hss x hx

/-- The data of a string array or i18n string entry stored by headerAddEntry. -/
theorem added_strings {e : indexEntry} (ha : Added e)
    (ht : e.info.type = RPM_STRING_ARRAY_TYPE ∨ e.info.type = RPM_I18NSTRING_TYPE) :
    ∃ ss : List (List Nat), (ss.length : Int) = e.info.count
      ∧ e.data = EntryData.owned (joinStrings ss) ∧ ∀ s ∈ ss, ∀ b ∈ s, b ≠ 0 := by
  have hshape := ha.shape
  unfold DataShape at hshape
  have hns : e.info.type ≠ RPM_STRING_TYPE := by
    rcases ht with h | h <;> rw [h] <;> decide
  simp only [hns, if_false, ht, if_true] at hshape
  obtain ⟨hc, hsa⟩ := hshape
  obtain ⟨ss, hk, hm, hnz⟩ := shape_join _ _ hsa
  refine ⟨ss, by omega, ?_, hnz⟩
  rw [ha.data, ← hm]

theorem strlenAt_join {strs : List (List Nat)} (hne : strs ≠ [])
    (hnz : ∀ s ∈ strs, ∀ b ∈ s, b ≠ 0) : ∃ n, strlenAt (joinStrings strs) 0 = some n := by
  cases strs with
  | nil => exact absurd rfl hne
  | cons s rest =>
    refine ⟨s.length, ?_⟩
    simp only [strlenAt, le_refl, if_true, Int.toNat_zero, List.drop_zero, joinStrings]
    exact strlenList_string s _ (hnz s (List.mem_cons_self _ _))

/-- The function headerFindI18NString on a sorted header for an entry stored by
headerAddEntry, when every locale table in the header was stored by
headerAddEntry and holds at least as many strings as the entry: the pointer
returned is that of a string of the entry. -/
theorem headerFindI18NString_added (env : LocaleEnv) {h : Header} {e : indexEntry}
    (hs : h.sorted = true) (ha : Added e) (hty : e.info.type = RPM_I18NSTRING_TYPE)
    (hall : ∀ t ∈ h.index, t.info.tag = HEADER_I18NTABLE →
      t.info.type = RPM_STRING_ARRAY_TYPE → Added t ∧ e.info.count ≤ t.info.count) :
    ∃ (mem : List Nat) (a : Int) (n : Nat),
      headerFindI18NString env h e = Res.ok (h, some (mem, a)) ∧ strlenAt mem a = some n := by
  obtain ⟨strs, hcnt, hdata, hnz⟩ := added_strings ha (Or.inr hty)
  have hne : strs ≠ [] := by
    intro h0
    have := ha.pos
    rw [h0] at hcnt
    simp at hcnt
    omega
  obtain ⟨n0, hn0⟩ := strlenAt_join hne hnz
  have hem : entryMem h.blob e.data = some (joinStrings strs, 0) := by rw [hdata]; rfl
  unfold headerFindI18NString
  cases henv : env.lookup with
  | none => exact ⟨_, _, n0, by simp only [hem], hn0⟩
  | some s =>
    simp only
    rw [findEntry_eq, headerSort_of_sorted hs]
    cases hf : (findEntry h HEADER_I18NTABLE RPM_STRING_ARRAY_TYPE).2 with
    | none => exact ⟨_, _, n0, by simp only [hem], hn0⟩
    | some ti =>
      obtain ⟨t, hget, htag, htype⟩ := findEntry_typed (by decide) hf
      rw [headerSort_of_sorted hs] at hget
      obtain ⟨hat, hle⟩ := hall t (List.get?_mem hget) htag htype
      obtain ⟨tbl, htc, htd, htnz⟩ := added_strings hat (Or.inl htype)
      have hdt : dataPtr h.blob t.data = (joinStrings tbl, 0) := by rw [htd]; rfl
      have hde : dataPtr h.blob e.data = (joinStrings strs, 0) := by rw [hdata]; rfl
      have hloop := findI18NLoop_spec [] [] strs tbl [] [] (by omega) htnz hnz
        ((s.takeWhile (fun b => decide (b ≠ 0))).length + 1)
        (s.takeWhile (fun b => decide (b ≠ 0))) (by omega)
      simp only [List.nil_append, List.append_nil, List.length_nil, Int.ofNat_zero, hcnt,
        Nat.cast_zero] at hloop
      simp only [hget, hdt, hde]
      cases hsel : (requestLocales (s.takeWhile (fun b => decide (b ≠ 0)))).findSome?
          (firstMatch tbl strs) with
      | none =>
        rw [hloop.1 hsel]
        exact ⟨_, _, n0, by simp only [hem], hn0⟩
      | some x =>
        obtain ⟨a, h1, _, _, h4⟩ := hloop.2 x hsel
        rw [h1]
        exact ⟨_, a, x.length, by simp only [hem, Option.map_some'], h4⟩

/-- The function copyEntry on an entry stored by headerAddEntry whose tag is
not a region tag when its type is the binary type. -/
theorem copyEntry_rc (le : Bool) (blob : List Nat) {e : indexEntry} (ha : Added e)
    (ht : e.info.type = RPM_BIN_TYPE → HEADER_I18NTABLE ≤ e.info.tag) :
    ∃ out, copyEntry le blob e true false = Res.ok out ∧ out.rc = 1 := by
  by_cases hbin : e.info.type = RPM_BIN_TYPE
  · exact ⟨_, copyEntry_added le blob ha (ht hbin), rfl⟩
  · have ha2 : Added (indexEntry.mk ⟨HEADER_I18NTABLE, e.info.type, e.info.count, e.info.offset⟩
        e.data e.length e.rdlen) :=
      ⟨ha.offset, ha.rdlen, (by decide : isInt32 HEADER_I18NTABLE), ha.type, ha.count, ha.pos, ha.data, ha.length, ha.shape⟩
    have h2 := copyEntry_added le blob ha2 (le_refl _)
    have e1 : copyEntry le blob e true false
        = copyEntry le blob
            (indexEntry.mk ⟨HEADER_I18NTABLE, e.info.type, e.info.count, e.info.offset⟩
              e.data e.length e.rdlen) true false := by
      unfold copyEntry
      simp only [hbin, if_false]
    rw [e1]
    exact ⟨_, h2, rfl⟩

/-- The lookups headerIsEntry and intGetEntry of a tag that some entry of a
header built by headerAddEntry carries. -/
theorem lookup_built (le : Bool) (env : LocaleEnv) {h : Header} {tag : Int} (hb : Built h)
    (htags : ∀ e ∈ h.index,
      0 ≤ e.info.tag ∧ (e.info.type = RPM_BIN_TYPE → HEADER_I18NTABLE ≤ e.info.tag))
    (hal : ∀ t ∈ h.index, t.info.tag = HEADER_I18NTABLE → t.info.type = RPM_STRING_ARRAY_TYPE →
      ∀ e ∈ h.index, e.info.type = RPM_I18NSTRING_TYPE → e.info.count ≤ t.info.count)
    (hp : ∃ e ∈ h.index, e.info.tag = tag) :
    headerIsEntry h tag = (headerSort h, 1)
      ∧ ∃ out, intGetEntry le env h tag false = Res.ok (headerSort h, out) ∧ out.rc = 1 := by
  obtain ⟨hadd, _, _, hsorted⟩ := built_inv hb
  have hrange : ∀ e ∈ h.index, 0 ≤ e.info.tag ∧ e.info.tag < 2147483648 := by
    intro e he
    have h1 := (hadd e he).tag
    unfold isInt32 at h1
    exact ⟨(htags e he).1, h1.2⟩
  have hi : SortInv h := ⟨hsorted, hrange⟩
  obtain ⟨hs, hbd⟩ := headerSort_inv hi
  have ht : 0 ≤ tag ∧ tag < 2147483648 := by
    obtain ⟨e, he, rfl⟩ := hp
    exact hrange e he
  obtain ⟨i, e1, hbs, hge, hte⟩ := bsearch_present ht hbd hs
    (by obtain ⟨e, he, h1⟩ := hp; exact ⟨e, mem_headerSort.mpr he, h1⟩)
  have hfind : findEntry h tag RPM_NULL_TYPE = (headerSort h, some i) := by
    unfold findEntry
    simp [hbs]
  have hmem : e1 ∈ h.index := mem_headerSort.mp (List.get?_mem hge)
  refine ⟨by unfold headerIsEntry; rw [hfind], ?_⟩
  unfold intGetEntry
  simp only [hfind, hge]
  by_cases hty : e1.info.type = RPM_I18NSTRING_TYPE
  · simp only [hty, if_true]
    obtain ⟨mem, a, n, hf, hn⟩ := @headerFindI18NString_added env (headerSort h) e1
      (headerSort_sorted h) (hadd e1 hmem) hty
      (fun t htm h1 h2 => ⟨hadd t (mem_headerSort.mp htm),
        hal t (mem_headerSort.mp htm) h1 h2 e1 hmem hty⟩)
    simp only [hf, hn]
    exact ⟨_, rfl, rfl⟩
  · simp only [hty, if_false]
    obtain ⟨out, ho, hrc⟩ := copyEntry_rc le (headerSort h).blob (hadd e1 hmem)
      (htags e1 hmem).2
    simp only [ho, hrc, if_true]
    exact ⟨_, rfl, rfl⟩

/-- The tags, types and counts in the index after the calls of addAll: those
before, followed by those of the calls. -/
theorem addAll_infos : ∀ (reqs : List AddReq) {h h1 : Header}, addAll h reqs = some h1 →
    h1.index.map (fun e => (e.info.tag, e.info.type, e.info.count))
      = h.index.map (fun e => (e.info.tag, e.info.type, e.info.count))
          ++ reqs.map (fun r => (r.tag, r.type, r.c))
  | [], h, h1, ha => by
    simp only [addAll, Option.some.injEq] at ha
    subst ha; simp
  | r :: rest, h, h1, ha => by
    simp only [addAll] at ha
    split at ha
    · cases hr : headerAddEntry h r.tag r.type r.p r.c with
      | exit => simp [hr] at ha
      | fault => simp [hr] at ha
      | ok o =>
        obtain ⟨h2, rc⟩ := o
        simp only [hr] at ha
        split at ha
        · rename_i hrc
          subst hrc
          obtain ⟨_, data, length, _, rfl⟩ := headerAddEntry_ok hr
          rw [addAll_infos rest ha]
          simp
        · simp at ha
    · simp at ha

/-! ## The three lookups on an i18n string entry -/

theorem splitStrings_join : ∀ (strs : List (List Nat)) (S : List Nat),
    (∀ s ∈ strs, ∀ b ∈ s, b ≠ 0) → splitStrings strs.length (joinStrings strs ++ S) = some strs
  | [], _, _ => rfl
  | s :: rest, S, h => by
    have hs := h s (List.mem_cons_self _ _)
    have e1 : joinStrings (s :: rest) ++ S = s ++ 0 :: (joinStrings rest ++ S) := by
      simp [joinStrings]
    have hl : strlenList (joinStrings (s :: rest) ++ S) = some s.length := by
      rw [e1]; exact strlenList_string s _ hs
    have hd : (joinStrings (s :: rest) ++ S).drop (s.length + 1) = joinStrings rest ++ S := by
      rw [e1]
      have e2 : s ++ 0 :: (joinStrings rest ++ S) = (s ++ [0]) ++ (joinStrings rest ++ S) := by
        simp
      rw [e2]
      exact List.drop_left' (by simp)
    have ht : (joinStrings (s :: rest) ++ S).take s.length = s := by
      rw [e1]; simp
    simp only [List.length_cons, splitStrings, hl, hd, ht,
      splitStrings_join rest S (fun x hx => h x (List.mem_cons_of_mem _ hx)), Option.map_some']

/-- The return value of headerIsEntry tells whether the tag is present. -/
theorem headerIsEntry_spec {h : Header} {tag : Int} (hi : SortInv h)
    (ht : 0 ≤ tag ∧ tag < 2147483648) :
    ((∃ e ∈ h.index, e.info.tag = tag) → headerIsEntry h tag = (headerSort h, 1))
      ∧ ((∀ e ∈ h.index, e.info.tag ≠ tag) → headerIsEntry h tag = (headerSort h, 0)) := by
  obtain ⟨hs, hb⟩ := headerSort_inv hi
  constructor
  · rintro ⟨e, he, hte⟩
    obtain ⟨i, e1, hbs, _, _⟩ := bsearch_present ht hb hs ⟨e, mem_headerSort.mpr he, hte⟩
    unfold headerIsEntry findEntry
    simp [hbs]
  · intro hab
    have hbs := bsearch_absent ht hb (fun e he => hab e (mem_headerSort.mp he))
    unfold headerIsEntry findEntry
    simp [hbs]

/-- The value of copyEntry for an entry stored by headerAddEntry whose tag is
not a region tag when its type is the binary type. -/
theorem copyEntry_value (le : Bool) (blob : List Nat) {e : indexEntry} (ha : Added e)
    (ht : e.info.type = RPM_BIN_TYPE → HEADER_I18NTABLE ≤ e.info.tag) :
    copyEntry le blob e true false
      = Res.ok { rc := 1, type := e.info.type, p := some (entryValue e),
                 c := if e.info.type = RPM_BIN_TYPE then e.length else e.info.count } := by
  by_cases hbin : e.info.type = RPM_BIN_TYPE
  · exact copyEntry_added le blob ha (ht hbin)
  · have ha2 : Added (indexEntry.mk ⟨HEADER_I18NTABLE, e.info.type, e.info.count, e.info.offset⟩
        e.data e.length e.rdlen) :=
      ⟨ha.offset, ha.rdlen, (by decide : isInt32 HEADER_I18NTABLE), ha.type, ha.count, ha.pos,
        ha.data, ha.length, ha.shape⟩
    have h2 := copyEntry_added le blob ha2 (le_refl _)
    have e1 : copyEntry le blob e true false
        = copyEntry le blob
            (indexEntry.mk ⟨HEADER_I18NTABLE, e.info.type, e.info.count, e.info.offset⟩
              e.data e.length e.rdlen) true false := by
      unfold copyEntry
      simp only [hbin, if_false]
    rw [e1, h2]
    rfl

/-- For an entry stored by headerAddEntry the pointers that copyEntry hands
out with and without minMem refer to the same bytes. -/
theorem copyEntry_minMem (le : Bool) (blob : List Nat) {e : indexEntry} (ha : Added e) :
    copyEntry le blob e true true = copyEntry le blob e true false := by
  have hd := ha.data
  have hl := ha.length
  have hc := ha.pos
  have hmem : entryMem blob e.data = some (entryBytes e, 0) := by rw [hd]; rfl
  have hrd : readBytes (entryBytes e) 0 e.length.toNat = some (entryBytes e) :=
    readBytes_all _ _ (by omega)
  have h1 : ¬ (e.info.count * 8 < 0) := by omega
  have h2 : ¬ (e.info.count * 8 + e.length < 0) := by omega
  have h3 : ¬ (e.length < 0) := by omega
  unfold copyEntry
  simp only [Bool.not_true, Bool.false_eq_true, if_false, if_true, hmem, h1, h2, h3, hrd,
    le_refl, Int.toNat_zero, List.drop_zero]

theorem strArrayLenMem_join : ∀ (ss : List (List Nat)), (∀ s ∈ ss, ∀ b ∈ s, b ≠ 0) →
    strArrayLenMem ss.length (ss.map (fun s => some (s ++ [0]))) = some (joinStrings ss).length
  | [], _ => rfl
  | s :: rest, h => by
    have hs := h s (List.mem_cons_self _ _)
    have hsl : strlenList (s ++ [0]) = some s.length := strlenList_string s [] hs
    simp only [List.length_cons, List.map_cons, strArrayLenMem, hsl,
      strArrayLenMem_join rest (fun x hx => h x (List.mem_cons_of_mem _ hx)), Option.map_some',
      joinStrings, List.length_append, Option.some.injEq]
    omega

theorem copyDataStrv_join : ∀ (ss : List (List Nat)), (∀ s ∈ ss, ∀ b ∈ s, b ≠ 0) →
    copyDataStrv ss.length (ss.map (fun s => some (s ++ [0]))) = some (joinStrings ss)
  | [], _ => rfl
  | s :: rest, h => by
    have hs := h s (List.mem_cons_self _ _)
    have hsl : strlenList (s ++ [0]) = some s.length := strlenList_string s [] hs
    have htk : (s ++ [0]).take (s.length + 1) = s ++ [0] :=
      List.take_of_length_le (by simp)
    simp only [List.length_cons, List.map_cons, copyDataStrv, hsl, htk,
      copyDataStrv_join rest (fun x hx => h x (List.mem_cons_of_mem _ hx)), Option.map_some',
      joinStrings, List.append_assoc, List.singleton_append]

/-- The copy that grabData makes of the value that a lookup hands out for an
entry stored by headerAddEntry (not of the i18n string type) is the data of
the entry. -/
theorem grabData_entryValue {e : indexEntry} (ha : Added e)
    (hty : e.info.type ≠ RPM_I18NSTRING_TYPE) (hlen : e.length < 2147483648) :
    grabData e.info.type (valuePtr (some (entryValue e)))
        (if e.info.type = RPM_BIN_TYPE then e.length else e.info.count)
      = Res.ok (entryBytes e, e.length) := by
  have hshape := ha.shape
  have hl := ha.length
  have hc := ha.pos
  unfold DataShape at hshape
  by_cases hstr : e.info.type = RPM_STRING_TYPE
  · simp only [hstr, if_true] at hshape
    obtain ⟨hc1, n, hsl, hbl⟩ := hshape
    obtain ⟨s, X, hsx, hsn, hz⟩ := strlenList_split hsl
    have hX : X = [] := by
      have : (entryBytes e).length = s.length + 1 + X.length := by
        rw [hsx]; simp; omega
      exact List.length_eq_zero.mp (by omega)
    subst hX
    have hnb : RPM_STRING_TYPE ≠ RPM_BIN_TYPE := by decide
    have hna : ¬ (RPM_STRING_TYPE = RPM_STRING_ARRAY_TYPE ∨ RPM_STRING_TYPE = RPM_I18NSTRING_TYPE) := by
      decide
    have hv : entryValue e = Value.str s := by
      unfold entryValue
      simp only [hstr, hnb, if_false, if_true, hsx]
      simp
    have hsa : strlenAt (s ++ [0]) 0 = some s.length := by
      simpa [strlenAt] using strlenList_string s [] hz
    have hrd : readBytes (s ++ [0]) 0 (Int.ofNat s.length + 1).toNat = some (s ++ [0]) :=
      readBytes_all _ _ (by simp)
    have hneg : ¬ (Int.ofNat s.length + 1 < 0) := by
      have : (0 : Int) ≤ Int.ofNat s.length := Int.ofNat_zero_le _
      omega
    have hel : e.length = Int.ofNat s.length + 1 := by
      rw [hl, hsx]; simp
    rw [hv, hstr]
    unfold grabData dataLength copyData valuePtr
    simp only [hnb, if_false, if_true, hc1, hsa, Option.map_some', Res.ofOption, hneg, hna, hrd,
      hsx, hel]
  · simp only [hstr, if_false] at hshape
    by_cases harr : e.info.type = RPM_STRING_ARRAY_TYPE ∨ e.info.type = RPM_I18NSTRING_TYPE
    · have hsat : e.info.type = RPM_STRING_ARRAY_TYPE := by
        rcases harr with h | h
        · exact h
        · exact absurd h hty
      obtain ⟨ss, hcnt, hdata, hnz⟩ := added_strings ha harr
      have hbytes : entryBytes e = joinStrings ss := by
        unfold entryBytes; rw [hdata]
      have hnb : RPM_STRING_ARRAY_TYPE ≠ RPM_BIN_TYPE := by decide
      have hns : RPM_STRING_ARRAY_TYPE ≠ RPM_STRING_TYPE := by decide
      have hcn : e.info.count.toNat = ss.length := by omega
      have hv : entryValue e = Value.strv ss := by
        unfold entryValue
        have := splitStrings_join ss [] hnz
        rw [List.append_nil] at this
        simp only [hsat, hnb, hns, if_false, true_or, if_true, hbytes, hcn, this, Option.getD_some]
      have hneg : ¬ (e.info.count < 0) := by omega
      have hneg2 : ¬ (Int.ofNat (joinStrings ss).length < 0) := by
        have : (0 : Int) ≤ Int.ofNat (joinStrings ss).length := Int.ofNat_zero_le _
        omega
      have hel : e.length = Int.ofNat (joinStrings ss).length := by
        rw [hl, hbytes]; rfl
      rw [hv, hsat]
      unfold grabData dataLength copyData valuePtr
      simp only [hnb, hns, if_false, true_or, if_true, hneg, Bool.false_eq_true, hcn,
        strArrayLenMem_join ss hnz, copyDataStrv_join ss hnz, Option.map_some', Res.ofOption,
        hneg2, hbytes, hel]
    · simp only [harr, if_false] at hshape
      obtain ⟨sz, hts, hsz, hprod⟩ := hshape
      have hv : entryValue e = Value.bytes (entryBytes e) := by
        unfold entryValue
        by_cases hbin : e.info.type = RPM_BIN_TYPE
        · simp only [hbin, if_true]
        · simp only [hbin, hstr, harr, if_false]
      have hrd : readBytes (entryBytes e) 0 e.length.toNat = some (entryBytes e) :=
        readBytes_all _ _ (by omega)
      have hneg : ¬ (e.length < 0) := by omega
      rw [hv]
      unfold grabData dataLength copyData valuePtr
      by_cases hbin : e.info.type = RPM_BIN_TYPE
      · have hb1 : RPM_BIN_TYPE ≠ RPM_STRING_TYPE := by decide
        have hb2 : ¬ (RPM_BIN_TYPE = RPM_STRING_ARRAY_TYPE ∨ RPM_BIN_TYPE = RPM_I18NSTRING_TYPE) := by
          decide
        have hb3 : typeSizesAt RPM_BIN_TYPE = some 1 := by decide
        have hr : -2147483648 ≤ e.length ∧ e.length < 2147483648 := by omega
        have h11 : ¬ ((1 : Int) = -1) := by decide
        simp only [hbin, if_true, hb1, hb2, if_false, hb3, ne_eq, h11, not_false_eq_true,
          one_mul, hr, and_self, hneg, hrd]
      · have hr : -2147483648 ≤ sz * e.info.count ∧ sz * e.info.count < 2147483648 := by omega
        have hneg1 : ¬ (sz * e.info.count < 0) := by omega
        have hrd1 : readBytes (entryBytes e) 0 (sz * e.info.count).toNat = some (entryBytes e) :=
          readBytes_all _ _ (by omega)
        simp only [hstr, harr, hbin, if_false, hts, ne_eq, hsz, not_false_eq_true, if_true, hr,
          and_self, hneg1, hrd1]
        simp
        omega

/-- An entry as headerAddEntry stores it is determined by its tag, type,
count, data and length. -/
theorem Added.eta {e : indexEntry} (ha : Added e) :
    indexEntry.mk ⟨e.info.tag, e.info.type, e.info.count, 0⟩ (EntryData.owned (entryBytes e))
      e.length 0 = e := by
  obtain ⟨⟨tag, type, count, offset⟩, data, length, rdlen⟩ := e
  have h1 := ha.offset
  have h2 := ha.rdlen
  have h3 := ha.data
  simp only at h1 h2 h3
  subst h1 h2
  rw [← h3]

/-- For an entry of the binary type stored by headerAddEntry the length is the count. -/
theorem Added.bin_count {e : indexEntry} (ha : Added e) (hb : e.info.type = RPM_BIN_TYPE) :
    e.length = e.info.count := by
  have hs := ha.shape
  have hl := ha.length
  unfold DataShape at hs
  rw [hb] at hs
  have h1 : RPM_BIN_TYPE ≠ RPM_STRING_TYPE := by decide
  have h2 : ¬ (RPM_BIN_TYPE = RPM_STRING_ARRAY_TYPE ∨ RPM_BIN_TYPE = RPM_I18NSTRING_TYPE) := by
    decide
  simp only [h1, h2, if_false] at hs
  obtain ⟨sz, hts, _, hprod⟩ := hs
  have hsz : sz = 1 := by
    have h3 : typeSizesAt RPM_BIN_TYPE = some 1 := by decide
    rw [h3] at hts
    simpa using hts.symm
  subst hsz
  omega

/-- The lookup by intGetEntry of a tag that h holds, when the entries of the
tag were stored by headerAddEntry, are not of the i18n string type and do not
combine the binary type with a region tag. -/
theorem intGetEntry_present (le : Bool) (env : LocaleEnv) {h : Header} {tag : Int}
    (minMem : Bool) (hi : SortInv h) (ht : 0 ≤ tag ∧ tag < 2147483648)
    (hp : ∃ e ∈ h.index, e.info.tag = tag)
    (hall : ∀ e ∈ h.index, e.info.tag = tag → Added e ∧ e.info.type ≠ RPM_I18NSTRING_TYPE
      ∧ (e.info.type = RPM_BIN_TYPE → HEADER_I18NTABLE ≤ e.info.tag)) :
    ∃ e1 ∈ h.index, e1.info.tag = tag ∧
      intGetEntry le env h tag minMem
        = Res.ok (headerSort h, GetOut.mk 1 (some e1.info.type) (some (entryValue e1))
            (if e1.info.type = RPM_BIN_TYPE then e1.length else e1.info.count)) := by
  obtain ⟨hs, hbd⟩ := headerSort_inv hi
  obtain ⟨i, e1, hbs, hge, hte⟩ := bsearch_present ht hbd hs
    (by obtain ⟨e, he, h1⟩ := hp; exact ⟨e, mem_headerSort.mpr he, h1⟩)
  have hfind : findEntry h tag RPM_NULL_TYPE = (headerSort h, some i) := by
    unfold findEntry
    simp [hbs]
  have hmem : e1 ∈ h.index := mem_headerSort.mp (List.get?_mem hge)
  obtain ⟨ha, hty, hbin⟩ := hall e1 hmem hte
  refine ⟨e1, hmem, hte, ?_⟩
  have hcp : copyEntry le (headerSort h).blob e1 true minMem
      = Res.ok { rc := 1, type := e1.info.type, p := some (entryValue e1),
                 c := if e1.info.type = RPM_BIN_TYPE then e1.length else e1.info.count } := by
    cases minMem
    · exact copyEntry_value le _ ha hbin
    · rw [copyEntry_minMem le _ ha]; exact copyEntry_value le _ ha hbin
  unfold intGetEntry
  simp only [hfind, hge, hty, if_false, hcp, if_true]

/-- One turn of the loop of headerCopyTags. -/
theorem copyTag_spec (le : Bool) (env : LocaleEnv) {hf hto : Header} {tag : Int}
    (hiF : SortInv hf) (hiT : SortInv hto) (ht : 0 ≤ tag ∧ tag < 2147483648)
    (hall : ∀ e ∈ hf.index, e.info.tag = tag → Added e ∧ e.info.type ≠ RPM_I18NSTRING_TYPE
      ∧ (e.info.type = RPM_BIN_TYPE → HEADER_I18NTABLE ≤ e.info.tag) ∧ e.length < 2147483648) :
    ((∃ x ∈ hto.index, x.info.tag = tag) →
        copyTag le env hf hto tag = Res.ok (hf, headerSort hto))
      ∧ ((∀ x ∈ hto.index, x.info.tag ≠ tag) → (∀ e ∈ hf.index, e.info.tag ≠ tag) →
        copyTag le env hf hto tag = Res.ok (headerSort hf, headerSort hto))
      ∧ ((∀ x ∈ hto.index, x.info.tag ≠ tag) → (∃ e ∈ hf.index, e.info.tag = tag) →
        ∃ e1 ∈ hf.index, e1.info.tag = tag ∧
          copyTag le env hf hto tag
            = Res.ok (headerSort hf,
                Header.mk ((headerSort hto).index ++ [e1])
                  ((headerSort hto).sorted && !(match (headerSort hto).index.getLast? with
                    | some e => decide (e1.info.tag < e.info.tag)
                    | none => false))
                  (headerSort hto).allocated (headerSort hto).legacy (headerSort hto).blob)) := by
  have hisT := headerIsEntry_spec hiT ht
  refine ⟨?_, ?_, ?_⟩
  · intro hp
    unfold copyTag
    rw [hisT.1 hp]
    simp
  · intro hnT hnF
    unfold copyTag headerGetEntryMinMemory
    rw [hisT.2 hnT, intGetEntry_absent le env true hiF ht hnF]
    simp
  · intro hnT hpF
    obtain ⟨e1, hmem, hte, hget⟩ := intGetEntry_present le env true hiF ht hpF
      (fun e he h1 => ⟨(hall e he h1).1, (hall e he h1).2.1, (hall e he h1).2.2.1⟩)
    obtain ⟨ha, hty, hbin, hlen⟩ := hall e1 hmem hte
    refine ⟨e1, hmem, hte, ?_⟩
    have hg := grabData_entryValue ha hty hlen
    have hc : 1 ≤ (if e1.info.type = RPM_BIN_TYPE then e1.length else e1.info.count) := by
      have := ha.pos
      by_cases hb : e1.info.type = RPM_BIN_TYPE
      · simp only [hb, if_true]; rw [ha.bin_count hb]; exact this
      · simp only [hb, if_false]; exact this
    have hadd := @headerAddEntry_grab (headerSort hto) tag _ _ _ _ _ hc hg
    have hcnt : (if e1.info.type = RPM_BIN_TYPE then e1.length else e1.info.count)
        = e1.info.count := by
      by_cases hb : e1.info.type = RPM_BIN_TYPE
      · simp only [hb, if_true]; exact ha.bin_count hb
      · simp only [hb, if_false]
    unfold copyTag headerGetEntryMinMemory
    rw [hisT.2 hnT, hget]
    simp only [ne_eq, not_true_eq_false, if_false, one_ne_zero, hadd]
    rw [hcnt, ← hte, ha.eta]

/-- The function headerCopyTags on a list of tags that ends with 0: the
entries of headerTo afterwards are those before, in some order, and a list L
of entries of headerFrom, one for each tag of the list that headerTo did not
hold and headerFrom holds. -/
theorem headerCopyTags_spec (le : Bool) (env : LocaleEnv) :
    ∀ (ts : List Int) (hf hto : Header), SortInv hf → SortInv hto →
      (∀ t ∈ ts, 0 < t ∧ t < 2147483648) →
      (∀ e ∈ hf.index, e.info.tag ∈ ts → Added e ∧ e.info.type ≠ RPM_I18NSTRING_TYPE
        ∧ (e.info.type = RPM_BIN_TYPE → HEADER_I18NTABLE ≤ e.info.tag)
        ∧ e.length < 2147483648) →
      ∃ (hf1 hto1 : Header) (L : List indexEntry),
        headerCopyTags le env hf hto (ts ++ [0]) = Res.ok (hf1, hto1)
          ∧ (hf1 = hf ∨ hf1 = headerSort hf)
          ∧ hto1.index.Perm (hto.index ++ L)
          ∧ (∀ e ∈ L, e ∈ hf.index ∧ e.info.tag ∈ ts ∧ ∀ x ∈ hto.index, x.info.tag ≠ e.info.tag)
          ∧ (L.map (fun e => e.info.tag)).Nodup
          ∧ (∀ t ∈ ts, (∀ x ∈ hto.index, x.info.tag ≠ t) → (∃ e ∈ hf.index, e.info.tag = t) →
              ∃ e ∈ L, e.info.tag = t)
  | [], hf, hto, _, _, _, _ => by
    refine ⟨hf, hto, [], ?_, Or.inl rfl, by simp, by simp, by simp, by simp⟩
    simp [headerCopyTags]
  | t :: rest, hf, hto, hiF, hiT, hts, hall => by
    have ht := hts t (List.mem_cons_self _ _)
    have ht0 : 0 ≤ t ∧ t < 2147483648 := ⟨by omega, ht.2⟩
    have htne : t ≠ 0 := by omega
    have hstep := copyTag_spec le env hiF hiT ht0
      (fun e he h1 => hall e he (by rw [h1]; exact List.mem_cons_self _ _))
    have hts1 : ∀ x ∈ rest, 0 < x ∧ x < 2147483648 :=
      fun x hx => hts x (List.mem_cons_of_mem _ hx)
    have hunf : ∀ (r : Res (Header × Header)), copyTag le env hf hto t = r →
        headerCopyTags le env hf hto ((t :: rest) ++ [0])
          = (match r with
            | Res.ok (from1, to1) => headerCopyTags le env from1 to1 (rest ++ [0])
            | Res.exit => Res.exit
            | Res.fault => Res.fault) := by
      intro r hr
      simp only [List.cons_append, headerCopyTags, htne, if_false, hr]
      rfl
    by_cases hpT : ∃ x ∈ hto.index, x.info.tag = t
    · -- headerTo holds the tag
      obtain ⟨hf1, hto1, L, hrun, hfr, hperm, hL, hnd, hcov⟩ :=
        headerCopyTags_spec le env rest hf (headerSort hto) hiF (sortInv_headerSort hiT) hts1
          (fun e he h1 => hall e he (List.mem_cons_of_mem _ h1))
      refine ⟨hf1, hto1, L, ?_, hfr, ?_, ?_, hnd, ?_⟩
      · rw [hunf _ (hstep.1 hpT)]; exact hrun
      · exact hperm.trans ((headerSort_perm hto).append_right L)
      · intro e he
        obtain ⟨h1, h2, h3⟩ := hL e he
        exact ⟨h1, List.mem_cons_of_mem _ h2, fun x hx => h3 x (mem_headerSort.mpr hx)⟩
      · intro t1 ht1 hn1 hp1
        have hne : t1 ≠ t := by
          rintro rfl
          obtain ⟨x, hx, hxt⟩ := hpT
          exact hn1 x hx hxt
        have hr1 : t1 ∈ rest := by
          rcases List.mem_cons.mp ht1 with h | h
          · exact absurd h hne
          · exact h
        exact hcov t1 hr1 (fun x hx => hn1 x (mem_headerSort.mp hx)) hp1
    · have hnT : ∀ x ∈ hto.index, x.info.tag ≠ t := fun x hx hxt => hpT ⟨x, hx, hxt⟩
      by_cases hpF : ∃ e ∈ hf.index, e.info.tag = t
      · -- the entry is copied
        obtain ⟨e1, hmem, hte, hrun1⟩ := hstep.2.2 hnT hpF
        have hiT1 : SortInv (Header.mk ((headerSort hto).index ++ [e1])
            ((headerSort hto).sorted && !(match (headerSort hto).index.getLast? with
              | some e => decide (e1.info.tag < e.info.tag)
              | none => false))
            (headerSort hto).allocated (headerSort hto).legacy (headerSort hto).blob) :=
          sortInv_snoc (sortInv_headerSort hiT) (by rw [hte]; exact ht0)
        obtain ⟨hf1, hto1, L, hrun, hfr, hperm, hL, hnd, hcov⟩ :=
          headerCopyTags_spec le env rest (headerSort hf) _ (sortInv_headerSort hiF) hiT1 hts1
            (fun e he h1 => hall e (mem_headerSort.mp he) (List.mem_cons_of_mem _ h1))
        refine ⟨hf1, hto1, e1 :: L, ?_, ?_, ?_, ?_, ?_, ?_⟩
        · rw [hunf _ hrun1]; exact hrun
        · rcases hfr with h | h
          · exact Or.inr h
          · exact Or.inr (by rw [h, headerSort_idem])
        · refine hperm.trans ?_
          simp only [List.append_assoc, List.singleton_append]
          exact (headerSort_perm hto).append_right (e1 :: L)
        · intro e he
          rcases List.mem_cons.mp he with rfl | he
          · exact ⟨hmem, by rw [hte]; exact List.mem_cons_self _ _, fun x hx => by
              rw [hte]; exact hnT x hx⟩
          · obtain ⟨h1, h2, h3⟩ := hL e he
            exact ⟨mem_headerSort.mp h1, List.mem_cons_of_mem _ h2, fun x hx =>
              h3 x (List.mem_append_left _ (mem_headerSort.mpr hx))⟩
        · simp only [List.map_cons, List.nodup_cons]
          refine ⟨?_, hnd⟩
          intro hin
          obtain ⟨e, he, hee⟩ := List.mem_map.mp hin
          exact (hL e he).2.2 e1 (List.mem_append_right _ (List.mem_singleton_self _)) hee.symm
        · intro t1 ht1 hn1 hp1
          by_cases h1 : t1 = t
          · exact ⟨e1, List.mem_cons_self _ _, by rw [hte, h1]⟩
          · have hr1 : t1 ∈ rest := by
              rcases List.mem_cons.mp ht1 with h | h
              · exact absurd h h1
              · exact h
            obtain ⟨e, he, hee⟩ := hcov t1 hr1
              (by
                intro x hx
                rcases List.mem_append.mp hx with hx | hx
                · exact hn1 x (mem_headerSort.mp hx)
                · rw [List.mem_singleton.mp hx, hte]; exact fun h => h1 h.symm)
              (by obtain ⟨e, he, hee⟩ := hp1; exact ⟨e, mem_headerSort.mpr he, hee⟩)
            exact ⟨e, List.mem_cons_of_mem _ he, hee⟩
      · -- neither header holds the tag
        have hnF : ∀ e ∈ hf.index, e.info.tag ≠ t := fun e he het => hpF ⟨e, he, het⟩
        obtain ⟨hf1, hto1, L, hrun, hfr, hperm, hL, hnd, hcov⟩ :=
          headerCopyTags_spec le env rest (headerSort hf) (headerSort hto)
            (sortInv_headerSort hiF) (sortInv_headerSort hiT) hts1
            (fun e he h1 => hall e (mem_headerSort.mp he) (List.mem_cons_of_mem _ h1))
        refine ⟨hf1, hto1, L, ?_, ?_, ?_, ?_, hnd, ?_⟩
        · rw [hunf _ (hstep.2.1 hnT hnF)]; exact hrun
        · rcases hfr with h | h
          · exact Or.inr h
          · exact Or.inr (by rw [h, headerSort_idem])
        · exact hperm.trans ((headerSort_perm hto).append_right L)
        · intro e he
          obtain ⟨h1, h2, h3⟩ := hL e he
          exact ⟨mem_headerSort.mp h1, List.mem_cons_of_mem _ h2, fun x hx =>
            h3 x (mem_headerSort.mpr hx)⟩
        · intro t1 ht1 hn1 hp1
          have hne : t1 ≠ t := by
            rintro rfl
            obtain ⟨e, he, hee⟩ := hp1
            exact hnF e he hee
          have hr1 : t1 ∈ rest := by
            rcases List.mem_cons.mp ht1 with h | h
            · exact absurd h hne
            · exact h
          exact hcov t1 hr1 (fun x hx => hn1 x (mem_headerSort.mp hx))
            (by obtain ⟨e, he, hee⟩ := hp1; exact ⟨e, mem_headerSort.mpr he, hee⟩)

theorem filter_tag_nodup {t : Int} {e : indexEntry} : ∀ {L : List indexEntry},
    (L.map (fun x => x.info.tag)).Nodup → e ∈ L → e.info.tag = t →
    L.filter (fun x => decide (x.info.tag = t)) = [e]
  | [], _, he, _ => by simp at he
  | x :: L, hnd, he, het => by
    simp only [List.map_cons, List.nodup_cons] at hnd
    obtain ⟨hx, hnd1⟩ := hnd
    rcases List.mem_cons.mp he with rfl | he1
    · have hnil : L.filter (fun x => decide (x.info.tag = t)) = [] := by
        apply List.filter_eq_nil_iff.mpr
        intro y hy
        simp only [decide_eq_true_eq]
        intro hyt
        exact hx (List.mem_map.mpr ⟨y, hy, by rw [hyt, het]⟩)
      rw [List.filter_cons]
      simp only [het, decide_True, if_true, hnil]
    · have hxt : x.info.tag ≠ t := by
        intro hxt
        exact hx (List.mem_map.mpr ⟨e, he1, by rw [het, hxt]⟩)
      rw [List.filter_cons]
      simp only [hxt, decide_False, Bool.false_eq_true, if_false]
      exact filter_tag_nodup hnd1 he1 het

/-! ## Facts about the format engine -/

@[simp] theorem Run.ok_bind {α β : Type} (a : α) (f : α → Run β) : (Run.ok a >>= f) = f a := rfl

@[simp] theorem Run.error_bind {α β : Type} (m : ErrMsg) (f : α → Run β) :
    ((Run.error m : Run α) >>= f) = Run.error m := rfl

@[simp] theorem Run.fault_bind {α β : Type} (f : α → Run β) :
    ((Run.fault : Run α) >>= f) = Run.fault := rfl

@[simp] theorem Run.exit_bind {α β : Type} (f : α → Run β) :
    ((Run.exit : Run α) >>= f) = Run.exit := rfl

@[simp] theorem Run.unfinished_bind {α β : Type} (f : α → Run β) :
    ((Run.unfinished : Run α) >>= f) = Run.unfinished := rfl

@[simp] theorem Run.pure_eq {α : Type} (a : α) : (pure a : Run α) = Run.ok a := rfl

@[simp] theorem Run.ofOption_some {α : Type} (a : α) : Run.ofOption (some a) = Run.ok a := rfl

@[simp] theorem Run.ofOption_none {α : Type} : Run.ofOption (none : Option α) = Run.fault := rfl

@[simp] theorem Run.bind_ok {α β : Type} (a : α) (f : α → Run β) : (Run.ok a).bind f = f a := rfl

/-- The digits that digitsLoop writes are those of Nat.digits, most
significant first. -/
theorem digitsLoop_digits (base : Nat) (hb : 1 < base) :
    ∀ (fuel n : Nat) (acc : List Nat), 0 < fuel → n < base ^ fuel →
      digitsLoop base fuel n acc
        = (if n = 0 then [digitChar 0] else ((Nat.digits base n).reverse.map digitChar)) ++ acc
  | 0, _, _, h0, _ => absurd h0 (by decide)
  | fuel + 1, n, acc, _, hn => by
    unfold digitsLoop
    by_cases hlt : n < base
    · rw [if_pos hlt]
      by_cases hz : n = 0
      · simp [hz]
      · rw [if_neg hz, Nat.digits_of_lt base n hz hlt]
        rfl
    · rw [if_neg hlt]
      have hge : base ≤ n := Nat.le_of_not_lt hlt
      have hpos : 0 < n := by omega
      have hfuel : 0 < fuel := by
        rcases Nat.eq_zero_or_pos fuel with h | h
        · subst h
          simp at hn
          omega
        · exact h
      have hdiv : n / base < base ^ fuel := by
        rw [Nat.div_lt_iff_lt_mul (by omega)]
        rw [pow_succ] at hn
        exact hn
      have hdz : n / base ≠ 0 := by
        have := Nat.div_pos hge (by omega : 0 < base)
        omega
      rw [digitsLoop_digits base hb fuel (n / base) _ hfuel hdiv, if_neg hdz,
        if_neg (by omega : ¬ n = 0), Nat.digits_def' hb hpos]
      simp

/-- The octal digits that printNat writes for a value of 32 bits. -/
theorem printNat_octal (n : Nat) (hn : n < 4294967296) :
    printNat 8 n = (if n = 0 then [48] else (Nat.digits 8 n).reverse.map (fun d => 48 + d))
      ∧ (printNat 8 n).length ≤ 11 := by
  have h := digitsLoop_digits 8 (by decide) 64 n [] (by decide)
    (lt_of_lt_of_le hn (by norm_num))
  rw [List.append_nil] at h
  have key : (Nat.digits 8 n).reverse.map digitChar = (Nat.digits 8 n).reverse.map (fun d => 48 + d) := by
    apply List.map_congr_left
    intro d hd
    have := Nat.digits_lt_base (by decide : 1 < 8) (List.mem_reverse.mp hd)
    unfold digitChar
    rw [if_pos (by omega)]
  constructor
  · unfold printNat
    rw [h, key]
    rfl
  · unfold printNat
    rw [h]
    by_cases hz : n = 0
    · simp [hz]
    · rw [if_neg hz, List.length_map, List.length_reverse]
      have h1 := Nat.base_pow_length_digits_le 8 n (by decide) hz
      by_contra hlen
      have h2 : 8 ^ 12 ≤ 8 ^ (Nat.digits 8 n).length :=
        Nat.pow_le_pow_right (by decide) (by omega)
      have h3 : (8 : Nat) ^ 12 = 68719476736 := by norm_num
      omega

theorem toInt32_mod (n : Nat) : (toInt32 n % 4294967296).toNat = n % 4294967296 := by
  unfold toInt32
  split <;> omega

theorem sprintfInt_octal (v : Nat) :
    sprintfInt [37, 111] v = some (printNat 8 (v % 4294967296)) := by
  have hc : convSpec [37, 111] = some ⟨false, false, 0, 111⟩ := by decide
  unfold sprintfInt
  rw [hc]
  simp

theorem sprintfStr_plain (s : List Nat) : sprintfStr [37, 115] s = some s := by
  have hc : convSpec [37, 115] = some ⟨false, false, 0, 115⟩ := by decide
  unfold sprintfStr
  rw [hc]
  simp

theorem readIntVal_int32 (le : Bool) {bs : List Nat} (h : bs.length = 4) :
    readIntVal le RPM_INT32_TYPE bs 0 = some (hostVal le bs) := by
  unfold readIntVal readBytes
  rw [if_neg (by decide), if_neg (by decide)]
  simp [h]
  rw [List.take_of_length_le (by omega)]

theorem sprintfInto_fit {len : Int} {s : List Nat} (h0 : 0 ≤ len) (h1 : (s.length : Int) + 1 ≤ len) :
    sprintfInto len (some s) = Run.ok s := by
  unfold sprintfInto
  rw [if_neg (by omega)]
  simp only
  rw [if_pos h1]

theorem wrap32_small {i : Int} (h0 : 0 ≤ i) (h1 : i < 2147483648) : wrap32 i = i := by
  unfold wrap32 toInt32
  have e1 : (i % 4294967296).toNat % 4294967296 = i.toNat := by omega
  rw [e1, if_pos (by omega)]
  omega

/-- The rendering by formatValue of element j of a string array that the
lookup hands out, for a reference without format, modifier and padding. -/
theorem formatValue_strv (le : Bool) (env : LocaleEnv) (extensions : headerSprintfExtension)
    (mem : List Nat) (st : RenderState) (tg : sprintfTag) (j : Nat) {h1 : Header}
    {ss : List (List Nat)} {c : Int} {s : List Nat}
    (hext : tg.ext = none) (hac : tg.arrayCount = false) (hf : strAt mem tg.format = some [])
    (hty : tg.type = none) (hpad : tg.pad = 0)
    (hget : headerGetEntry le env st.h tg.tag
      = Res.ok (h1, GetOut.mk 1 (some RPM_STRING_ARRAY_TYPE) (some (Value.strv ss)) c))
    (hs : ss.get? j = some s) (hlen : (s.length : Int) + 20 < 2147483648) :
    formatValue le env extensions mem st tg j = Run.ok ({ st with h := h1 }, s) := by
  have hw : wrap32 ((s.length : Int) + 20) = (s.length : Int) + 20 :=
    wrap32_small (by omega) hlen
  have hinto := @sprintfInto_fit ((s.length : Int) + 20) s (by omega) (by omega)
  have hs1 : ss[j]? = some s := by rwa [List.get?_eq_getElem?] at hs
  simp [formatValue, hext, hac, hf, hty, hpad, hget, hs1, hw, hinto, sprintfStr_plain]

/-- The rendering by formatValue of a reference, without format, modifier and
padding, to a tag that the lookup does not find: the string "(none)". -/
theorem formatValue_missing (le : Bool) (env : LocaleEnv) (extensions : headerSprintfExtension)
    (mem : List Nat) (st : RenderState) (tg : sprintfTag) (j : Nat) {h1 : Header}
    (hext : tg.ext = none) (hac : tg.arrayCount = false) (hf : strAt mem tg.format = some [])
    (hty : tg.type = none) (hpad : tg.pad = 0)
    (hget : headerGetEntry le env st.h tg.tag = Res.ok (h1, GetOut.mk 0 none none 0)) :
    formatValue le env extensions mem st tg j = Run.ok ({ st with h := h1 }, noneString) := by
  have hw : wrap32 ((noneString.length : Int) + 20) = 26 := by decide
  have hinto : sprintfInto 26 (some noneString) = Run.ok noneString := by decide
  simp [formatValue, hext, hac, hf, hty, hpad, hget, hw, hinto, sprintfStr_plain]

theorem joinStrings_length_ge : ∀ (ss : List (List Nat)),
    ss.length ≤ (joinStrings ss).length ∧ ∀ s ∈ ss, s.length + 1 ≤ (joinStrings ss).length
  | [] => ⟨by simp [joinStrings], by simp⟩
  | t :: rest => by
    obtain ⟨h1, h2⟩ := joinStrings_length_ge rest
    constructor
    · simp only [joinStrings, List.length_cons, List.length_append]
      omega
    · intro s hs
      simp only [joinStrings, List.length_cons, List.length_append]
      rcases List.mem_cons.mp hs with rfl | hm
      · omega
      · have := h2 s hm
        omega

/-- The case PTOK_ARRAY of singleSprintf once the number of elements is
known: the tokens of the block are rendered once for each j below
numElements, with element j selected. -/
theorem singleSprintf_array (le : Bool) (env : LocaleEnv) (extensions : headerSprintfExtension)
    (mem : List Nat) (fuel : Nat) (st st1 : RenderState) (format : List sprintfToken)
    (element : Nat) (numElements : Int)
    (hn : arrayElements le env st format (-1) = Run.ok (st1, numElements))
    (h1 : numElements ≠ -1)
    (h2 : 0 ≤ wrap32 (wrap32 (numElements * (format.length : Int)) * 20)) :
    singleSprintf le env extensions mem (fuel + 1) st (sprintfToken.array format) element
      = arrayRows
          (fun j s val =>
            catTokens (fun s1 t => singleSprintf le env extensions mem fuel s1 t j) s format val)
          numElements.toNat 0 st1 [] := by
  simp only [singleSprintf, hn]
  rw [if_neg h1, if_neg (by omega)]

/-- The case PTOK_ARRAY of singleSprintf when no number of elements is found:
the string "(none)". -/
theorem singleSprintf_array_none (le : Bool) (env : LocaleEnv)
    (extensions : headerSprintfExtension) (mem : List Nat) (fuel : Nat) (st st1 : RenderState)
    (format : List sprintfToken) (element : Nat)
    (hn : arrayElements le env st format (-1) = Run.ok (st1, -1)) :
    singleSprintf le env extensions mem (fuel + 1) st (sprintfToken.array format) element
      = Run.ok (st1, noneString) := by
  simp only [singleSprintf, hn]
  rfl

/-- The search for the number of elements passes over every token that is not
a tag reference in array mode. -/
theorem arrayElements_filter (le : Bool) (env : LocaleEnv) :
    ∀ (toks : List sprintfToken) (st : RenderState) (n : Int),
      arrayElements le env st toks n = arrayElements le env st (toks.filter countsElements) n
  | [], _, _ => rfl
  | sprintfToken.none :: rest, st, n => by
    rw [List.filter_cons_of_neg (by simp [countsElements]), arrayElements]
    · exact arrayElements_filter le env rest st n
    · intro tg h
      cases h
  | sprintfToken.string _ _ :: rest, st, n => by
    rw [List.filter_cons_of_neg (by simp [countsElements]), arrayElements]
    · exact arrayElements_filter le env rest st n
    · intro tg h
      cases h
  | sprintfToken.array _ :: rest, st, n => by
    rw [List.filter_cons_of_neg (by simp [countsElements]), arrayElements]
    · exact arrayElements_filter le env rest st n
    · intro tg h
      cases h
  | sprintfToken.cond _ _ _ :: rest, st, n => by
    rw [List.filter_cons_of_neg (by simp [countsElements]), arrayElements]
    · exact arrayElements_filter le env rest st n
    · intro tg h
      cases h
  | sprintfToken.tag tg :: rest, st, n => by
    by_cases hc : tg.arrayCount = true ∨ tg.justOne = true
    · have hf : ¬ countsElements (sprintfToken.tag tg) = true := by
        rcases hc with h | h <;> simp [countsElements, h]
      rw [List.filter_cons_of_neg hf, arrayElements, if_pos hc, arrayElements_filter le env rest]
    · have hf : countsElements (sprintfToken.tag tg) = true := by
        simp only [not_or, Bool.not_eq_true] at hc
        simp [countsElements, hc.1, hc.2]
      rw [List.filter_cons_of_pos hf, arrayElements, if_neg hc, arrayElements, if_neg hc]
      cases tg.ext with
      | some fn =>
        simp only
        cases getExtension st fn tg.extNum with
        | ok r =>
          obtain ⟨st1, v⟩ := r
          cases v with
          | none => exact arrayElements_filter le env rest st1 n
          | some v => rfl
        | error m => rfl
        | exit => rfl
        | fault => rfl
        | unfinished => rfl
      | none =>
        simp only
        cases headerGetEntry le env st.h tg.tag with
        | ok r =>
          obtain ⟨h1, out⟩ := r
          simp only
          by_cases hr : out.rc = 0
          · rw [if_pos hr, if_pos hr]
            exact arrayElements_filter le env rest _ _
          · rw [if_neg hr, if_neg hr]
        | exit => rfl
        | fault => rfl

/-- The search for the number of elements over references to tags that the
header does not hold, followed by a reference to a tag that it holds once. -/
theorem arrayElements_first (le : Bool) (env : LocaleEnv) (tg : sprintfTag)
    (post : List sprintfToken) (e : indexEntry)
    (hext : tg.ext = none) (hmode : tg.arrayCount = false ∧ tg.justOne = false)
    (htag : tg.tag = e.info.tag)
    (ha : Added e) (ht : HEADER_I18NTABLE ≤ e.info.tag ∧ e.info.tag < 2147483648)
    (hty : e.info.type ≠ RPM_I18NSTRING_TYPE) :
    ∀ (pre : List sprintfToken) (st : RenderState) (n : Int),
      SortInv st.h → withTag st.h e.info.tag = [e] →
      (∀ t ∈ pre, ∃ tp, t = sprintfToken.tag tp ∧ tp.ext = none
        ∧ (tp.arrayCount = false ∧ tp.justOne = false) ∧ (0 ≤ tp.tag ∧ tp.tag < 2147483648)
        ∧ ∀ x ∈ st.h.index, x.info.tag ≠ tp.tag) →
      arrayElements le env st (pre ++ sprintfToken.tag tg :: post) n
        = Run.ok ({ st with h := headerSort st.h },
            if e.info.type = RPM_BIN_TYPE then e.length else e.info.count)
  | [], st, n, hi, hw, _ => by
    have hget := intGetEntry_unique le env hi hw ha ht hty
    simp [arrayElements, hext, hmode.1, hmode.2, htag, headerGetEntry, hget]
  | t :: pre, st, n, hi, hw, hpre => by
    obtain ⟨tp, rfl, hte, htm, htr, hab⟩ := hpre t (List.mem_cons_self _ _)
    have hget := intGetEntry_absent le env false hi htr hab
    have ih := arrayElements_first le env tg post e hext hmode htag ha ht hty pre
      { st with h := headerSort st.h } 0 (sortInv_headerSort hi) (withTag_headerSort hw)
      (fun t1 h1 => by
        obtain ⟨tq, h2, h3, h4, h5, h6⟩ := hpre t1 (List.mem_cons_of_mem _ h1)
        exact ⟨tq, h2, h3, h4, h5, fun x hx => h6 x (mem_headerSort.mp hx)⟩)
    simp only [headerSort_idem] at ih
    simp [arrayElements, hte, htm.1, htm.2, headerGetEntry, hget, ih]

theorem Run.bind_eq_ok {α β : Type} {x : Run α} {f : α → Run β} {b : β} :
    (x >>= f) = Run.ok b ↔ ∃ a, x = Run.ok a ∧ f a = Run.ok b := by
  cases x with
  | ok a => simp
  | error m => simp
  | exit => simp
  | fault => simp
  | unfinished => simp

theorem Run.ofOption_eq_ok {α : Type} {x : Option α} {a : α} :
    Run.ofOption x = Run.ok a ↔ x = some a := by
  cases x <;> simp [Run.ofOption]

/-- What a successful call of parseExpression hands back: a token PTOK_COND
whose tag is the one that findTag gives for the name at str, with tag -1 for
a name that findTag does not know, and an end pointer behind address 0. -/
theorem parseExpression_ok {parse : List Nat → Nat → Int → Run ParseOut}
    {tags : List headerTagTableEntry} {extensions : headerSprintfExtension} {mem : List Nat}
    {str : Nat} {mem2 : List Nat} {tok : sprintfToken} {newEnd : Nat}
    (h : parseExpression parse tags extensions mem str = Run.ok (mem2, tok, newEnd)) :
    1 ≤ newEnd ∧ ∃ name ifF elseF tg, strAt mem2 str = some name
      ∧ tok = sprintfToken.cond ifF elseF tg
      ∧ ((∃ fn n, findTag name tags extensions = (none, some (fn, n)) ∧ tg.ext = some fn)
        ∨ (∃ val x, findTag name tags extensions = (some val, x) ∧ tg.ext = none ∧ tg.tag = val)
        ∨ (findTag name tags extensions = (none, none) ∧ tg.ext = none ∧ tg.tag = -1)) := by
  have tail : ∀ (f1 : List sprintfToken) (r2 : ParseOut),
      (do
        let e ← Run.ofOption r2.endPtr
        let name ← Run.ofOption (strAt r2.mem str)
        match findTag name tags extensions with
        | (some val, _) =>
          Run.ok (r2.mem, sprintfToken.cond f1 r2.format
            { ext := none, extNum := none, tag := val, justOne := false, arrayCount := false,
              format := 0, type := none, pad := 0 }, e + 1)
        | (none, some (fn, n)) =>
          Run.ok (r2.mem, sprintfToken.cond f1 r2.format
            { ext := some fn, extNum := n, tag := 0, justOne := false, arrayCount := false,
              format := 0, type := none, pad := 0 }, e + 1)
        | (none, none) =>
          Run.ok (r2.mem, sprintfToken.cond f1 r2.format
            { ext := none, extNum := none, tag := -1, justOne := false, arrayCount := false,
              format := 0, type := none, pad := 0 }, e + 1)) = Run.ok (mem2, tok, newEnd) →
      1 ≤ newEnd ∧ ∃ name ifF elseF tg, strAt mem2 str = some name
        ∧ tok = sprintfToken.cond ifF elseF tg
        ∧ ((∃ fn n, findTag name tags extensions = (none, some (fn, n)) ∧ tg.ext = some fn)
          ∨ (∃ val x, findTag name tags extensions = (some val, x) ∧ tg.ext = none
              ∧ tg.tag = val)
          ∨ (findTag name tags extensions = (none, none) ∧ tg.ext = none ∧ tg.tag = -1)) := by
    intro f1 r2 h
    rw [Run.bind_eq_ok] at h
    obtain ⟨e, he, h⟩ := h
    rw [Run.bind_eq_ok] at h
    obtain ⟨name, hname, h⟩ := h
    rw [Run.ofOption_eq_ok] at hname
    rcases hft : findTag name tags extensions with ⟨_ | val, _ | ⟨fn, n⟩⟩
    · rw [hft] at h
      simp only [Run.ok.injEq, Prod.mk.injEq] at h
      obtain ⟨rfl, rfl, rfl⟩ := h
      exact ⟨by omega, name, _, _, _, hname, rfl, Or.inr (Or.inr ⟨hft, rfl, rfl⟩)⟩
    · rw [hft] at h
      simp only [Run.ok.injEq, Prod.mk.injEq] at h
      obtain ⟨rfl, rfl, rfl⟩ := h
      exact ⟨by omega, name, _, _, _, hname, rfl, Or.inl ⟨fn, n, hft, rfl⟩⟩
    · rw [hft] at h
      simp only [Run.ok.injEq, Prod.mk.injEq] at h
      obtain ⟨rfl, rfl, rfl⟩ := h
      exact ⟨by omega, name, _, _, _, hname, rfl, Or.inr (Or.inl ⟨val, _, hft, rfl, rfl⟩)⟩
    · rw [hft] at h
      simp only [Run.ok.injEq, Prod.mk.injEq] at h
      obtain ⟨rfl, rfl, rfl⟩ := h
      exact ⟨by omega, name, _, _, _, hname, rfl, Or.inr (Or.inl ⟨val, _, hft, rfl, rfl⟩)⟩
  unfold parseExpression at h
  rw [Run.bind_eq_ok] at h
  obtain ⟨q, hq, h⟩ := h
  rw [Run.bind_eq_ok] at h
  obtain ⟨c, hc, h⟩ := h
  split at h
  · cases h
  rw [Run.bind_eq_ok] at h
  obtain ⟨mem1, hm1, h⟩ := h
  rw [Run.bind_eq_ok] at h
  obtain ⟨c1, hc1, h⟩ := h
  split at h
  · cases h
  rw [Run.bind_eq_ok] at h
  obtain ⟨r1, hr1, h⟩ := h
  rw [Run.bind_eq_ok] at h
  obtain ⟨e1, he1, h⟩ := h
  rw [Run.bind_eq_ok] at h
  obtain ⟨c2, hc2, h⟩ := h
  split at h
  · cases h
  split at h
  · cases h
  split at h
  · rw [Run.bind_eq_ok] at h
    obtain ⟨r2, hr2, h⟩ := h
    exact tail _ r2 h
  · rw [Run.bind_eq_ok] at h
    obtain ⟨c3, hc3, h⟩ := h
    split at h
    · rw [Run.bind_eq_ok] at h
      obtain ⟨r2, hr2, h⟩ := h
      cases hr2
    · rw [Run.bind_eq_ok] at h
      obtain ⟨r, hr, h⟩ := h
      rw [Run.bind_eq_ok] at h
      obtain ⟨e2, he2, h⟩ := h
      rw [Run.bind_eq_ok] at h
      obtain ⟨c4, hc4, h⟩ := h
      split at h
      · rw [Run.bind_eq_ok] at h
        obtain ⟨r2, hr2, h⟩ := h
        cases hr2
      · split at h
        · rw [Run.bind_eq_ok] at h
          obtain ⟨r2, hr2, h⟩ := h
          cases hr2
        · rw [Run.bind_eq_ok] at h
          obtain ⟨r2, hr2, h⟩ := h
          exact tail _ r2 h

theorem cstr_nonzero (fmt : List Nat) : ∀ b ∈ cstr fmt, b ≠ 0 := by
  intro b hb
  have := List.mem_takeWhile_imp hb
  simpa using this

theorem strAt_zero {s : List Nat} (X : List Nat) (h : ∀ b ∈ s, b ≠ 0) :
    strAt (s ++ 0 :: X) 0 = some s := by
  unfold strAt
  rw [List.drop_zero, strlenList_string s X h]
  simp

/-- The limit numTokens that parseFormat computes for a template of fewer
than 2^30 bytes: twice the number of its '%' plus one. -/
theorem parseEnter_eq (loop : Int → Int → List Nat → Nat → Nat → List sprintfToken → Run ParseOut)
    {s : List Nat} (state : Int) (h : ∀ b ∈ s, b ≠ 0) (hlen : s.length < 1073741823) :
    parseEnter loop (s ++ [0]) 0 state
      = loop state ((((s.filter (fun b => b = 37)).length : Nat) : Int) * 2 + 1) (s ++ [0]) 0 0 [] := by
  unfold parseEnter countPercent
  rw [strAt_zero [] h]
  have h1 : (s.filter (fun b => decide (b = 37))).length ≤ s.length := List.length_filter_le _ _
  simp only [Option.map_some']
  rw [wrap32_small (by omega) (by omega)]

/-- The case '%' of parseFormat in front of a '|'. -/
theorem parseLoop_expr (tags : List headerTagTableEntry) (extensions : headerSprintfExtension)
    (fuel : Nat) (state numTokens : Int) {mem mem1 : List Nat} {start dst : Nat}
    (toks : List sprintfToken)
    (h1 : mem.get? start = some 37) (h2 : mem.get? (start + 1) = some 124)
    (h3 : (toks.length : Int) < numTokens) (h4 : poke mem dst 0 = some mem1) :
    parseLoop tags extensions (fuel + 1) state numTokens mem start dst toks
      = match parseExpression (parseEnter (parseLoop tags extensions fuel)) tags extensions
            mem1 (start + 2) with
        | Run.ok (mem2, tok, newEnd) =>
          parseLoop tags extensions fuel state numTokens mem2 newEnd (dst + 1) (toks ++ [tok])
        | Run.error m => Run.error m
        | Run.exit => Run.exit
        | Run.fault => Run.fault
        | Run.unfinished => Run.unfinished := by
  rw [parseLoop]
  rw [List.get?_eq_getElem?] at h1 h2
  simp [h1, h2, h3, h4]

/-- The case '%' of parseFormat in front of a tag reference. -/
theorem parseLoop_tag (tags : List headerTagTableEntry) (extensions : headerSprintfExtension)
    (fuel : Nat) (state numTokens : Int) {mem mem1 : List Nat} {start dst c1 : Nat}
    (toks : List sprintfToken)
    (h1 : mem.get? start = some 37) (h2 : mem.get? (start + 1) = some c1)
    (hc1 : c1 ≠ 37 ∧ c1 ≠ 124)
    (h3 : (toks.length : Int) < numTokens) (h4 : poke mem dst 0 = some mem1) :
    parseLoop tags extensions (fuel + 1) state numTokens mem start dst toks
      = match parseTag tags extensions mem1 (start + 1) with
        | Run.ok (mem2, tok, next) =>
          parseLoop tags extensions fuel state numTokens mem2 next (dst + 1) (toks ++ [tok])
        | Run.error m => Run.error m
        | Run.exit => Run.exit
        | Run.fault => Run.fault
        | Run.unfinished => Run.unfinished := by
  rw [parseLoop]
  rw [List.get?_eq_getElem?] at h1 h2
  simp [h1, h2, h3, h4, hc1.1, hc1.2]

/-- The end of the loop of parseFormat at the NUL of the template. -/
theorem parseLoop_nul (tags : List headerTagTableEntry) (extensions : headerSprintfExtension)
    (fuel : Nat) (state numTokens : Int) {mem : List Nat} {start dst : Nat}
    (toks : List sprintfToken) (h1 : mem.get? start = some 0) :
    parseLoop tags extensions (fuel + 1) state numTokens mem start dst toks
      = parseFinish mem dst toks none := by
  rw [parseLoop]
  rw [List.get?_eq_getElem?] at h1
  simp [h1]

/-- The string that headerSprintf returns for a template that parses to one
token. -/
theorem headerSprintf_single (le : Bool) (env : LocaleEnv) (h : Header) (fmt : List Nat)
    (tags : List headerTagTableEntry) (extensions : headerSprintfExtension)
    {mem : List Nat} {tok : sprintfToken} {e : Option Nat}
    (hp : parseFormat (2 * (cstr fmt).length + 4) tags extensions (cstr fmt ++ [0]) 0
      PARSER_BEGIN = Run.ok (ParseOut.mk mem [tok] e)) :
    headerSprintf le env h fmt tags extensions
      = match singleSprintf le env extensions mem ((cstr fmt).length + 2)
            (RenderState.mk h (List.replicate (extensionCount extensions) none) []) tok 0 with
        | Run.ok (_, answer) => Run.ok answer
        | Run.error m => Run.error m
        | Run.exit => Run.exit
        | Run.fault => Run.fault
        | Run.unfinished => Run.unfinished := by
  unfold headerSprintf
  rw [hp]
  simp only [catTokens]
  cases singleSprintf le env extensions mem ((cstr fmt).length + 2)
      (RenderState.mk h (List.replicate (extensionCount extensions) none) []) tok 0 with
  | ok r => simp
  | error m => rfl
  | exit => rfl
  | fault => rfl
  | unfinished => rfl

/-- The case PTOK_COND of singleSprintf. -/
theorem singleSprintf_cond (le : Bool) (env : LocaleEnv) (extensions : headerSprintfExtension)
    (mem : List Nat) (fuel : Nat) (st : RenderState) (ifFormat elseFormat : List sprintfToken)
    (tg : sprintfTag) (element : Nat) :
    singleSprintf le env extensions mem (fuel + 1) st (sprintfToken.cond ifFormat elseFormat tg)
        element
      = if tg.ext.isSome = true then
          if wrap32 ((ifFormat.length : Int) * 20) < 0 then Run.exit
          else catTokens (fun s t => singleSprintf le env extensions mem fuel s t element) st
            ifFormat []
        else if (headerIsEntry st.h tg.tag).2 ≠ 0 then
          if wrap32 ((ifFormat.length : Int) * 20) < 0 then Run.exit
          else catTokens (fun s t => singleSprintf le env extensions mem fuel s t element)
            { st with h := (headerIsEntry st.h tg.tag).1 } ifFormat []
        else
          if wrap32 ((elseFormat.length : Int) * 20) < 0 then Run.exit
          else catTokens (fun s t => singleSprintf le env extensions mem fuel s t element)
            { st with h := (headerIsEntry st.h tg.tag).1 } elseFormat [] := by
  rw [singleSprintf]

theorem scanFor_skip (stop : Nat → Bool) : ∀ (s : List Nat) (c : Nat) (X : List Nat) (a : Nat),
    (∀ b ∈ s, b ≠ 0 ∧ stop b = false) → (c = 0 ∨ stop c = true) →
    scanFor stop (s ++ c :: X) a = some (a + s.length)
  | [], c, X, a, _, hc => by
    simp only [List.nil_append, scanFor, if_pos hc, List.length_nil, Nat.add_zero]
  | b :: s, c, X, a, hs, hc => by
    have hb := hs b (List.mem_cons_self _ _)
    simp only [List.cons_append, scanFor]
    rw [if_neg (by simp [hb.1, hb.2])]
    have ih := scanFor_skip stop s c X (a + 1) (fun x hx => hs x (List.mem_cons_of_mem _ hx)) hc
    rw [show s.append (c :: X) = s ++ c :: X from rfl, ih]
    simp only [List.length_cons]
    congr 1
    omega

theorem get?_mid (P : List Nat) (c : Nat) (X : List Nat) :
    (P ++ c :: X).get? P.length = some c := by
  rw [List.get?_eq_getElem?, List.getElem?_append_right (le_refl _)]
  simp

theorem poke_mid (P : List Nat) (c d : Nat) (X : List Nat) :
    poke (P ++ c :: X) P.length d = some (P ++ d :: X) := by
  unfold poke
  rw [if_pos (by simp)]
  simp

theorem strAt_mid (P s X : List Nat) (h : ∀ b ∈ s, b ≠ 0) :
    strAt (P ++ (s ++ 0 :: X)) P.length = some s := by
  unfold strAt
  rw [List.drop_left, strlenList_string s X h]
  simp

/-- The reading by parseTag of a reference whose name findTag does not know:
the error "unknown tag". -/
theorem parseTag_unknown (tags : List headerTagTableEntry) (extensions : headerSprintfExtension)
    (P : List Nat) (n0 : Nat) (name R : List Nat)
    (hn : ∀ b ∈ n0 :: name, b ≠ 0 ∧ b ≠ 125 ∧ b ≠ 58) (h0 : n0 ≠ 61 ∧ n0 ≠ 35)
    (hft : findTag (n0 :: name) tags extensions = (none, none)) :
    parseTag tags extensions (P ++ 123 :: (n0 :: name ++ 125 :: R)) P.length
      = Run.error ErrMsg.unknownTag := by
  have hlenP : (P ++ [0]).length = P.length + 1 := by simp
  have e1 : ∀ X : List Nat, P ++ 0 :: X = (P ++ [0]) ++ X := by intro X; simp
  have hn0 := hn n0 (List.mem_cons_self _ _)
  have hs1 : scanFor (fun b => b = 123 || b = 37)
      ((P ++ 123 :: (n0 :: name ++ 125 :: R)).drop P.length) P.length = some P.length := by
    rw [List.drop_left]
    simp [scanFor]
  have hp1 := poke_mid P 123 0 (n0 :: name ++ 125 :: R)
  have hg1 : (P ++ 0 :: (n0 :: name ++ 125 :: R)).get? (P.length + 1) = some n0 := by
    rw [e1, ← hlenP]
    exact get?_mid _ _ _
  have hs2 : scanFor (fun b => b = 125)
      ((P ++ 0 :: (n0 :: name ++ 125 :: R)).drop (P.length + 1)) (P.length + 1)
      = some (P.length + 1 + (n0 :: name).length) := by
    rw [e1, ← hlenP, List.drop_left]
    exact scanFor_skip _ (n0 :: name) 125 R _
      (fun b hb => ⟨(hn b hb).1, by simp [(hn b hb).2.1]⟩) (Or.inr (by simp))
  have e2 : P ++ 0 :: (n0 :: name ++ 125 :: R) = (P ++ 0 :: (n0 :: name)) ++ 125 :: R := by simp
  have hlen2 : (P ++ 0 :: (n0 :: name)).length = P.length + 1 + (n0 :: name).length := by
    simp
    omega
  have hg2 : (P ++ 0 :: (n0 :: name ++ 125 :: R)).get? (P.length + 1 + (n0 :: name).length)
      = some 125 := by
    rw [e2, ← hlen2]
    exact get?_mid _ _ _
  have hp2 : poke (P ++ 0 :: (n0 :: name ++ 125 :: R)) (P.length + 1 + (n0 :: name).length) 0
      = some (P ++ 0 :: (n0 :: name ++ 0 :: R)) := by
    rw [e2, ← hlen2, poke_mid]
    simp
  have hs3 : scanFor (fun b => b = 58)
      ((P ++ 0 :: (n0 :: name ++ 0 :: R)).drop (P.length + 1)) (P.length + 1)
      = some (P.length + 1 + (n0 :: name).length) := by
    rw [e1, ← hlenP, List.drop_left]
    exact scanFor_skip _ (n0 :: name) 0 R _
      (fun b hb => ⟨(hn b hb).1, by simp [(hn b hb).2.2]⟩) (Or.inl rfl)
  have e3 : P ++ 0 :: (n0 :: name ++ 0 :: R) = (P ++ 0 :: (n0 :: name)) ++ 0 :: R := by simp
  have hg3 : (P ++ 0 :: (n0 :: name ++ 0 :: R)).get? (P.length + 1 + (n0 :: name).length)
      = some 0 := by
    rw [e3, ← hlen2]
    exact get?_mid _ _ _
  have hg4 : (P ++ 0 :: (n0 :: name ++ 0 :: R)).get? (P.length + 1) = some n0 := by
    rw [e1, ← hlenP]
    exact get?_mid _ _ _
  have hstr : strAt (P ++ 0 :: (n0 :: name ++ 0 :: R)) (P.length + 1) = some (n0 :: name) := by
    rw [e1, ← hlenP]
    exact strAt_mid _ _ _ (fun b hb => (hn b hb).1)
  unfold parseTag
  rw [hs1]
  simp only [Run.ofOption_some, Run.ok_bind, get?_mid]
  rw [if_neg (by decide), hp1]
  simp only [Run.ofOption_some, Run.ok_bind, hg1, h0.1, h0.2, false_or, if_false, hs2, hg2]
  rw [if_neg (by decide), hp2]
  simp only [Run.ofOption_some, Run.ok_bind, hs3, hg3, ne_eq, not_true_eq_false, if_false, hg4]
  rw [if_neg (by decide), if_neg hn0.1]
  simp only [hstr, Run.ofOption_some, Run.ok_bind, hft]

/-- The loop of parseFormat over literal text behind the first byte of a
string token: the bytes stay as they are, start and dst move on together. -/
theorem parseLoop_literal (tags : List headerTagTableEntry) (extensions : headerSprintfExtension)
    (state numTokens : Int) (toks : List sprintfToken) (hl : lastIsString toks = true) :
    ∀ (lit A B : List Nat) (fuel : Nat),
      (∀ b ∈ lit, b ≠ 0 ∧ b ≠ 37 ∧ b ≠ 91 ∧ b ≠ 93 ∧ b ≠ 125 ∧ b ≠ 92) →
      parseLoop tags extensions (fuel + lit.length) state numTokens (A ++ (lit ++ B)) A.length
          A.length toks
        = parseLoop tags extensions fuel state numTokens (A ++ (lit ++ B))
            (A.length + lit.length) (A.length + lit.length) toks
  | [], A, B, fuel, _ => by simp
  | b :: lit, A, B, fuel, h => by
    have hb := h b (List.mem_cons_self _ _)
    have hg : (A ++ (b :: lit ++ B))[A.length]? = some b := by
      have := get?_mid A b (lit ++ B)
      rwa [List.get?_eq_getElem?] at this
    have hp : poke (A ++ (b :: lit ++ B)) A.length b = some (A ++ (b :: lit ++ B)) :=
      poke_mid A b b (lit ++ B)
    have ih := parseLoop_literal tags extensions state numTokens toks hl lit (A ++ [b]) B fuel
      (fun x hx => h x (List.mem_cons_of_mem _ hx))
    have e1 : A ++ [b] ++ (lit ++ B) = A ++ (b :: lit ++ B) := by simp
    have e2 : (A ++ [b]).length = A.length + 1 := by simp
    rw [e1, e2] at ih
    have e3 : fuel + (b :: lit).length = (fuel + lit.length) + 1 := by
      simp only [List.length_cons]
      omega
    rw [e3, parseLoop]
    simp only [List.get?_eq_getElem?, hg, hb.1, hb.2.1, hb.2.2.1, hb.2.2.2.1, hb.2.2.2.2.1,
      hb.2.2.2.2.2, if_false, false_or, hl, if_true, hp, or_self]
    rw [ih]
    simp only [List.length_cons]
    congr 1 <;> omega

/-- The loop of parseFormat at the first byte of literal text when no token is
stored yet. -/
theorem parseLoop_first (tags : List headerTagTableEntry) (extensions : headerSprintfExtension)
    (state numTokens : Int) (b : Nat) (X : List Nat) (fuel : Nat)
    (hb : b ≠ 0 ∧ b ≠ 37 ∧ b ≠ 91 ∧ b ≠ 93 ∧ b ≠ 125 ∧ b ≠ 92) (hnum : 0 < numTokens) :
    parseLoop tags extensions (fuel + 1) state numTokens (b :: X) 0 0 []
      = parseLoop tags extensions fuel state numTokens (b :: X) 1 1 [sprintfToken.string 0 0] := by
  rw [parseLoop]
  simp [hb.1, hb.2.1, hb.2.2.1, hb.2.2.2.1, hb.2.2.2.2.1, hb.2.2.2.2.2, lastIsString, hnum]

/-- The tokens of the template octalTemplate. -/
theorem parse_octalTemplate (tag : Int) (strftime : List Nat → Int → List Nat) :
    parseFormat (2 * (cstr octalTemplate).length + 4) (nameTable tag)
        (headerDefaultFormats strftime) (cstr octalTemplate ++ [0]) 0 PARSER_BEGIN
      = Run.ok (ParseOut.mk [0, 0, 78, 65, 77, 69, 0, 111, 99, 116, 97, 108, 0, 0]
          [sprintfToken.tag
            { ext := none, extNum := none, tag := tag, justOne := false, arrayCount := false,
              format := 1, type := some 7, pad := 0 }] none) := by
  rfl

/-- The tokens of the template arrayTemplate. -/
theorem parse_arrayTemplate (tag : Int) (strftime : List Nat → Int → List Nat) :
    parseFormat (2 * (cstr arrayTemplate).length + 4) (nameTable tag)
        (headerDefaultFormats strftime) (cstr arrayTemplate ++ [0]) 0 PARSER_BEGIN
      = Run.ok (ParseOut.mk [0, 0, 0, 78, 65, 77, 69, 0, 32, 0, 0]
          [sprintfToken.array
            [sprintfToken.tag
              { ext := none, extNum := none, tag := tag, justOne := false, arrayCount := false,
                format := 2, type := none, pad := 0 },
             sprintfToken.string 8 1]] none) := by
  rfl

/-- An array block none of whose direct tokens is a tag reference in array
mode renders the string "(none)". -/
theorem array_without_reference (le : Bool) (env : LocaleEnv)
    (extensions : headerSprintfExtension) (mem : List Nat) (fuel : Nat) (st : RenderState)
    (toks : List sprintfToken) (element : Nat)
    (hf : ∀ t ∈ toks, countsElements t = false) :
    singleSprintf le env extensions mem (fuel + 1) st (sprintfToken.array toks) element
      = Run.ok (st, noneString) := by
  apply singleSprintf_array_none
  rw [arrayElements_filter, List.filter_eq_nil_iff.mpr (fun t ht => by simp [hf t ht])]
  rfl

theorem lastIsString_snoc (toks : List sprintfToken) (a l : Nat) :
    lastIsString (toks ++ [sprintfToken.string a l]) = true := by
  unfold lastIsString
  simp

theorem lastIsString_snoc_tag (toks : List sprintfToken) (tg : sprintfTag) :
    lastIsString (toks ++ [sprintfToken.tag tg]) = false := by
  unfold lastIsString
  simp

/-- The loop of parseFormat at the first byte of literal text when the last
token is not a string token: a string token is begun at that byte. -/
theorem parseLoop_begin (tags : List headerTagTableEntry) (extensions : headerSprintfExtension)
    (state numTokens : Int) (A : List Nat) (b : Nat) (X : List Nat) (fuel dst : Nat)
    (toks : List sprintfToken)
    (hb : b ≠ 0 ∧ b ≠ 37 ∧ b ≠ 91 ∧ b ≠ 93 ∧ b ≠ 125 ∧ b ≠ 92)
    (hl : lastIsString toks = false) (hnum : (toks.length : Int) < numTokens) :
    parseLoop tags extensions (fuel + 1) state numTokens (A ++ b :: X) A.length dst toks
      = parseLoop tags extensions fuel state numTokens (A ++ b :: X) (A.length + 1)
          (A.length + 1) (toks ++ [sprintfToken.string A.length 0]) := by
  have hg : (A ++ b :: X)[A.length]? = some b := by
    have := get?_mid A b X
    rwa [List.get?_eq_getElem?] at this
  rw [parseLoop]
  simp [hg, hb.1, hb.2.1, hb.2.2.1, hb.2.2.2.1, hb.2.2.2.2.1, hb.2.2.2.2.2, hl, hnum]

/-- The loop of parseFormat over a run of literal text that follows a token
other than a string token: the text becomes one string token, the bytes stay
as they are. -/
theorem parseLoop_text (tags : List headerTagTableEntry) (extensions : headerSprintfExtension)
    (state numTokens : Int) (t A B : List Nat) (fuel dst : Nat) (toks : List sprintfToken)
    (ht : ∀ b ∈ t, b ≠ 0 ∧ b ≠ 37 ∧ b ≠ 91 ∧ b ≠ 93 ∧ b ≠ 125 ∧ b ≠ 92)
    (hl : lastIsString toks = false) (hnum : (toks.length : Int) < numTokens) :
    parseLoop tags extensions (fuel + t.length) state numTokens (A ++ (t ++ B)) A.length dst toks
      = parseLoop tags extensions fuel state numTokens (A ++ (t ++ B)) (A.length + t.length)
          (if t = [] then dst else A.length + t.length)
          (if t = [] then toks else toks ++ [sprintfToken.string A.length 0]) := by
  cases t with
  | nil => simp
  | cons b t1 =>
    have hb := ht b (List.mem_cons_self _ _)
    have e1 : fuel + (b :: t1).length = (fuel + t1.length) + 1 := by
      simp only [List.length_cons]
      omega
    have e2 : A ++ (b :: t1 ++ B) = A ++ b :: (t1 ++ B) := by simp
    rw [e1, e2, parseLoop_begin tags extensions state numTokens A b (t1 ++ B) _ dst toks hb hl
      hnum]
    have hll := parseLoop_literal tags extensions state numTokens
      (toks ++ [sprintfToken.string A.length 0]) (lastIsString_snoc _ _ _) t1 (A ++ [b]) B fuel
      (fun x hx => ht x (List.mem_cons_of_mem _ hx))
    have e3 : A ++ [b] ++ (t1 ++ B) = A ++ b :: (t1 ++ B) := by simp
    have e4 : (A ++ [b]).length = A.length + 1 := by simp
    rw [e3, e4] at hll
    rw [hll]
    simp only [List.length_cons, if_neg (List.cons_ne_nil b t1)]
    congr 1 <;> omega

theorem poke_same {mem : List Nat} {a b : Nat} (h : mem.get? a = some b) :
    poke mem a b = some mem := by
  unfold poke
  obtain ⟨hlt, hv⟩ := List.get?_eq_some.mp h
  rw [if_pos hlt]
  congr 1
  apply List.ext_getElem (by simp)
  intro i h1 h2
  rw [List.getElem_set]
  split
  · next hia => subst hia; rw [← hv]; rfl
  · rfl

theorem setLens_append (mem : List Nat) : ∀ (x y x1 y1 : List sprintfToken),
    setLens mem x = some x1 → setLens mem y = some y1 → setLens mem (x ++ y) = some (x1 ++ y1)
  | [], y, x1, y1, hx, hy => by
    simp only [setLens, Option.some.injEq] at hx
    subst hx
    simpa using hy
  | sprintfToken.string a l :: x, y, x1, y1, hx, hy => by
    simp only [setLens] at hx
    cases hs : strlenList (mem.drop a) with
    | none => simp [hs] at hx
    | some n =>
      cases hr : setLens mem x with
      | none => simp [hs, hr] at hx
      | some tl =>
        simp only [hs, hr, Option.some.injEq] at hx
        subst hx
        have ih := setLens_append mem x y tl y1 hr hy
        simp only [List.cons_append, setLens, hs]
        rw [show x.append y = x ++ y from rfl, ih]
  | sprintfToken.none :: x, y, x1, y1, hx, hy => by
    rw [setLens] at hx
    · cases hr : setLens mem x with
      | none => simp [hr] at hx
      | some tl =>
        simp only [hr, Option.map_some', Option.some.injEq] at hx
        subst hx
        rw [List.cons_append, setLens]
        · simp [setLens_append mem x y tl y1 hr hy]
        · intro a l h; cases h
    · intro a l h; cases h
  | sprintfToken.tag tg :: x, y, x1, y1, hx, hy => by
    rw [setLens] at hx
    · cases hr : setLens mem x with
      | none => simp [hr] at hx
      | some tl =>
        simp only [hr, Option.map_some', Option.some.injEq] at hx
        subst hx
        rw [List.cons_append, setLens]
        · simp [setLens_append mem x y tl y1 hr hy]
        · intro a l h; cases h
    · intro a l h; cases h
  | sprintfToken.array f :: x, y, x1, y1, hx, hy => by
    rw [setLens] at hx
    · cases hr : setLens mem x with
      | none => simp [hr] at hx
      | some tl =>
        simp only [hr, Option.map_some', Option.some.injEq] at hx
        subst hx
        rw [List.cons_append, setLens]
        · simp [setLens_append mem x y tl y1 hr hy]
        · intro a l h; cases h
    · intro a l h; cases h
  | sprintfToken.cond f g tg :: x, y, x1, y1, hx, hy => by
    rw [setLens] at hx
    · cases hr : setLens mem x with
      | none => simp [hr] at hx
      | some tl =>
        simp only [hr, Option.map_some', Option.some.injEq] at hx
        subst hx
        rw [List.cons_append, setLens]
        · simp [setLens_append mem x y tl y1 hr hy]
        · intro a l h; cases h
    · intro a l h; cases h

theorem catTokens_append (single : RenderState → sprintfToken → Run (RenderState × List Nat)) :
    ∀ (x y : List sprintfToken) (st st1 : RenderState) (val v1 : List Nat),
      catTokens single st x val = Run.ok (st1, v1) →
      catTokens single st (x ++ y) val = catTokens single st1 y v1
  | [], y, st, st1, val, v1, h => by
    simp only [catTokens, Run.ok.injEq, Prod.mk.injEq] at h
    obtain ⟨rfl, rfl⟩ := h
    rfl
  | t :: x, y, st, st1, val, v1, h => by
    simp only [catTokens, List.cons_append] at h ⊢
    cases hs : single st t with
    | ok r =>
      obtain ⟨s2, item⟩ := r
      simp only [hs] at h ⊢
      exact catTokens_append single x y s2 st1 _ v1 h
    | error m => simp [hs] at h
    | exit => simp [hs] at h
    | fault => simp [hs] at h
    | unfinished => simp [hs] at h
/-- The reading by parseTag of a reference without flags, padding and format
modifier whose name findTag resolves to a tag of the table: the token, the
NULs stored over the braces, and the pointer behind the closing brace. -/
theorem parseTag_known (tags : List headerTagTableEntry) (extensions : headerSprintfExtension)
    (P : List Nat) (n0 : Nat) (name R : List Nat) (val : Int)
    (x : Option (headerTagTagFunction × Option Nat))
    (hn : ∀ b ∈ n0 :: name, b ≠ 0 ∧ b ≠ 125 ∧ b ≠ 58) (h0 : n0 ≠ 61 ∧ n0 ≠ 35)
    (hft : findTag (n0 :: name) tags extensions = (some val, x)) :
    parseTag tags extensions (P ++ 123 :: (n0 :: name ++ 125 :: R)) P.length
      = Run.ok (P ++ 0 :: (n0 :: name ++ 0 :: R),
          sprintfToken.tag
            { ext := none, extNum := none, tag := val, justOne := false, arrayCount := false,
              format := P.length, type := none, pad := 0 },
          P.length + 1 + (n0 :: name).length + 1) := by
  have hlenP : (P ++ [0]).length = P.length + 1 := by simp
  have e1 : ∀ X : List Nat, P ++ 0 :: X = (P ++ [0]) ++ X := by intro X; simp
  have hn0 := hn n0 (List.mem_cons_self _ _)
  have hs1 : scanFor (fun b => b = 123 || b = 37)
      ((P ++ 123 :: (n0 :: name ++ 125 :: R)).drop P.length) P.length = some P.length := by
    rw [List.drop_left]
    simp [scanFor]
  have hp1 := poke_mid P 123 0 (n0 :: name ++ 125 :: R)
  have hg1 : (P ++ 0 :: (n0 :: name ++ 125 :: R)).get? (P.length + 1) = some n0 := by
    rw [e1, ← hlenP]
    exact get?_mid _ _ _
  have hs2 : scanFor (fun b => b = 125)
      ((P ++ 0 :: (n0 :: name ++ 125 :: R)).drop (P.length + 1)) (P.length + 1)
      = some (P.length + 1 + (n0 :: name).length) := by
    rw [e1, ← hlenP, List.drop_left]
    exact scanFor_skip _ (n0 :: name) 125 R _
      (fun b hb => ⟨(hn b hb).1, by simp [(hn b hb).2.1]⟩) (Or.inr (by simp))
  have e2 : P ++ 0 :: (n0 :: name ++ 125 :: R) = (P ++ 0 :: (n0 :: name)) ++ 125 :: R := by simp
  have hlen2 : (P ++ 0 :: (n0 :: name)).length = P.length + 1 + (n0 :: name).length := by
    simp
    omega
  have hg2 : (P ++ 0 :: (n0 :: name ++ 125 :: R)).get? (P.length + 1 + (n0 :: name).length)
      = some 125 := by
    rw [e2, ← hlen2]
    exact get?_mid _ _ _
  have hp2 : poke (P ++ 0 :: (n0 :: name ++ 125 :: R)) (P.length + 1 + (n0 :: name).length) 0
      = some (P ++ 0 :: (n0 :: name ++ 0 :: R)) := by
    rw [e2, ← hlen2, poke_mid]
    simp
  have hs3 : scanFor (fun b => b = 58)
      ((P ++ 0 :: (n0 :: name ++ 0 :: R)).drop (P.length + 1)) (P.length + 1)
      = some (P.length + 1 + (n0 :: name).length) := by
    rw [e1, ← hlenP, List.drop_left]
    exact scanFor_skip _ (n0 :: name) 0 R _
      (fun b hb => ⟨(hn b hb).1, by simp [(hn b hb).2.2]⟩) (Or.inl rfl)
  have e3 : P ++ 0 :: (n0 :: name ++ 0 :: R) = (P ++ 0 :: (n0 :: name)) ++ 0 :: R := by simp
  have hg3 : (P ++ 0 :: (n0 :: name ++ 0 :: R)).get? (P.length + 1 + (n0 :: name).length)
      = some 0 := by
    rw [e3, ← hlen2]
    exact get?_mid _ _ _
  have hg4 : (P ++ 0 :: (n0 :: name ++ 0 :: R)).get? (P.length + 1) = some n0 := by
    rw [e1, ← hlenP]
    exact get?_mid _ _ _
  have hstr : strAt (P ++ 0 :: (n0 :: name ++ 0 :: R)) (P.length + 1) = some (n0 :: name) := by
    rw [e1, ← hlenP]
    exact strAt_mid _ _ _ (fun b hb => (hn b hb).1)
  unfold parseTag
  rw [hs1]
  simp only [Run.ofOption_some, Run.ok_bind, get?_mid]
  rw [if_neg (by decide), hp1]
  simp only [Run.ofOption_some, Run.ok_bind, hg1, h0.1, h0.2, false_or, if_false, hs2, hg2]
  rw [if_neg (by decide), hp2]
  simp only [Run.ofOption_some, Run.ok_bind, hs3, hg3, ne_eq, not_true_eq_false, if_false, hg4]
  rw [if_neg (by decide), if_neg hn0.1]
  simp only [hstr, Run.ofOption_some, Run.ok_bind, hft]
  have hseg : List.take (P.length + 1 - P.length) (List.drop P.length (P ++ 0 :: (n0 :: name ++ 125 :: R)))
      = [0] := by
    rw [List.drop_left]
    simp
  have hpad : padLoop [0] (P.length + 1 - P.length) 0 0 = 0 := by
    rw [Nat.add_sub_cancel_left]
    decide
  rw [hseg, hpad]
  simp [h0.1, h0.2]
theorem setLens_text (mem : List Nat) (a : Nat) (t : List Nat)
    (h : strlenList (mem.drop a) = some t.length) :
    setLens mem (if t = [] then [] else [sprintfToken.string a 0])
      = some (if t = [] then [] else [sprintfToken.string a t.length]) := by
  by_cases ht : t = []
  · simp [ht, setLens]
  · simp [ht, setLens, h]

/-- The rendering of the string token of a run of literal text. -/
theorem catTokens_text (le : Bool) (env : LocaleEnv) (extensions : headerSprintfExtension)
    (mem : List Nat) (fuel element : Nat) (st : RenderState) (a : Nat) (t val : List Nat)
    (h : strAt mem a = some t) :
    catTokens (fun s tok => singleSprintf le env extensions mem (fuel + 1) s tok element) st
        (if t = [] then [] else [sprintfToken.string a t.length]) val
      = Run.ok (st, val ++ t) := by
  by_cases ht : t = []
  · simp [ht, catTokens]
  · rw [if_neg ht]
    simp only [catTokens]
    rw [singleSprintf]
    simp [h]

theorem strlenList_mid (P s X : List Nat) (h : ∀ b ∈ s, b ≠ 0) :
    strlenList ((P ++ (s ++ 0 :: X)).drop P.length) = some s.length := by
  rw [List.drop_left]
  exact strlenList_string s X h

/-- The limit numTokens that parseFormat computes for the string t at address
a of the copy of the template. -/
theorem parseEnter_at (loop : Int → Int → List Nat → Nat → Nat → List sprintfToken → Run ParseOut)
    {mem t : List Nat} {a : Nat} (state : Int) (h : strAt mem a = some t)
    (hlen : t.length < 1073741823) :
    parseEnter loop mem a state
      = loop state ((((t.filter (fun b => b = 37)).length : Nat) : Int) * 2 + 1) mem a a [] := by
  unfold parseEnter countPercent
  rw [h]
  have h1 : (t.filter (fun b => decide (b = 37))).length ≤ t.length := List.length_filter_le _ _
  simp only [Option.map_some']
  rw [wrap32_small (by omega) (by omega)]

/-- The case '}' of parseFormat inside an expression. -/
theorem parseLoop_close (tags : List headerTagTableEntry) (extensions : headerSprintfExtension)
    (fuel : Nat) (numTokens : Int) {mem mem1 : List Nat} {start dst : Nat}
    (toks : List sprintfToken)
    (h1 : mem.get? start = some 125) (h2 : poke mem start 0 = some mem1) :
    parseLoop tags extensions (fuel + 1) PARSER_IN_EXPR numTokens mem start dst toks
      = parseFinish mem1 dst toks (some (start + 1)) := by
  rw [parseLoop]
  rw [List.get?_eq_getElem?] at h1
  simp [h1, h2]

/-- The parse by parseFormat of a branch of a conditional that holds literal
text only: at most one string token, a NUL in place of the closing brace, and
the pointer behind that brace. -/
theorem parse_literal_branch (tags : List headerTagTableEntry)
    (extensions : headerSprintfExtension) (k : Nat) (P A R1 R2 : List Nat)
    (hA : ∀ b ∈ A, b ≠ 0 ∧ b ≠ 37 ∧ b ≠ 91 ∧ b ≠ 93 ∧ b ≠ 125 ∧ b ≠ 92)
    (hR : ∀ b ∈ R1, b ≠ 0 ∧ b ≠ 37)
    (hlen : A.length + R1.length < 1073741822) :
    parseEnter (parseLoop tags extensions (k + 1 + A.length)) (P ++ (A ++ 125 :: (R1 ++ 0 :: R2)))
        P.length PARSER_IN_EXPR
      = Run.ok (ParseOut.mk (P ++ (A ++ 0 :: (R1 ++ 0 :: R2)))
          (if A = [] then [] else [sprintfToken.string P.length A.length])
          (some (P.length + A.length + 1))) := by
  have hT : strAt (P ++ (A ++ 125 :: (R1 ++ 0 :: R2))) P.length = some (A ++ 125 :: R1) := by
    have := strAt_mid P (A ++ 125 :: R1) R2 (by
      intro b hb
      rcases List.mem_append.mp hb with h | h
      · exact (hA b h).1
      · rcases List.mem_cons.mp h with h | h
        · rw [h]; decide
        · exact (hR b h).1)
    simpa using this
  have hcount : ((A ++ 125 :: R1).filter (fun b => decide (b = 37))).length = 0 := by
    rw [List.length_eq_zero, List.filter_eq_nil_iff]
    intro b hb
    rcases List.mem_append.mp hb with h | h
    · simp [(hA b h).2.1]
    · rcases List.mem_cons.mp h with h | h
      · rw [h]; decide
      · simp [(hR b h).2]
  rw [parseEnter_at _ PARSER_IN_EXPR hT (by simp only [List.length_append, List.length_cons]; omega),
    hcount]
  rw [parseLoop_text tags extensions PARSER_IN_EXPR _ A P (125 :: (R1 ++ 0 :: R2)) (k + 1)
    P.length [] hA rfl (by decide)]
  have hdst : (if A = [] then P.length else P.length + A.length) = P.length + A.length := by
    split
    · next h => simp [h]
    · rfl
  have e1 : P ++ (A ++ 125 :: (R1 ++ 0 :: R2)) = (P ++ A) ++ 125 :: (R1 ++ 0 :: R2) := by simp
  have e2 : P.length + A.length = (P ++ A).length := by simp
  rw [hdst, e1, e2, parseLoop_close tags extensions k _ _ (get?_mid _ _ _) (poke_mid _ 125 0 _)]
  unfold parseFinish
  rw [poke_same (get?_mid _ _ _)]
  simp only [Run.ofOption_some, Run.ok_bind]
  have hsl : strlenList (((P ++ A) ++ 0 :: (R1 ++ 0 :: R2)).drop P.length) = some A.length := by
    have := strlenList_mid P A (R1 ++ 0 :: R2) (fun b hb => (hA b hb).1)
    simpa using this
  have hset : setLens ((P ++ A) ++ 0 :: (R1 ++ 0 :: R2))
      (if A = [] then [] else [] ++ [sprintfToken.string P.length 0])
      = some (if A = [] then [] else [sprintfToken.string P.length A.length]) := by
    have := setLens_text _ P.length A hsl
    simpa using this
  rw [hset]
  simp
/-- The reading by parseExpression of a conditional whose branches hold
literal text only: the copy of the template afterwards, the tokens of the two
branches, and the pointer behind the closing '|'. -/
theorem parseExpression_literal (tags : List headerTagTableEntry)
    (extensions : headerSprintfExtension) (F k1 k2 : Nat) (name A B : List Nat)
    (hname : ∀ b ∈ name, b ≠ 0 ∧ b ≠ 63)
    (hA : ∀ b ∈ A, b ≠ 0 ∧ b ≠ 37 ∧ b ≠ 91 ∧ b ≠ 93 ∧ b ≠ 125 ∧ b ≠ 92)
    (hB : ∀ b ∈ B, b ≠ 0 ∧ b ≠ 37 ∧ b ≠ 91 ∧ b ≠ 93 ∧ b ≠ 125 ∧ b ≠ 92)
    (hlen : A.length + B.length < 1073741800)
    (hF1 : F = k1 + 1 + A.length) (hF2 : F = k2 + 1 + B.length) :
    ∃ tg, parseExpression (parseFormat F tags extensions) tags extensions
        (0 :: 124 :: (name ++ 63 :: 123 :: (A ++ 125 :: 58 :: 123 :: (B ++ 125 :: 124 :: [0]))))
        2
      = Run.ok
          (0 :: 124 :: (name ++ 0 :: 123 :: (A ++ 0 :: 58 :: 123 :: (B ++ 0 :: 124 :: [0]))),
            sprintfToken.cond
              (if A = [] then [] else [sprintfToken.string (name.length + 4) A.length])
              (if B = [] then [] else [sprintfToken.string (name.length + A.length + 7) B.length])
              tg,
            name.length + A.length + B.length + 9) := by
  -- the question mark
  have hq : scanFor (fun b => b = 63)
      ((0 :: 124 :: (name ++ 63 :: 123 :: (A ++ 125 :: 58 :: 123 :: (B ++ 125 :: 124 :: [0])))).drop
        2) 2 = some (2 + name.length) :=
    scanFor_skip _ name 63 _ 2 (fun b hb => ⟨(hname b hb).1, by simp [(hname b hb).2]⟩)
      (Or.inr (by simp))
  have hl1 : (0 :: 124 :: name).length = 2 + name.length := by
    simp only [List.length_cons]
    omega
  have hg1 : (0 :: 124 :: (name ++ 63 :: 123 :: (A ++ 125 :: 58 :: 123 ::
      (B ++ 125 :: 124 :: [0])))).get? (2 + name.length) = some 63 := by
    rw [← hl1]
    exact get?_mid (0 :: 124 :: name) 63 _
  have hp1 : poke (0 :: 124 :: (name ++ 63 :: 123 :: (A ++ 125 :: 58 :: 123 ::
      (B ++ 125 :: 124 :: [0])))) (2 + name.length) 0
      = some (0 :: 124 :: (name ++ 0 :: 123 :: (A ++ 125 :: 58 :: 123 ::
          (B ++ 125 :: 124 :: [0])))) := by
    rw [← hl1]
    exact poke_mid (0 :: 124 :: name) 63 0 _
  have hl2 : (0 :: 124 :: (name ++ [0])).length = 2 + name.length + 1 := by
    simp only [List.length_cons, List.length_append, List.length_nil]
    omega
  have hg2 : (0 :: 124 :: (name ++ 0 :: 123 :: (A ++ 125 :: 58 :: 123 ::
      (B ++ 125 :: 124 :: [0])))).get? (2 + name.length + 1) = some 123 := by
    have := get?_mid (0 :: 124 :: (name ++ [0])) 123
      (A ++ 125 :: 58 :: 123 :: (B ++ 125 :: 124 :: [0]))
    rw [hl2] at this
    simpa using this
  -- the if-branch
  have hl3 : (0 :: 124 :: (name ++ [0, 123])).length = 2 + name.length + 2 := by
    simp only [List.length_cons, List.length_append, List.length_nil]
    omega
  have hb1 : parseFormat F tags extensions
      (0 :: 124 :: (name ++ 0 :: 123 :: (A ++ 125 :: 58 :: 123 :: (B ++ 125 :: 124 :: [0]))))
      (2 + name.length + 2) PARSER_IN_EXPR
      = Run.ok (ParseOut.mk
          (0 :: 124 :: (name ++ 0 :: 123 :: (A ++ 0 :: 58 :: 123 :: (B ++ 125 :: 124 :: [0]))))
          (if A = [] then [] else [sprintfToken.string (name.length + 4) A.length])
          (some (name.length + A.length + 5))) := by
    have := parse_literal_branch tags extensions k1 (0 :: 124 :: (name ++ [0, 123])) A
      (58 :: 123 :: (B ++ [125, 124])) []
      hA (by
        intro b hb
        simp only [List.mem_cons, List.mem_append, List.mem_singleton, List.not_mem_nil,
          or_false] at hb
        rcases hb with h | h | h | h | h
        · rw [h]; decide
        · rw [h]; decide
        · exact ⟨(hB b h).1, (hB b h).2.1⟩
        · rw [h]; decide
        · rw [h]; decide)
      (by simp only [List.length_cons, List.length_append, List.length_nil]; omega)
    rw [← hF1, hl3] at this
    unfold parseFormat
    have e1 : 0 :: 124 :: (name ++ 0 :: 123 :: (A ++ 125 :: 58 :: 123 :: (B ++ 125 :: 124 :: [0])))
        = 0 :: 124 :: (name ++ [0, 123]) ++ (A ++ 125 :: (58 :: 123 :: (B ++ [125, 124]) ++ [0])) := by
      simp
    rw [e1, this]
    have e2 : 2 + name.length + 2 = name.length + 4 := by omega
    have e3 : 2 + name.length + 2 + A.length + 1 = name.length + A.length + 5 := by omega
    rw [e3, e2]
    simp
  have hl4 : (0 :: 124 :: (name ++ 0 :: 123 :: (A ++ [0]))).length = name.length + A.length + 5 := by
    simp only [List.length_cons, List.length_append, List.length_nil]
    omega
  have hg3 : (0 :: 124 :: (name ++ 0 :: 123 :: (A ++ 0 :: 58 :: 123 ::
      (B ++ 125 :: 124 :: [0])))).get? (name.length + A.length + 5) = some 58 := by
    have := get?_mid (0 :: 124 :: (name ++ 0 :: 123 :: (A ++ [0]))) 58
      (123 :: (B ++ 125 :: 124 :: [0]))
    rw [hl4] at this
    simpa using this
  have hl5 : (0 :: 124 :: (name ++ 0 :: 123 :: (A ++ [0, 58]))).length
      = name.length + A.length + 5 + 1 := by
    simp only [List.length_cons, List.length_append, List.length_nil]
    omega
  have hg4 : (0 :: 124 :: (name ++ 0 :: 123 :: (A ++ 0 :: 58 :: 123 ::
      (B ++ 125 :: 124 :: [0])))).get? (name.length + A.length + 5 + 1) = some 123 := by
    have := get?_mid (0 :: 124 :: (name ++ 0 :: 123 :: (A ++ [0, 58]))) 123
      (B ++ 125 :: 124 :: [0])
    rw [hl5] at this
    simpa using this
  -- the else-branch
  have hl6 : (0 :: 124 :: (name ++ 0 :: 123 :: (A ++ [0, 58, 123]))).length
      = name.length + A.length + 5 + 2 := by
    simp only [List.length_cons, List.length_append, List.length_nil]
    omega
  have hb2 : parseFormat F tags extensions
      (0 :: 124 :: (name ++ 0 :: 123 :: (A ++ 0 :: 58 :: 123 :: (B ++ 125 :: 124 :: [0]))))
      (name.length + A.length + 5 + 2) PARSER_IN_EXPR
      = Run.ok (ParseOut.mk
          (0 :: 124 :: (name ++ 0 :: 123 :: (A ++ 0 :: 58 :: 123 :: (B ++ 0 :: 124 :: [0]))))
          (if B = [] then [] else [sprintfToken.string (name.length + A.length + 7) B.length])
          (some (name.length + A.length + B.length + 8))) := by
    have := parse_literal_branch tags extensions k2
      (0 :: 124 :: (name ++ 0 :: 123 :: (A ++ [0, 58, 123]))) B [124] []
      hB (by
        intro b hb
        simp only [List.mem_singleton] at hb
        rw [hb]; decide)
      (by simp only [List.length_cons, List.length_nil]; omega)
    rw [← hF2, hl6] at this
    unfold parseFormat
    have e1 : 0 :: 124 :: (name ++ 0 :: 123 :: (A ++ 0 :: 58 :: 123 :: (B ++ 125 :: 124 :: [0])))
        = 0 :: 124 :: (name ++ 0 :: 123 :: (A ++ [0, 58, 123])) ++ (B ++ 125 :: ([124] ++ [0])) := by
      simp
    rw [e1, this]
    have e2 : name.length + A.length + 5 + 2 = name.length + A.length + 7 := by omega
    have e3 : name.length + A.length + 5 + 2 + B.length + 1
        = name.length + A.length + B.length + 8 := by omega
    rw [e3, e2]
    simp
  have hl7 : (0 :: 124 :: (name ++ 0 :: 123 :: (A ++ 0 :: 58 :: 123 :: (B ++ [0])))).length
      = name.length + A.length + B.length + 8 := by
    simp only [List.length_cons, List.length_append, List.length_nil]
    omega
  have hg5 : (0 :: 124 :: (name ++ 0 :: 123 :: (A ++ 0 :: 58 :: 123 ::
      (B ++ 0 :: 124 :: [0])))).get? (name.length + A.length + B.length + 8) = some 124 := by
    have := get?_mid (0 :: 124 :: (name ++ 0 :: 123 :: (A ++ 0 :: 58 :: 123 :: (B ++ [0])))) 124
      [0]
    rw [hl7] at this
    simpa using this
  have hstr : strAt (0 :: 124 :: (name ++ 0 :: 123 :: (A ++ 0 :: 58 :: 123 ::
      (B ++ 0 :: 124 :: [0])))) 2 = some name :=
    strAt_mid [0, 124] name _ (fun b hb => (hname b hb).1)
  unfold parseExpression
  rw [hq]
  simp only [Run.ofOption_some, Run.ok_bind, hg1, ne_eq, not_true_eq_false, if_false, hp1, hg2,
    hb1, hg3, hg4, hb2, hg5, hstr]
  have d1 : ¬ ((58 : Nat) = 0) := by decide
  have d2 : ¬ ((58 : Nat) = 124) := by decide
  have d3 : ¬ ((124 : Nat) = 0) := by decide
  simp only [d1, d2, d3, if_false, false_and]
  rcases findTag name tags extensions with ⟨_ | val, _ | ⟨fn, n⟩⟩
  · exact ⟨_, rfl⟩
  · exact ⟨_, rfl⟩
  · exact ⟨_, rfl⟩
  · exact ⟨_, rfl⟩
/-- The rendering of a branch that holds at most the string token of a run of
literal text. -/
theorem renderBranch_text (le : Bool) (env : LocaleEnv) (extensions : headerSprintfExtension)
    (mem : List Nat) (fuel : Nat) (st : RenderState) (a : Nat) (t : List Nat)
    (h : strAt mem a = some t) :
    renderBranch le env extensions mem (fuel + 1) st
        (if t = [] then [] else [sprintfToken.string a t.length]) 0 = Run.ok t := by
  unfold renderBranch
  have hw : ¬ wrap32 (((if t = [] then ([] : List sprintfToken)
      else [sprintfToken.string a t.length]).length : Int) * 20) < 0 := by
    split
    · decide
    · show ¬ wrap32 (((1 : Nat) : Int) * 20) < 0
      decide
  rw [if_neg hw, catTokens_text le env extensions mem fuel 0 st a t [] h]
  simp

/-! ## The extension cache during a call of headerSprintf -/

theorem cacheInv_header {st : RenderState} (h1 : Header) (hi : CacheInv st) :
    CacheInv { st with h := h1 } := hi

theorem getExtension_inv {st st1 : RenderState} {fn : headerTagTagFunction} {n : Option Nat}
    {r : Option ExtValue} (hi : CacheInv st) (hg : getExtension st fn n = Run.ok (st1, r)) :
    CacheInv st1 := by
  unfold getExtension at hg
  cases n with
  | none => simp at hg
  | some i =>
    simp only at hg
    cases hc : st.cache.get? i with
    | none => rw [hc] at hg; simp at hg
    | some o =>
      rw [hc] at hg
      cases o with
      | some v =>
        simp only [Run.ok.injEq, Prod.mk.injEq] at hg
        rw [← hg.1]; exact hi
      | none =>
        have hnot : ∀ a ∈ st.calls, ¬ (a.2 = true ∧ a.1 = i) := by
          intro a ha hh
          obtain ⟨v, hv⟩ := hi.2 i (by
            have : a = (i, true) := Prod.ext hh.2 hh.1
            rw [← this]; exact ha)
          rw [hc] at hv
          simp at hv
        simp only at hg
        cases hf : fn st.h with
        | none =>
          rw [hf] at hg
          simp only [Run.ok.injEq, Prod.mk.injEq] at hg
          rw [← hg.1]
          refine ⟨?_, ?_⟩
          · unfold CallsOnce
            simp only
            rw [List.pairwise_append]
            refine ⟨hi.1, List.pairwise_singleton _ _, ?_⟩
            intro a ha b hb
            simp only [List.mem_singleton] at hb
            subst hb
            exact hnot a ha
          · intro j hj
            simp only [List.mem_append, List.mem_singleton, Prod.mk.injEq, Bool.true_eq_false,
              and_false, or_false] at hj
            exact hi.2 j hj
        | some v =>
          rw [hf] at hg
          simp only [Run.ok.injEq, Prod.mk.injEq] at hg
          rw [← hg.1]
          have hlt : i < st.cache.length := by
            rw [List.get?_eq_some] at hc
            exact hc.1
          refine ⟨?_, ?_⟩
          · unfold CallsOnce
            simp only
            rw [List.pairwise_append]
            refine ⟨hi.1, List.pairwise_singleton _ _, ?_⟩
            intro a ha b hb
            simp only [List.mem_singleton] at hb
            subst hb
            exact hnot a ha
          · intro j hj
            simp only [List.mem_append, List.mem_singleton, Prod.mk.injEq, and_true] at hj
            by_cases hji : j = i
            · subst hji
              exact ⟨v, by simp [List.getElem?_set, hlt]⟩
            · rcases hj with hj | hj
              · obtain ⟨w, hw⟩ := hi.2 j hj
                refine ⟨w, ?_⟩
                simp only [List.get?_eq_getElem?] at hw ⊢
                rw [List.getElem?_set_ne (fun h => hji h.symm)]
                exact hw
              · exact absurd hj hji

theorem endsIn_ok (s : RenderState) (o : List Nat) : EndsIn s (Run.ok (s, o)) := by
  intro s2 o2 h
  simp only [Run.ok.injEq, Prod.mk.injEq] at h
  exact h.1.symm

theorem endsIn_fault (s : RenderState) : EndsIn s Run.fault := by
  intro s2 o2 h; cases h

theorem endsIn_bind {α : Type} (s : RenderState) (x : Run α)
    (f : α → Run (RenderState × List Nat)) (h : ∀ a, EndsIn s (f a)) : EndsIn s (x >>= f) := by
  intro s2 o2 hx
  obtain ⟨a, _, ha⟩ := Run.bind_eq_ok.mp hx
  exact h a s2 o2 ha

theorem cacheInv_bind {x : Run (RenderState × Option ExtValue)}
    {f : RenderState × Option ExtValue → Run (RenderState × List Nat)}
    (h1 : ∀ a, x = Run.ok a → CacheInv a.1) (h2 : ∀ a, EndsIn a.1 (f a)) :
    ∀ s2 o, (x >>= f) = Run.ok (s2, o) → CacheInv s2 := by
  intro s2 o hx
  obtain ⟨a, ha, hfa⟩ := Run.bind_eq_ok.mp hx
  rw [h2 a s2 o hfa]
  exact h1 a ha

theorem formatValue_inv (le : Bool) (env : LocaleEnv) (extensions : headerSprintfExtension)
    (mem : List Nat) {st st2 : RenderState} (tag : sprintfTag) (element : Nat) {out : List Nat}
    (hi : CacheInv st)
    (hf : formatValue le env extensions mem st tag element = Run.ok (st2, out)) :
    CacheInv st2 := by
  unfold formatValue at hf
  lift_lets at hf
  extract_lets jp at hf
  have hjp : ∀ a, EndsIn a.1 (jp a) := by
    intro a
    obtain ⟨st1, found⟩ := a
    simp only [jp]
    repeat' first
      | exact endsIn_ok _ _
      | exact endsIn_fault _
      | (apply endsIn_bind; intro _)
      | split
  have hok : ∀ (h1 : Header) (r : Option ExtValue) (a : RenderState × Option ExtValue),
      Run.ok (({ st with h := h1 } : RenderState), r) = Run.ok a → CacheInv a.1 := by
    intro h1 r a ha
    simp only [Run.ok.injEq] at ha
    rw [← ha]
    exact hi
  split at hf
  · exact cacheInv_bind (fun a ha => getExtension_inv hi ha) hjp st2 out hf
  · split at hf
    · split at hf
      · exact cacheInv_bind (hok _ _) hjp st2 out hf
      · split at hf
        · exact cacheInv_bind (hok _ _) hjp st2 out hf
        · obtain ⟨a, ha, _⟩ := Run.bind_eq_ok.mp hf
          cases ha
    · obtain ⟨a, ha, _⟩ := Run.bind_eq_ok.mp hf
      cases ha
    · obtain ⟨a, ha, _⟩ := Run.bind_eq_ok.mp hf
      cases ha

theorem arrayElements_inv (le : Bool) (env : LocaleEnv) :
    ∀ (toks : List sprintfToken) (st st1 : RenderState) (n m : Int), CacheInv st →
      arrayElements le env st toks n = Run.ok (st1, m) → CacheInv st1
  | [], st, st1, n, m, hi, h => by
    rw [arrayElements] at h
    simp only [Run.ok.injEq, Prod.mk.injEq] at h
    rw [← h.1]; exact hi
  | sprintfToken.tag tg :: rest, st, st1, n, m, hi, h => by
    rw [arrayElements] at h
    split at h
    · exact arrayElements_inv le env rest st st1 n m hi h
    · cases hext : tg.ext with
      | some fn =>
        rw [hext] at h
        simp only at h
        cases hg : getExtension st fn tg.extNum with
        | ok r =>
          obtain ⟨s1, o⟩ := r
          have hs1 := getExtension_inv hi hg
          rw [hg] at h
          cases o with
          | none => exact arrayElements_inv le env rest s1 st1 n m hs1 h
          | some v =>
            simp only [Run.ok.injEq, Prod.mk.injEq] at h
            rw [← h.1]; exact hs1
        | error e => rw [hg] at h; simp at h
        | exit => rw [hg] at h; simp at h
        | fault => rw [hg] at h; simp at h
        | unfinished => rw [hg] at h; simp at h
      | none =>
        rw [hext] at h
        simp only at h
        cases hg : headerGetEntry le env st.h tg.tag with
        | ok r =>
          obtain ⟨h1, o⟩ := r
          rw [hg] at h
          simp only at h
          split at h
          · exact arrayElements_inv le env rest _ st1 _ m (cacheInv_header h1 hi) h
          · simp only [Run.ok.injEq, Prod.mk.injEq] at h
            rw [← h.1]; exact hi
        | exit => rw [hg] at h; simp at h
        | fault => rw [hg] at h; simp at h
  | sprintfToken.none :: rest, st, st1, n, m, hi, h => by
    rw [arrayElements] at h
    · exact arrayElements_inv le env rest st st1 n m hi h
    · intro tg hh; cases hh
  | sprintfToken.array f :: rest, st, st1, n, m, hi, h => by
    rw [arrayElements] at h
    · exact arrayElements_inv le env rest st st1 n m hi h
    · intro tg hh; cases hh
  | sprintfToken.string a l :: rest, st, st1, n, m, hi, h => by
    rw [arrayElements] at h
    · exact arrayElements_inv le env rest st st1 n m hi h
    · intro tg hh; cases hh
  | sprintfToken.cond a b c :: rest, st, st1, n, m, hi, h => by
    rw [arrayElements] at h
    · exact arrayElements_inv le env rest st st1 n m hi h
    · intro tg hh; cases hh

theorem catTokens_inv {single : RenderState → sprintfToken → Run (RenderState × List Nat)}
    (hs : ∀ st st1 t out, CacheInv st → single st t = Run.ok (st1, out) → CacheInv st1) :
    ∀ (toks : List sprintfToken) (st st1 : RenderState) (val out : List Nat), CacheInv st →
      catTokens single st toks val = Run.ok (st1, out) → CacheInv st1
  | [], st, st1, val, out, hi, h => by
    rw [catTokens] at h
    simp only [Run.ok.injEq, Prod.mk.injEq] at h
    rw [← h.1]; exact hi
  | t :: rest, st, st1, val, out, hi, h => by
    rw [catTokens] at h
    cases hg : single st t with
    | ok r =>
      obtain ⟨s1, item⟩ := r
      rw [hg] at h
      exact catTokens_inv hs rest s1 st1 _ out (hs st s1 t item hi hg) h
    | error e => rw [hg] at h; simp at h
    | exit => rw [hg] at h; simp at h
    | fault => rw [hg] at h; simp at h
    | unfinished => rw [hg] at h; simp at h

theorem arrayRows_inv {row : Nat → RenderState → List Nat → Run (RenderState × List Nat)}
    (hr : ∀ j st st1 val out, CacheInv st → row j st val = Run.ok (st1, out) → CacheInv st1) :
    ∀ (n j : Nat) (st st1 : RenderState) (val out : List Nat), CacheInv st →
      arrayRows row n j st val = Run.ok (st1, out) → CacheInv st1
  | 0, j, st, st1, val, out, hi, h => by
    rw [arrayRows] at h
    simp only [Run.ok.injEq, Prod.mk.injEq] at h
    rw [← h.1]; exact hi
  | n + 1, j, st, st1, val, out, hi, h => by
    rw [arrayRows] at h
    cases hg : row j st val with
    | ok r =>
      obtain ⟨s1, v1⟩ := r
      rw [hg] at h
      exact arrayRows_inv hr n (j + 1) s1 st1 v1 out (hr j st s1 val v1 hi hg) h
    | error e => rw [hg] at h; simp at h
    | exit => rw [hg] at h; simp at h
    | fault => rw [hg] at h; simp at h
    | unfinished => rw [hg] at h; simp at h

theorem singleSprintf_inv (le : Bool) (env : LocaleEnv) (extensions : headerSprintfExtension)
    (mem : List Nat) :
    ∀ (fuel : Nat) (st st1 : RenderState) (token : sprintfToken) (element : Nat)
      (out : List Nat), CacheInv st →
      singleSprintf le env extensions mem fuel st token element = Run.ok (st1, out) →
      CacheInv st1
  | 0, st, st1, token, element, out, hi, h => by
    simp [singleSprintf] at h
  | fuel + 1, st, st1, token, element, out, hi, h => by
    have ih := singleSprintf_inv le env extensions mem fuel
    rw [singleSprintf.eq_def] at h
    cases token with
    | none => simp at h
    | string a len =>
      simp only at h
      cases hs : strAt mem a with
      | none => rw [hs] at h; simp at h
      | some s =>
        rw [hs] at h
        simp only at h
        split at h
        · simp only [Run.ok.injEq, Prod.mk.injEq] at h
          rw [← h.1]; exact hi
        · simp at h
    | tag tg =>
      simp only at h
      exact formatValue_inv le env extensions mem tg _ hi h
    | cond ifFormat elseFormat tg =>
      simp only at h
      have hcat : ∀ (s : RenderState) (toks : List sprintfToken), CacheInv s →
          catTokens (fun s t => singleSprintf le env extensions mem fuel s t element) s toks []
            = Run.ok (st1, out) → CacheInv st1 :=
        fun s toks hs hc =>
          catTokens_inv (fun a b t o ha hb => ih a b t element o ha hb) toks s st1 [] out hs hc
      split at h
      · split at h
        · simp at h
        · exact hcat st ifFormat hi h
      · split at h
        · split at h
          · simp at h
          · exact hcat _ ifFormat (cacheInv_header _ hi) h
        · split at h
          · simp at h
          · exact hcat _ elseFormat (cacheInv_header _ hi) h
    | array format =>
      simp only at h
      cases ha : arrayElements le env st format (-1) with
      | ok r =>
        obtain ⟨s1, numElements⟩ := r
        have hs1 := arrayElements_inv le env format st s1 (-1) numElements hi ha
        rw [ha] at h
        simp only at h
        split at h
        · simp only [Run.ok.injEq, Prod.mk.injEq] at h
          rw [← h.1]; exact hs1
        · split at h
          · simp at h
          · exact arrayRows_inv
              (fun j a b val o hha hhb =>
                catTokens_inv (fun a1 b1 t o1 ha1 hb1 => ih a1 b1 t j o1 ha1 hb1) format a b val o
                  hha hhb)
              numElements.toNat 0 s1 st1 [] out hs1 h
      | error e => rw [ha] at h; simp at h
      | exit => rw [ha] at h; simp at h
      | fault => rw [ha] at h; simp at h
      | unfinished => rw [ha] at h; simp at h

theorem headerSprintfCalls_once (le : Bool) (env : LocaleEnv) (h : Header) (fmt : List Nat)
    (tabletags : List headerTagTableEntry) (extensions : headerSprintfExtension)
    {calls : List (Nat × Bool)}
    (hc : headerSprintfCalls le env h fmt tabletags extensions = some calls) :
    CallsOnce calls := by
  unfold headerSprintfCalls at hc
  cases hp : parseFormat (2 * (cstr fmt).length + 4) tabletags extensions (cstr fmt ++ [0]) 0
      PARSER_BEGIN with
  | ok r =>
    rw [hp] at hc
    simp only at hc
    cases hr : catTokens
        (fun st t => singleSprintf le env extensions r.mem ((cstr fmt).length + 2) st t 0)
        (RenderState.mk h (List.replicate (extensionCount extensions) none) []) r.format [] with
    | ok x =>
      obtain ⟨st, out⟩ := x
      rw [hr] at hc
      simp only [Option.some.injEq] at hc
      have hinit : CacheInv
          (RenderState.mk h (List.replicate (extensionCount extensions) none) []) :=
        ⟨List.Pairwise.nil, fun i hi => by simp at hi⟩
      have := catTokens_inv
        (fun a b t o ha hb =>
          singleSprintf_inv le env extensions r.mem ((cstr fmt).length + 2) a b t 0 o ha hb)
        r.format _ st [] out hinit hr
      rw [← hc]
      exact this.1
    | error e => rw [hr] at hc; simp at hc
    | exit => rw [hr] at hc; simp at hc
    | fault => rw [hr] at hc; simp at hc
    | unfinished => rw [hr] at hc; simp at hc
  | error e =>
    rw [hp] at hc
    simp only [Option.some.injEq] at hc
    rw [← hc]
    exact List.Pairwise.nil
  | exit => rw [hp] at hc; simp at hc
  | fault => rw [hp] at hc; simp at hc
  | unfinished => rw [hp] at hc; simp at hc

theorem headerSprintfCalls_of_ok {le : Bool} {env : LocaleEnv} {h : Header} {fmt : List Nat}
    {tabletags : List headerTagTableEntry} {extensions : headerSprintfExtension}
    {out : List Nat} (hs : headerSprintf le env h fmt tabletags extensions = Run.ok out) :
    ∃ calls, headerSprintfCalls le env h fmt tabletags extensions = some calls := by
  unfold headerSprintf at hs
  unfold headerSprintfCalls
  cases hp : parseFormat (2 * (cstr fmt).length + 4) tabletags extensions (cstr fmt ++ [0]) 0
      PARSER_BEGIN with
  | ok r =>
    rw [hp] at hs
    simp only at hs ⊢
    cases hr : catTokens
        (fun st t => singleSprintf le env extensions r.mem ((cstr fmt).length + 2) st t 0)
        (RenderState.mk h (List.replicate (extensionCount extensions) none) []) r.format [] with
    | ok x => exact ⟨x.1.calls, rfl⟩
    | error e => rw [hr] at hs; simp at hs
    | exit => rw [hr] at hs; simp at hs
    | fault => rw [hr] at hs; simp at hs
    | unfinished => rw [hr] at hs; simp at hs
  | error e => exact ⟨[], rfl⟩
  | exit => rw [hp] at hs; simp at hs
  | fault => rw [hp] at hs; simp at hs
  | unfinished => rw [hp] at hs; simp at hs

theorem callsOnce_success_count {calls : List (Nat × Bool)} (hc : CallsOnce calls) (i : Nat) :
    (calls.filter (fun c => decide (c = (i, true)))).length ≤ 1 := by
  have hs : (calls.filter (fun c => decide (c = (i, true)))).Pairwise
      (fun a b => ¬ (a.2 = true ∧ a.1 = b.1)) :=
    List.Pairwise.sublist (List.filter_sublist calls) hc
  have hm : ∀ c ∈ calls.filter (fun c => decide (c = (i, true))), c = (i, true) := by
    intro c hc
    simpa using (List.mem_filter.mp hc).2
  cases hl : calls.filter (fun c => decide (c = (i, true))) with
  | nil => simp
  | cons a rest =>
    cases rest with
    | nil => simp
    | cons b rest2 =>
      rw [hl] at hs hm
      have ha := hm a (List.mem_cons_self _ _)
      have hb := hm b (List.mem_cons_of_mem _ (List.mem_cons_self _ _))
      have := (List.pairwise_cons.mp hs).1 b (List.mem_cons_self _ _)
      rw [ha, hb] at this
      exact absurd ⟨rfl, rfl⟩ this

theorem getExtension_hit (st : RenderState) (fn : headerTagTagFunction) (i : Nat) (v : ExtValue)
    (hc : st.cache.get? i = some (some v)) :
    getExtension st fn (some i) = Run.ok (st, some v) := by
  unfold getExtension
  simp only [hc]

/-! ## dataLength on strings -/

theorem strArrayLenAt_strings (S : List Nat) :
    ∀ (ss : List (List Nat)), (∀ s ∈ ss, ∀ b ∈ s, b ≠ 0) →
      strArrayLenAt (joinStrings ss ++ S) ss.length 0 = some (stringSizes ss)
  | [], _ => rfl
  | s :: rest, h => by
    have hs := h s (List.mem_cons_self _ _)
    have hsl : strlenAt (joinStrings (s :: rest) ++ S) 0 = some s.length := by
      have e : joinStrings (s :: rest) ++ S = s ++ 0 :: (joinStrings rest ++ S) := by
        simp [joinStrings]
      rw [e]
      simp only [strlenAt, le_refl, if_true, Int.toNat_zero, List.drop_zero]
      exact strlenList_string s _ hs
    have ih := strArrayLenAt_strings S rest (fun x hx => h x (List.mem_cons_of_mem _ hx))
    simp only [List.length_cons, strArrayLenAt, hsl]
    rw [strArrayLenAt_shift _ _ _ (by omega)]
    have e2 : (joinStrings (s :: rest) ++ S).drop (0 + ((s.length : Int) + 1)).toNat
        = joinStrings rest ++ S := by
      have e3 : (0 + ((s.length : Int) + 1)).toNat = s.length + 1 := by omega
      rw [e3]
      have e : joinStrings (s :: rest) ++ S = (s ++ [0]) ++ (joinStrings rest ++ S) := by
        simp [joinStrings]
      rw [e]
      exact List.drop_left' (by simp)
    rw [e2, ih]
    simp [stringSizes]
    omega

theorem strArrayLenMem_strings (tail : List Nat → List Nat) :
    ∀ (ss : List (List Nat)), (∀ s ∈ ss, ∀ b ∈ s, b ≠ 0) →
      strArrayLenMem ss.length (ss.map (fun s => some (s ++ 0 :: tail s))) = some (stringSizes ss)
  | [], _ => rfl
  | s :: rest, h => by
    have hs := h s (List.mem_cons_self _ _)
    have hsl : strlenList (s ++ 0 :: tail s) = some s.length := strlenList_string s _ hs
    simp only [List.length_cons, List.map_cons, strArrayLenMem, hsl,
      strArrayLenMem_strings tail rest (fun x hx => h x (List.mem_cons_of_mem _ hx)),
      Option.map_some', Option.some.injEq]
    simp [stringSizes]
    omega

theorem dataLength_fixed {type sz : Int} (c : Int) (p : hPTR) (onDisk : Bool)
    (hs : type ≠ RPM_STRING_TYPE) (ha : type ≠ RPM_STRING_ARRAY_TYPE)
    (hi : type ≠ RPM_I18NSTRING_TYPE) (ht : typeSizesAt type = some sz) (hsz : sz ≠ -1)
    (h1 : -2147483648 ≤ sz * c) (h2 : sz * c < 2147483648) :
    dataLength type p c onDisk = Res.ok (sz * c) := by
  unfold dataLength
  simp [hs, ha, hi, ht, hsz, h1, h2]

/-! ## headerSizeof on a header built by headerAddEntry -/

theorem padTo_typeWidth_congr (type : Int) {a b : Int} (h : a % 4 = b % 4) :
    padTo (typeWidth type) a = padTo (typeWidth type) b := by
  unfold padTo typeWidth
  split
  · have : a % 2 = b % 2 := by omega
    rw [this]
  · split
    · rw [h]
    · simp

theorem sizeofLoop_added : ∀ (es : List indexEntry) (i : Nat) (size dl : Int),
    (∀ e ∈ es, Added e ∧ HEADER_I18NTABLE ≤ e.info.tag) → 0 ≤ dl → 0 ≤ size →
    size % 4 = dl % 4 →
    size + 16 * (es.length : Int) + (dataEnd es dl - dl) < 4294967296 →
    sizeofLoop false es i size = some (size + 16 * (es.length : Int) + (dataEnd es dl - dl))
  | [], _, size, dl, _, _, _, _, _ => by
    simp [sizeofLoop, dataEnd]
  | e :: rest, i, size, dl, h, hdl, hsz, hmod, hlt => by
    obtain ⟨ha, ht⟩ := h e (List.mem_cons_self _ _)
    have hrest : ∀ x ∈ rest, Added x ∧ HEADER_I18NTABLE ≤ x.info.tag :=
      fun x hx => h x (List.mem_cons_of_mem _ hx)
    have hnr := not_region_of_tag ht
    obtain ⟨ht0, ht9⟩ := ha.type_range
    have hoff : ¬ e.info.offset < 0 := by rw [ha.offset]; omega
    have hp0 := padTo_typeWidth_nonneg e.info.type dl
    have hp4 := padTo_typeWidth_lt e.info.type dl
    have hpc := padTo_typeWidth_congr e.info.type hmod
    have hlen : 0 ≤ e.length := by rw [ha.length]; omega
    simp only [dataEnd, List.length_cons] at hlt
    have hmono := dataEnd_mono rest (dl + padTo (typeWidth e.info.type) dl + e.length)
      (fun x hx => by rw [(hrest x hx).1.length]; omega)
    simp only [sizeofLoop, hnr, Bool.false_eq_true, if_false, hoff, alignDiff_eq ht0 ht9 hsz]
    rw [hpc]
    have e1 : (size + padTo (typeWidth e.info.type) dl) % 4294967296
        = size + padTo (typeWidth e.info.type) dl := by
      apply Int.emod_eq_of_lt <;> omega
    have e2 : (size + padTo (typeWidth e.info.type) dl + (16 + e.length)) % 4294967296
        = size + padTo (typeWidth e.info.type) dl + (16 + e.length) := by
      apply Int.emod_eq_of_lt
      · omega
      · push_cast at hlt; omega
    rw [e1, e2]
    rw [sizeofLoop_added rest (i + 1) _ (dl + padTo (typeWidth e.info.type) dl + e.length) hrest
      (by omega) (by omega) (by omega) (by push_cast at hlt; omega)]
    simp only [dataEnd, List.length_cons, Option.some.injEq]
    push_cast
    ring

theorem headerSizeof_built {h : Header} (hb : Built h)
    (htags : ∀ e ∈ h.index, HEADER_I18NTABLE ≤ e.info.tag) (magicp : Bool)
    (hsize : 16 + 16 * (h.index.length : Int) + dataEnd (qsort indexCmp h.index) 0
      < 4294967296) :
    headerSizeof h magicp
      = Res.ok (headerSort h, (if magicp then 8 else 0) + 8 + 16 * (h.index.length : Int)
          + dataEnd (qsort indexCmp h.index) 0) := by
  obtain ⟨_, _, hlegacy, _⟩ := built_inv hb
  have hes := sorted_entries_built hb htags
  unfold headerSizeof
  simp only [(headerSort_built_index hb htags).1, headerSort_legacy, hlegacy]
  have hl : (qsort indexCmp h.index).length = h.index.length :=
    (List.perm_insertionSort _ _).length_eq
  have := sizeofLoop_added (qsort indexCmp h.index) 0 ((if magicp then 8 else 0) + 8) 0 hes
    (le_refl 0) (by split <;> omega) (by split <;> omega)
    (by rw [hl]; split <;> omega)
  rw [this, hl]
  simp

theorem doHeaderUnload_of_unsort (le : Bool) (junk : Nat → Nat) {h h2 : Header}
    (hidx : qsort offsetCmp h2.index = qsort offsetCmp h.index) (hleg : h2.legacy = h.legacy)
    (hblob : h2.blob = h.blob) (halloc : h2.allocated = h.allocated) {r : Header}
    {blk : List Nat} (hu : doHeaderUnload le junk h = Res.ok (r, some blk)) :
    doHeaderUnload le junk h2 = Res.ok (r, some blk) := by
  unfold doHeaderUnload headerUnsort at hu ⊢
  simp only [hidx, hleg, hblob, halloc] at hu ⊢
  cases hc : unloadCount h.legacy (qsort offsetCmp h.index) 0 none
      { il := 0, dl := 0, drlen := 0, ndribbles := 0 } with
  | none => rw [hc] at hu; simp at hu
  | some c =>
    rw [hc] at hu
    simp only at hu ⊢
    cases hw : writeBytes ((List.range ((8 + c.il * 16 + c.dl) % 4294967296).toNat).map junk) 0
        (putBE32 c.il ++ putBE32 c.dl) with
    | none => rw [hw] at hu; simp at hu
    | some ei1 =>
      rw [hw] at hu
      simp only at hu ⊢
      cases hx : unloadWrite le h.legacy h.blob (8 + c.il * 16) c.ndribbles c.drlen
          (qsort offsetCmp h.index) 0 none { buf := ei1, pe := 8, te := 8 + c.il * 16 } with
      | ok o =>
        rw [hx] at hu
        cases o with
        | none => simp at hu
        | some s =>
          simp only at hu ⊢
          split at hu
          · simp at hu
          · rename_i h1
            rw [if_neg h1]
            split at hu
            · simp at hu
            · rename_i h3
              rw [if_neg h3]
              simp only [Res.ok.injEq, Prod.mk.injEq, Option.some.injEq] at hu ⊢
              exact hu
      | exit => rw [hx] at hu; simp at hu
      | fault => rw [hx] at hu; simp at hu

theorem unsort_headerSort_built {h : Header} (hb : Built h)
    (htags : ∀ e ∈ h.index, HEADER_I18NTABLE ≤ e.info.tag) :
    qsort offsetCmp (headerSort h).index = qsort offsetCmp h.index := by
  have ht := built_tags hb htags
  have hoff : ∀ e ∈ h.index, e.info.offset = 0 := fun e he => ((built_inv hb).1 e he).offset
  rw [(headerSort_built_index hb htags).1]
  rw [qsort_offsetCmp_eq (fun e he => ht e (mem_qsort.mp he))
    (fun e he => hoff e (mem_qsort.mp he)), qsort_offsetCmp_eq ht hoff, qsort_indexCmp_eq ht]
  exact insertionSort_tagLe_eq (insertionSort_tagLe_sorted _)

/-! ## Brackets outside their block -/

theorem parseLoop_stray (tags : List headerTagTableEntry) (extensions : headerSprintfExtension)
    (fuel : Nat) (state numTokens : Int) {mem : List Nat} {start dst : Nat} {c : Nat}
    (toks : List sprintfToken) (h1 : mem.get? start = some c)
    (hc : (c = 93 ∧ state ≠ PARSER_IN_ARRAY) ∨ (c = 125 ∧ state ≠ PARSER_IN_EXPR)) :
    parseLoop tags extensions (fuel + 1) state numTokens mem start dst toks
      = Run.error (if c = 93 then ErrMsg.unexpectedBracket else ErrMsg.unexpectedBrace) := by
  rw [parseLoop]
  have h0 : c ≠ 0 := by rcases hc with h | h <;> omega
  have h37 : c ≠ 37 := by rcases hc with h | h <;> omega
  have h91 : c ≠ 91 := by rcases hc with h | h <;> omega
  have hor : c = 93 ∨ c = 125 := by rcases hc with h | h <;> omega
  simp only [h1, h0, h37, h91, hor, hc, if_true, if_false]

/-- A ']' or a '}' that follows literal text at the top level of a template
makes headerSprintf return NULL with the message "unexpected ]" or
"unexpected }". -/
theorem stray_bracket_rejected (le : Bool) (env : LocaleEnv) (h : Header) (fmt : List Nat)
    (tags : List headerTagTableEntry) (extensions : headerSprintfExtension)
    (lit : List Nat) (c : Nat) (rest : List Nat)
    (hs : cstr fmt = lit ++ c :: rest) (hc : c = 93 ∨ c = 125)
    (hlen : (cstr fmt).length < 1073741823)
    (hlit : ∀ b ∈ lit, b ≠ 37 ∧ b ≠ 91 ∧ b ≠ 93 ∧ b ≠ 125 ∧ b ≠ 92) :
    headerSprintf le env h fmt tags extensions
      = Run.error (if c = 93 then ErrMsg.unexpectedBracket else ErrMsg.unexpectedBrace) := by
  have hnz := cstr_nonzero fmt
  have hlit2 : ∀ b ∈ lit, b ≠ 0 ∧ b ≠ 37 ∧ b ≠ 91 ∧ b ≠ 93 ∧ b ≠ 125 ∧ b ≠ 92 := by
    intro b hb
    exact ⟨hnz b (by rw [hs]; exact List.mem_append_left _ hb), hlit b hb⟩
  have hl : (cstr fmt).length = lit.length + (rest.length + 1) := by
    rw [hs]
    simp only [List.length_append, List.length_cons]
  have hmem : cstr fmt ++ [0] = [] ++ (lit ++ (c :: (rest ++ [0]))) := by
    rw [hs]
    simp
  have hstate : (c = 93 ∧ PARSER_BEGIN ≠ PARSER_IN_ARRAY) ∨ (c = 125 ∧ PARSER_BEGIN ≠ PARSER_IN_EXPR) := by
    rcases hc with h | h
    · exact Or.inl ⟨h, by decide⟩
    · exact Or.inr ⟨h, by decide⟩
  have hpf : parseFormat (2 * (cstr fmt).length + 4) tags extensions (cstr fmt ++ [0]) 0
      PARSER_BEGIN
      = Run.error (if c = 93 then ErrMsg.unexpectedBracket else ErrMsg.unexpectedBrace) := by
    unfold parseFormat
    rw [parseEnter_eq _ _ hnz hlen]
    have e4 : 2 * (cstr fmt).length + 4 = ((lit.length + 2 * rest.length + 5) + 1) + lit.length := by
      omega
    rw [e4, hmem]
    have ht := parseLoop_text tags extensions PARSER_BEGIN
      ((((cstr fmt).filter (fun b => decide (b = 37))).length : Int) * 2 + 1) lit []
      (c :: (rest ++ [0])) ((lit.length + 2 * rest.length + 5) + 1) 0 [] hlit2 rfl
      (by simp; omega)
    simp only [List.length_nil] at ht
    rw [ht]
    exact parseLoop_stray tags extensions _ PARSER_BEGIN _ _
      (by
        have := get?_mid lit c (rest ++ [0])
        simpa using this) hstate
  unfold headerSprintf
  rw [hpf]

/-! ## The header after headerUnload -/

/-- On the path of doHeaderUnload that returns a block, the header is left
with the sorted flag set and with the entries it had, sorted with indexCmp. -/
theorem doHeaderUnload_success (le : Bool) (junk : Nat → Nat) {h r : Header} {blk : List Nat}
    (hu : doHeaderUnload le junk h = Res.ok (r, some blk)) :
    r = { h with index := qsort indexCmp (qsort offsetCmp h.index), sorted := true } := by
  unfold doHeaderUnload headerUnsort at hu
  simp only at hu
  cases hc : unloadCount h.legacy (qsort offsetCmp h.index) 0 none
      { il := 0, dl := 0, drlen := 0, ndribbles := 0 } with
  | none => rw [hc] at hu; simp at hu
  | some c =>
    rw [hc] at hu
    simp only at hu
    cases hw : writeBytes ((List.range ((8 + c.il * 16 + c.dl) % 4294967296).toNat).map junk) 0
        (putBE32 c.il ++ putBE32 c.dl) with
    | none => rw [hw] at hu; simp at hu
    | some ei1 =>
      rw [hw] at hu
      simp only at hu
      cases hx : unloadWrite le h.legacy h.blob (8 + c.il * 16) c.ndribbles c.drlen
          (qsort offsetCmp h.index) 0 none { buf := ei1, pe := 8, te := 8 + c.il * 16 } with
      | ok o =>
        rw [hx] at hu
        cases o with
        | none => simp at hu
        | some s =>
          simp only at hu
          split at hu
          · simp at hu
          · split at hu
            · simp at hu
            · simp only [Res.ok.injEq, Prod.mk.injEq, Option.some.injEq] at hu
              exact hu.1.symm
      | exit => rw [hx] at hu; simp at hu
      | fault => rw [hx] at hu; simp at hu

/-- After a call of headerUnload that returns a block, the header holds the
entries it held before, its sorted flag is set, and its index is in ascending
tag order when all tags lie in the range 0 .. 2^31 - 1. -/
theorem headerUnload_success_frame (le : Bool) (junk : Nat → Nat) {h r : Header}
    {blk : List Nat} (hu : headerUnload le junk h = Res.ok (r, some blk)) :
    r.sorted = true ∧ r.index.Perm h.index
      ∧ ((∀ e ∈ h.index, 0 ≤ e.info.tag ∧ e.info.tag < 2147483648) → r.index.Pairwise tagLe) := by
  have hr := doHeaderUnload_success le junk hu
  subst hr
  have hp : (qsort indexCmp (qsort offsetCmp h.index)).Perm h.index :=
    (qsort_perm _ _).trans (qsort_perm _ _)
  refine ⟨rfl, hp, fun ht => ?_⟩
  exact qsort_indexCmp_sorted (fun e he => ht e (mem_qsort.mp he))

/-- A call of headerAddEntry that adds an entry whose tag is smaller than the
tag of the last entry clears the sorted flag. -/
theorem headerAddEntry_clears_sorted {h h1 : Header} {tag type c : Int} {p : hPTR}
    {e : indexEntry} (ha : headerAddEntry h tag type p c = Res.ok (h1, 1))
    (hlast : h.index.getLast? = some e) (hlt : tag < e.info.tag) : h1.sorted = false := by
  unfold headerAddEntry at ha
  split at ha
  · simp at ha
  · cases hg : grabData type p c with
    | ok r =>
      obtain ⟨data, length⟩ := r
      rw [hg] at ha
      simp only [Res.ok.injEq, Prod.mk.injEq, and_true] at ha
      rw [← ha]
      simp [hlast, hlt]
    | exit => rw [hg] at ha; simp at ha
    | fault => rw [hg] at ha; simp at ha

/-- For tags in the range 0 .. 2^31 - 1 the sign of indexCmp is the order of
the tags. -/
theorem indexCmp_sign {a b : indexEntry} (ha : 0 ≤ a.info.tag ∧ a.info.tag < 2147483648)
    (hb : 0 ≤ b.info.tag ∧ b.info.tag < 2147483648) :
    (indexCmp a b < 0 ↔ a.info.tag < b.info.tag) ∧ (indexCmp a b = 0 ↔ a.info.tag = b.info.tag)
      ∧ (0 < indexCmp a b ↔ b.info.tag < a.info.tag) := by
  unfold indexCmp
  rw [wrap32_eq ⟨by omega, by omega⟩]
  omega

/-! ## Claims settled by running the code on a concrete input -/

set_option maxRecDepth 100000 in
/-- C1, as stated, fails: the header built by the calls c1Reqs holds one entry of
every type that dataLength supports, headerLoad(headerUnload(h)) returns a
header, and its iteration differs from the iteration of h: the entry of the
null type (data length 0) is left out by the encoder, 8 items against 9. -/
theorem C1_counterexample :
    addAll headerNew c1Reqs = some c1Header
      ∧ (∀ t ∈ [0, 1, 2, 3, 4, 6, 7, 8, 9], ∃ e ∈ c1Header.index, e.info.type = t)
      ∧ (loadUnload true junk0 c1Header).isHeader = true
      ∧ iterate true (loadUnload true junk0 c1Header).header ≠ iterate true c1Header
      ∧ (iterate true c1Header).toOption.map List.length = some 9
      ∧ (iterate true (loadUnload true junk0 c1Header).header).toOption.map List.length = some 8 := by
  decide

set_option maxRecDepth 100000 in
/-- C2, as stated, fails: the block c2Buf is in region format, its region holds
a descriptor with tag 1000 and two trailing dribble descriptors carry tag 1000
as well; headerLoad returns a header that holds two entries with tag 1000. -/
theorem C2_counterexample :
    (descriptors c2Buf).map (fun d => d.tag) = [61, 1000, 1000, 1000]
      ∧ (regionParts true c2Buf).toOption.map
          (fun o => o.map fun parts => (parts.region.map fun e => e.info.tag,
            parts.dribbles.map fun dr => dr.map fun e => e.info.tag))
          = some (some ([61, 1000], some [1000, 1000]))
      ∧ (headerLoad true c2Buf).isHeader = true
      ∧ ((headerLoad true c2Buf).header.index.filter fun e => decide (e.info.tag = 1000)).length = 2 := by
  decide

set_option maxRecDepth 100000 in
/-- C3 fails on the code: for the header c3Header (built by headerNew,
headerAddEntry and headerReload calls) headerReload succeeds, and a second
headerReload of the result returns NULL: the encoder sizes the dribble data in
tag order, copies it in the order of the block, and fails its own check. -/
theorem C3_reload_not_idempotent :
    (headerReload true junk0 c3Header 0).isHeader = true
      ∧ (iterate true (headerReload true junk0 c3Header 0).header).toOption.map
          (fun l => l.map fun i => i.tag) = some [1000, 2000, 3000, 4000]
      ∧ headerReload true junk0 (headerReload true junk0 c3Header 0).header 0 = Res.ok none := by
  decide

set_option maxRecDepth 100000 in
/-- C4, as stated, fails: headerLoad accepts the legacy block c4Buf, and the
block headerUnload returns for the loaded header carries the region verbatim,
with the int32 descriptor (tag 1001) at data offset 1. -/
theorem C4_counterexample :
    (headerLoad true c4Buf).isHeader = true
      ∧ (descriptors (headerUnload true junk0 (headerLoad true c4Buf).header).block).map
          (fun d => (d.tag, d.type, d.offset)) = [(61, 7, 8), (1000, 2, 0), (1001, 4, 1)]
      ∧ ¬ AlignedOffsets (headerUnload true junk0 (headerLoad true c4Buf).header).block := by
  decide

set_option maxRecDepth 100000 in
/-- C6 fails on the code: the stream c6Stream declares il = 0x10000000 and
dl = 0, so 8 + 16*il + dl exceeds 32 MiB, but the int that headerRead computes
wraps to 8, passes the check and is handed to xmalloc. -/
theorem C6_size_bound_overflow :
    (8 + 16 * toInt32 (beVal (c6Stream.take 4)) + toInt32 (beVal ((c6Stream.drop 4).take 4)) : Int)
        > 32 * 1024 * 1024
      ∧ (headerRead true c6Stream false).xmallocArg = some 8
      ∧ (headerRead false c6Stream false).xmallocArg = some 8 := by
  decide

set_option maxRecDepth 100000 in
/-- C7 fails on the code: the first descriptor of the block c7Buf has type id
77, outside [RPM_MIN_TYPE, RPM_MAX_TYPE]; the block declares dl = -1, the
error value -1 of regionSwab equals dl, and headerLoad (also through
headerRead) returns a header of three entries instead of NULL. -/
theorem C7_out_of_range_type_accepted :
    (descriptorAt c7Buf 0).map (fun d => decide (d.type < RPM_MIN_TYPE ∨ d.type > RPM_MAX_TYPE))
        = some true
      ∧ (headerLoad true c7Buf).isHeader = true
      ∧ (headerLoad true c7Buf).header.index.length = 3
      ∧ (headerRead true c7Buf false).result.isHeader = true := by
  decide

set_option maxRecDepth 100000 in
/-- C8, as stated, fails: the block c8Buf is in region format (first tag 61)
and declares dl = 99, the data length reconstructed from its descriptors is 4
(20 with the region trailer), and headerLoad returns a header. -/
theorem C8_counterexample :
    firstTag c8Buf = some 61 ∧ getS32 c8Buf 4 = some 99
      ∧ (headerLoad true c8Buf).isHeader = true
      ∧ (headerLoad true c8Buf).header.index.map (fun e => (e.info.tag, e.rdlen))
          = [(61, 4), (1000, 0)] := by
  decide

set_option maxRecDepth 100000 in
/-- C9, as stated, fails: the first 8 bytes of c9Stream differ from the magic
(in the last byte) and headerRead with HEADER_MAGIC_YES returns a header. -/
theorem C9_counterexample :
    c9Stream.take 8 ≠ header_magic
      ∧ (headerRead true c9Stream true).result.isHeader = true := by
  decide

set_option maxRecDepth 100000 in
/-- C10, as stated, fails: the first tag of c10Buf is 1000, not below
HEADER_I18NTABLE, and headerLoad sets the legacy flag; the first tag of c8Buf
is 61, below HEADER_I18NTABLE, and headerLoad leaves the legacy flag clear. -/
theorem C10_counterexample :
    firstTag c10Buf = some 1000 ∧ ¬ ((1000 : Int) < HEADER_I18NTABLE)
      ∧ (headerLoad true c10Buf).isHeader = true
      ∧ (headerLoad true c10Buf).header.legacy = true
      ∧ firstTag c8Buf = some 61 ∧ (61 : Int) < HEADER_I18NTABLE
      ∧ (headerLoad true c8Buf).isHeader = true
      ∧ (headerLoad true c8Buf).header.legacy = false := by
  decide

/-! ## Claims about headerRead and the format detection of headerLoad -/

/-- C8, amended: for every block in legacy format (first tag not below
HEADER_I18NTABLE) with a non-negative entry count, if the data length that
regionSwab reconstructs from the descriptors differs from the declared data
length, headerLoad returns NULL. -/
theorem C8_legacy_length_mismatch (le : Bool) (uh : List Nat) (il dl rdlen : Int) (tag0 : Nat)
    (hil : getS32 uh 0 = some il) (hnn : 0 ≤ il) (hdl : getS32 uh 4 = some dl)
    (htag : firstTag uh = some tag0) (hleg : ¬ ((tag0 : Int) < HEADER_I18NTABLE))
    (hrd : legacyRdlen le uh = Res.ok rdlen) (hne : rdlen ≠ dl) :
    headerLoad le uh = Res.ok none := by
  obtain ⟨mem, hfix, hget⟩ := firstTag_eq htag
  have h1 : ¬ (il + 1 < 0) := by omega
  have h2 : ¬ (il < 0) := by omega
  unfold legacyRdlen at hrd
  simp only [hil, hfix] at hrd
  unfold headerLoad
  simp only [hil, hdl, hfix, hget, h1, hleg, if_false, not_false_eq_true, if_true]
  unfold loadLegacy
  simp only [h2, if_false]
  cases hr : regionSwab le (some il.toNat) il 0 8 (8 + il * 16) (wrap32 (8 - (8 + il * 16))) mem with
  | ok r =>
    rw [hr] at hrd
    simp only [Res.ok.injEq] at hrd
    simp [hrd, hne]
  | exit => rw [hr] at hrd; simp at hrd
  | fault => rw [hr] at hrd; simp at hrd

set_option maxRecDepth 100000 in
/-- Witness of C8_legacy_length_mismatch: a legacy block of one int8 entry that
declares 5 data bytes while its descriptor accounts for 1. -/
theorem C8_legacy_length_mismatch_witness :
    headerLoad true [0, 0, 0, 1, 0, 0, 0, 5, 0, 0, 3, 232, 0, 0, 0, 2, 0, 0, 0, 1, 0, 0, 0, 0, 7]
      = Res.ok none :=
  C8_legacy_length_mismatch true _ 1 5 1 1000 (by decide) (by decide) (by decide) (by decide)
    (by decide) (by decide) (by decide)

/-- C9, amended: headerRead called with HEADER_MAGIC_YES returns NULL whenever the
first 4 bytes of the stream differ from 8e ad e8 01 (the next 4 bytes are read
as a reserved word and not compared). -/
theorem C9_bad_magic_rejected (le : Bool) (stream : List Nat)
    (h : stream.take 4 ≠ [0x8e, 0xad, 0xe8, 0x01]) :
    (headerRead le stream true).result = Res.ok none := by
  unfold headerRead
  simp only [if_true]
  by_cases hlen : stream.length < 4 * 4
  · simp [hlen]
  · have h4 : (stream.take (4 * 4)).take 4 = stream.take 4 := by
      rw [List.take_take]; simp
    simp only [hlen, if_false, h4]
    have : stream.take 4 ≠ header_magic.take 4 := by
      simpa [header_magic] using h
    simp [this]

/-- Witness of C9_bad_magic_rejected: a stream of 16 zero bytes. -/
theorem C9_bad_magic_rejected_witness :
    (List.replicate 16 0).take 4 ≠ [0x8e, 0xad, 0xe8, 0x01]
      ∧ (headerRead true (List.replicate 16 0) true).result = Res.ok none :=
  ⟨by decide, C9_bad_magic_rejected true _ (by decide)⟩

/-- C10, amended: a header that headerLoad returns has the legacy flag set
exactly when the first descriptor's tag (read after the verifyscript
correction, as an unsigned value) is not below HEADER_I18NTABLE; in that case
the index holds il + 1 entries, one of them the synthesized region entry with
tag HEADER_IMAGE, type REGION_TAG_TYPE, count REGION_TAG_COUNT, offset -16*il
and data pointing at the first descriptor. -/
theorem C10_legacy_detection (le : Bool) (uh : List Nat) (h : Header)
    (hl : headerLoad le uh = Res.ok (some h)) :
    (h.legacy = true ↔ ∃ tag0, firstTag uh = some tag0 ∧ ¬ ((tag0 : Int) < HEADER_I18NTABLE))
      ∧ (h.legacy = true → ∃ il e, getS32 uh 0 = some il ∧ (h.index.length : Int) = il + 1
          ∧ e ∈ h.index ∧ e.info.tag = HEADER_IMAGE ∧ e.info.type = REGION_TAG_TYPE
          ∧ e.info.count = REGION_TAG_COUNT ∧ e.info.offset = wrap32 (-(il * 16))
          ∧ e.data = EntryData.blob 8) := by
  unfold headerLoad at hl
  cases hil : getS32 uh 0 with
  | none => simp [hil] at hl
  | some il =>
    cases hdl : getS32 uh 4 with
    | none => simp [hil, hdl] at hl
    | some dl =>
      simp only [hil, hdl] at hl
      by_cases h1 : il + 1 < 0
      · simp [h1] at hl
      · simp only [h1, if_false] at hl
        cases hfix : fixVerifyScript uh 8 with
        | none => simp [hfix] at hl
        | some mem =>
          simp only [hfix] at hl
          cases hget : getU32 mem 8 with
          | none => simp [hget] at hl
          | some tag0 =>
            simp only [hget] at hl
            have hft : firstTag uh = some tag0 := by simp [firstTag, hfix, hget]
            by_cases hlt : (tag0 : Int) < HEADER_I18NTABLE
            · simp only [hlt, not_true_eq_false, if_false] at hl
              have hleg := loadRegion_legacy hl
              constructor
              · constructor
                · intro hc; rw [hleg] at hc; exact absurd hc (by decide)
                · rintro ⟨t, ht, hnt⟩
                  rw [hft] at ht
                  simp only [Option.some.injEq] at ht
                  subst ht
                  exact absurd hlt hnt
              · intro hc; rw [hleg] at hc; exact absurd hc (by decide)
            · simp only [hlt, not_false_eq_true, if_true] at hl
              unfold loadLegacy at hl
              by_cases h2 : il < 0
              · simp [h2] at hl
              · simp only [h2, if_false] at hl
                cases hr : regionSwab le (some il.toNat) il 0 8 (8 + il * 16)
                    (wrap32 (8 - (8 + il * 16))) mem with
                | ok r =>
                  rw [hr] at hl
                  simp only at hl
                  by_cases h3 : r.rc ≠ dl
                  · simp [h3] at hl
                  · simp only [h3, if_false, Res.ok.injEq, Option.some.injEq] at hl
                    subst hl
                    refine ⟨⟨fun _ => ⟨tag0, hft, hlt⟩, fun _ => rfl⟩, fun _ => ?_⟩
                    refine ⟨il, _, rfl, ?_, mem_qsort.mpr (mem_indexSlots il _ r.out (by omega)),
                      rfl, rfl, rfl, ?_, rfl⟩
                    · simp only [qsort_length]
                      rw [indexSlots_length il _ _ (by omega)]
                      omega
                    · show wrap32 (8 - (8 + il * 16)) = wrap32 (-(il * 16))
                      congr 1; omega
                | exit => rw [hr] at hl; simp at hl
                | fault => rw [hr] at hl; simp at hl

set_option maxRecDepth 100000 in
/-- Witness of C10_legacy_detection: the block c10Buf, which headerLoad accepts. -/
theorem C10_legacy_detection_witness :
    ((headerLoad true c10Buf).header.legacy = true
        ↔ ∃ tag0, firstTag c10Buf = some tag0 ∧ ¬ ((tag0 : Int) < HEADER_I18NTABLE))
      ∧ ((headerLoad true c10Buf).header.legacy = true → ∃ il e, getS32 c10Buf 0 = some il
          ∧ ((headerLoad true c10Buf).header.index.length : Int) = il + 1
          ∧ e ∈ (headerLoad true c10Buf).header.index ∧ e.info.tag = HEADER_IMAGE
          ∧ e.info.type = REGION_TAG_TYPE ∧ e.info.count = REGION_TAG_COUNT
          ∧ e.info.offset = wrap32 (-(il * 16)) ∧ e.data = EntryData.blob 8) :=
  C10_legacy_detection true c10Buf (headerLoad true c10Buf).header (by decide)

/-! ## Claims about the round trip through headerUnload and headerLoad -/

/-- C1, amended: for a header h built with headerNew and calls of headerAddEntry
with tags not below HEADER_I18NTABLE, holding at least one entry with data and
small enough for the int sizes, headerLoad(headerUnload(h)) returns a header
whose iteration hands out, in ascending tag order, the (tag, type, count, data)
of exactly the entries of h with non-empty data; the iteration of h itself
hands out all entries of h, so both agree when no entry of h has the null
type. -/
theorem C1_roundtrip (le : Bool) (junk : Nat → Nat) (h : Header) (hb : Built h)
    (htags : ∀ e ∈ h.index, HEADER_I18NTABLE ≤ e.info.tag)
    (hne : liveEntries h ≠ [])
    (hsize : 8 + 16 * ((liveEntries h).length : Int) + dataEnd (liveEntries h) 0 < 2147483648) :
    ∃ nh, loadUnload le junk h = Res.ok (some nh)
      ∧ iterate le nh = Res.ok ((liveEntries h).map entryItem)
      ∧ iterate le h = Res.ok ((qsort indexCmp h.index).map entryItem)
      ∧ ((∀ e ∈ h.index, e.info.type ≠ RPM_NULL_TYPE) → iterate le nh = iterate le h) := by
  obtain ⟨nh, h1, h2⟩ := loadUnload_built le junk hb htags hne hsize
  refine ⟨nh, h1, h2, iterate_built le hb htags, ?_⟩
  intro hnn
  rw [h2, iterate_built le hb htags]
  unfold liveEntries
  rw [live_all]
  intro e he
  have he2 := mem_qsort.mp he
  exact Added.length_pos ((built_inv hb).1 e he2) (hnn e he2)

set_option maxRecDepth 100000 in
/-- C1, amended, on the header built by the calls c1Reqs. -/
theorem C1_roundtrip_witness :
    ∃ nh, loadUnload true junk0 c1Header = Res.ok (some nh)
      ∧ iterate true nh = Res.ok ((liveEntries c1Header).map entryItem)
      ∧ iterate true c1Header = Res.ok ((qsort indexCmp c1Header.index).map entryItem)
      ∧ ((∀ e ∈ c1Header.index, e.info.type ≠ RPM_NULL_TYPE)
          → iterate true nh = iterate true c1Header) :=
  C1_roundtrip true junk0 c1Header
    (built_of_addAll c1Reqs Built.new (by decide)) (by decide) (by decide) (by decide)

/-! ## Claims about the block that headerUnload writes -/

/-- C5: for a header h built with headerNew and calls of headerAddEntry (tags
not below HEADER_I18NTABLE, data bytes below 256, sizes within the int range)
headerUnload passes its checks and returns the wire image of the entries of h
with non-empty data taken in ascending tag order: the big-endian words il (the
number of these entries) and dl, il descriptors (tag, type, count, offset; each
big-endian), then the data section with int16 and int32 items big-endian and
all other data verbatim; the block has 8 + 16*il + dl bytes. -/
theorem C5_wire_layout (le : Bool) (junk : Nat → Nat) (h : Header) (hb : Built h)
    (htags : ∀ e ∈ h.index, HEADER_I18NTABLE ≤ e.info.tag)
    (hbytes : ∀ e ∈ h.index, ∀ b ∈ entryBytes e, b < 256)
    (hsize : 8 + 16 * ((liveEntries h).length : Int) + dataEnd (liveEntries h) 0 < 2147483648) :
    ∃ h1, headerUnload le junk h = Res.ok (h1, some (wireImage le (liveEntries h)))
      ∧ ((wireImage le (liveEntries h)).length : Int)
          = 8 + 16 * ((liveEntries h).length : Int) + dataEnd (liveEntries h) 0
      ∧ ((dataImageWith (wireData le) (liveEntries h) 0).length : Int) = dataEnd (liveEntries h) 0
      ∧ (liveEntries h).Pairwise tagLe
      ∧ (liveEntries h).Perm (h.index.filter (fun e => decide (0 < e.length))) := by
  have hes : ∀ e ∈ liveEntries h, Added e ∧ ∀ b ∈ entryBytes e, b < 256 := fun e he =>
    ⟨(liveEntries_added hb htags e he).1, hbytes e (mem_qsort.mp (mem_live.mp he).1)⟩
  have heq := rawImage_eq_wireImage le hes
  have hlen := rawImage_length le (fun e he => (hes e he).1)
  rw [heq] at hlen
  refine ⟨{ h with index := qsort indexCmp h.index, sorted := true }, ?_, hlen, ?_,
    liveEntries_sorted hb htags, liveEntries_perm h⟩
  · unfold headerUnload
    rw [doHeaderUnload_built le junk hb htags hsize, heq]
  · have := dataImageWith_length (wireData le) (liveEntries h) 0 (fun e he => by
      rw [← wireRaw_eq_wireData le (hes e he).1 (hes e he).2, wireRaw_length le (hes e he).1,
        (hes e he).1.length])
    omega

set_option maxRecDepth 100000 in
/-- C5 on the header built by the calls c1Reqs, on a little-endian host. -/
theorem C5_wire_layout_witness :
    ∃ h1, headerUnload true junk0 c1Header = Res.ok (h1, some (wireImage true (liveEntries c1Header)))
      ∧ ((wireImage true (liveEntries c1Header)).length : Int)
          = 8 + 16 * ((liveEntries c1Header).length : Int) + dataEnd (liveEntries c1Header) 0
      ∧ ((dataImageWith (wireData true) (liveEntries c1Header) 0).length : Int)
          = dataEnd (liveEntries c1Header) 0
      ∧ (liveEntries c1Header).Pairwise tagLe
      ∧ (liveEntries c1Header).Perm (c1Header.index.filter (fun e => decide (0 < e.length))) :=
  C5_wire_layout true junk0 c1Header
    (built_of_addAll c1Reqs Built.new (by decide)) (by decide) (by decide) (by decide)

/-- C4, amended: for a header h without a region (built with headerNew and
calls of headerAddEntry, tags not below HEADER_I18NTABLE, sizes within the int
range), every descriptor of the block uh that headerUnload returns has a data
offset that is a multiple of the width of its type (2 for int16, 4 for int32,
1 otherwise); the data section of uh is, for each entry in turn, the zero bytes
that bring the running offset up to that multiple followed by the data of the
entry, and the declared data length is the length of this section, padding
included. -/
theorem C4_alignment (le : Bool) (junk : Nat → Nat) (h : Header) (hb : Built h)
    (htags : ∀ e ∈ h.index, HEADER_I18NTABLE ≤ e.info.tag)
    (hsize : 8 + 16 * ((liveEntries h).length : Int) + dataEnd (liveEntries h) 0 < 2147483648) :
    ∃ h1 uh, headerUnload le junk h = Res.ok (h1, some uh)
      ∧ AlignedOffsets uh
      ∧ descriptors uh = entryInfos (liveEntries h) 0
      ∧ uh.drop (8 + 16 * (liveEntries h).length)
          = dataImageWith (wireRaw le) (liveEntries h) 0
      ∧ (∃ dl, getS32 uh 4 = some dl
          ∧ ((dataImageWith (wireRaw le) (liveEntries h) 0).length : Int) = dl) := by
  have hes : ∀ e ∈ liveEntries h, Added e := fun e he => (liveEntries_added hb htags e he).1
  have hdesc := descriptors_rawImage le hes hsize
  have hD0 : 0 ≤ dataEnd (liveEntries h) 0 :=
    dataEnd_mono _ 0 (fun x hx => by have := (hes x hx).length; omega)
  refine ⟨{ h with index := qsort indexCmp h.index, sorted := true },
    rawImage le (liveEntries h), ?_, ?_, hdesc, rawImage_data le _, dataEnd (liveEntries h) 0,
    ?_, ?_⟩
  · unfold headerUnload
    exact doHeaderUnload_built le junk hb htags hsize
  · unfold AlignedOffsets
    rw [hdesc]
    exact entryInfos_aligned _ 0
  · have := getS32_mid (putBE32 ((liveEntries h).length : Int))
      (descImage (liveEntries h) 0 ++ dataImageWith (wireRaw le) (liveEntries h) 0)
      (dataEnd (liveEntries h) 0) 4 (by simp [putBE32_length]) ⟨by omega, by omega⟩
    simpa [rawImage, List.append_assoc] using this
  · have := dataImageWith_length (wireRaw le) (liveEntries h) 0
      (fun e he => by rw [wireRaw_length le (hes e he), (hes e he).length])
    omega

set_option maxRecDepth 100000 in
/-- C4, amended, on the header built by the calls c1Reqs, on a big-endian host. -/
theorem C4_alignment_witness :
    ∃ h1 uh, headerUnload false junk0 c1Header = Res.ok (h1, some uh)
      ∧ AlignedOffsets uh
      ∧ descriptors uh = entryInfos (liveEntries c1Header) 0
      ∧ uh.drop (8 + 16 * (liveEntries c1Header).length)
          = dataImageWith (wireRaw false) (liveEntries c1Header) 0
      ∧ (∃ dl, getS32 uh 4 = some dl
          ∧ ((dataImageWith (wireRaw false) (liveEntries c1Header) 0).length : Int) = dl) :=
  C4_alignment false junk0 c1Header
    (built_of_addAll c1Reqs Built.new (by decide)) (by decide) (by decide)

/-! ## Claims about dribble entries -/

/-- C2, amended: let the block uh be in region format (first tag below
HEADER_I18NTABLE) and let headerLoad materialize from it region entries that
are in ascending tag order and dribble entries, all with tags in the range
0 .. 2^31 - 1. For a dribble entry d whose tag no other dribble entry carries,
headerLoad returns a header that holds exactly one entry with the tag of d, and
that entry is d (type, count and data of the dribble descriptor), whether or
not the region holds a descriptor with that tag. -/
theorem C2_dribble_precedence (le : Bool) (uh : List Nat) (parts : RegionParts)
    (dr : List indexEntry) (d : indexEntry)
    (hfmt : ∃ t, firstTag uh = some t ∧ (t : Int) < HEADER_I18NTABLE)
    (hparts : regionParts le uh = Res.ok (some parts)) (hdr : parts.dribbles = some dr)
    (hsorted : parts.region.Pairwise tagLe)
    (htags : ∀ e ∈ parts.region ++ dr, 0 ≤ e.info.tag ∧ e.info.tag < 2147483648)
    (hd : dr.filter (fun e => decide (e.info.tag = d.info.tag)) = [d]) :
    ∃ h, headerLoad le uh = Res.ok (some h)
      ∧ h.index.filter (fun e => decide (e.info.tag = d.info.tag)) = [d] := by
  obtain ⟨t, hft, htl⟩ := hfmt
  unfold regionParts at hparts
  unfold firstTag at hft
  unfold headerLoad
  cases h0 : getS32 uh 0 with
  | none => simp [h0] at hparts
  | some il =>
    cases h4 : getS32 uh 4 with
    | none => simp [h0, h4] at hparts
    | some dl =>
      cases hfix : fixVerifyScript uh 8 with
      | none => simp [hfix] at hft
      | some mem =>
        simp only [hfix] at hft
        simp only [h0, h4, hfix, hft] at hparts
        have hil : ¬ il < 0 := by
          intro hneg
          unfold loadRegionParts at hparts
          simp [hneg] at hparts
        have hil1 : ¬ il + 1 < 0 := by omega
        simp only [hil1, if_false, hft, htl, not_true_eq_false]
        unfold loadRegion
        simp only [hparts, hdr]
        obtain ⟨idx, hr, hsub, hne⟩ := removeDuplicates_sorted dr parts.region false false
          parts.mem hsorted (fun e he => htags e (List.mem_append_left _ he))
          (fun e he => htags e (List.mem_append_right _ he))
        refine ⟨_, rfl, ?_⟩
        simp only [hr]
        have hdm : d ∈ dr := by
          have : d ∈ dr.filter (fun e => decide (e.info.tag = d.info.tag)) := by simp [hd]
          exact (List.mem_filter.mp this).1
        have hperm := List.Perm.filter (fun e => decide (e.info.tag = d.info.tag))
          (qsort_perm indexCmp (idx ++ dr))
        have hnil : idx.filter (fun e => decide (e.info.tag = d.info.tag)) = [] :=
          List.filter_eq_nil_iff.mpr (fun e he => by simpa using hne e he d hdm)
        rw [List.filter_append, hd, hnil, List.nil_append] at hperm
        exact List.perm_singleton.mp hperm

set_option maxRecDepth 100000 in
/-- C2, amended, on the block c2OneDribble: its region holds a descriptor with
tag 1000, one trailing dribble descriptor carries tag 1000, and the header that
headerLoad returns holds the dribble entry as its only entry with tag 1000. -/
theorem C2_dribble_precedence_witness :
    (∃ e ∈ c2Parts.region, e.info.tag = c2Dribble.info.tag)
      ∧ ∃ h, headerLoad true c2OneDribble = Res.ok (some h)
          ∧ h.index.filter (fun e => decide (e.info.tag = c2Dribble.info.tag)) = [c2Dribble] :=
  ⟨by decide,
    C2_dribble_precedence true c2OneDribble c2Parts [c2Dribble] c2Dribble
      ⟨61, by decide, by decide⟩ (by decide) rfl (by decide) (by decide) (by decide)⟩

/-! ## Claims about removing, adding and appending entries -/

set_option maxRecDepth 100000 in
/-- C14, as stated, fails: the header c14Header is built by adding the tags 2000,
1000 and 3000 in this order. headerRemoveEntry for the absent tag 4000 returns
1 but leaves the index sorted by tag, so h is not unchanged; and removing tag
3000 leaves the entries 2000 and 1000 in the opposite relative order. -/
theorem C14_counterexample :
    addAll headerNew c14Reqs = some c14Header
      ∧ c14Header.index.map (fun e => e.info.tag) = [2000, 1000, 3000]
      ∧ (headerRemoveEntry c14Header 4000).2 = 1
      ∧ (headerRemoveEntry c14Header 4000).1 ≠ c14Header
      ∧ (headerRemoveEntry c14Header 4000).1.index.map (fun e => e.info.tag) = [1000, 2000, 3000]
      ∧ (headerRemoveEntry c14Header 3000).2 = 0
      ∧ (headerRemoveEntry c14Header 3000).1.index.map (fun e => e.info.tag) = [1000, 2000] := by
  decide

/-- C14, amended: for a header whose tags lie in 0 .. 2^31 - 1 (and whose index
is in tag order when its sorted flag is set), headerRemoveEntry(h, tag) first
sorts the index by tag if the sorted flag is clear, then deletes every entry
whose tag equals tag and keeps all other entries as they are, in the order of
the sorted index; it returns 0 when the tag was present, and when it was
absent it returns 1 and leaves h as headerSort leaves it (unchanged when h was
sorted). -/
theorem C14_remove_frame (h : Header) (tag : Int) (hi : SortInv h)
    (ht : 0 ≤ tag ∧ tag < 2147483648) :
    (headerRemoveEntry h tag).1
        = Header.mk ((headerSort h).index.filter (fun e => decide (e.info.tag ≠ tag))) true
            h.allocated h.legacy h.blob
      ∧ ((∃ e ∈ h.index, e.info.tag = tag) → (headerRemoveEntry h tag).2 = 0)
      ∧ ((∀ e ∈ h.index, e.info.tag ≠ tag) → headerRemoveEntry h tag = (headerSort h, 1))
      ∧ (h.sorted = true → headerSort h = h) := by
  obtain ⟨hs, hb⟩ := headerSort_inv hi
  refine ⟨?_, (headerRemoveEntry_rc hi ht).1, (headerRemoveEntry_rc hi ht).2,
    headerSort_of_sorted⟩
  rw [← headerRemoveEntry_headerSort, headerRemoveEntry_sorted (headerSort_sorted h) hs ht hb]
  have h1 : (headerSort h).allocated = h.allocated := by unfold headerSort; split <;> rfl
  have h2 : (headerSort h).legacy = h.legacy := headerSort_legacy h
  simp only [headerSort_sorted, h1, h2, headerSort_blob]

set_option maxRecDepth 100000 in
/-- C14, amended, on the header c14Header and the tag 3000. -/
theorem C14_remove_frame_witness :
    (headerRemoveEntry c14Header 3000).1
        = Header.mk ((headerSort c14Header).index.filter (fun e => decide (e.info.tag ≠ 3000))) true
            c14Header.allocated c14Header.legacy c14Header.blob
      ∧ ((∃ e ∈ c14Header.index, e.info.tag = 3000) → (headerRemoveEntry c14Header 3000).2 = 0)
      ∧ ((∀ e ∈ c14Header.index, e.info.tag ≠ 3000)
          → headerRemoveEntry c14Header 3000 = (headerSort c14Header, 1))
      ∧ (c14Header.sorted = true → headerSort c14Header = c14Header) :=
  C14_remove_frame c14Header 3000 (by decide) (by decide)

/-- C15: headerAddEntry with a count c <= 0 returns 0 and leaves the header as
it is. -/
theorem C15_insert_rejected (h : Header) (tag type : Int) (p : hPTR) (c : Int) (hc : c ≤ 0) :
    headerAddEntry h tag type p c = Res.ok (h, 0) := by
  unfold headerAddEntry
  simp [hc]

/-- C15 on the header c14Header with count 0. -/
theorem C15_insert_rejected_witness :
    headerAddEntry c14Header 5000 RPM_INT8_TYPE (hPTR.bytes [1] 0) 0 = Res.ok (c14Header, 0) :=
  C15_insert_rejected c14Header 5000 RPM_INT8_TYPE (hPTR.bytes [1] 0) 0 (by decide)

set_option maxRecDepth 100000 in
/-- C16, as stated, fails: for the string array type headerAppendEntry does not
refuse; on the header c16Header (tag 1000, the string "a") it returns 1 and the
entry then holds the two strings "a" and "b". -/
theorem C16_counterexample :
    c16Header.index.map (fun e => (e.info.tag, e.info.type, e.info.count, e.data))
        = [(1000, RPM_STRING_ARRAY_TYPE, 1, EntryData.owned [97, 0])]
      ∧ (headerAppendEntry junk0 c16Header 1000 RPM_STRING_ARRAY_TYPE
            (hPTR.strv [some [98, 0]]) 1).toOption.map
          (fun r => (r.2, r.1.index.map (fun e => (e.info.tag, e.info.type, e.info.count, e.data))))
        = some (1, [(1000, RPM_STRING_ARRAY_TYPE, 2, EntryData.owned [97, 0, 98, 0])]) := by
  decide

/-- C16, amended: headerAppendEntry with type RPM_STRING_TYPE or
RPM_I18NSTRING_TYPE returns 0 and keeps every entry of h, whether or not an
entry with that tag and type exists; the only change to h is the sort by tag
that the lookup makes when the sorted flag is clear. -/
theorem C16_append_rejected (junk : Nat → Nat) (h : Header) (tag type : Int) (p : hPTR) (c : Int)
    (ht : type = RPM_STRING_TYPE ∨ type = RPM_I18NSTRING_TYPE) :
    headerAppendEntry junk h tag type p c = Res.ok (headerSort h, 0)
      ∧ (headerSort h).index.Perm h.index
      ∧ (h.sorted = true → headerSort h = h) := by
  refine ⟨?_, headerSort_perm h, headerSort_of_sorted⟩
  unfold headerAppendEntry
  rw [findEntry_eq]
  cases (findEntry h tag type).2 with
  | none => rfl
  | some i => simp only [ht, if_true]

set_option maxRecDepth 100000 in
/-- C16, amended, on a header with an entry of type RPM_I18NSTRING_TYPE. -/
theorem C16_append_rejected_witness :
    headerAppendEntry junk0 c13Header 1000 RPM_I18NSTRING_TYPE (hPTR.strv [some [99, 0]]) 1
        = Res.ok (headerSort c13Header, 0)
      ∧ (headerSort c13Header).index.Perm c13Header.index
      ∧ (c13Header.sorted = true → headerSort c13Header = c13Header) :=
  C16_append_rejected junk0 c13Header 1000 RPM_I18NSTRING_TYPE (hPTR.strv [some [99, 0]]) 1
    (Or.inr rfl)

/-! ## Claims about locale matching -/

/-- C20, as stated, fails: for the table string "en_GB" and the request "en.U"
headerMatchLocale returns 1, although "en_GB" is neither the request nor the
request without its ".U" (the request holds no '@' and no '_', so removing a
dialect or a country leaves it as it is). -/
theorem C20_counterexample :
    headerMatchLocale [101, 110, 95, 71, 66] [101, 110, 46, 85] = 1
      ∧ ([101, 110, 95, 71, 66] : List Nat) ≠ [101, 110, 46, 85]
      ∧ ([101, 110, 95, 71, 66] : List Nat) ≠ [101, 110]
      ∧ (64 : Nat) ∉ [101, 110, 46, 85] ∧ (95 : Nat) ∉ [101, 110, 46, 85] := by
  decide

/-- C20, amended: for a table string td and a request r (without NUL bytes),
headerMatchLocale returns 1 exactly when td equals r, or r holds a '@' and td
begins with the part of r before its first '@', or r holds a '.' and td begins
with the part of r before its first '.', or r holds a '_' and td begins with
the part of r before its first '_'; it returns 0 otherwise. -/
theorem C20_match_rules (td r : List Nat) (hr : ∀ b ∈ r, b ≠ 0) :
    (headerMatchLocale td r = 1
      ↔ (td = r
          ∨ (64 ∈ r ∧ r.takeWhile (fun b => decide (b ≠ 64)) <+: td)
          ∨ (46 ∈ r ∧ r.takeWhile (fun b => decide (b ≠ 46)) <+: td)
          ∨ (95 ∈ r ∧ r.takeWhile (fun b => decide (b ≠ 95)) <+: td)))
      ∧ (headerMatchLocale td r = 1 ∨ headerMatchLocale td r = 0) :=
  ⟨headerMatchLocale_iff td r hr, headerMatchLocale_range td r⟩

/-- C20, amended, for the table string "en" and the request "en_US". -/
theorem C20_match_rules_witness :
    (headerMatchLocale [101, 110] [101, 110, 95, 85, 83] = 1
      ↔ (([101, 110] : List Nat) = [101, 110, 95, 85, 83]
          ∨ (64 ∈ [101, 110, 95, 85, 83]
              ∧ [101, 110, 95, 85, 83].takeWhile (fun b => decide (b ≠ 64)) <+: [101, 110])
          ∨ (46 ∈ [101, 110, 95, 85, 83]
              ∧ [101, 110, 95, 85, 83].takeWhile (fun b => decide (b ≠ 46)) <+: [101, 110])
          ∨ (95 ∈ [101, 110, 95, 85, 83]
              ∧ [101, 110, 95, 85, 83].takeWhile (fun b => decide (b ≠ 95)) <+: [101, 110])))
      ∧ (headerMatchLocale [101, 110] [101, 110, 95, 85, 83] = 1
          ∨ headerMatchLocale [101, 110] [101, 110, 95, 85, 83] = 0) :=
  C20_match_rules [101, 110] [101, 110, 95, 85, 83] (by decide)

/-- C19: let h hold one i18n table entry t (tag HEADER_I18NTABLE, string array)
whose data are the locales tbl, let the data of the i18n string entry e be the
strings strs, one for each of the first locales of the table, and let the
environment request the colon-separated list lang. Then headerFindI18NString
returns a pointer into the data of e to the string that selectString picks:
for the leftmost request locale that some table locale matches
(headerMatchLocale), the entry string at the position of the first table
locale matching it, and the first entry string when no request locale matches
any table locale. -/
theorem C19_locale_selection (env : LocaleEnv) (h : Header) (e t : indexEntry)
    (tbl strs : List (List Nat)) (lang Pt St Pe Se : List Nat)
    (hi : SortInv h) (hw : withTag h HEADER_I18NTABLE = [t])
    (htype : t.info.type = RPM_STRING_ARRAY_TYPE)
    (htm : entryMem h.blob t.data = some (Pt ++ joinStrings tbl ++ St, (Pt.length : Int)))
    (hem : entryMem h.blob e.data = some (Pe ++ joinStrings strs ++ Se, (Pe.length : Int)))
    (hcount : e.info.count = (strs.length : Int)) (hne : strs ≠ [])
    (hlen : strs.length ≤ tbl.length)
    (ht : ∀ x ∈ tbl, ∀ b ∈ x, b ≠ 0) (hs : ∀ x ∈ strs, ∀ b ∈ x, b ≠ 0)
    (henv : env.lookup = some lang) :
    ∃ a : Int, headerFindI18NString env h e
        = Res.ok (headerSort h, some (Pe ++ joinStrings strs ++ Se, a))
      ∧ 0 ≤ a
      ∧ cstr ((Pe ++ joinStrings strs ++ Se).drop a.toNat) = selectString tbl strs (cstr lang) := by
  obtain ⟨A, B, hsplit, htag, hA, hB⟩ := split_of_filter (withTag_headerSort hw)
  have hfind := @findEntry_unique h HEADER_I18NTABLE RPM_STRING_ARRAY_TYPE A B t hi
    (by simp [HEADER_I18NTABLE]) hsplit htag hA hB
  simp only [htype, or_true, if_true] at hfind
  have hget : (headerSort h).index.get? A.length = some t := by
    rw [hsplit, List.get?_eq_getElem?, List.getElem?_append_right (le_refl _)]
    simp
  have hloop := findI18NLoop_spec St Se strs tbl Pt Pe hlen ht hs ((cstr lang).length + 1)
    (cstr lang) (by omega)
  have hdt : dataPtr h.blob t.data = (Pt ++ joinStrings tbl ++ St, (Pt.length : Int)) := by
    unfold dataPtr; rw [htm]; rfl
  have hde : dataPtr h.blob e.data = (Pe ++ joinStrings strs ++ Se, (Pe.length : Int)) := by
    unfold dataPtr; rw [hem]; rfl
  unfold headerFindI18NString
  simp only [henv, hfind, hget, headerSort_blob, hdt, hde, hcount, hem]
  unfold selectString
  cases hsel : (requestLocales (cstr lang)).findSome? (firstMatch tbl strs) with
  | none =>
    have h1 := hloop.1 hsel
    unfold cstr at h1
    rw [h1]
    refine ⟨(Pe.length : Int), rfl, by omega, ?_⟩
    obtain ⟨s, rest, rfl⟩ : ∃ s rest, strs = s :: rest := by
      cases strs with
      | nil => exact absurd rfl hne
      | cons s rest => exact ⟨s, rest, rfl⟩
    simp only [List.headD_cons, Int.toNat_ofNat, joinStrings, List.append_assoc, List.drop_left]
    exact cstr_string s _ (hs s (List.mem_cons_self _ _))
  | some s =>
    obtain ⟨a, h1, ha0, hcs, _⟩ := hloop.2 s hsel
    unfold cstr at h1
    rw [h1]
    exact ⟨a, rfl, ha0, hcs⟩

set_option maxRecDepth 100000 in
/-- C19 on the header c19Header, whose table holds the locales C, en, en_GB and
fr: the request en_US:fr selects the string stored for en, and the request de
selects the string stored for C. -/
theorem C19_locale_selection_witness :
    (∃ a : Int, headerFindI18NString (envLang [101, 110, 95, 85, 83, 58, 102, 114]) c19Header c19Entry
          = Res.ok (headerSort c19Header, some ([] ++ joinStrings c19Strings ++ [], a))
        ∧ 0 ≤ a
        ∧ cstr (([] ++ joinStrings c19Strings ++ []).drop a.toNat)
            = selectString c19Table c19Strings (cstr [101, 110, 95, 85, 83, 58, 102, 114]))
      ∧ selectString c19Table c19Strings (cstr [101, 110, 95, 85, 83, 58, 102, 114]) = [116, 119, 111]
      ∧ selectString c19Table c19Strings (cstr [100, 101]) = [111, 110, 101]
      ∧ c19Header.index = [c19Entry, c19TableEntry] :=
  ⟨C19_locale_selection (envLang [101, 110, 95, 85, 83, 58, 102, 114]) c19Header c19Entry
      c19TableEntry c19Table c19Strings [101, 110, 95, 85, 83, 58, 102, 114] [] [] [] []
      (by decide) (by decide) (by decide) (by decide) (by decide) (by decide) (by decide)
      (by decide) (by decide) (by decide) (by decide),
    by decide, by decide, by decide⟩

/-! ## Claims about removing an entry and adding it again -/

set_option maxRecDepth 100000 in
/-- C13, as stated, fails for the i18n string type: after headerRemoveEntry of
tag 1000 from c16Header the lookup reports not found, headerAddEntry of tag
1000 with type RPM_I18NSTRING_TYPE and the two strings "a" and "b" returns 1,
and headerGetEntry then reports type RPM_STRING_TYPE and count 1 with the one
string "a", not the new type and count. -/
theorem C13_counterexample :
    (headerRemoveEntry c16Header 1000).1 = headerNew
      ∧ headerGetEntry true envNone headerNew 1000
          = Res.ok (headerNew, GetOut.mk 0 none none 0)
      ∧ headerAddEntry headerNew 1000 RPM_I18NSTRING_TYPE
          (hPTR.strv [some [97, 0], some [98, 0]]) 2 = Res.ok (c13Header, 1)
      ∧ headerGetEntry true envNone c13Header 1000
          = Res.ok (c13Header, GetOut.mk 1 (some RPM_STRING_TYPE) (some (Value.str [97])) 1) := by
  decide

/-- C13, amended: for a header whose tags lie in 0 .. 2^31 - 1, a tag that is
not a region tag (HEADER_I18NTABLE <= tag) and a type other than
RPM_I18NSTRING_TYPE: after headerRemoveEntry(h, tag), headerGetEntry(h, tag)
returns 0 with data NULL and count 0; a following headerAddEntry(h, tag, type,
p, c) with c >= 1 whose copy of p succeeds returns 1, the new entry is then the
only entry with the tag, and headerGetEntry(h, tag) returns 1 with the new
type, the count c and the value copied from p. -/
theorem C13_remove_readd (le : Bool) (env : LocaleEnv) (h : Header) (tag type c length : Int)
    (p : hPTR) (data : List Nat) (hi : SortInv h)
    (ht : HEADER_I18NTABLE ≤ tag ∧ tag < 2147483648)
    (hty : type ≠ RPM_I18NSTRING_TYPE) (hI : isInt32 type ∧ isInt32 c) (hc : 1 ≤ c)
    (hg : grabData type p c = Res.ok (data, length)) :
    headerGetEntry le env (headerRemoveEntry h tag).1 tag
        = Res.ok ((headerRemoveEntry h tag).1, GetOut.mk 0 none none 0)
      ∧ ∃ h2, headerAddEntry (headerRemoveEntry h tag).1 tag type p c = Res.ok (h2, 1)
          ∧ withTag h2 tag
              = [indexEntry.mk ⟨tag, type, c, 0⟩ (EntryData.owned data) length 0]
          ∧ headerGetEntry le env h2 tag
              = Res.ok (headerSort h2, GetOut.mk 1 (some type)
                  (some (entryValue
                    (indexEntry.mk ⟨tag, type, c, 0⟩ (EntryData.owned data) length 0)))
                  c) := by
  have ht0 : 0 ≤ tag ∧ tag < 2147483648 := by unfold HEADER_I18NTABLE at ht; omega
  obtain ⟨hi1, hs1, hab⟩ := sortInv_removed hi ht0
  obtain ⟨hlen, hshape⟩ := grabData_shape hg
  have ha : Added (indexEntry.mk ⟨tag, type, c, 0⟩ (EntryData.owned data) length 0) :=
    ⟨rfl, rfl, ⟨by show -2147483648 ≤ tag; omega, by show tag < 2147483648; omega⟩, hI.1, hI.2,
      hc, rfl, hlen, hshape⟩
  refine ⟨?_, _, headerAddEntry_grab _ hc hg, ?_, ?_⟩
  · unfold headerGetEntry
    rw [intGetEntry_absent le env false hi1 ht0 hab, headerSort_of_sorted hs1]
  · unfold withTag
    simp only [List.filter_append]
    rw [List.filter_eq_nil_iff.mpr (fun e he => by simpa using hab e he)]
    simp
  · have hi2 := sortInv_snoc (x := indexEntry.mk ⟨tag, type, c, 0⟩ (EntryData.owned data) length 0)
      hi1 ht0
    have hw : withTag (Header.mk ((headerRemoveEntry h tag).1.index
          ++ [indexEntry.mk ⟨tag, type, c, 0⟩ (EntryData.owned data) length 0])
        ((headerRemoveEntry h tag).1.sorted && !(match (headerRemoveEntry h tag).1.index.getLast? with
          | some e => decide (tag < e.info.tag)
          | none => false))
        (headerRemoveEntry h tag).1.allocated (headerRemoveEntry h tag).1.legacy
        (headerRemoveEntry h tag).1.blob) tag
        = [indexEntry.mk ⟨tag, type, c, 0⟩ (EntryData.owned data) length 0] := by
      unfold withTag
      simp only [List.filter_append]
      rw [List.filter_eq_nil_iff.mpr (fun e he => by simpa using hab e he)]
      simp
    have hget := intGetEntry_unique le env hi2 hw ha ht hty
    unfold headerGetEntry
    rw [hget]
    have hcnt : (if type = RPM_BIN_TYPE then length else c) = c := by
      by_cases hbin : type = RPM_BIN_TYPE
      · simp only [hbin, if_true]
        unfold DataShape at hshape
        subst hbin
        simp only [RPM_BIN_TYPE, RPM_STRING_TYPE, RPM_STRING_ARRAY_TYPE, RPM_I18NSTRING_TYPE] at hshape
        norm_num at hshape
        obtain ⟨sz, h1, _, h3⟩ := hshape
        have : sz = 1 := by
          have := typeSizesAt_cases h1
          omega
        subst this
        omega
      · simp [hbin]
    simp only [hcnt]

set_option maxRecDepth 100000 in
/-- C13, amended, on the header c14Header: tag 1000 is removed and added again
as two int16 values. -/
theorem C13_remove_readd_witness :
    headerGetEntry true envNone (headerRemoveEntry c14Header 1000).1 1000
        = Res.ok ((headerRemoveEntry c14Header 1000).1, GetOut.mk 0 none none 0)
      ∧ ∃ h2, headerAddEntry (headerRemoveEntry c14Header 1000).1 1000 RPM_INT16_TYPE
            (hPTR.bytes [1, 2, 3, 4] 0) 2 = Res.ok (h2, 1)
          ∧ withTag h2 1000
              = [indexEntry.mk ⟨1000, RPM_INT16_TYPE, 2, 0⟩ (EntryData.owned [1, 2, 3, 4]) 4 0]
          ∧ headerGetEntry true envNone h2 1000
              = Res.ok (headerSort h2, GetOut.mk 1 (some RPM_INT16_TYPE)
                  (some (entryValue
                    (indexEntry.mk ⟨1000, RPM_INT16_TYPE, 2, 0⟩ (EntryData.owned [1, 2, 3, 4]) 4 0)))
                  2) :=
  C13_remove_readd true envNone c14Header 1000 RPM_INT16_TYPE 2 4 (hPTR.bytes [1, 2, 3, 4] 0)
    [1, 2, 3, 4] (by decide) (by decide) (by decide) (by decide) (by decide) (by decide)

/-! ## Claims about headerAppendEntry and headerModifyEntry -/

set_option maxRecDepth 100000 in
/-- A typed lookup misses an entry that lies behind the position bsearch
hands out: in c17Header (three entries of tag 1000, of the types int8, int16
and int32) the entry of type int32 exists, yet findEntry reports none for it
and headerAppendEntry and headerModifyEntry return 0. -/
theorem findEntry_behind_hit :
    (headerSort c17Header).index.map (fun e => (e.info.tag, e.info.type))
        = [(1000, RPM_INT8_TYPE), (1000, RPM_INT16_TYPE), (1000, RPM_INT32_TYPE)]
      ∧ bsearch 1000 (headerSort c17Header).index = some 1
      ∧ (findEntry c17Header 1000 RPM_INT32_TYPE).2 = none
      ∧ (headerAppendEntry junk0 c17Header 1000 RPM_INT32_TYPE (hPTR.bytes [8, 9, 10, 11] 0)
            1).toOption.map (fun r => r.2) = some 0
      ∧ (headerModifyEntry c17Header 1000 RPM_INT32_TYPE (hPTR.bytes [8, 9, 10, 11] 0)
            1).toOption.map (fun r => r.2) = some 0 := by
  decide

/-! ## Claims about lookup and iteration after inserts -/

set_option maxRecDepth 100000 in
/-- C11, as stated, fails. In c11Header, made by one headerAddEntry call of the
region tag 62 with the binary type, headerIsEntry returns 1 but headerGetEntry
takes the region branch of copyEntry and reads the 8 bytes in front of the
data block. In c11I18NHeader, made by adding a locale table with the one
locale "C" and an i18n string entry of tag 1000 with two strings,
headerIsEntry returns 1 but headerGetEntry with LANG=de walks the table past
its one string. -/
theorem C11_counterexample :
    headerAddEntry headerNew 62 RPM_BIN_TYPE (hPTR.bytes [1, 2, 3, 4] 0) 4 = Res.ok (c11Header, 1)
      ∧ (headerIsEntry c11Header 62).2 = 1
      ∧ headerGetEntry true envNone c11Header 62 = Res.fault
      ∧ addAll headerNew c11Reqs = some c11I18NHeader
      ∧ (headerIsEntry c11I18NHeader 1000).2 = 1
      ∧ headerGetEntry true (envLang [100, 101]) c11I18NHeader 1000 = Res.fault := by
  decide

/-- C11, amended: for every sequence of headerAddEntry calls that return 1,
applied in any tag order to a new header, with tags in 0 .. 2^31 - 1, no
region tag (below HEADER_I18NTABLE) on an entry of the binary type, and no
i18n string entry with more strings than a locale table (tag
HEADER_I18NTABLE, string array type) among the calls: headerIsEntry returns 1
and headerGetEntry returns 1 for the tag of every call, leaving the header
sorted by tag. -/
theorem C11_lookup_after_inserts (le : Bool) (env : LocaleEnv) (reqs : List AddReq) (h : Header)
    (r : AddReq) (hadd : addAll headerNew reqs = some h)
    (htags : ∀ q ∈ reqs, 0 ≤ q.tag ∧ (q.type = RPM_BIN_TYPE → HEADER_I18NTABLE ≤ q.tag))
    (hal : ∀ t ∈ reqs, t.tag = HEADER_I18NTABLE → t.type = RPM_STRING_ARRAY_TYPE →
      ∀ q ∈ reqs, q.type = RPM_I18NSTRING_TYPE → q.c ≤ t.c)
    (hr : r ∈ reqs) :
    headerIsEntry h r.tag = (headerSort h, 1)
      ∧ ∃ out, headerGetEntry le env h r.tag = Res.ok (headerSort h, out) ∧ out.rc = 1 := by
  have hinfo := addAll_infos reqs hadd
  simp only [headerNew, List.map_nil, List.nil_append] at hinfo
  have hof : ∀ e ∈ h.index, ∃ q ∈ reqs,
      q.tag = e.info.tag ∧ q.type = e.info.type ∧ q.c = e.info.count := by
    intro e he
    have hm : (e.info.tag, e.info.type, e.info.count)
        ∈ h.index.map (fun e => (e.info.tag, e.info.type, e.info.count)) :=
      List.mem_map.mpr ⟨e, he, rfl⟩
    rw [hinfo] at hm
    obtain ⟨q, hq, heq⟩ := List.mem_map.mp hm
    simp only [Prod.mk.injEq] at heq
    exact ⟨q, hq, heq⟩
  have hto : ∃ e ∈ h.index, e.info.tag = r.tag := by
    have hm : (r.tag, r.type, r.c) ∈ reqs.map (fun r => (r.tag, r.type, r.c)) :=
      List.mem_map.mpr ⟨r, hr, rfl⟩
    rw [← hinfo] at hm
    obtain ⟨e, he, heq⟩ := List.mem_map.mp hm
    simp only [Prod.mk.injEq] at heq
    exact ⟨e, he, heq.1⟩
  unfold headerGetEntry
  refine lookup_built le env (built_of_addAll reqs Built.new hadd) ?_ ?_ hto
  · intro e he
    obtain ⟨q, hq, h1, h2, _⟩ := hof e he
    rw [← h1, ← h2]
    exact htags q hq
  · intro t ht h1 h2 e he h3
    obtain ⟨q, hq, q1, q2, q3⟩ := hof t ht
    obtain ⟨q', hq', p1, p2, p3⟩ := hof e he
    rw [← q3, ← p3]
    exact hal q hq (by rw [q1]; exact h1) (by rw [q2]; exact h2) q' hq' (by rw [p2]; exact h3)

set_option maxRecDepth 100000 in
/-- C11, amended, on the calls c11GoodReqs (tag 2000, then the i18n string
entry 1000, then the locale table): the entry of tag 1000 is found by
headerIsEntry and by headerGetEntry with LANG=de. -/
theorem C11_lookup_after_inserts_witness :
    headerIsEntry c11GoodHeader 1000 = (headerSort c11GoodHeader, 1)
      ∧ ∃ out, headerGetEntry true (envLang [100, 101]) c11GoodHeader 1000
          = Res.ok (headerSort c11GoodHeader, out) ∧ out.rc = 1 :=
  C11_lookup_after_inserts true (envLang [100, 101]) c11GoodReqs c11GoodHeader
    { tag := 1000, type := RPM_I18NSTRING_TYPE, p := hPTR.strv [some [97, 0], some [98, 0]],
      c := 2 }
    (by decide) (by decide) (by decide) (by decide)

set_option maxRecDepth 100000 in
/-- C12 fails on the code: after the three headerAddEntry calls c12Reqs (tags
2000000000, -2000000000 and 200, each returning 1) the comparison indexCmp of
the first two entries is 2000000000 - (-2000000000) wrapped to 32 bits, a
negative number, so the sort by headerSort leaves the index in the order
2000000000, -2000000000, 200, and the full iteration (which skips the negative
tag as a region tag) yields the tags 2000000000, 200: not in non-decreasing
order. -/
theorem C12_iteration_out_of_order :
    addAll headerNew c12Reqs = some c12Header
      ∧ c12Header.index.map (fun e => indexCmp e
            (indexEntry.mk ⟨-2000000000, RPM_INT8_TYPE, 1, 0⟩ (EntryData.owned [2]) 1 0))
          = [-294967296, 0, 2000000200]
      ∧ (headerSort c12Header).index.map (fun e => e.info.tag) = [2000000000, -2000000000, 200]
      ∧ (iterate true c12Header).toOption.map (fun l => l.map (fun x => x.tag))
          = some [2000000000, 200] := by
  decide

set_option maxRecDepth 100000 in
/-- The wrap-around of indexCmp also makes a lookup miss: after the calls
c12MissReqs the index is kept in the order 2000000000, -2000000000, 200,
1500000000 and headerIsEntry reports the inserted tag 2000000000 as absent. -/
theorem indexCmp_overflow_lookup_miss :
    addAll headerNew c12MissReqs = some c12MissHeader
      ∧ (headerSort c12MissHeader).index.map (fun e => e.info.tag)
          = [2000000000, -2000000000, 200, 1500000000]
      ∧ (headerIsEntry c12MissHeader 2000000000).2 = 0 := by
  decide

set_option maxRecDepth 100000 in
/-- C22 fails on the code: c22Header is made by headerAddI18NString(h, 1000,
"a", "C") and headerAddI18NString(h, 2000, "b", "fr") on a new header, so the
table holds "C", "fr" and the entry 1000 the one string "a". The call
headerAddI18NString(h, 1000, "x", "fr") then sets the count of the entry to 2
and its length to 4, but writes only the byte of "x" behind "a": the last byte
of the block is what xrealloc left there, not a NUL. With a non-zero byte
there the walk of headerGetRawEntry over the two strings runs past the
block. -/
theorem C22_ghost_string_unterminated (junk : Nat → Nat) :
    headerAddI18NString junk0 headerNew 1000 [97, 0] (some [67, 0]) = Res.ok (c22HeaderA, 1)
      ∧ headerAddI18NString junk0 c22HeaderA 2000 [98, 0] (some [102, 114, 0])
          = Res.ok (c22Header, 1)
      ∧ c22Header.index.map (fun e => (e.info.tag, e.info.type, e.info.count, e.data, e.length))
          = [(100, RPM_STRING_ARRAY_TYPE, 2, EntryData.owned [67, 0, 102, 114, 0], 5),
             (1000, RPM_I18NSTRING_TYPE, 1, EntryData.owned [97, 0], 2),
             (2000, RPM_I18NSTRING_TYPE, 2, EntryData.owned [0, 98, 0], 3)]
      ∧ (headerAddI18NString junk c22Header 1000 [120, 0] (some [102, 114, 0])).toOption.map
          (fun r => (r.2,
            r.1.index.map (fun e => (e.info.tag, e.info.type, e.info.count, e.data, e.length))))
          = some (0,
            [(100, RPM_STRING_ARRAY_TYPE, 2, EntryData.owned [67, 0, 102, 114, 0], 5),
             (1000, RPM_I18NSTRING_TYPE, 2, EntryData.owned [97, 0, 120, junk 3], 4),
             (2000, RPM_I18NSTRING_TYPE, 2, EntryData.owned [0, 98, 0], 3)])
      ∧ (headerAddI18NString junk0 c22Header 1000 [120, 0] (some [102, 114, 0])).toOption.map
          (fun r => headerGetRawEntry true r.1 1000) = some Res.fault := by
  refine ⟨by decide, by decide, by decide, by rfl, by decide⟩

set_option maxRecDepth 100000 in
/-- C23 fails on the code: in c22Header the table holds the two locales "C"
and "fr" and the entry 1000 the one string "a" (position 0, locale "C"). The
call headerAddI18NString(h, 1000, "x", "C") takes the replace branch, whose
loop walks table->info.count = 2 strings in the data of the entry and so reads
behind the 2 bytes of the block. The entry 2000, which holds a string for
each of the two locales, is replaced as the claim says. -/
theorem C23_replace_reads_past_entry (junk : Nat → Nat) :
    c22Header.index.map (fun e => (e.info.tag, e.info.type, e.info.count, e.data, e.length))
        = [(100, RPM_STRING_ARRAY_TYPE, 2, EntryData.owned [67, 0, 102, 114, 0], 5),
           (1000, RPM_I18NSTRING_TYPE, 1, EntryData.owned [97, 0], 2),
           (2000, RPM_I18NSTRING_TYPE, 2, EntryData.owned [0, 98, 0], 3)]
      ∧ headerAddI18NString junk c22Header 1000 [120, 0] (some [67, 0]) = Res.fault
      ∧ (headerAddI18NString junk c22Header 2000 [120, 121, 0] (some [67, 0])).toOption.map
          (fun r => (r.2,
            r.1.index.map (fun e => (e.info.tag, e.info.type, e.info.count, e.data, e.length))))
          = some (0,
            [(100, RPM_STRING_ARRAY_TYPE, 2, EntryData.owned [67, 0, 102, 114, 0], 5),
             (1000, RPM_I18NSTRING_TYPE, 1, EntryData.owned [97, 0], 2),
             (2000, RPM_I18NSTRING_TYPE, 2, EntryData.owned [120, 121, 0, 98, 0], 5)]) := by
  refine ⟨by decide, by rfl, by rfl⟩

set_option maxRecDepth 100000 in
/-- C24, as stated, fails: c19Header holds under tag 1000 an i18n string entry
with four strings. headerCopyTags(c19Header, to, [1000, 0]) into a new header
leaves in to an entry of tag 1000 with type RPM_STRING_TYPE, count 1 and the
one string "one", not the type and count of the entry of from. And from does
not stay as it was: for c14Header (tags 2000, 1000, 3000 in this order) as
from, the lookup leaves its index sorted by tag. -/
theorem C24_counterexample :
    c19Header.index.map (fun e => (e.info.tag, e.info.type, e.info.count))
        = [(1000, RPM_I18NSTRING_TYPE, 4), (100, RPM_STRING_ARRAY_TYPE, 4)]
      ∧ (headerCopyTags true envNone c19Header headerNew [1000, 0]).toOption.map
          (fun r => r.2.index.map (fun e => (e.info.tag, e.info.type, e.info.count, e.data)))
        = some [(1000, RPM_STRING_TYPE, 1, EntryData.owned [111, 110, 101, 0])]
      ∧ c14Header.index.map (fun e => e.info.tag) = [2000, 1000, 3000]
      ∧ (headerCopyTags true envNone c14Header headerNew [1000, 0]).toOption.map
          (fun r => (decide (r.1 = c14Header), r.1.index.map (fun e => e.info.tag)))
        = some (false, [1000, 2000, 3000])
      ∧ (headerCopyTags true envNone c14Header headerNew [1000, 0]).toOption.map
          (fun r => r.2.index.map (fun e => (e.info.tag, e.info.type, e.info.count, e.data)))
        = some [(1000, RPM_INT8_TYPE, 1, EntryData.owned [2])] := by
  decide

/-- C24, amended: let from and to be distinct headers with tags in
0 .. 2^31 - 1, let the list hold tags in 1 .. 2^31 - 1 and end with 0, and let
every entry of from under a tag of the list be one that headerAddEntry stored,
not of the i18n string type and not of the binary type under a region tag.
Then headerCopyTags returns; from keeps its entries and is at most sorted by
tag; for every tag t that is not in the list or that to already held, the
entries of to for t are those before; for every tag t of the list that to did
not hold, to afterwards holds the one entry of from for t (its type, count
and data) when from holds exactly one, and no entry for t when from holds
none. -/
theorem C24_copy_tags (le : Bool) (env : LocaleEnv) (ts : List Int) (hf hto : Header)
    (hiF : SortInv hf) (hiT : SortInv hto) (hts : ∀ t ∈ ts, 0 < t ∧ t < 2147483648)
    (hall : ∀ e ∈ hf.index, e.info.tag ∈ ts → Added e ∧ e.info.type ≠ RPM_I18NSTRING_TYPE
      ∧ (e.info.type = RPM_BIN_TYPE → HEADER_I18NTABLE ≤ e.info.tag)
      ∧ e.length < 2147483648) :
    ∃ hf1 hto1 : Header, headerCopyTags le env hf hto (ts ++ [0]) = Res.ok (hf1, hto1)
      ∧ (hf1 = hf ∨ hf1 = headerSort hf)
      ∧ (∀ t, (t ∉ ts ∨ ∃ x ∈ hto.index, x.info.tag = t) →
          (withTag hto1 t).Perm (withTag hto t))
      ∧ (∀ t ∈ ts, (∀ x ∈ hto.index, x.info.tag ≠ t) →
          ∀ e, withTag hf t = [e] → withTag hto1 t = [e])
      ∧ (∀ t ∈ ts, (∀ x ∈ hto.index, x.info.tag ≠ t) → (∀ e ∈ hf.index, e.info.tag ≠ t) →
          withTag hto1 t = []) := by
  obtain ⟨hf1, hto1, L, hrun, hfr, hperm, hL, hnd, hcov⟩ :=
    headerCopyTags_spec le env ts hf hto hiF hiT hts hall
  have hw : ∀ t, (withTag hto1 t).Perm
      (withTag hto t ++ L.filter (fun x => decide (x.info.tag = t))) := by
    intro t
    unfold withTag
    rw [← List.filter_append]
    exact hperm.filter _
  have hnone : ∀ t, (∀ e ∈ L, e.info.tag ≠ t) →
      L.filter (fun x => decide (x.info.tag = t)) = [] := by
    intro t h
    apply List.filter_eq_nil_iff.mpr
    intro y hy
    simp only [decide_eq_true_eq]
    exact h y hy
  have hempty : ∀ t, (∀ x ∈ hto.index, x.info.tag ≠ t) → withTag hto t = [] := by
    intro t h
    unfold withTag
    apply List.filter_eq_nil_iff.mpr
    intro y hy
    simp only [decide_eq_true_eq]
    exact h y hy
  refine ⟨hf1, hto1, hrun, hfr, ?_, ?_, ?_⟩
  · intro t ht
    have := hw t
    rw [hnone t ?_, List.append_nil] at this
    · exact this
    · intro e he het
      obtain ⟨_, h2, h3⟩ := hL e he
      rcases ht with h | ⟨x, hx, hxt⟩
      · exact h (by rw [← het]; exact h2)
      · exact h3 x hx (by rw [hxt, het])
  · intro t ht hnT e hwe
    have hmem : e ∈ withTag hf t := by rw [hwe]; exact List.mem_singleton_self _
    have hef : e ∈ hf.index ∧ e.info.tag = t := by
      unfold withTag at hmem
      have := List.mem_filter.mp hmem
      exact ⟨this.1, by simpa using this.2⟩
    obtain ⟨e2, he2, he2t⟩ := hcov t ht hnT ⟨e, hef.1, hef.2⟩
    have he2e : e2 = e := by
      have : e2 ∈ withTag hf t := by
        unfold withTag
        exact List.mem_filter.mpr ⟨(hL e2 he2).1, by simpa using he2t⟩
      rw [hwe] at this
      exact List.mem_singleton.mp this
    subst he2e
    have := hw t
    rw [hempty t hnT, List.nil_append, filter_tag_nodup hnd he2 he2t] at this
    exact List.perm_singleton.mp this
  · intro t ht hnT hnF
    have := hw t
    rw [hempty t hnT, List.nil_append, hnone t ?_] at this
    · exact List.perm_nil.mp this
    · intro e he het
      exact hnF e (hL e he).1 het

set_option maxRecDepth 100000 in
/-- C24, amended, for from = c14Header (tags 2000, 1000, 3000), to = c16Header
(a string array entry of tag 1000) and the list 1000, 3000, 5000, 0: to keeps
its entry of tag 1000, receives the entry of from for 3000 and nothing for
5000. -/
theorem C24_copy_tags_witness :
    ∃ hf1 hto1 : Header,
      headerCopyTags true envNone c14Header c16Header ([1000, 3000, 5000] ++ [0])
          = Res.ok (hf1, hto1)
      ∧ (hf1 = c14Header ∨ hf1 = headerSort c14Header)
      ∧ (∀ t, (t ∉ [1000, 3000, 5000] ∨ ∃ x ∈ c16Header.index, x.info.tag = t) →
          (withTag hto1 t).Perm (withTag c16Header t))
      ∧ (∀ t ∈ [1000, 3000, 5000], (∀ x ∈ c16Header.index, x.info.tag ≠ t) →
          ∀ e, withTag c14Header t = [e] → withTag hto1 t = [e])
      ∧ (∀ t ∈ [1000, 3000, 5000], (∀ x ∈ c16Header.index, x.info.tag ≠ t) →
          (∀ e ∈ c14Header.index, e.info.tag ≠ t) → withTag hto1 t = []) :=
  C24_copy_tags true envNone [1000, 3000, 5000] c14Header c16Header (by decide) (by decide)
    (by decide)
    (fun e he _ => ⟨((built_inv (built_of_addAll c14Reqs Built.new (by decide))).1 e he),
      by revert e; decide, by revert e; decide, by revert e; decide⟩)

/-! ## Claims about the format engine -/

/-- C25: let exactly one entry e of h carry the tag of NAME (a tag in
100 .. 2^31 - 1), stored by headerAddEntry with type RPM_INT32_TYPE and count 1,
and let v be the int32 value that the host keeps in its four bytes. Then
headerSprintf with the template "%{NAME:octal}", the tag table that gives
RPMTAG_NAME this tag and the default format extensions returns the octal
numeral of v read as an unsigned number of 32 bits (v mod 2^32), most
significant digit first. -/
theorem C25_octal (le : Bool) (env : LocaleEnv) (strftime : List Nat → Int → List Nat)
    (h : Header) (e : indexEntry) (v : Int)
    (hi : SortInv h) (ht : HEADER_I18NTABLE ≤ e.info.tag ∧ e.info.tag < 2147483648)
    (hw : withTag h e.info.tag = [e]) (ha : Added e)
    (hty : e.info.type = RPM_INT32_TYPE) (hc : e.info.count = 1)
    (hv : toInt32 (hostVal le (entryBytes e)) = v) :
    headerSprintf le env h octalTemplate (nameTable e.info.tag) (headerDefaultFormats strftime)
      = Run.ok (octalDigits (v % 4294967296).toNat) := by
  have hget := intGetEntry_unique le env hi hw ha ht (by rw [hty]; decide)
  have hlen : (entryBytes e).length = 4 := by
    have hs := ha.shape
    unfold DataShape at hs
    rw [hty, hc] at hs
    simp only [(by decide : RPM_INT32_TYPE ≠ RPM_STRING_TYPE), if_false,
      (by decide : ¬ (RPM_INT32_TYPE = RPM_STRING_ARRAY_TYPE ∨ RPM_INT32_TYPE = RPM_I18NSTRING_TYPE))]
      at hs
    obtain ⟨sz, h1, _, h3⟩ := hs
    have : sz = 4 := by
      have h4 : typeSizesAt RPM_INT32_TYPE = some 4 := by decide
      rw [h4] at h1
      exact (Option.some.inj h1).symm
    omega
  have hval : entryValue e = Value.bytes (entryBytes e) := by
    unfold entryValue
    rw [hty]
    rfl
  obtain ⟨hp, hl⟩ := printNat_octal (hostVal le (entryBytes e) % 4294967296) (Nat.mod_lt _ (by decide))
  unfold headerSprintf
  rw [parse_octalTemplate]
  have hs1 : strAt [0, 0, 78, 65, 77, 69, 0, 111, 99, 116, 97, 108, 0, 0] 1 = some [] := by decide
  have hs7 : strAt [0, 0, 78, 65, 77, 69, 0, 111, 99, 116, 97, 108, 0, 0] 7
      = some [111, 99, 116, 97, 108] := by decide
  have hff : findFormat [111, 99, 116, 97, 108] (headerDefaultFormats strftime)
      = some octalFormat := rfl
  have hoct : ∀ x : Nat, octalFormat RPM_INT32_TYPE (FmtArg.int x) [37] 0 0
      = (sprintfInto 20 (sprintfInt [37, 111] x)).bind (fun s => Run.ok (some s)) := fun _ => rfl
  have hinto : sprintfInto 20 (some (printNat 8 (hostVal le (entryBytes e) % 4294967296)))
      = Run.ok (printNat 8 (hostVal le (entryBytes e) % 4294967296)) := by
    unfold sprintfInto
    rw [if_neg (by decide)]
    simp only
    rw [if_pos (by omega)]
  have hres : (v % 4294967296).toNat = hostVal le (entryBytes e) % 4294967296 := by
    rw [← hv]
    exact toInt32_mod _
  simp only [catTokens, singleSprintf, Bool.false_eq_true, if_false]
  have hn1 : ¬ (RPM_INT32_TYPE = RPM_STRING_ARRAY_TYPE ∨ RPM_INT32_TYPE = RPM_STRING_TYPE) := by
    decide
  rw [hres, show octalDigits (hostVal le (entryBytes e) % 4294967296)
    = printNat 8 (hostVal le (entryBytes e) % 4294967296) from hp.symm]
  simp [formatValue, headerGetEntry, hget, hty, hc, hval, hs1, hs7, hff, hoct, readIntVal_int32 le hlen,
    sprintfInt_octal, hinto, hn1]

set_option maxRecDepth 100000 in
/-- C25 for the header c25Header of a little-endian host, whose entry of tag
1000 holds the int32 value 8: the template "%{NAME:octal}" renders "10". -/
theorem C25_octal_witness :
    headerSprintf true envNone c25Header octalTemplate (nameTable c25Entry.info.tag)
        (headerDefaultFormats (fun _ _ => []))
      = Run.ok (octalDigits ((8 : Int) % 4294967296).toNat)
    ∧ octalDigits ((8 : Int) % 4294967296).toNat = [49, 48] :=
  ⟨C25_octal true envNone (fun _ _ => []) c25Header c25Entry 8 (by decide) (by decide) (by decide)
      ((built_inv (Built.add Built.new (by decide) (by decide) (by decide)
        (by decide : headerAddEntry headerNew 1000 RPM_INT32_TYPE (hPTR.bytes [8, 0, 0, 0] 0) 1
          = Res.ok (c25Header, 1)))).1 c25Entry (by decide))
      (by decide) (by decide) (by decide),
    by
      rw [(by decide : ((8 : Int) % 4294967296).toNat = 8)]
      norm_num [octalDigits]⟩

set_option maxRecDepth 100000 in
/-- C26, as stated, fails: with the extensions fooExtensions the name FOO
resolves to a tag extension whose function returns 1 for every header, so it
provides no value; yet headerSprintf renders the template
"%|FOO?{yes}:{no}|" on the empty header as "yes", the if-branch. -/
theorem C26_counterexample :
    headerSprintf true envNone headerNew condTemplate (nameTable 1000) fooExtensions
        = Run.ok [121, 101, 115]
      ∧ (findTag [70, 79, 79] (nameTable 1000) fooExtensions).2.map (fun x => x.1 headerNew)
        = some none := by
  decide

/-- The choice of the branch of a conditional: let the template (of fewer than
2^30 - 1 bytes) start with "%|", let parseExpression read the conditional
behind it into a token with the branches ifF and elseF and the tag tg, and let
the template end behind the conditional. Then tg is what findTag gives for the
name in front of the '?': a tag extension when the name resolves to one, else
the tag of the table entry it resolves to, else the tag -1; and headerSprintf
returns the rendering of ifF when the name resolved to a tag extension or
headerIsEntry holds for the tag of tg, and the rendering of elseF otherwise.
-/
theorem conditional_choice (le : Bool) (env : LocaleEnv) (h : Header) (fmt : List Nat)
    (tags : List headerTagTableEntry) (extensions : headerSprintfExtension)
    (rest mem2 : List Nat) (ifF elseF : List sprintfToken) (tg : sprintfTag) (newEnd : Nat)
    (hs : cstr fmt = 37 :: 124 :: rest) (hlen : (cstr fmt).length < 1073741823)
    (hparse : parseExpression (parseFormat (2 * (cstr fmt).length + 3) tags extensions) tags
        extensions (0 :: 124 :: rest ++ [0]) 2
      = Run.ok (mem2, sprintfToken.cond ifF elseF tg, newEnd))
    (hend : mem2.get? newEnd = some 0) :
    (∃ name, strAt mem2 2 = some name
        ∧ ((∃ fn n, findTag name tags extensions = (none, some (fn, n)) ∧ tg.ext = some fn)
          ∨ (∃ val x, findTag name tags extensions = (some val, x) ∧ tg.ext = none
              ∧ tg.tag = val)
          ∨ (findTag name tags extensions = (none, none) ∧ tg.ext = none ∧ tg.tag = -1)))
      ∧ headerSprintf le env h fmt tags extensions
        = if tg.ext.isSome = true then
            renderBranch le env extensions (mem2.set 1 0) ((cstr fmt).length + 1)
              (RenderState.mk h (List.replicate (extensionCount extensions) none) []) ifF 0
          else if (headerIsEntry h tg.tag).2 ≠ 0 then
            renderBranch le env extensions (mem2.set 1 0) ((cstr fmt).length + 1)
              (RenderState.mk (headerIsEntry h tg.tag).1
                (List.replicate (extensionCount extensions) none) []) ifF 0
          else
            renderBranch le env extensions (mem2.set 1 0) ((cstr fmt).length + 1)
              (RenderState.mk (headerIsEntry h tg.tag).1
                (List.replicate (extensionCount extensions) none) []) elseF 0 := by
  obtain ⟨hne, name, ifF1, elseF1, tg1, hname, htok, hres⟩ := parseExpression_ok hparse
  simp only [sprintfToken.cond.injEq] at htok
  obtain ⟨rfl, rfl, rfl⟩ := htok
  refine ⟨⟨name, hname, hres⟩, ?_⟩
  have hnz := cstr_nonzero fmt
  have hcount : 1 ≤ ((cstr fmt).filter (fun b => decide (b = 37))).length := by
    rw [hs]
    simp
  have hcount2 : ((cstr fmt).filter (fun b => decide (b = 37))).length ≤ (cstr fmt).length :=
    List.length_filter_le _ _
  have hlen2 : 1 < mem2.length := by
    have := (List.get?_eq_some.mp hend).1
    omega
  have hpf : parseFormat (2 * (cstr fmt).length + 4) tags extensions (cstr fmt ++ [0]) 0
      PARSER_BEGIN
      = Run.ok (ParseOut.mk (mem2.set 1 0) [sprintfToken.cond ifF elseF tg] none) := by
    unfold parseFormat
    rw [parseEnter_eq _ _ hnz hlen]
    rw [parseLoop_expr tags extensions (2 * (cstr fmt).length + 3) PARSER_BEGIN _ []
      (by rw [hs]; rfl) (by rw [hs]; rfl) (by simp; omega)
      (by rw [hs]; rfl : poke (cstr fmt ++ [0]) 0 0 = some (0 :: 124 :: rest ++ [0]))]
    have hp2 : parseExpression (parseEnter (parseLoop tags extensions (2 * (cstr fmt).length + 3)))
        tags extensions (0 :: 124 :: rest ++ [0]) (0 + 2)
        = Run.ok (mem2, sprintfToken.cond ifF elseF tg, newEnd) := hparse
    rw [hp2]
    simp only
    rw [parseLoop_nul tags extensions (2 * (cstr fmt).length + 2) PARSER_BEGIN _ _ hend]
    unfold parseFinish poke
    simp [hlen2, setLens]
  rw [headerSprintf_single le env h fmt tags extensions hpf, singleSprintf_cond]
  unfold renderBranch
  by_cases h1 : tg.ext.isSome = true
  · rw [if_pos h1, if_pos h1]
    by_cases hw : wrap32 ((ifF.length : Int) * 20) < 0
    · rw [if_pos hw, if_pos hw]
    · rw [if_neg hw, if_neg hw]
  · rw [if_neg h1, if_neg h1]
    by_cases h2 : (headerIsEntry h tg.tag).2 ≠ 0
    · rw [if_pos h2, if_pos h2]
      by_cases hw : wrap32 ((ifF.length : Int) * 20) < 0
      · rw [if_pos hw, if_pos hw]
      · rw [if_neg hw, if_neg hw]
    · rw [if_neg h2, if_neg h2]
      by_cases hw : wrap32 ((elseF.length : Int) * 20) < 0
      · rw [if_pos hw, if_pos hw]
      · rw [if_neg hw, if_neg hw]

/-- C26, amended: for every header h and every template
"%|NAME?{A}:{B}|" (of fewer than 2^30 - 24 bytes) whose name holds no '?' and
whose branches A and B are literal text (bytes other than '%', '[', ']', '}'
and the backslash), headerSprintf returns A when NAME resolves to a tag
extension (whether or not the extension provides a value for h) or to a tag
of the table for which headerIsEntry holds on h, and B otherwise; for a name
that resolves to nothing the tag looked up is -1. -/
theorem C26_conditional (le : Bool) (env : LocaleEnv) (h : Header) (fmt : List Nat)
    (tags : List headerTagTableEntry) (extensions : headerSprintfExtension)
    (name A B : List Nat)
    (hs : cstr fmt
      = 37 :: 124 :: (name ++ 63 :: 123 :: (A ++ 125 :: 58 :: 123 :: (B ++ [125, 124]))))
    (hlen : (cstr fmt).length < 1073741800)
    (hname : ∀ b ∈ name, b ≠ 63)
    (hA : ∀ b ∈ A, b ≠ 37 ∧ b ≠ 91 ∧ b ≠ 93 ∧ b ≠ 125 ∧ b ≠ 92)
    (hB : ∀ b ∈ B, b ≠ 37 ∧ b ≠ 91 ∧ b ≠ 93 ∧ b ≠ 125 ∧ b ≠ 92) :
    headerSprintf le env h fmt tags extensions
      = Run.ok (if conditionHolds h (findTag name tags extensions) = true then A else B) := by
  have hnz := cstr_nonzero fmt
  have hname2 : ∀ b ∈ name, b ≠ 0 ∧ b ≠ 63 := by
    intro b hb
    exact ⟨hnz b (by rw [hs]; simp [hb]), hname b hb⟩
  have hA2 : ∀ b ∈ A, b ≠ 0 ∧ b ≠ 37 ∧ b ≠ 91 ∧ b ≠ 93 ∧ b ≠ 125 ∧ b ≠ 92 := by
    intro b hb
    exact ⟨hnz b (by rw [hs]; simp [hb]), hA b hb⟩
  have hB2 : ∀ b ∈ B, b ≠ 0 ∧ b ≠ 37 ∧ b ≠ 91 ∧ b ≠ 93 ∧ b ≠ 125 ∧ b ≠ 92 := by
    intro b hb
    exact ⟨hnz b (by rw [hs]; simp [hb]), hB b hb⟩
  have hl : (cstr fmt).length = name.length + A.length + B.length + 9 := by
    rw [hs]
    simp only [List.length_append, List.length_cons, List.length_nil]
    omega
  obtain ⟨tg, hpe⟩ := parseExpression_literal tags extensions (2 * (cstr fmt).length + 3)
    (2 * name.length + A.length + 2 * B.length + 20)
    (2 * name.length + 2 * A.length + B.length + 20) name A B hname2 hA2 hB2 (by omega)
    (by omega) (by omega)
  have e1 : 0 :: 124 :: (name ++ 63 :: 123 :: (A ++ 125 :: 58 :: 123 :: (B ++ 125 :: 124 :: [0])))
      = 0 :: 124 :: (name ++ 63 :: 123 :: (A ++ 125 :: 58 :: 123 :: (B ++ [125, 124]))) ++ [0] := by
    simp
  rw [e1] at hpe
  have hend : (0 :: 124 :: (name ++ 0 :: 123 :: (A ++ 0 :: 58 :: 123 ::
      (B ++ 0 :: 124 :: [0])))).get? (name.length + A.length + B.length + 9) = some 0 := by
    have := get?_mid (0 :: 124 :: (name ++ 0 :: 123 :: (A ++ 0 :: 58 :: 123 :: (B ++ [0, 124]))))
      0 []
    have hlen9 : (0 :: 124 :: (name ++ 0 :: 123 :: (A ++ 0 :: 58 :: 123 ::
        (B ++ [0, 124])))).length = name.length + A.length + B.length + 9 := by
      simp only [List.length_cons, List.length_append, List.length_nil]
      omega
    rw [hlen9] at this
    simpa using this
  obtain ⟨⟨name1, hn1, hres⟩, hgen⟩ := conditional_choice le env h fmt tags extensions _ _ _ _ tg
    _ hs (by omega) hpe hend
  have hstr : strAt (0 :: 124 :: (name ++ 0 :: 123 :: (A ++ 0 :: 58 :: 123 ::
      (B ++ 0 :: 124 :: [0])))) 2 = some name :=
    strAt_mid [0, 124] name _ (fun b hb => (hname2 b hb).1)
  rw [hstr] at hn1
  cases hn1
  have hsA : strAt ((0 :: 124 :: (name ++ 0 :: 123 :: (A ++ 0 :: 58 :: 123 ::
      (B ++ 0 :: 124 :: [0])))).set 1 0) (name.length + 4) = some A := by
    have := strAt_mid (0 :: 0 :: (name ++ [0, 123])) A (58 :: 123 :: (B ++ 0 :: 124 :: [0]))
      (fun b hb => (hA2 b hb).1)
    have hl4 : (0 :: 0 :: (name ++ [0, 123])).length = name.length + 4 := by
      simp only [List.length_cons, List.length_append, List.length_nil]
    rw [hl4] at this
    simpa using this
  have hsB : strAt ((0 :: 124 :: (name ++ 0 :: 123 :: (A ++ 0 :: 58 :: 123 ::
      (B ++ 0 :: 124 :: [0])))).set 1 0) (name.length + A.length + 7) = some B := by
    have := strAt_mid (0 :: 0 :: (name ++ 0 :: 123 :: (A ++ [0, 58, 123]))) B [124, 0]
      (fun b hb => (hB2 b hb).1)
    have hl7 : (0 :: 0 :: (name ++ 0 :: 123 :: (A ++ [0, 58, 123]))).length
        = name.length + A.length + 7 := by
      simp only [List.length_cons, List.length_append, List.length_nil]
      omega
    rw [hl7] at this
    simpa using this
  rw [hgen, renderBranch_text le env extensions _ (cstr fmt).length _ _ A hsA,
    renderBranch_text le env extensions _ (cstr fmt).length _ _ A hsA,
    renderBranch_text le env extensions _ (cstr fmt).length _ _ B hsB]
  rcases hres with ⟨fn, n, hft, hext⟩ | ⟨val, x, hft, hext, htag⟩ | ⟨hft, hext, htag⟩
  · rw [hft, hext]
    simp [conditionHolds]
  · rw [hft, hext, htag]
    by_cases hc : (headerIsEntry h val).2 ≠ 0
    · simp [conditionHolds, hc]
    · simp only [ne_eq, not_not] at hc
      simp [conditionHolds, hc]
  · rw [hft, hext, htag]
    by_cases hc : (headerIsEntry h (-1)).2 ≠ 0
    · simp [conditionHolds, hc]
    · simp only [ne_eq, not_not] at hc
      simp [conditionHolds, hc]

set_option maxRecDepth 100000 in
/-- C26, amended, for the template "%|FOO?{yes}:{no}|", the empty header and
the extensions fooExtensions, in which FOO names a tag extension that provides
no value: the result is the if-branch "yes". -/
theorem C26_conditional_witness :
    headerSprintf true envNone headerNew condTemplate (nameTable 1000) fooExtensions
        = Run.ok (if conditionHolds headerNew
            (findTag [70, 79, 79] (nameTable 1000) fooExtensions) = true
          then [121, 101, 115] else [110, 111])
      ∧ conditionHolds headerNew (findTag [70, 79, 79] (nameTable 1000) fooExtensions) = true :=
  ⟨C26_conditional true envNone headerNew condTemplate (nameTable 1000) fooExtensions
      [70, 79, 79] [121, 101, 115] [110, 111] (by decide) (by decide) (by decide) (by decide)
      (by decide),
    by decide⟩

/-- C27: let exactly one entry e of h carry the tag of NAME (a tag in
100 .. 2^31 - 1), stored by headerAddEntry with type RPM_STRING_ARRAY_TYPE and
the strings ss as its elements, its data taking fewer than 2^31 / 40 bytes.
Then headerSprintf with the template "[%{NAME} ]", the tag table that gives
RPMTAG_NAME this tag and the default format extensions returns the elements of
ss in index order, each followed by a space. The general rule, that an array
block renders its tokens once for each index below the number of elements, is
the lemma singleSprintf_array, which the proof uses. -/
theorem C27_array_block (le : Bool) (env : LocaleEnv) (strftime : List Nat → Int → List Nat)
    (h : Header) (e : indexEntry) (ss : List (List Nat))
    (hi : SortInv h) (ht : HEADER_I18NTABLE ≤ e.info.tag ∧ e.info.tag < 2147483648)
    (hw : withTag h e.info.tag = [e]) (ha : Added e)
    (hty : e.info.type = RPM_STRING_ARRAY_TYPE) (hcnt : e.info.count = (ss.length : Int))
    (hdata : entryBytes e = joinStrings ss) (hnz : ∀ s ∈ ss, ∀ b ∈ s, b ≠ 0)
    (hsize : 40 * e.length < 2147483648) :
    headerSprintf le env h arrayTemplate (nameTable e.info.tag) (headerDefaultFormats strftime)
      = Run.ok (ss.map (fun s => s ++ [32])).flatten := by
  have hval : entryValue e = Value.strv ss := by
    unfold entryValue
    rw [hty, hcnt, hdata]
    have := splitStrings_join ss [] hnz
    rw [List.append_nil] at this
    simp [this, RPM_STRING_ARRAY_TYPE, RPM_BIN_TYPE, RPM_STRING_TYPE]
  have hget : ∀ h1 : Header, SortInv h1 ∧ withTag h1 e.info.tag = [e] →
      headerGetEntry le env h1 e.info.tag
        = Res.ok (headerSort h1, GetOut.mk 1 (some RPM_STRING_ARRAY_TYPE) (some (Value.strv ss))
            (ss.length : Int)) := by
    intro h1 hP
    have := intGetEntry_unique le env hP.1 hP.2 ha ht (by rw [hty]; decide)
    rw [hty, hval, hcnt] at this
    simpa [headerGetEntry, RPM_STRING_ARRAY_TYPE, RPM_BIN_TYPE] using this
  have hPS : ∀ h1 : Header, SortInv h1 ∧ withTag h1 e.info.tag = [e] →
      SortInv (headerSort h1) ∧ withTag (headerSort h1) e.info.tag = [e] :=
    fun h1 hP => ⟨sortInv_headerSort hP.1, withTag_headerSort hP.2⟩
  have hlenE : e.length = ((joinStrings ss).length : Int) := by rw [ha.length, hdata]
  obtain ⟨hge1, hge2⟩ := joinStrings_length_ge ss
  have hs8 : strAt [0, 0, 0, 78, 65, 77, 69, 0, 32, 0, 0] 8 = some [32] := by decide
  have hs2 : strAt [0, 0, 0, 78, 65, 77, 69, 0, 32, 0, 0] 2 = some [] := by decide
  have hrows : ∀ (fuel k j : Nat) (st : RenderState) (val : List Nat),
      SortInv st.h ∧ withTag st.h e.info.tag = [e] → j + k = ss.length →
      ∃ st1, arrayRows
          (fun j s val =>
            catTokens
              (fun s1 t => singleSprintf le env (headerDefaultFormats strftime)
                [0, 0, 0, 78, 65, 77, 69, 0, 32, 0, 0] (fuel + 1) s1 t j) s
              [sprintfToken.tag
                { ext := none, extNum := none, tag := e.info.tag, justOne := false,
                  arrayCount := false, format := 2, type := none, pad := 0 },
               sprintfToken.string 8 1] val)
          k j st val = Run.ok (st1, val ++ ((ss.drop j).map (fun s => s ++ [32])).flatten) := by
    intro fuel k
    induction k with
    | zero =>
      intro j st val _ hj
      refine ⟨st, ?_⟩
      rw [List.drop_of_length_le (by omega)]
      simp [arrayRows]
    | succ k ih =>
      intro j st val hP hj
      have hjl : j < ss.length := by omega
      have hsj : ss.get? j = some (ss.get ⟨j, hjl⟩) := List.get?_eq_get hjl
      have hmem : ss.get ⟨j, hjl⟩ ∈ ss := List.get_mem ss j hjl
      have hfv := formatValue_strv le env (headerDefaultFormats strftime)
        [0, 0, 0, 78, 65, 77, 69, 0, 32, 0, 0] st
        { ext := none, extNum := none, tag := e.info.tag, justOne := false,
          arrayCount := false, format := 2, type := none, pad := 0 } j rfl rfl hs2 rfl rfl
        (hget st.h hP) hsj (by have := hge2 _ hmem; omega)
      obtain ⟨st1, h1⟩ := ih (j + 1) { st with h := headerSort st.h } (val ++ ss.get ⟨j, hjl⟩ ++ [32])
        (hPS st.h hP) (by omega)
      have hrow : catTokens
            (fun s1 t => singleSprintf le env (headerDefaultFormats strftime)
              [0, 0, 0, 78, 65, 77, 69, 0, 32, 0, 0] (fuel + 1) s1 t j) st
            [sprintfToken.tag
              { ext := none, extNum := none, tag := e.info.tag, justOne := false,
                arrayCount := false, format := 2, type := none, pad := 0 },
             sprintfToken.string 8 1] val
          = Run.ok ({ st with h := headerSort st.h }, val ++ ss.get ⟨j, hjl⟩ ++ [32]) := by
        simp only [catTokens, singleSprintf, Bool.false_eq_true, if_false, hfv, hs8]
        simp only [List.length_singleton, le_refl, if_true]
      refine ⟨st1, ?_⟩
      rw [arrayRows]
      rw [hrow]
      dsimp only
      have hdrop : ss.drop j = ss.get ⟨j, hjl⟩ :: ss.drop (j + 1) :=
        List.drop_eq_getElem_cons hjl
      rw [h1, hdrop, List.map_cons, List.flatten_cons]
      simp only [List.append_assoc]
  unfold headerSprintf
  rw [parse_arrayTemplate]
  have hn : arrayElements le env
      (RenderState.mk h (List.replicate (extensionCount (headerDefaultFormats strftime)) none) [])
      [sprintfToken.tag
        { ext := none, extNum := none, tag := e.info.tag, justOne := false,
          arrayCount := false, format := 2, type := none, pad := 0 },
       sprintfToken.string 8 1] (-1)
      = Run.ok (RenderState.mk (headerSort h)
          (List.replicate (extensionCount (headerDefaultFormats strftime)) none) [],
          (ss.length : Int)) := by
    simp [arrayElements, hget h ⟨hi, hw⟩]
  have hov : wrap32 (wrap32 ((ss.length : Int) * 2) * 20) = (ss.length : Int) * 40 := by
    rw [@wrap32_small ((ss.length : Int) * 2) (by omega) (by omega),
      @wrap32_small ((ss.length : Int) * 2 * 20) (by omega) (by omega)]
    omega
  obtain ⟨st1, h1⟩ := hrows ((cstr arrayTemplate).length) ss.length 0
    (RenderState.mk (headerSort h)
      (List.replicate (extensionCount (headerDefaultFormats strftime)) none) []) []
    (hPS h ⟨hi, hw⟩) (by omega)
  simp only [catTokens]
  rw [singleSprintf_array le env _ _ _ _ _ _ 0 (ss.length : Int) hn (by omega)
    (by
      show 0 ≤ wrap32 (wrap32 ((ss.length : Int) * 2) * 20)
      rw [hov]
      omega)]
  simp only [Int.toNat_ofNat]
  rw [h1]
  simp

set_option maxRecDepth 100000 in
/-- C27 for the header c27Header, whose entry of tag 1000 holds the strings
"a", "bb" and "ccc": the template "[%{NAME} ]" renders "a bb ccc ". -/
theorem C27_array_block_witness :
    headerSprintf true envNone c27Header arrayTemplate (nameTable c27Entry.info.tag)
        (headerDefaultFormats (fun _ _ => []))
      = Run.ok ([[97], [98, 98], [99, 99, 99]].map (fun s => s ++ [32])).flatten :=
  C27_array_block true envNone (fun _ _ => []) c27Header c27Entry [[97], [98, 98], [99, 99, 99]]
    (by decide) (by decide) (by decide)
    ((built_inv (Built.add Built.new (by decide) (by decide) (by decide)
      (by decide : headerAddEntry headerNew 1000 RPM_STRING_ARRAY_TYPE
          (hPTR.strv [some [97, 0], some [98, 98, 0], some [99, 99, 99, 0]]) 3
        = Res.ok (c27Header, 1)))).1 c27Entry (by decide))
    (by decide) (by decide) (by decide) (by decide) (by decide)

set_option maxRecDepth 100000 in
/-- C28, as stated, fails: c27Header holds under tag 1000 a string array of 3
elements (the lookup returns 1 with count 3), and the array block of the
template "[%|NAME?{%{NAME} }:{x}|]" holds a reference to that tag inside a
conditional; headerSprintf renders the template as "(none)", not as the body
three times. -/
theorem C28_counterexample :
    headerSprintf true envNone c27Header nestedTemplate (nameTable 1000)
        (headerDefaultFormats (fun _ _ => [])) = Run.ok noneString
      ∧ (headerGetEntry true envNone c27Header 1000).toOption.map (fun r => (r.2.rc, r.2.c))
        = some (1, 3) := by
  decide

/-- C28, amended: the number of times an array block is rendered is found from
the tokens directly inside the block only. Let the direct tokens of the block
that are tag references in neither single-value nor count mode be pre, then a
reference tg, then post, where the references of pre name tags in
0 .. 2^31 - 1 that the header does not hold, and tg names a tag in
100 .. 2^31 - 1 that exactly one entry e of the header carries, stored by
headerAddEntry and not of the i18n string type. Then the number of elements is
the count that the lookup of e gives (the count of e, its length for binary
data), whatever the block holds inside conditionals and inner arrays, and,
when the block of that many times numTokens times 20 bytes can be allocated,
the tokens of the block are rendered once for each index below that count. -/
theorem C28_direct_references (le : Bool) (env : LocaleEnv) (extensions : headerSprintfExtension)
    (mem : List Nat) (fuel : Nat) (st : RenderState) (toks pre post : List sprintfToken)
    (tg : sprintfTag) (e : indexEntry) (element : Nat)
    (hf : toks.filter countsElements = pre ++ sprintfToken.tag tg :: post)
    (hpre : ∀ t ∈ pre, ∃ tp, t = sprintfToken.tag tp ∧ tp.ext = none
      ∧ (0 ≤ tp.tag ∧ tp.tag < 2147483648) ∧ ∀ x ∈ st.h.index, x.info.tag ≠ tp.tag)
    (hext : tg.ext = none) (htag : tg.tag = e.info.tag)
    (hi : SortInv st.h) (hw : withTag st.h e.info.tag = [e]) (ha : Added e)
    (ht : HEADER_I18NTABLE ≤ e.info.tag ∧ e.info.tag < 2147483648)
    (hty : e.info.type ≠ RPM_I18NSTRING_TYPE)
    (hov : 0 ≤ wrap32 (wrap32 ((if e.info.type = RPM_BIN_TYPE then e.length else e.info.count)
      * (toks.length : Int)) * 20)) :
    arrayElements le env st toks (-1)
        = Run.ok ({ st with h := headerSort st.h },
            if e.info.type = RPM_BIN_TYPE then e.length else e.info.count)
      ∧ singleSprintf le env extensions mem (fuel + 1) st (sprintfToken.array toks) element
        = arrayRows
            (fun j s val =>
              catTokens (fun s1 t => singleSprintf le env extensions mem fuel s1 t j) s toks val)
            (if e.info.type = RPM_BIN_TYPE then e.length else e.info.count).toNat 0
            { st with h := headerSort st.h } [] := by
  have hmem : ∀ t ∈ pre ++ sprintfToken.tag tg :: post, countsElements t = true := by
    intro t h1
    rw [← hf] at h1
    exact (List.mem_filter.mp h1).2
  have hmode : ∀ tp : sprintfTag, countsElements (sprintfToken.tag tp) = true →
      tp.arrayCount = false ∧ tp.justOne = false := by
    intro tp h1
    simpa [countsElements] using h1
  have hn : arrayElements le env st toks (-1)
      = Run.ok ({ st with h := headerSort st.h },
          if e.info.type = RPM_BIN_TYPE then e.length else e.info.count) := by
    rw [arrayElements_filter, hf]
    exact arrayElements_first le env tg post e hext
      (hmode tg (hmem _ (List.mem_append_right _ (List.mem_cons_self _ _)))) htag ha ht hty pre st
      (-1) hi hw
      (fun t h1 => by
        obtain ⟨tp, h2, h3, h4, h5⟩ := hpre t h1
        refine ⟨tp, h2, h3, ?_, h4, h5⟩
        apply hmode
        rw [← h2]
        exact hmem _ (List.mem_append_left _ h1))
  refine ⟨hn, ?_⟩
  have hne : (if e.info.type = RPM_BIN_TYPE then e.length else e.info.count) ≠ -1 := by
    have h1 := ha.pos
    have h2 := ha.length
    split <;> omega
  exact singleSprintf_array le env extensions mem fuel st _ toks element _ hn hne hov

set_option maxRecDepth 100000 in
/-- C28, amended, for the tokens c28Tokens (a conditional with a nested
reference, then a direct reference to tag 1000) and the header c27Header: the
number of elements is 3, the count of the entry of tag 1000. -/
theorem C28_direct_references_witness :
    arrayElements true envNone (RenderState.mk c27Header [] []) c28Tokens (-1)
        = Run.ok (RenderState.mk (headerSort c27Header) [] [],
            if c27Entry.info.type = RPM_BIN_TYPE then c27Entry.length else c27Entry.info.count)
      ∧ singleSprintf true envNone headerSprintfExtension.last [0] (0 + 1)
          (RenderState.mk c27Header [] []) (sprintfToken.array c28Tokens) 0
        = arrayRows
            (fun j s val =>
              catTokens
                (fun s1 t => singleSprintf true envNone headerSprintfExtension.last [0] 0 s1 t j)
                s c28Tokens val)
            (if c27Entry.info.type = RPM_BIN_TYPE then c27Entry.length
              else c27Entry.info.count).toNat 0
            (RenderState.mk (headerSort c27Header) [] []) [] :=
  C28_direct_references true envNone headerSprintfExtension.last [0] 0
    (RenderState.mk c27Header [] []) c28Tokens [] [] c28Tag c27Entry 0 rfl
    (fun _ h => absurd h (List.not_mem_nil _)) rfl rfl (by decide) (by decide)
    ((built_inv (Built.add Built.new (by decide) (by decide) (by decide)
      (by decide : headerAddEntry headerNew 1000 RPM_STRING_ARRAY_TYPE
          (hPTR.strv [some [97, 0], some [98, 98, 0], some [99, 99, 99, 0]]) 3
        = Res.ok (c27Header, 1)))).1 c27Entry (by decide))
    (by decide) (by decide) (by decide)

set_option maxRecDepth 100000 in
/-- C29, as stated, fails: the header c25Header holds the tag 1000 only and
the tag table gives RPMTAG_NAME the tag 2000. For the template "%{NAME:octal}"
formatValue hands the placeholder, a string, to octalFormat, which returns
"(not a number)" for every type but int32; and for the template "[%{NAME}]"
the array block is rendered once per element, of which the failed lookup
counts none, so the result is the empty string. Neither result holds
"(none)". -/
theorem C29_counterexample :
    (c25Header.index.map (fun e => e.info.tag), findTag [78, 65, 77, 69] (nameTable 2000)
        (headerDefaultFormats (fun _ _ => []))) = ([1000], (some 2000, none))
      ∧ headerSprintf true envNone c25Header octalTemplate (nameTable 2000)
        (headerDefaultFormats (fun _ _ => [])) = Run.ok notANumber
      ∧ headerSprintf true envNone c25Header bareArrayTemplate (nameTable 2000)
        (headerDefaultFormats (fun _ _ => [])) = Run.ok [] := by
  refine ⟨?_, by decide, by decide⟩
  rfl

/-- C29, amended: let the template (of fewer than 2^30 - 1 bytes) consist of literal
text lit (bytes other than '%', '[', ']', '}' and the backslash), a tag
reference "%{name}" without flags, padding and format modifier (the name is
not empty, holds neither '}' nor ':' and starts with neither '=' nor '#'), and
literal text lit2; let findTag resolve the name to the tag of a table entry (a
tag in 0 .. 2^31 - 1), and let h hold tags in 0 .. 2^31 - 1 only and no entry
for that tag. Then headerSprintf succeeds and returns lit, the string "(none)"
and lit2, one behind the other: the placeholder stands at the place of the
reference. -/
theorem C29_missing_tag_placeholder (le : Bool) (env : LocaleEnv) (h : Header) (fmt : List Nat)
    (tags : List headerTagTableEntry) (extensions : headerSprintfExtension)
    (lit : List Nat) (n0 : Nat) (name lit2 : List Nat) (tag : Int)
    (x : Option (headerTagTagFunction × Option Nat))
    (hs : cstr fmt = lit ++ 37 :: 123 :: (n0 :: name ++ 125 :: lit2))
    (hlen : (cstr fmt).length < 1073741823)
    (hlit : ∀ b ∈ lit, b ≠ 37 ∧ b ≠ 91 ∧ b ≠ 93 ∧ b ≠ 125 ∧ b ≠ 92)
    (hlit2 : ∀ b ∈ lit2, b ≠ 37 ∧ b ≠ 91 ∧ b ≠ 93 ∧ b ≠ 125 ∧ b ≠ 92)
    (hn : ∀ b ∈ n0 :: name, b ≠ 125 ∧ b ≠ 58) (h0 : n0 ≠ 61 ∧ n0 ≠ 35)
    (hft : findTag (n0 :: name) tags extensions = (some tag, x))
    (hi : SortInv h) (ht : 0 ≤ tag ∧ tag < 2147483648)
    (hab : ∀ e ∈ h.index, e.info.tag ≠ tag) :
    headerSprintf le env h fmt tags extensions = Run.ok (lit ++ noneString ++ lit2) := by
  have hnz := cstr_nonzero fmt
  have hcount : 1 ≤ ((cstr fmt).filter (fun b => decide (b = 37))).length := by
    rw [hs]
    simp only [List.filter_append, List.length_append]
    rw [List.filter_cons_of_pos (by simp)]
    simp only [List.length_cons]
    omega
  have hcount2 : ((cstr fmt).filter (fun b => decide (b = 37))).length ≤ (cstr fmt).length :=
    List.length_filter_le _ _
  have hlitz : ∀ b ∈ lit, b ≠ 0 ∧ b ≠ 37 ∧ b ≠ 91 ∧ b ≠ 93 ∧ b ≠ 125 ∧ b ≠ 92 := by
    intro b hb
    exact ⟨hnz b (by rw [hs]; exact List.mem_append_left _ hb), hlit b hb⟩
  have hlit2z : ∀ b ∈ lit2, b ≠ 0 ∧ b ≠ 37 ∧ b ≠ 91 ∧ b ≠ 93 ∧ b ≠ 125 ∧ b ≠ 92 := by
    intro b hb
    refine ⟨hnz b ?_, hlit2 b hb⟩
    rw [hs]
    simp [hb]
  have hn2 : ∀ b ∈ n0 :: name, b ≠ 0 ∧ b ≠ 125 ∧ b ≠ 58 := by
    intro b hb
    refine ⟨hnz b ?_, hn b hb⟩
    rw [hs]
    apply List.mem_append_right
    apply List.mem_cons_of_mem
    apply List.mem_cons_of_mem
    exact List.mem_append_left _ hb
  have hl : (cstr fmt).length = lit.length + name.length + lit2.length + 4 := by
    rw [hs]
    simp only [List.length_append, List.length_cons]
    omega
  -- the copy of the template before and after the parse
  have hmem : cstr fmt ++ [0]
      = [] ++ (lit ++ 37 :: (123 :: (n0 :: name ++ 125 :: (lit2 ++ [0])))) := by
    rw [hs]
    simp
  have hmem1 : [] ++ (lit ++ 37 :: (123 :: (n0 :: name ++ 125 :: (lit2 ++ [0]))))
      = lit ++ 37 :: (123 :: (n0 :: name ++ 125 :: (lit2 ++ [0]))) := rfl
  have hA : (lit ++ 0 :: 0 :: (n0 :: name ++ [0])).length
      = lit.length + 1 + 1 + (n0 :: name).length + 1 := by
    simp only [List.length_append, List.length_cons, List.length_nil]
    omega
  have hmem3 : lit ++ [0] ++ 0 :: (n0 :: name ++ 0 :: (lit2 ++ [0]))
      = lit ++ 0 :: 0 :: (n0 :: name ++ [0]) ++ (lit2 ++ [0]) := by simp
  have htok : ∀ toks : List sprintfToken, ∀ t : List Nat, ∀ a : Nat,
      (if t = [] then toks else toks ++ [sprintfToken.string a 0])
        = toks ++ (if t = [] then [] else [sprintfToken.string a 0]) := by
    intro toks t a
    split <;> simp
  have hTA : ((if lit = [] then ([] : List sprintfToken)
      else [sprintfToken.string 0 0]).length : Int) ≤ 1 := by
    split <;> simp
  have hlastA : lastIsString ((if lit = [] then ([] : List sprintfToken)
      else [sprintfToken.string 0 0])
      ++ [sprintfToken.tag
        { ext := none, extNum := none, tag := tag, justOne := false, arrayCount := false,
          format := lit.length + 1, type := none, pad := 0 }]) = false :=
    lastIsString_snoc_tag _ _
  have hpf : parseFormat (2 * (cstr fmt).length + 4) tags extensions (cstr fmt ++ [0]) 0
      PARSER_BEGIN
      = Run.ok (ParseOut.mk (lit ++ 0 :: 0 :: (n0 :: name ++ [0]) ++ (lit2 ++ [0]))
          ((if lit = [] then [] else [sprintfToken.string 0 lit.length])
            ++ [sprintfToken.tag
              { ext := none, extNum := none, tag := tag, justOne := false, arrayCount := false,
                format := lit.length + 1, type := none, pad := 0 }]
            ++ (if lit2 = [] then []
              else [sprintfToken.string (lit.length + 1 + 1 + (n0 :: name).length + 1)
                lit2.length])) none) := by
    unfold parseFormat
    rw [parseEnter_eq _ _ hnz hlen]
    have e4 : 2 * (cstr fmt).length + 4
        = ((lit.length + 2 * name.length + lit2.length + 10 + 1 + lit2.length) + 1)
          + lit.length := by
      omega
    have hN3 : (3 : Int) ≤ (((cstr fmt).filter (fun b => decide (b = 37))).length : Int) * 2 + 1 := by
      omega
    generalize (((cstr fmt).filter (fun b => decide (b = 37))).length : Int) * 2 + 1 = N at hN3
    have hA0 := parseLoop_text tags extensions PARSER_BEGIN N lit []
      (37 :: (123 :: (n0 :: name ++ 125 :: (lit2 ++ [0]))))
      (lit.length + 2 * name.length + lit2.length + 10 + 1 + lit2.length + 1) 0 [] hlitz rfl
      (by simp; omega)
    have e5 : (if lit = [] then 0 else ([] : List Nat).length + lit.length) = lit.length := by
      split
      · next h1 => simp [h1]
      · simp
    rw [e5, htok] at hA0
    simp only [List.length_nil, List.nil_append, Nat.zero_add] at hA0
    rw [e4, hmem, hmem1, hA0]
    rw [parseLoop_tag tags extensions _ PARSER_BEGIN N
      (if lit = [] then [] else [sprintfToken.string 0 0])
      (get?_mid lit 37 _)
      (by
        have := get?_mid (lit ++ [37]) 123 (n0 :: name ++ 125 :: (lit2 ++ [0]))
        simpa using this)
      (by decide) (by omega) (poke_mid lit 37 0 _)]
    have hpt := parseTag_known tags extensions (lit ++ [0]) n0 name (lit2 ++ [0]) tag x hn2 h0
      hft
    have e1 : lit ++ [0] ++ 123 :: (n0 :: name ++ 125 :: (lit2 ++ [0]))
        = lit ++ 0 :: 123 :: (n0 :: name ++ 125 :: (lit2 ++ [0])) := by simp
    have e2 : (lit ++ [0]).length = lit.length + 1 := by simp
    rw [e1, e2, hmem3] at hpt
    rw [hpt]
    simp only
    rw [← hA, parseLoop_text tags extensions PARSER_BEGIN N lit2 _ [0] _ _ _ hlit2z hlastA
      (by
        simp only [List.length_append, List.length_singleton, Nat.cast_add, Nat.cast_one]
        omega)]
    rw [htok]
    have hgEnd : (lit ++ 0 :: 0 :: (n0 :: name ++ [0]) ++ (lit2 ++ [0])).get?
        ((lit ++ 0 :: 0 :: (n0 :: name ++ [0])).length + lit2.length) = some 0 := by
      have e6 : lit ++ 0 :: 0 :: (n0 :: name ++ [0]) ++ (lit2 ++ [0])
          = (lit ++ 0 :: 0 :: (n0 :: name ++ [0]) ++ lit2) ++ 0 :: [] := by simp
      have e7 : (lit ++ 0 :: 0 :: (n0 :: name ++ [0])).length + lit2.length
          = (lit ++ 0 :: 0 :: (n0 :: name ++ [0]) ++ lit2).length := by
        simp only [List.length_append, List.length_cons, List.length_nil]
      rw [e6, e7]
      exact get?_mid _ 0 []
    rw [parseLoop_nul tags extensions _ PARSER_BEGIN _ _ hgEnd]
    unfold parseFinish
    have hpoke : poke (lit ++ 0 :: 0 :: (n0 :: name ++ [0]) ++ (lit2 ++ [0]))
        (if lit2 = [] then lit.length + 1
          else (lit ++ 0 :: 0 :: (n0 :: name ++ [0])).length + lit2.length) 0
        = some (lit ++ 0 :: 0 :: (n0 :: name ++ [0]) ++ (lit2 ++ [0])) := by
      apply poke_same
      split
      · have := get?_mid (lit ++ [0]) 0 (n0 :: name ++ [0] ++ (lit2 ++ [0]))
        simpa using this
      · exact hgEnd
    rw [hpoke]
    simp only [Run.ofOption_some, Run.ok_bind]
    have hsl0 : strlenList ((lit ++ 0 :: 0 :: (n0 :: name ++ [0]) ++ (lit2 ++ [0])).drop 0)
        = some lit.length := by
      have := strlenList_mid [] lit (0 :: (n0 :: name ++ [0]) ++ (lit2 ++ [0]))
        (fun b hb => (hlitz b hb).1)
      simpa using this
    have hslA : strlenList ((lit ++ 0 :: 0 :: (n0 :: name ++ [0]) ++ (lit2 ++ [0])).drop
        (lit ++ 0 :: 0 :: (n0 :: name ++ [0])).length) = some lit2.length :=
      strlenList_mid _ lit2 [] (fun b hb => (hlit2z b hb).1)
    have hset := setLens_append _ _ _ _ _
      (setLens_append _ _ _ _ _ (setLens_text _ 0 lit hsl0)
        (rfl : setLens (lit ++ 0 :: 0 :: (n0 :: name ++ [0]) ++ (lit2 ++ [0]))
          [sprintfToken.tag
            { ext := none, extNum := none, tag := tag, justOne := false, arrayCount := false,
              format := lit.length + 1, type := none, pad := 0 }] = some _))
      (setLens_text _ _ lit2 hslA)
    rw [hset, hA]
    rfl
  have hstr0 : strAt (lit ++ 0 :: 0 :: (n0 :: name ++ [0]) ++ (lit2 ++ [0])) 0 = some lit := by
    have := strAt_mid [] lit (0 :: (n0 :: name ++ [0]) ++ (lit2 ++ [0]))
      (fun b hb => (hlitz b hb).1)
    simpa using this
  have hstrF : strAt (lit ++ 0 :: 0 :: (n0 :: name ++ [0]) ++ (lit2 ++ [0])) (lit.length + 1)
      = some [] := by
    have := strAt_mid (lit ++ [0]) [] (n0 :: name ++ [0] ++ (lit2 ++ [0])) (by simp)
    simpa using this
  have hstrA : strAt (lit ++ 0 :: 0 :: (n0 :: name ++ [0]) ++ (lit2 ++ [0]))
      (lit.length + 1 + 1 + (n0 :: name).length + 1) = some lit2 := by
    rw [← hA]
    exact strAt_mid _ lit2 [] (fun b hb => (hlit2z b hb).1)
  unfold headerSprintf
  rw [hpf]
  simp only
  have h1 := catTokens_text le env extensions
    (lit ++ 0 :: 0 :: (n0 :: name ++ [0]) ++ (lit2 ++ [0])) ((cstr fmt).length + 1) 0
    (RenderState.mk h (List.replicate (extensionCount extensions) none) []) 0 lit [] hstr0
  have h2 : catTokens
      (fun s tok => singleSprintf le env extensions
        (lit ++ 0 :: 0 :: (n0 :: name ++ [0]) ++ (lit2 ++ [0])) ((cstr fmt).length + 1 + 1) s
        tok 0)
      (RenderState.mk h (List.replicate (extensionCount extensions) none) [])
      [sprintfToken.tag
        { ext := none, extNum := none, tag := tag, justOne := false, arrayCount := false,
          format := lit.length + 1, type := none, pad := 0 }] ([] ++ lit)
      = Run.ok (RenderState.mk (headerSort h)
          (List.replicate (extensionCount extensions) none) [], [] ++ lit ++ noneString) := by
    simp only [catTokens]
    rw [singleSprintf]
    simp only [Bool.false_eq_true, if_false]
    rw [formatValue_missing le env _ _ _ _ 0 rfl rfl hstrF rfl rfl
      (intGetEntry_absent le env false hi ht hab)]
  have h3 := catTokens_text le env extensions
    (lit ++ 0 :: 0 :: (n0 :: name ++ [0]) ++ (lit2 ++ [0])) ((cstr fmt).length + 1) 0
    (RenderState.mk (headerSort h) (List.replicate (extensionCount extensions) none) [])
    (lit.length + 1 + 1 + (n0 :: name).length + 1) lit2 ([] ++ lit ++ noneString) hstrA
  rw [catTokens_append _ _ _ _ _ _ _
    (by rw [catTokens_append _ _ _ _ _ _ _ h1]; exact h2), h3]
  simp

set_option maxRecDepth 100000 in
/-- C29 for the header c25Header, which holds the tag 1000 only, a tag table
that gives RPMTAG_NAME the tag 2000 and the template "a%{NAME}b": the result
is "a(none)b". -/
theorem C29_missing_tag_placeholder_witness :
    headerSprintf true envNone c25Header placeholderTemplate (nameTable 2000)
        (headerDefaultFormats (fun _ _ => [])) = Run.ok ([97] ++ noneString ++ [98]) :=
  C29_missing_tag_placeholder true envNone c25Header placeholderTemplate (nameTable 2000)
    (headerDefaultFormats (fun _ _ => [])) [97] 78 [65, 77, 69] [98] 2000 none (by decide)
    (by decide) (by decide) (by decide) (by decide) (by decide) rfl (by decide) (by decide)
    (by decide)

set_option maxRecDepth 100000 in
/-- Inside an array block a reference is rendered once for each element of
the block: for the header c25Header and a tag table that gives RPMTAG_NAME the
tag 2000, which the header does not hold, the failed lookup leaves 0 in
numElements and the template "[%{NAME}]" renders the empty string. -/
theorem array_over_missing_tag :
    headerSprintf true envNone c25Header bareArrayTemplate (nameTable 2000)
        (headerDefaultFormats (fun _ _ => [])) = Run.ok [] := by
  decide

set_option maxRecDepth 100000 in
/-- C30, as stated, fails: the name FOO matches neither an entry of the tag
table nameTable 1000 nor a tag extension of the default format extensions, and
headerSprintf on the template "%|FOO?{yes}:{no}|" returns the string "no"
instead of NULL with an error message. -/
theorem C30_counterexample :
    headerSprintf true envNone headerNew condTemplate (nameTable 1000)
        (headerDefaultFormats (fun _ _ => [])) = Run.ok [110, 111]
      ∧ findTag [70, 79, 79] (nameTable 1000) (headerDefaultFormats (fun _ _ => []))
        = (none, none) := by
  constructor
  · decide
  · rfl

/-- C30, amended: let the template (of fewer than 2^30 - 1 bytes) consist of
literal text (bytes other than '%', '[', ']', '}' and the backslash), then a
tag reference "%{name}" whose name is not empty, holds neither '}' nor ':' and
starts with neither '=' nor '#', then any text; and let findTag find for the
name neither a tag extension nor an entry of the tag table. Then headerSprintf
returns NULL and stores the message "unknown tag".
-/
theorem C30_unknown_tag (le : Bool) (env : LocaleEnv) (h : Header) (fmt : List Nat)
    (tags : List headerTagTableEntry) (extensions : headerSprintfExtension)
    (lit : List Nat) (n0 : Nat) (name rest : List Nat)
    (hs : cstr fmt = lit ++ 37 :: 123 :: (n0 :: name ++ 125 :: rest))
    (hlen : (cstr fmt).length < 1073741823)
    (hlit : ∀ b ∈ lit, b ≠ 37 ∧ b ≠ 91 ∧ b ≠ 93 ∧ b ≠ 125 ∧ b ≠ 92)
    (hn : ∀ b ∈ n0 :: name, b ≠ 125 ∧ b ≠ 58) (h0 : n0 ≠ 61 ∧ n0 ≠ 35)
    (hft : findTag (n0 :: name) tags extensions = (none, none)) :
    headerSprintf le env h fmt tags extensions = Run.error ErrMsg.unknownTag := by
  have hnz := cstr_nonzero fmt
  have hcount : 1 ≤ ((cstr fmt).filter (fun b => decide (b = 37))).length := by
    rw [hs]
    simp only [List.filter_append, List.length_append]
    rw [List.filter_cons_of_pos (by simp)]
    simp only [List.length_cons]
    omega
  have hcount2 : ((cstr fmt).filter (fun b => decide (b = 37))).length ≤ (cstr fmt).length :=
    List.length_filter_le _ _
  have hlit2 : ∀ b ∈ lit, b ≠ 0 ∧ b ≠ 37 ∧ b ≠ 91 ∧ b ≠ 93 ∧ b ≠ 125 ∧ b ≠ 92 := by
    intro b hb
    exact ⟨hnz b (by rw [hs]; exact List.mem_append_left _ hb), hlit b hb⟩
  have hn2 : ∀ b ∈ n0 :: name, b ≠ 0 ∧ b ≠ 125 ∧ b ≠ 58 := by
    intro b hb
    refine ⟨hnz b ?_, hn b hb⟩
    rw [hs]
    apply List.mem_append_right
    apply List.mem_cons_of_mem
    apply List.mem_cons_of_mem
    exact List.mem_append_left _ hb
  have hl : (cstr fmt).length = lit.length + (name.length + rest.length + 4) := by
    rw [hs]
    simp only [List.length_append, List.length_cons]
    omega
  have hmem : cstr fmt ++ [0] = lit ++ 37 :: (123 :: (n0 :: name ++ 125 :: (rest ++ [0]))) := by
    rw [hs]
    simp
  -- the step at the '%'
  have hstep : ∀ (fuel : Nat) (toks : List sprintfToken) (numTokens : Int),
      (toks.length : Int) < numTokens →
      parseLoop tags extensions (fuel + 1) PARSER_BEGIN numTokens (cstr fmt ++ [0]) lit.length
          lit.length toks = Run.error ErrMsg.unknownTag := by
    intro fuel toks numTokens hnum
    rw [hmem]
    rw [parseLoop_tag tags extensions fuel PARSER_BEGIN numTokens toks
      (get?_mid lit 37 _)
      (by
        have := get?_mid (lit ++ [37]) 123 (n0 :: name ++ 125 :: (rest ++ [0]))
        simpa using this)
      (by decide) hnum (poke_mid lit 37 0 _)]
    have hpt := parseTag_unknown tags extensions (lit ++ [0]) n0 name (rest ++ [0]) hn2 h0 hft
    have e1 : lit ++ [0] ++ 123 :: (n0 :: name ++ 125 :: (rest ++ [0]))
        = lit ++ 0 :: 123 :: (n0 :: name ++ 125 :: (rest ++ [0])) := by simp
    have e2 : (lit ++ [0]).length = lit.length + 1 := by simp
    rw [e1, e2] at hpt
    rw [hpt]
  have hpf : parseFormat (2 * (cstr fmt).length + 4) tags extensions (cstr fmt ++ [0]) 0
      PARSER_BEGIN = Run.error ErrMsg.unknownTag := by
    unfold parseFormat
    rw [parseEnter_eq _ _ hnz hlen]
    cases lit with
    | nil =>
      exact hstep (2 * (cstr fmt).length + 3) [] _ (by simp; omega)
    | cons b lit1 =>
      have hb := hlit2 b (List.mem_cons_self _ _)
      have e3 : cstr fmt ++ [0]
          = b :: (lit1 ++ 37 :: (123 :: (n0 :: name ++ 125 :: (rest ++ [0])))) := by
        rw [hmem]
        rfl
      have e4 : 2 * (cstr fmt).length + 4
          = ((lit1.length + 2 * name.length + 2 * rest.length + 12 + 1) + lit1.length) + 1 := by
        simp only [List.length_cons] at hl
        omega
      rw [e4, e3, parseLoop_first tags extensions PARSER_BEGIN
        ((((cstr fmt).filter (fun b => decide (b = 37))).length : Int) * 2 + 1) b _ _ hb
        (by omega)]
      have hll := parseLoop_literal tags extensions PARSER_BEGIN
        ((((cstr fmt).filter (fun b => decide (b = 37))).length : Int) * 2 + 1)
        [sprintfToken.string 0 0] rfl lit1 [b]
        (37 :: (123 :: (n0 :: name ++ 125 :: (rest ++ [0]))))
        (lit1.length + 2 * name.length + 2 * rest.length + 12 + 1)
        (fun x hx => hlit2 x (List.mem_cons_of_mem _ hx))
      simp only [List.length_singleton, List.singleton_append] at hll
      rw [hll]
      have e6 : 1 + lit1.length = (b :: lit1).length := by
        simp only [List.length_cons]
        omega
      rw [e6, ← e3]
      exact hstep _ _ _ (by simp; omega)
  unfold headerSprintf
  rw [hpf]

set_option maxRecDepth 100000 in
/-- C30, amended, for the template "a%{FOO}c" with the tag table nameTable
1000 and the default format extensions. -/
theorem C30_unknown_tag_witness :
    headerSprintf true envNone headerNew unknownTemplate (nameTable 1000)
        (headerDefaultFormats (fun _ _ => [])) = Run.error ErrMsg.unknownTag :=
  C30_unknown_tag true envNone headerNew unknownTemplate (nameTable 1000)
    (headerDefaultFormats (fun _ _ => [])) [97] 70 [79, 79] [99] (by decide) (by decide)
    (by decide) (by decide) (by decide) rfl

/-! ## Claims about the extension cache -/

set_option maxRecDepth 100000 in
/-- C32, as stated, fails: the function of the extension "RPMTAG_FOO" of
fooExtensions returns 1, so getExtension leaves avail clear, and the template
"%{FOO}%{FOO}" (rendered as "(none)(none)") makes headerSprintf call that
function twice, once for each reference. -/
theorem C32_counterexample :
    headerSprintf true envNone headerNew fooTwiceTemplate (nameTable 1000) fooExtensions
        = Run.ok (noneString ++ noneString)
      ∧ headerSprintfCalls true envNone headerNew fooTwiceTemplate (nameTable 1000) fooExtensions
        = some [(0, false), (0, false)] := by
  decide

/-- C32, amended: during one headerSprintf call no extension tag function is
called again after it has returned 0 (CallsOnce: no call recorded is preceded
by a successful call of the function of the same cache entry), so each
function returns 0 at most once, however many references the template holds;
and a reference to a function whose cache entry is set reads the cached type,
value and count without a call: getExtension returns the cached value and
leaves the cache and the record of calls as they are. -/
theorem C32_extension_cache (le : Bool) (env : LocaleEnv) (h : Header) (fmt : List Nat)
    (tabletags : List headerTagTableEntry) (extensions : headerSprintfExtension)
    (calls : List (Nat × Bool))
    (hc : headerSprintfCalls le env h fmt tabletags extensions = some calls) :
    CallsOnce calls
      ∧ (∀ i, (calls.filter (fun c => decide (c = (i, true)))).length ≤ 1)
      ∧ ∀ (st : RenderState) (fn : headerTagTagFunction) (i : Nat) (v : ExtValue),
          st.cache.get? i = some (some v) → getExtension st fn (some i) = Run.ok (st, some v) :=
  ⟨headerSprintfCalls_once le env h fmt tabletags extensions hc,
    callsOnce_success_count (headerSprintfCalls_once le env h fmt tabletags extensions hc),
    getExtension_hit⟩

set_option maxRecDepth 100000 in
/-- C32 at the template "%{FOO}%{FOO}" with an extension "RPMTAG_FOO" whose
function stores the string "x": the call renders "xx" and calls the function
once. -/
theorem C32_extension_cache_witness :
    headerSprintf true envNone headerNew fooTwiceTemplate (nameTable 1000) fooValueExtensions
        = Run.ok [120, 120]
      ∧ headerSprintfCalls true envNone headerNew fooTwiceTemplate (nameTable 1000)
          fooValueExtensions = some [(0, true)]
      ∧ CallsOnce [(0, true)] :=
  ⟨by decide, by decide,
    (C32_extension_cache true envNone headerNew fooTwiceTemplate (nameTable 1000)
      fooValueExtensions [(0, true)] (by decide)).1⟩

/-! ## Claims about dataLength -/

/-- C33, as stated, fails: typeSizes holds -1 for RPM_INT64_TYPE, so for int64
data dataLength prints "Data type not supported" and ends the process in both
modes; it does not return 8 for one item. -/
theorem C33_counterexample :
    typeSizesAt RPM_INT64_TYPE = some (-1)
      ∧ dataLength RPM_INT64_TYPE (hPTR.bytes (List.replicate 8 0) 0) 1 true = Res.exit
      ∧ dataLength RPM_INT64_TYPE (hPTR.bytes (List.replicate 8 0) 0) 1 false = Res.exit := by
  decide

/-- C33, amended: for every count c >= 1 whose size fits an int, dataLength
returns c for char, int8 and binary data, 2c for int16 and 4c for int32, in
both modes; int64 data are not supported (the process ends); for a string
(c = 1) it returns strlen + 1; for string-array and i18n-string data it
returns the sum over the c strings of strlen + 1, on disk for strings laid end
to end and in memory for an array of pointers to the strings. -/
theorem C33_size_rules :
    (∀ (type c : Int) (p : hPTR) (onDisk : Bool),
        type = RPM_CHAR_TYPE ∨ type = RPM_INT8_TYPE ∨ type = RPM_BIN_TYPE →
        1 ≤ c → c < 2147483648 → dataLength type p c onDisk = Res.ok c)
      ∧ (∀ (c : Int) (p : hPTR) (onDisk : Bool), 1 ≤ c → 2 * c < 2147483648 →
          dataLength RPM_INT16_TYPE p c onDisk = Res.ok (2 * c))
      ∧ (∀ (c : Int) (p : hPTR) (onDisk : Bool), 1 ≤ c → 4 * c < 2147483648 →
          dataLength RPM_INT32_TYPE p c onDisk = Res.ok (4 * c))
      ∧ (∀ (c : Int) (p : hPTR) (onDisk : Bool),
          dataLength RPM_INT64_TYPE p c onDisk = Res.exit)
      ∧ (∀ (P s S : List Nat) (onDisk : Bool), (∀ b ∈ s, b ≠ 0) →
          dataLength RPM_STRING_TYPE (hPTR.bytes (P ++ s ++ 0 :: S) (P.length : Int)) 1 onDisk
            = Res.ok ((s.length : Int) + 1))
      ∧ (∀ (type : Int) (P S : List Nat) (ss : List (List Nat)),
          type = RPM_STRING_ARRAY_TYPE ∨ type = RPM_I18NSTRING_TYPE →
          (∀ s ∈ ss, ∀ b ∈ s, b ≠ 0) → 1 ≤ ss.length →
          dataLength type (hPTR.bytes (P ++ joinStrings ss ++ S) (P.length : Int))
              (ss.length : Int) true
            = Res.ok (stringSizes ss : Int))
      ∧ (∀ (type : Int) (tail : List Nat → List Nat) (ss : List (List Nat)),
          type = RPM_STRING_ARRAY_TYPE ∨ type = RPM_I18NSTRING_TYPE →
          (∀ s ∈ ss, ∀ b ∈ s, b ≠ 0) → 1 ≤ ss.length →
          dataLength type (hPTR.strv (ss.map (fun s => some (s ++ 0 :: tail s))))
              (ss.length : Int) false
            = Res.ok (stringSizes ss : Int)) := by
  refine ⟨?_, ?_, ?_, ?_, ?_, ?_, ?_⟩
  · intro type c p onDisk ht h1 h2
    rcases ht with rfl | rfl | rfl
    · have := @dataLength_fixed RPM_CHAR_TYPE 1 c p onDisk (by decide) (by decide) (by decide)
        (by decide) (by decide) (by omega) (by omega)
      rwa [one_mul] at this
    · have := @dataLength_fixed RPM_INT8_TYPE 1 c p onDisk (by decide) (by decide) (by decide)
        (by decide) (by decide) (by omega) (by omega)
      rwa [one_mul] at this
    · have := @dataLength_fixed RPM_BIN_TYPE 1 c p onDisk (by decide) (by decide) (by decide)
        (by decide) (by decide) (by omega) (by omega)
      rwa [one_mul] at this
  · intro c p onDisk h1 h2
    exact @dataLength_fixed RPM_INT16_TYPE 2 c p onDisk (by decide) (by decide) (by decide)
      (by decide) (by decide) (by omega) (by omega)
  · intro c p onDisk h1 h2
    exact @dataLength_fixed RPM_INT32_TYPE 4 c p onDisk (by decide) (by decide) (by decide)
      (by decide) (by decide) (by omega) (by omega)
  · intro c p onDisk
    unfold dataLength
    have e1 : RPM_INT64_TYPE ≠ RPM_STRING_TYPE := by decide
    have e2 : ¬ (RPM_INT64_TYPE = RPM_STRING_ARRAY_TYPE ∨ RPM_INT64_TYPE = RPM_I18NSTRING_TYPE) := by
      decide
    have e3 : typeSizesAt RPM_INT64_TYPE = some (-1) := by decide
    simp only [e1, e2, e3, if_false]
    simp
  · intro P s S onDisk hs
    unfold dataLength
    have e : strlenAt (P ++ s ++ 0 :: S) (P.length : Int) = some s.length := by
      rw [List.append_assoc]
      simp only [strlenAt, Int.toNat_ofNat, List.drop_left, Int.natCast_nonneg, if_true]
      exact strlenList_string s S hs
    simp only [if_true, e, Option.map_some', Res.ofOption]
    rfl
  · intro type P S ss ht hs _
    have hty : type ≠ RPM_STRING_TYPE := by
      rcases ht with rfl | rfl <;> decide
    have e : strArrayLenAt (P ++ joinStrings ss ++ S) ss.length (P.length : Int)
        = some (stringSizes ss) := by
      rw [strArrayLenAt_shift _ _ _ (by omega), List.append_assoc]
      simp only [Int.toNat_ofNat, List.drop_left]
      exact strArrayLenAt_strings S ss hs
    unfold dataLength
    simp only [hty, if_false, ht, if_true, Int.toNat_ofNat, e, Option.map_some', Res.ofOption]
    simp
  · intro type tail ss ht hs _
    have hty : type ≠ RPM_STRING_TYPE := by
      rcases ht with rfl | rfl <;> decide
    unfold dataLength
    simp only [hty, if_false, ht, if_true, Int.toNat_ofNat, strArrayLenMem_strings tail ss hs,
      Option.map_some', Res.ofOption]
    simp

/-- C33 at one int32 item, one string "ab" and the two strings "a", "bc" in
both modes. -/
theorem C33_size_rules_witness :
    dataLength RPM_INT32_TYPE (hPTR.bytes [1, 2, 3, 4] 0) 1 false = Res.ok (4 * 1)
      ∧ dataLength RPM_STRING_TYPE (hPTR.bytes ([] ++ [97, 98] ++ 0 :: []) (([] : List Nat).length : Int))
          1 false = Res.ok ((([97, 98] : List Nat).length : Int) + 1)
      ∧ dataLength RPM_STRING_ARRAY_TYPE
          (hPTR.bytes ([] ++ joinStrings [[97], [98, 99]] ++ []) (([] : List Nat).length : Int))
          (([[97], [98, 99]] : List (List Nat)).length : Int) true
          = Res.ok (stringSizes [[97], [98, 99]] : Int)
      ∧ dataLength RPM_I18NSTRING_TYPE
          (hPTR.strv (([[97], [98, 99]] : List (List Nat)).map (fun s => some (s ++ 0 :: []))))
          (([[97], [98, 99]] : List (List Nat)).length : Int) false
          = Res.ok (stringSizes [[97], [98, 99]] : Int) :=
  ⟨C33_size_rules.2.2.1 1 (hPTR.bytes [1, 2, 3, 4] 0) false (by decide) (by decide),
    C33_size_rules.2.2.2.2.1 [] [97, 98] [] false (by decide),
    C33_size_rules.2.2.2.2.2.1 RPM_STRING_ARRAY_TYPE [] [] [[97], [98, 99]] (Or.inl rfl)
      (by decide) (by decide),
    C33_size_rules.2.2.2.2.2.2 RPM_I18NSTRING_TYPE (fun _ => []) [[97], [98, 99]] (Or.inr rfl)
      (by decide) (by decide)⟩

/-! ## Claims about brackets, counts, the sorted flag and the comparison of tags -/

set_option maxRecDepth 100000 in
/-- C31 fails on the code: a stray ']' ("a]b"), a stray '}' ("a}b") and an
array block that is not closed ("[%{NAME}") make headerSprintf return NULL
with the messages "unexpected ]", "unexpected }" and "] expected at end of
array", but for a conditional whose branch is not closed ("%|NAME?{abc" and
"%|NAME?{a}:{b") the nested parseFormat leaves NULL in end (the parse of
"abc" in the state PARSER_IN_EXPR stores no end pointer) and parseExpression
reads *end: an access through the null pointer in place of the message "}
expected in expression". -/
theorem C31_open_branch_null_dereference :
    headerSprintf true envNone headerNew strayBracketTemplate (nameTable 1000)
        headerSprintfExtension.last = Run.error ErrMsg.unexpectedBracket
      ∧ headerSprintf true envNone headerNew strayBraceTemplate (nameTable 1000)
        headerSprintfExtension.last = Run.error ErrMsg.unexpectedBrace
      ∧ headerSprintf true envNone headerNew openArrayTemplate (nameTable 1000)
        headerSprintfExtension.last = Run.error ErrMsg.arrayEnd
      ∧ (match parseFormat 12 (nameTable 1000) headerSprintfExtension.last [97, 98, 99, 0] 0
            PARSER_IN_EXPR with
          | Run.ok r => some r.endPtr
          | _ => none) = some none
      ∧ headerSprintf true envNone headerNew openBranchTemplate (nameTable 1000)
        headerSprintfExtension.last = Run.fault
      ∧ headerSprintf true envNone headerNew openElseTemplate (nameTable 1000)
        headerSprintfExtension.last = Run.fault := by
  refine ⟨by decide, by decide, by decide, rfl, by decide, by decide⟩

set_option maxRecDepth 100000 in
/-- C35 fails on the code: headerAddEntry returns 0 for the count 0 and leaves
the header as it is, but headerModifyEntry has no such test: on c14Header
(tags 2000, 1000, 3000, each with one int8 item) the call
headerModifyEntry(h, 1000, RPM_INT8_TYPE, p, 0) returns 1 and leaves the entry
of tag 1000 with the count 0 and the length 0. -/
theorem C35_modify_stores_count_zero :
    addAll headerNew c14Reqs = some c14Header
      ∧ headerAddEntry c14Header 1000 RPM_INT8_TYPE (hPTR.bytes [8, 9] 0) 0
        = Res.ok (c14Header, 0)
      ∧ (headerModifyEntry c14Header 1000 RPM_INT8_TYPE (hPTR.bytes [8, 9] 0) 0).toOption.map
          (fun r => (r.1.index.map (fun e => (e.info.tag, e.info.count, e.length)), r.2))
        = some ([(1000, 0, 0), (2000, 1, 1), (3000, 1, 1)], 1) := by
  decide

set_option maxRecDepth 100000 in
/-- C34 fails on the code: c34Header (made by headerNew, headerAddEntry and
headerReload calls) has its sorted flag set and its index in the tag order 61,
600, 700, 800, 1000. headerUnload puts the index in the order of the offsets,
fails its own check and returns NULL without sorting the index again and
without clearing the flag: afterwards the flag is set, the index is in the
order 61, 1000, 600, 700, 800, and headerIsEntry reports the tag 1000 as
absent. -/
theorem C34_sorted_flag_after_failed_unload :
    (c34Header.sorted, c34Header.index.map (fun e => e.info.tag))
        = (true, [61, 600, 700, 800, 1000])
      ∧ (headerUnload true junk0 c34Header).toOption.map
          (fun r => (r.1.sorted, r.1.index.map (fun e => e.info.tag), r.2))
        = some (true, [61, 1000, 600, 700, 800], none)
      ∧ (headerUnload true junk0 c34Header).toOption.map
          (fun r => decide (r.1.index.Pairwise tagLe)) = some false
      ∧ (headerUnload true junk0 c34Header).toOption.map
          (fun r => (headerIsEntry r.1 1000).2) = some 0 := by
  decide

set_option maxRecDepth 100000 in
/-- C38 fails on the code: for c34Header (five entries, four of them in a
region or dribbles of it) headerUnload returns NULL on the path errxit, which
skips the headerSort call at the end of doHeaderUnload: the header holds the
same five entries as before, but in the order of headerUnsort (tags 61, 1000,
600, 700, 800), which is not ascending. -/
theorem C38_failed_unload_leaves_offset_order :
    (headerReload true junk0
        (addOne
          (addOne c34Step2
            { tag := 600, type := RPM_INT32_TYPE, p := hPTR.bytes [5, 6, 7, 8] 0, c := 1 })
          { tag := 800, type := RPM_BIN_TYPE,
            p := hPTR.bytes [1, 2, 3, 4, 5, 6, 7, 8, 9, 10] 0, c := 10 }) 0).isHeader = true
      ∧ c34Header.index.map (fun e => (e.info.tag, e.info.type, e.info.count, e.info.offset))
        = [(61, 7, 16, -32), (600, 4, 1, -31), (700, 2, 1, -31), (800, 7, 10, -31),
            (1000, 4, 1, -32)]
      ∧ (headerUnload true junk0 c34Header).toOption.map (fun r => r.2) = some none
      ∧ (headerUnload true junk0 c34Header).toOption.map
          (fun r => r.1.index.map (fun e => (e.info.tag, e.info.type, e.info.count, e.info.offset)))
        = some [(61, 7, 16, -32), (1000, 4, 1, -32), (600, 4, 1, -31), (700, 2, 1, -31),
            (800, 7, 10, -31)]
      ∧ (headerUnload true junk0 c34Header).toOption.map
          (fun r => decide (r.1.index.Perm c34Header.index)) = some true := by
  decide

set_option maxRecDepth 100000 in
/-- C36: the sorted header made of the three entries of c17Header (tag 1000
with the types int8, int16 and int32) holds an entry of tag 1000 and type
int32 together with entries of the tag and other types, and findEntry reports
not-found for (1000, int32); and whenever findEntry returns an entry for a
type other than RPM_NULL_TYPE, that entry has the tag and the type asked
for. -/
theorem C36_typed_lookup_incomplete :
    (∃ (h : Header) (T Y : Int), h.sorted = true ∧ h.index.Pairwise tagLe
        ∧ Y ≠ RPM_NULL_TYPE
        ∧ (∃ e ∈ h.index, e.info.tag = T ∧ e.info.type = Y)
        ∧ (∃ e ∈ h.index, e.info.tag = T ∧ e.info.type ≠ Y)
        ∧ (findEntry h T Y).2 = none)
      ∧ ∀ (h : Header) (T Y : Int) (i : Nat), Y ≠ RPM_NULL_TYPE →
          (findEntry h T Y).2 = some i →
          ∃ e, (findEntry h T Y).1.index.get? i = some e ∧ e.info.tag = T ∧ e.info.type = Y := by
  refine ⟨⟨headerSort c17Header, 1000, RPM_INT32_TYPE, by decide, by decide, by decide,
    by decide, by decide, by decide⟩, ?_⟩
  intro h T Y i hY hf
  rw [findEntry_fst]
  exact findEntry_typed hY hf

set_option maxRecDepth 100000 in
/-- C36 at c17Header: the lookup of (1000, int8) returns the entry at position
0 of the sorted index, which has the tag 1000 and the type int8. -/
theorem C36_typed_lookup_incomplete_witness :
    (findEntry c17Header 1000 RPM_INT8_TYPE).2 = some 0
      ∧ ∃ e, (findEntry c17Header 1000 RPM_INT8_TYPE).1.index.get? 0 = some e
          ∧ e.info.tag = 1000 ∧ e.info.type = RPM_INT8_TYPE :=
  ⟨by decide,
    C36_typed_lookup_incomplete.2 c17Header 1000 RPM_INT8_TYPE 0 (by decide) (by decide)⟩

set_option maxRecDepth 100000 in
/-- C39 fails on the code: the tags 2000000000 and -2000000000 are int_32
values, and the difference 2000000000 - (-2000000000) wraps to -294967296, so
indexCmp reports the larger tag as the smaller one (and the other way round);
headerSort then leaves the index of c12Header in the order 2000000000,
-2000000000, 200, and in c12MissHeader the binary search of findEntry misses
the tag 2000000000, which is present. -/
theorem C39_indexCmp_wraps :
    isInt32 2000000000 ∧ isInt32 (-2000000000)
      ∧ indexCmp (indexEntry.mk ⟨2000000000, RPM_INT8_TYPE, 1, 0⟩ (EntryData.owned [1]) 1 0)
          (indexEntry.mk ⟨-2000000000, RPM_INT8_TYPE, 1, 0⟩ (EntryData.owned [2]) 1 0)
        = -294967296
      ∧ indexCmp (indexEntry.mk ⟨-2000000000, RPM_INT8_TYPE, 1, 0⟩ (EntryData.owned [2]) 1 0)
          (indexEntry.mk ⟨2000000000, RPM_INT8_TYPE, 1, 0⟩ (EntryData.owned [1]) 1 0)
        = 294967296
      ∧ (headerSort c12Header).index.map (fun e => e.info.tag) = [2000000000, -2000000000, 200]
      ∧ (c12MissHeader.index.map (fun e => e.info.tag)).contains 2000000000 = true
      ∧ (findEntry c12MissHeader 2000000000 RPM_NULL_TYPE).2 = none := by
  decide

set_option maxRecDepth 100000 in
/-- C40 fails on the code: the template "a[b]" holds no '%', so parseFormat
allocates 2 * 0 + 1 = 1 token; it stores the string token for "a" at index 0
and then the array token at index 1, outside the allocation (with room for
two tokens the same loop returns two tokens). -/
theorem C40_token_array_overrun :
    countPercent (overrunTemplate ++ [0]) 0 = some 0
      ∧ parseFormat 12 [] headerSprintfExtension.last (overrunTemplate ++ [0]) 0 PARSER_BEGIN
        = Run.fault
      ∧ (match parseLoop [] headerSprintfExtension.last 12 PARSER_BEGIN 2
            (overrunTemplate ++ [0]) 0 0 [] with
          | Run.ok r => some r.format.length
          | _ => none) = some 2
      ∧ headerSprintf true envNone headerNew overrunTemplate [] headerSprintfExtension.last
        = Run.fault := by
  refine ⟨by decide, rfl, rfl, by decide⟩

/-! ## Claims about headerSizeof and headerWrite -/

/-- C37: for a header h built with headerNew and calls of headerAddEntry that
return 1, with no region tag, no entry of the null type and sizes within the
int range, headerSizeof(h, magicp) returns the number of bytes that
headerWrite(fd, h, magicp) emits, the length of the block of headerUnload plus
8 for the magic when magicp is HEADER_MAGIC_YES; headerWrite returns 0 and
emits the same bytes when it is called on the header as headerSizeof has left
it (sorted). -/
theorem C37_size_agreement (le : Bool) (junk : Nat → Nat) (h : Header) (magicp : Bool)
    (hb : Built h) (htags : ∀ e ∈ h.index, HEADER_I18NTABLE ≤ e.info.tag)
    (hnull : ∀ e ∈ h.index, e.info.type ≠ RPM_NULL_TYPE)
    (hsize : 16 + 16 * (h.index.length : Int) + dataEnd (qsort indexCmp h.index) 0
      < 2147483648) :
    ∃ (h1 h2 : Header) (size : Int) (uh : List Nat) (out : WriteOut),
      headerSizeof h magicp = Res.ok (h1, size)
        ∧ headerUnload le junk h = Res.ok (h2, some uh)
        ∧ headerWrite le junk h magicp = Res.ok out
        ∧ headerWrite le junk h1 magicp = Res.ok out
        ∧ out.rc = 0
        ∧ size = (out.written.length : Int)
        ∧ size = (uh.length : Int) + (if magicp then 8 else 0) := by
  have hadd := (built_inv hb).1
  have hlive : liveEntries h = qsort indexCmp h.index := by
    unfold liveEntries
    exact live_all (fun e he =>
      (hadd e (mem_qsort.mp he)).length_pos (hnull e (mem_qsort.mp he)))
  have hl : (qsort indexCmp h.index).length = h.index.length :=
    (List.perm_insertionSort _ _).length_eq
  have hu := doHeaderUnload_built le junk hb htags (by rw [hlive, hl]; omega)
  have hu2 : doHeaderUnload le junk (headerSort h) = _ :=
    doHeaderUnload_of_unsort le junk (unsort_headerSort_built hb htags) (headerSort_fields h).2.1
      (headerSort_fields h).2.2 (headerSort_fields h).1 hu
  have hlen := rawImage_length le (fun e he => (liveEntries_added hb htags e he).1)
  rw [hlive, hl] at hlen
  refine ⟨headerSort h, { h with index := qsort indexCmp h.index, sorted := true }, _,
    rawImage le (liveEntries h),
    { h := { h with index := qsort indexCmp h.index, sorted := true }, written := (if magicp then header_magic else []) ++ rawImage le (liveEntries h),
      rc := 0 },
    headerSizeof_built hb htags magicp (by omega), hu, ?_, ?_, rfl, ?_, ?_⟩
  · unfold headerWrite
    rw [hu]
  · unfold headerWrite
    rw [hu2]
  · simp only [List.length_append]
    rw [hlive]
    push_cast
    rw [hlen]
    cases magicp <;> simp [header_magic] <;> omega
  · rw [hlive, hlen]
    cases magicp <;> simp <;> omega

set_option maxRecDepth 100000 in
/-- C37 on the header built by the calls c37Reqs (one entry of each of the
eight types char, int8, int16, int32, string, binary, string array and i18n
string), with the magic, on a little-endian host. -/
theorem C37_size_agreement_witness :
    ∃ (h1 h2 : Header) (size : Int) (uh : List Nat) (out : WriteOut),
      headerSizeof c37Header true = Res.ok (h1, size)
        ∧ headerUnload true junk0 c37Header = Res.ok (h2, some uh)
        ∧ headerWrite true junk0 c37Header true = Res.ok out
        ∧ headerWrite true junk0 h1 true = Res.ok out
        ∧ out.rc = 0
        ∧ size = (out.written.length : Int)
        ∧ size = (uh.length : Int) + (if true = true then 8 else 0) :=
  C37_size_agreement true junk0 c37Header true
    (built_of_addAll c37Reqs Built.new (by decide)) (by decide) (by decide) (by decide)

end RpmHeader
